import Mathlib

/-!
# opentrade: order book, connectivity front door and position engine

A shallow embedding of the order lifecycle of `src/core/order.cc`,
`src/opentrade/order.h`, `src/opentrade/exchange_connectivity.cc`,
`src/opentrade/position.cc`, `src/opentrade/common.h`, `src/opentrade/account.h`
and `src/core/risk.cc`, of the market data and reference data of
`src/opentrade/market_data.h`, `src/opentrade/market_data.cc`, `src/opentrade/security.h` and
`src/opentrade/security.cc`, and of the algo runtime of `src/opentrade/algo.h`,
`src/core/algo.cc` and `src/algo/twap/twap.cc`.

Modelling conventions

* A `double` is a rational number, and the arithmetic of `double` is binary64: `Double.round`
  rounds a real result to the nearest binary64 number (ties to even), and `Double.add`,
  `Double.sub`, `Double.mul` and `Double.div` are the four operations with their result
  rounded.  The order fields written by `UpdateOrder`, the totals of `Instrument`, and the
  sizing and pricing steps of `TWAP` are written with these operations.  The position engine
  (`Position::HandleTrade`, `HandlePnl`, `PositionValue`), the market-data snapshot and the risk
  checks are written with the operations of `ℚ`, that is, with the real value of each
  expression of the code; the theorems about them restate these expressions, and where a theorem
  needs the sum that the code holds (`Position.qty64`) it carries the hypotheses under which
  binary64 computes it without rounding.
* Infinities, NaN and the sign of zero are not modelled.  A C++ division whose divisor is `0`
  has no counterpart (`x / 0 = 0` in `ℚ`); the quotients of `UpdateOrder` have a non-zero
  divisor whenever `cum_qty ≥ 0` and the fill quantity is positive, which is what `HandleFill`
  lets through, and the duration that `TWAP::Timer` divides by is positive after `OnStart`.
* An `assert` of the code is a Boolean (`PositionManager.Handle.asserts`,
  `GlobalOrderBook.Handle.asserts`): the functions give what the statements after the assert
  compute, and the Boolean tells whether the call gets there.
* `Order*` is an address (`Ptr`) into `Engine.heap`; the order book
  `orders_` maps a client order id to an address, exactly as the
  `concurrent_unordered_map<Order::IdType, Order*>` does.
* The `uint32_t` counters are `Nat`, without wrap-around, which takes `2 ^ 32` ids or records;
  the theorems on the start-up value of the order-id counter and on the id of an OTC order
  assume that the ids stay below `2 ^ 32`.
* The single-worker write task pool is run at the point where the task is
  queued, so a journal record is appended inside `Handle`, with the fields of the order as they
  are at that point; the task of the code runs later on the writer thread.
* A method that acts on the outside from within a callback (`TWAP::Timer`) is the list of what
  it does; the strands of the algo manager are a transition system whose events are the calls
  that post a handler and the moves of the thread pool.
-/

namespace opentrade

/-! ## binary64: the arithmetic of `double` -/

/-- The rounding of a real number to an integer that binary64 uses for a significand: to the
nearest integer, a tie to the even one. -/
def Double.rne (y : ℚ) : ℤ :=
  if y - ⌊y⌋ < 1 / 2 then ⌊y⌋
  else if 1 / 2 < y - ⌊y⌋ then ⌊y⌋ + 1
  else if ⌊y⌋ % 2 = 0 then ⌊y⌋ else ⌊y⌋ + 1

/-- The binary exponent of the binade of `x`: the `e` with `2 ^ e ≤ |x| < 2 ^ (e + 1)`, and
`-1022`, the exponent of the subnormal numbers, below it. -/
def Double.expo (x : ℚ) : ℤ := max (Int.log 2 |x|) (-1022)

/-- The spacing of the binary64 numbers in the binade of `x` (53 bits of significand). -/
def Double.ulp (x : ℚ) : ℚ := 2 ^ (Double.expo x - 52)

/-- The binary64 number that a real result is rounded to (round to nearest, ties to even, the
default rounding mode).  Values beyond the largest binary64 number, which round to an infinity,
NaN and the sign of zero are not modelled. -/
def Double.round (x : ℚ) : ℚ := (Double.rne (x / Double.ulp x) : ℚ) * Double.ulp x

/-- The sum `x + y` of two `double`s. -/
def Double.add (x y : ℚ) : ℚ := Double.round (x + y)

/-- The difference `x - y` of two `double`s. -/
def Double.sub (x y : ℚ) : ℚ := Double.round (x - y)

/-- The product `x * y` of two `double`s. -/
def Double.mul (x y : ℚ) : ℚ := Double.round (x * y)

/-- The quotient `x / y` of two `double`s, for `y` other than zero (the quotient by zero, an
infinity or NaN, is not modelled: it is `0` here). -/
def Double.div (x y : ℚ) : ℚ := Double.round (x / y)

/-- The conversion of an integer (`int`, `time_t`) to `double`: the nearest binary64 number,
which is the integer itself up to `2 ^ 53` in magnitude. -/
def Double.ofInt (n : Int) : ℚ := Double.round n

/-- A rational number that is a binary64 number. -/
def IsDouble (x : ℚ) : Prop := Double.round x = x

instance (x : ℚ) : Decidable (IsDouble x) := by unfold IsDouble; infer_instance

/-! ## order.h: enumerations -/

/-- The `enum OrderSide` of order.h. -/
inductive OrderSide where
  | kBuy | kSell | kShort
  deriving DecidableEq, Repr

/-- The `enum OrderType` of order.h. -/
inductive OrderType where
  | kMarket | kLimit | kStop | kStopLimit | kOTC
  deriving DecidableEq, Repr

/-- The `enum OrderStatus` of order.h (also used as the exec-type of a confirmation). -/
inductive OrderStatus where
  | kNew | kPartiallyFilled | kFilled | kDoneForDay | kCanceled | kReplaced
  | kPendingCancel | kStopped | kRejected | kSuspended | kPendingNew
  | kCalculated | kExpired | kAcceptedForBidding | kPendingReplace
  | kRiskRejected | kUnconfirmedNew | kUnconfirmedCancel | kUnconfirmedReplace
  | kCancelRejected
  deriving DecidableEq, Repr

/-- The `enum TimeInForce` of order.h. -/
inductive TimeInForce where
  | kDay | kGoodTillCancel | kAtTheOpening | kImmediateOrCancel | kFillOrKill
  | kGoodTillCrossing | kGoodTillDate
  deriving DecidableEq, Repr

/-- The `enum ExecTransType` of order.h. -/
inductive ExecTransType where
  | kTransNew | kTransCancel | kTransCorrect | kTransStatus
  deriving DecidableEq, Repr

open OrderSide OrderType OrderStatus TimeInForce ExecTransType

/-- The free function `IsBuy(OrderSide)` of order.h. -/
def IsBuy (side : OrderSide) : Bool := side == kBuy

/-! ## security.h, order.h: records -/

/-- The `struct Exchange::TickSizeTuple` of security.h: one interval of the tick-size ladder. -/
structure Exchange.TickSizeTuple where
  lower_bound : ℚ := 0
  upper_bound : ℚ := 0
  value : ℚ := 0
  deriving DecidableEq, Repr

/-- The fields of `struct Exchange` that the order path, the tick-size lookup and the session
windows read.  `tick_size_table` is `none` for the null pointer; the four window fields are
seconds since midnight of the exchange's local time. -/
structure Exchange where
  id : Nat := 0
  name : String := ""
  odd_lot_allowed : Bool := false
  tick_size_table : Option (List Exchange.TickSizeTuple) := none
  trade_start : Int := 0
  trade_end : Int := 0
  break_start : Int := 0
  break_end : Int := 0
  deriving DecidableEq, Repr

/-- The fields of `struct Security` that the order path reads; `exchange` is the exchange the
`Exchange*` points to. -/
structure Security where
  id : Nat := 0
  exchange : Exchange := {}
  rate : ℚ := 1
  multiplier : ℚ := 1
  tick_size : ℚ := 0
  close_price : ℚ := 0
  lot_size : Int := 0
  deriving DecidableEq, Repr

/-- An `Order*`: an address in `Engine.heap`. -/
abbrev Ptr := Nat

/-- The `struct Order : Contract` of order.h.  `sub_account`, `user` and `broker_account` hold
the id of the entity pointed to (`none` is the null pointer); `inst` is `none` for an order that
no algo instrument owns. -/
structure Order where
  qty : ℚ := 0
  price : ℚ := 0
  stop_price : ℚ := 0
  sec : Option Security := none
  sub_account : Option Nat := none
  side : OrderSide := kBuy
  type : OrderType := kLimit
  tif : TimeInForce := kDay
  status : OrderStatus := kUnconfirmedNew
  algo_id : Nat := 0
  id : Nat := 0
  orig_id : Nat := 0
  avg_px : ℚ := 0
  cum_qty : ℚ := 0
  leaves_qty : ℚ := 0
  tm : Int := 0
  user : Option Nat := none
  broker_account : Option Nat := none
  inst : Option Nat := none
  deriving DecidableEq, Repr

/-- The method `Contract::IsBuy`. -/
def Order.IsBuy (o : Order) : Bool := opentrade.IsBuy o.side

/-- The method `Order::IsLive`. -/
def Order.IsLive (o : Order) : Bool :=
  o.status == kUnconfirmedNew || o.status == kPendingNew ||
    o.status == kNew || o.status == kPartiallyFilled

/-- The `struct Confirmation` of order.h.  The anonymous union of `last_shares` and
`leaves_qty` is the single field `last_shares`; `Confirmation.leaves_qty` reads it. -/
structure Confirmation where
  order : Ptr := 0
  exec_id : String := ""
  order_id : String := ""
  text : String := ""
  exec_type : OrderStatus := kUnconfirmedNew
  exec_trans_type : ExecTransType := kTransNew
  last_shares : ℚ := 0
  last_px : ℚ := 0
  transaction_time : Int := 0
  seq : Nat := 0
  deriving DecidableEq, Repr

/-- The union member `leaves_qty`, which shares its storage with `last_shares`. -/
def Confirmation.leaves_qty (cm : Confirmation) : ℚ := cm.last_shares

/-! ## common.h: limits, throttle, position value -/

/-- The `struct Limits` of common.h. -/
structure Limits where
  msg_rate : ℚ := 0
  msg_rate_per_security : ℚ := 0
  order_qty : ℚ := 0
  order_value : ℚ := 0
  value : ℚ := 0
  turnover : ℚ := 0
  total_value : ℚ := 0
  total_turnover : ℚ := 0
  deriving DecidableEq, Repr

/-- The `struct Throttle` of common.h. -/
structure Throttle where
  n : Int := 0
  tm : Int := 0
  deriving DecidableEq, Repr

/-- The call operator `Throttle::operator()(int tm)`. -/
def Throttle.read (t : Throttle) (tm : Int) : Int :=
  if tm ≠ t.tm then 0 else t.n

/-- The method `Throttle::Update`: the assignment `tm2 = tm` writes the parameter, so the member
`tm` keeps its value. -/
def Throttle.Update (t : Throttle) (tm2 : Int) : Throttle :=
  if tm2 ≠ t.tm then { t with n := 0 } else { t with n := t.n + 1 }

/-- The `struct PositionValue` of common.h. -/
structure PositionValue where
  total_bought : ℚ := 0
  total_sold : ℚ := 0
  total_outstanding_buy : ℚ := 0
  total_outstanding_sell : ℚ := 0
  deriving DecidableEq, Repr

/-- The method `PositionValue::HandleNew`. -/
def PositionValue.HandleNew (v : PositionValue) (is_buy : Bool) (qty price multiplier : ℚ) :
    PositionValue :=
  let value := qty * price * multiplier
  if is_buy then { v with total_outstanding_buy := v.total_outstanding_buy + value }
  else { v with total_outstanding_sell := v.total_outstanding_sell + value }

/-- The method `PositionValue::HandleTrade`. -/
def PositionValue.HandleTrade (v : PositionValue) (is_buy : Bool) (qty price price0 multiplier : ℚ)
    (is_bust is_otc : Bool) : PositionValue :=
  let qty := if !is_buy then -qty else qty
  let value := qty * price * multiplier
  if is_otc then v
  else if !is_bust then
    let value0 := qty * price0 * multiplier
    if value > 0 then
      { v with total_outstanding_buy := v.total_outstanding_buy - value0,
               total_bought := v.total_bought + value }
    else
      { v with total_outstanding_sell := v.total_outstanding_sell - -value0,
               total_sold := v.total_sold + -value }
  else
    if value > 0 then { v with total_bought := v.total_bought - value }
    else { v with total_sold := v.total_sold - -value }

/-- The method `PositionValue::HandleFinish`, as a build with `NDEBUG` runs it.  The
`assert(leaves_qty)` at its head, like the asserts of the other methods of `PositionValue` and
`Position`, is rendered by `PositionManager.Handle.asserts`. -/
def PositionValue.HandleFinish (v : PositionValue) (is_buy : Bool)
    (leaves_qty price0 multiplier : ℚ) : PositionValue :=
  let value := leaves_qty * price0 * multiplier
  if is_buy then { v with total_outstanding_buy := v.total_outstanding_buy - value }
  else { v with total_outstanding_sell := v.total_outstanding_sell - value }

/-! ## position.h, position.cc: positions -/

/-- The `struct Position : PositionValue` of position.h. -/
structure Position extends PositionValue where
  qty : ℚ := 0
  avg_price : ℚ := 0
  unrealized_pnl : ℚ := 0
  realized_pnl : ℚ := 0
  total_bought_qty : ℚ := 0
  total_sold_qty : ℚ := 0
  total_outstanding_buy_qty : ℚ := 0
  total_outstanding_sell_qty : ℚ := 0
  deriving DecidableEq, Repr

/-- The function `HandlePnl` of position.cc. -/
def HandlePnl (qty price multiplier : ℚ) (p : Position) : Position :=
  let qty0 := p.qty
  if qty0 > 0 ∧ qty < 0 then
    if qty0 > -qty then
      { p with realized_pnl := p.realized_pnl + (price - p.avg_price) * -qty * multiplier }
    else
      { p with realized_pnl := p.realized_pnl + (price - p.avg_price) * qty0 * multiplier,
               avg_price := price }
  else if qty0 < 0 ∧ qty > 0 then
    if -qty0 > qty then
      { p with realized_pnl := p.realized_pnl + (p.avg_price - price) * qty * multiplier }
    else
      { p with realized_pnl := p.realized_pnl + (p.avg_price - price) * -qty0 * multiplier,
               avg_price := price }
  else
    { p with avg_price := (qty0 * p.avg_price + qty * price) / (qty0 + qty) }

/-- The method `Position::HandleTrade`. -/
def Position.HandleTrade (p : Position) (is_buy : Bool) (qty price price0 multiplier : ℚ)
    (is_bust is_otc : Bool) : Position :=
  let p : Position :=
    { p with toPositionValue :=
        p.toPositionValue.HandleTrade is_buy qty price price0 multiplier is_bust is_otc }
  let qty := if !is_buy then -qty else qty
  let p : Position :=
    if is_otc then p
    else if !is_bust then
      if qty > 0 then
        { p with total_outstanding_buy_qty := p.total_outstanding_buy_qty - qty,
                 total_bought_qty := p.total_bought_qty + qty }
      else
        { p with total_outstanding_sell_qty := p.total_outstanding_sell_qty - -qty,
                 total_sold_qty := p.total_sold_qty + -qty }
    else
      if qty > 0 then { p with total_bought_qty := p.total_bought_qty - qty }
      else { p with total_sold_qty := p.total_sold_qty - -qty }
  let qty := if is_bust then -qty else qty
  let p := HandlePnl qty price multiplier p
  { p with qty := p.qty + qty }

/-- The method `Position::HandleFinish`, as a build with `NDEBUG` runs it (its
`assert(leaves_qty)` is rendered by `PositionManager.Handle.asserts`). -/
def Position.HandleFinish (p : Position) (is_buy : Bool) (leaves_qty price0 multiplier : ℚ) :
    Position :=
  let p : Position :=
    if is_buy then { p with total_outstanding_buy_qty := p.total_outstanding_buy_qty - leaves_qty }
    else { p with total_outstanding_sell_qty := p.total_outstanding_sell_qty - leaves_qty }
  { p with toPositionValue := p.toPositionValue.HandleFinish is_buy leaves_qty price0 multiplier }

/-- The method `Position::HandleNew`. -/
def Position.HandleNew (p : Position) (is_buy : Bool) (qty price multiplier : ℚ) : Position :=
  let p : Position :=
    if is_buy then { p with total_outstanding_buy_qty := p.total_outstanding_buy_qty - qty }
    else { p with total_outstanding_sell_qty := p.total_outstanding_sell_qty - qty }
  { p with toPositionValue := p.toPositionValue.HandleNew is_buy qty price multiplier }

/-! ## account.h: account entities -/

/-- The `struct AccountBase` of account.h. -/
structure AccountBase where
  limits : Limits := {}
  throttle_in_sec : Throttle := {}
  throttle_per_security_in_sec : Nat → Throttle := fun _ => {}
  position_value : PositionValue := {}

/-- The `struct BrokerAccount` of account.h; `adapter` is the handle of the execution adapter
(`none` is the null pointer). -/
structure BrokerAccount extends AccountBase where
  id : Nat := 0
  name : String := ""
  adapter_name : String := ""
  adapter : Option Nat := none

/-- The `struct SubAccount` of account.h; `broker_accounts` maps an exchange id to the id of a
broker account. -/
structure SubAccount extends AccountBase where
  id : Nat := 0
  name : String := ""
  broker_accounts : Nat → Option Nat := fun _ => none

/-- The `struct User` of account.h; `sub_accounts` tells which sub-account ids the user owns. -/
structure User extends AccountBase where
  id : Nat := 0
  name : String := ""
  is_admin : Bool := false
  is_disabled : Bool := false
  sub_accounts : Nat → Bool := fun _ => false

/-! ## utility.h, account.cc: parsing the limits text -/

/-- The helper `Split(str, sep)` of utility.h with its default flags: `boost::split` on any
character of `sep` with adjacent separators compressed, then the empty tokens removed; what is
left are the maximal runs of characters that are not separators. -/
def Split.go (sep : List Char) : List Char → List Char → List (List Char)
  | [], cur => if cur = [] then [] else [cur.reverse]
  | c :: cs, cur =>
    if c ∈ sep then
      if cur = [] then Split.go sep cs [] else cur.reverse :: Split.go sep cs []
    else Split.go sep cs (c :: cur)

/-- The helper `Split(str, sep)` of utility.h. -/
def Split (str sep : String) : List String :=
  (Split.go sep.toList str.toList []).map String.mk

/-- The predicate `isspace` of the C locale. -/
def isspace (c : Char) : Bool := c.toNat = 32 ∨ (9 ≤ c.toNat ∧ c.toNat ≤ 13)

/-- The conversion `%s` of `sscanf`: leading white space is skipped, then the run of characters
up to the next white space or the end of the input is taken; `none` is the input failure when the
input ends before a character is taken.  The result is the token and the rest of the input. -/
def scanToken (input : List Char) : Option (List Char × List Char) :=
  let input := input.dropWhile isspace
  match input.takeWhile (fun c => !isspace c), input.dropWhile (fun c => !isspace c) with
  | [], _ => none
  | tok, rest => some (tok, rest)

/-- The call `sscanf(str.c_str(), "%s=%lf", name, &value)` of `ParseLimits`: the number it
returns, and the values stored in `name` and `value`.  The input ends at the first NUL.  `strtod`
is the reader of the C library behind `%lf`, from the text at hand to the number read. -/
def sscanfNameValue (strtod : List Char → Option ℚ) (str : String) : Int × String × ℚ :=
  let input := str.toList.takeWhile (fun c => c.toNat ≠ 0)
  match scanToken input with
  | none => (-1, "", 0)
  | some (name, rest) =>
    match rest with
    | '=' :: rest =>
      match strtod (rest.dropWhile isspace) with
      | some value => (2, String.mk name, value)
      | none => (1, String.mk name, 0)
    | _ => (1, String.mk name, 0)

/-- The comparison `!strcasecmp(a, b)`. -/
def strcaseeq (a b : String) : Bool := a.toLower == b.toLower

/-- The body of the loop of `ParseLimits` for one entry. -/
def ParseLimits.entry (strtod : List Char → Option ℚ) (limits : Limits) (str : String) : Limits :=
  let r := sscanfNameValue strtod str
  let name := r.2.1
  let value := r.2.2
  if r.1 ≠ 2 then limits
  else if strcaseeq name "msg_rate" then { limits with msg_rate := value }
  else if strcaseeq name "msg_rate_per_security" then
    { limits with msg_rate_per_security := value }
  else if strcaseeq name "order_qty" then { limits with order_qty := value }
  else if strcaseeq name "order_value" then { limits with order_value := value }
  else if strcaseeq name "value" then { limits with value := value }
  else if strcaseeq name "turnover" then { limits with turnover := value }
  else if strcaseeq name "total_value" then { limits with total_value := value }
  else if strcaseeq name "total_turnover" then { limits with total_turnover := value }
  else limits

/-- The function `ParseLimits` of account.cc. -/
def ParseLimits (strtod : List Char → Option ℚ) (limits_str : String) : Limits :=
  (Split limits_str ",;\n").foldl (ParseLimits.entry strtod) {}

/-! ## The confirmation journal -/

/-- The text body of a journal record, kept as the tuple of values that `Handle` prints into it
and that `LoadStore` scans back (the decimal rendering of the numbers is not modelled). -/
inductive Body where
  | new (id : Nat) (tm : Int) (order_id : String)
  | fill (id : Nat) (tm : Int) (last_shares last_px : ℚ) (exec_trans_type : ExecTransType)
      (exec_id : String)
  | text (id : Nat) (tm : Int) (text : String)
  | unconfirmedNew (id : Nat) (tm : Int) (algo_id : Nat) (qty price stop_price : ℚ)
      (side : OrderSide) (type : OrderType) (tif : TimeInForce)
      (sec_id user_id broker_account_id : Nat)
  | unconfirmedCancel (id : Nat) (tm : Int) (orig_id : Nat)
  | riskRejected (id : Nat) (text : String)
  deriving DecidableEq, Repr

/-- One framed record of the journal: `u32 seq | u16 len | sub_account_id | u8 exec_type | body`. -/
structure Record where
  seq : Nat
  sub_account_id : Nat
  exec_type : OrderStatus
  body : Body
  deriving DecidableEq, Repr

/-! ## The engine state -/

/-- The `struct Bod` of position.h: the beginning-of-day position of a sub-account in a
security. -/
structure Bod where
  qty : ℚ := 0
  avg_price : ℚ := 0
  realized_pnl : ℚ := 0
  tm : Int := 0
  broker_account_id : Nat := 0
  deriving DecidableEq, Repr

/-- A call made to an execution adapter: `adapter->Place(ord)` or `adapter->Cancel(ord)`, with the
adapter handle and the order as it stands at the call. -/
inductive AdapterCall where
  | place (adapter : Nat) (ord : Order)
  | cancel (adapter : Nat) (ord : Order)

/-- The process-wide state: the heap of `Order` objects, the members of `GlobalOrderBook`
(`orders_`, `order_id_counter_`, `seq_counter_`, `exec_ids_`, the journal file `of_`), the
beginning-of-day and position maps of `PositionManager`, the account entities of `AccountManager`, the securities of
`SecurityManager`, the thread-local `kRiskError`, the confirmations handed to
`Server::Publish`, and the history of the calls made to execution adapters.  A concurrent map read through `operator[]` or `FindInMap` is a total function
whose value at an absent key is the default-constructed one. -/
structure Engine where
  heap : Ptr → Order := fun _ => {}
  heap_end : Ptr := 0
  orders_ : Nat → Option Ptr := fun _ => none
  order_id_counter_ : Nat := 0
  seq_counter_ : Nat := 0
  exec_ids_ : List String := []
  of_ : List Record := []
  published : List Confirmation := []
  bods_ : Nat × Nat → Bod := fun _ => {}
  sub_positions_ : Nat × Nat → Position := fun _ => {}
  broker_positions_ : Nat × Nat → Position := fun _ => {}
  user_positions_ : Nat × Nat → Position := fun _ => {}
  securities_ : Nat → Option Security := fun _ => none
  users_ : Nat → Option User := fun _ => none
  sub_accounts_ : Nat → Option SubAccount := fun _ => none
  broker_accounts_ : Nat → Option BrokerAccount := fun _ => none
  kRiskError : String := ""
  adapter_calls : List AdapterCall := []

namespace Engine

/-- The expression `new Order(o)`: the object is stored at the next free address. -/
def alloc (s : Engine) (o : Order) : Ptr × Engine :=
  (s.heap_end, { s with heap := Function.update s.heap s.heap_end o, heap_end := s.heap_end + 1 })

/-- A write through an `Order*`. -/
def store (s : Engine) (p : Ptr) (o : Order) : Engine :=
  { s with heap := Function.update s.heap p o }

end Engine

/-! ## order.h, order.cc: the order book -/

namespace GlobalOrderBook

/-- The method `GlobalOrderBook::NewOrderId`. -/
def NewOrderId (s : Engine) : Nat × Engine :=
  (s.order_id_counter_ + 1, { s with order_id_counter_ := s.order_id_counter_ + 1 })

/-- The method `GlobalOrderBook::IsDupExecId`: `!exec_ids_.insert(exec_id).second`. -/
def IsDupExecId (exec_id : String) (s : Engine) : Bool × Engine :=
  if exec_id ∈ s.exec_ids_ then (true, s)
  else (false, { s with exec_ids_ := exec_id :: s.exec_ids_ })

/-- The method `GlobalOrderBook::Get`. -/
def Get (s : Engine) (id : Nat) : Option Ptr := s.orders_ id

/-- The call `orders_.emplace(id, ord)`: nothing is stored when the key is present. -/
def emplace (s : Engine) (id : Nat) (p : Ptr) : Engine :=
  match s.orders_ id with
  | some _ => s
  | none => { s with orders_ := Function.update s.orders_ id (some p) }

/-- The writes that `GlobalOrderBook::UpdateOrder` makes to the order `*cm->order`. -/
def UpdateOrder.onOrder (cm : Confirmation) (ord : Order) : Order :=
  match cm.exec_type with
  | kPartiallyFilled | kFilled =>
    if cm.exec_trans_type = kTransNew then
      let ord := { ord with
        avg_px := Double.div
          (Double.add (Double.mul ord.avg_px ord.cum_qty) (Double.mul cm.last_px cm.last_shares))
          (Double.add ord.cum_qty cm.last_shares) }
      let ord := { ord with cum_qty := Double.add ord.cum_qty cm.last_shares }
      let ord := { ord with leaves_qty := Double.sub ord.leaves_qty cm.last_shares }
      if ord.cum_qty ≥ ord.qty then { ord with status := kFilled }
      else if ord.IsLive then { ord with status := kPartiallyFilled }
      else ord
    else if cm.exec_trans_type = kTransCancel then
      if ord.cum_qty ≤ cm.last_shares then
        { ord with avg_px := 0, cum_qty := 0 }
      else
        let ord := { ord with
          avg_px := Double.div
            (Double.sub (Double.mul ord.avg_px ord.cum_qty) (Double.mul cm.last_px cm.last_shares))
            (Double.sub ord.cum_qty cm.last_shares) }
        { ord with cum_qty := Double.sub ord.cum_qty cm.last_shares }
    else ord
  | kNew | kPendingNew | kPendingCancel => { ord with status := cm.exec_type }
  | kRiskRejected | kCanceled | kRejected | kExpired | kCalculated | kDoneForDay =>
    { ord with leaves_qty := 0, status := cm.exec_type }
  | _ => ord

/-- The method `GlobalOrderBook::UpdateOrder`.  It returns the confirmation as well, because the
terminal branch stores the order's `leaves_qty` into the union member of `*cm`. -/
def UpdateOrder (cm : Confirmation) (s : Engine) : Confirmation × Engine :=
  match cm.exec_type with
  | kUnconfirmedNew | kUnconfirmedCancel => (cm, emplace s (s.heap cm.order).id cm.order)
  | kRiskRejected | kCanceled | kRejected | kExpired | kCalculated | kDoneForDay =>
    ({ cm with last_shares := (s.heap cm.order).leaves_qty },
      s.store cm.order (UpdateOrder.onOrder cm (s.heap cm.order)))
  | _ => (cm, s.store cm.order (UpdateOrder.onOrder cm (s.heap cm.order)))

/-- A stream of confirmations passed to `UpdateOrder` one after the other. -/
def UpdateOrders (cms : List Confirmation) (s : Engine) : Engine :=
  cms.foldl (fun s cm => (UpdateOrder cm s).2) s

end GlobalOrderBook

/-! ## External collaborators -/

/-- The fields of the `struct tm` filled by `localtime_r` that the engine reads. -/
structure Tm where
  tm_wday : Nat := 0
  tm_hour : Nat := 0
  tm_min : Nat := 0
  tm_sec : Nat := 0
  deriving DecidableEq, Repr

/-- What the engine reads from outside when an operation runs: the clocks, the market-data hub
behind `Security::CurrentPrice` (by security id), and the execution adapters (by adapter handle):
`connected()` and the strings returned by `Place` and `Cancel`. -/
structure Env where
  NowUtcInMicro : Int := 0
  time : Int := 0
  localtime : Tm := {}
  CurrentPrice : Nat → ℚ := fun _ => 0
  connected : Nat → Bool := fun _ => false
  adapterPlace : Nat → Order → String := fun _ _ => ""
  adapterCancel : Nat → Order → String := fun _ _ => ""

/-- The call `Server::Publish(cm)`: the confirmation is handed to the client port. -/
def Server.Publish (cm : Confirmation) (s : Engine) : Engine :=
  { s with published := s.published ++ [cm] }

namespace Engine

/-- The security `ord->sec` points to (the default object stands for a null pointer, which the
source dereferences without a check). -/
def secOf (o : Order) : Security := o.sec.getD {}

/-- A write to `position_value` of the sub-account an order points to. -/
def modifySubAccountValue (s : Engine) (id : Option Nat) (f : PositionValue → PositionValue) :
    Engine :=
  match id with
  | none => s
  | some i =>
    match s.sub_accounts_ i with
    | none => s
    | some a =>
      let a : SubAccount := { a with position_value := f a.position_value }
      { s with sub_accounts_ := Function.update s.sub_accounts_ i (some a) }

/-- A write to `position_value` of the broker account an order points to. -/
def modifyBrokerAccountValue (s : Engine) (id : Option Nat) (f : PositionValue → PositionValue) :
    Engine :=
  match id with
  | none => s
  | some i =>
    match s.broker_accounts_ i with
    | none => s
    | some a =>
      let a : BrokerAccount := { a with position_value := f a.position_value }
      { s with broker_accounts_ := Function.update s.broker_accounts_ i (some a) }

/-- A write to `position_value` of the user an order points to. -/
def modifyUserValue (s : Engine) (id : Option Nat) (f : PositionValue → PositionValue) : Engine :=
  match id with
  | none => s
  | some i =>
    match s.users_ i with
    | none => s
    | some a =>
      let a : User := { a with position_value := f a.position_value }
      { s with users_ := Function.update s.users_ i (some a) }

/-- The six writes that each branch of `PositionManager::Handle` makes: the three position maps at
the keys `(account id, security id)` and the three account-level `position_value`s. -/
def updatePositions (s : Engine) (ord : Order) (f : Position → Position)
    (g : PositionValue → PositionValue) : Engine :=
  let sec := secOf ord
  let sub_key := (ord.sub_account.getD 0, sec.id)
  let broker_key := (ord.broker_account.getD 0, sec.id)
  let user_key := (ord.user.getD 0, sec.id)
  let s := { s with
    sub_positions_ := Function.update s.sub_positions_ sub_key (f (s.sub_positions_ sub_key)) }
  let s := { s with
    broker_positions_ :=
      Function.update s.broker_positions_ broker_key (f (s.broker_positions_ broker_key)) }
  let s := { s with
    user_positions_ := Function.update s.user_positions_ user_key (f (s.user_positions_ user_key)) }
  let s := s.modifySubAccountValue ord.sub_account g
  let s := s.modifyBrokerAccountValue ord.broker_account g
  s.modifyUserValue ord.user g

end Engine

/-- The method `PositionManager::Handle`.  The asynchronous insert of a row into the reference
store (skipped when `offline`) writes nothing that the engine reads back and is left out. -/
def PositionManager.Handle (cm : Confirmation) (_offline : Bool) (s : Engine) : Engine :=
  let ord := s.heap cm.order
  let sec := Engine.secOf ord
  let multiplier := sec.rate * sec.multiplier
  let is_buy := ord.IsBuy
  let is_otc := ord.type == kOTC
  match cm.exec_type with
  | kPartiallyFilled | kFilled =>
    if cm.exec_trans_type = kTransNew ∨ cm.exec_trans_type = kTransCancel then
      let is_bust := cm.exec_trans_type == kTransCancel
      let qty := cm.last_shares
      let px := cm.last_px
      let px0 := ord.price
      s.updatePositions ord
        (fun pos => pos.HandleTrade is_buy qty px px0 multiplier is_bust is_otc)
        (fun v => v.HandleTrade is_buy qty px px0 multiplier is_bust is_otc)
    else s
  | kUnconfirmedNew =>
    if !is_otc then
      let qty := ord.qty
      let px := ord.price
      s.updatePositions ord (fun pos => pos.HandleNew is_buy qty px multiplier)
        (fun v => v.HandleNew is_buy qty px multiplier)
    else s
  | kRiskRejected | kCanceled | kRejected | kExpired | kCalculated | kDoneForDay =>
    let qty := cm.leaves_qty
    let px := ord.price
    s.updatePositions ord (fun pos => pos.HandleFinish is_buy qty px multiplier)
      (fun v => v.HandleFinish is_buy qty px multiplier)
  | _ => s

/-- The asserts that a call of `PositionManager::Handle` meets: `assert(cm && ord->id > 0)` at
its head, `assert(qty > 0)` in the `HandleTrade` and `HandleNew` and `assert(leaves_qty)` in the
`HandleFinish` of `Position` and `PositionValue` that it calls; `true` when all of them hold.  A
build in which asserts are compiled in (the sources define no `NDEBUG`) aborts at the first that
fails. -/
def PositionManager.Handle.asserts (cm : Confirmation) (s : Engine) : Bool :=
  let ord := s.heap cm.order
  let is_otc := ord.type == kOTC
  decide (ord.id > 0) &&
    match cm.exec_type with
    | kPartiallyFilled | kFilled =>
      if cm.exec_trans_type = kTransNew ∨ cm.exec_trans_type = kTransCancel then
        decide (cm.last_shares > 0)
      else true
    | kUnconfirmedNew => if !is_otc then decide (ord.qty > 0) else true
    | kRiskRejected | kCanceled | kRejected | kExpired | kCalculated | kDoneForDay =>
      cm.leaves_qty != 0
    | _ => true

/-- A row of the beginning-of-day query of `PositionManager::Initialize`, in column order. -/
structure BodRow where
  sub_account_id : Nat := 0
  broker_account_id : Nat := 0
  security_id : Nat := 0
  qty : ℚ := 0
  avg_price : ℚ := 0
  realized_pnl : ℚ := 0
  tm : Int := 0
  deriving DecidableEq, Repr

/-- The body of the loop of `PositionManager::Initialize` for one row.  `seen` lists the keys
already emplaced into `bods_` and `sub_positions_`, both empty when the loop starts: `emplace`
stores nothing at a key that is present. -/
def PositionManager.Initialize.row (acc : List (Nat × Nat) × Engine) (row : BodRow) :
    List (Nat × Nat) × Engine :=
  let seen := acc.1
  let s := acc.2
  match s.securities_ row.security_id with
  | none => acc
  | some sec =>
    let p : Position :=
      { qty := row.qty, avg_price := row.avg_price, realized_pnl := row.realized_pnl }
    let bod : Bod :=
      { qty := p.qty, avg_price := p.avg_price, realized_pnl := p.realized_pnl,
        broker_account_id := row.broker_account_id, tm := row.tm }
    let key := (row.sub_account_id, row.security_id)
    let s :=
      if key ∈ seen then s
      else { s with bods_ := Function.update s.bods_ key bod,
                    sub_positions_ := Function.update s.sub_positions_ key p }
    let broker_key := (row.broker_account_id, row.security_id)
    let p2 := s.broker_positions_ broker_key
    let p2 := { p2 with realized_pnl := p2.realized_pnl + p.realized_pnl }
    let p2 := HandlePnl p.qty p.avg_price (sec.multiplier * sec.rate) p2
    let p2 := { p2 with qty := p2.qty + p.qty }
    (key :: seen, { s with broker_positions_ := Function.update s.broker_positions_ broker_key p2 })

/-- The method `PositionManager::Initialize`, from the rows that the beginning-of-day query
returns; the session file and its time stamp only select those rows. -/
def PositionManager.Initialize (rows : List BodRow) (s : Engine) : Engine :=
  (rows.foldl PositionManager.Initialize.row ([], s)).2

namespace GlobalOrderBook

/-- The text body that the write task of `Handle` prints for a confirmation; `none` is the empty
string of the `default` branch, for which nothing is written. -/
def Handle.body (cm : Confirmation) (ord : Order) : Option Body :=
  match cm.exec_type with
  | kNew => some (Body.new ord.id cm.transaction_time cm.order_id)
  | kPartiallyFilled | kFilled =>
    some (Body.fill ord.id cm.transaction_time cm.last_shares cm.last_px cm.exec_trans_type
      cm.exec_id)
  | kPendingNew | kPendingCancel | kCancelRejected | kCanceled | kRejected | kExpired
  | kCalculated | kDoneForDay => some (Body.text ord.id cm.transaction_time cm.text)
  | kUnconfirmedNew =>
    some (Body.unconfirmedNew ord.id cm.transaction_time ord.algo_id ord.qty ord.price
      ord.stop_price ord.side ord.type ord.tif (Engine.secOf ord).id (ord.user.getD 0)
      (ord.broker_account.getD 0))
  | kUnconfirmedCancel => some (Body.unconfirmedCancel ord.id cm.transaction_time ord.orig_id)
  | kRiskRejected => some (Body.riskRejected ord.id cm.text)
  | _ => none

/-- The method `GlobalOrderBook::Handle`.  `AlgoManager::Handle`, called for an order that has an
instrument, touches only that instrument and its algo, which are outside this state. -/
def Handle (cm : Confirmation) (offline : Bool) (s : Engine) : Engine :=
  if (s.heap cm.order).id ≤ 0 then Server.Publish cm s
  else
    let r := UpdateOrder cm s
    let cm := r.1
    let s := PositionManager.Handle cm offline r.2
    if offline then s
    else
      let s := { s with seq_counter_ := s.seq_counter_ + 1 }
      let cm := { cm with seq := s.seq_counter_ }
      let s := Server.Publish cm s
      let ord := s.heap cm.order
      match Handle.body cm ord with
      | none => s
      | some body =>
        let record : Record :=
          { seq := cm.seq, sub_account_id := ord.sub_account.getD 0, exec_type := cm.exec_type,
            body := body }
        { s with of_ := s.of_ ++ [record] }

/-- The asserts that a call of `GlobalOrderBook::Handle` meets: its own `assert(!offline)` for an
order without id, else those of `PositionManager::Handle` for the confirmation as `UpdateOrder`
leaves it. -/
def Handle.asserts (cm : Confirmation) (offline : Bool) (s : Engine) : Bool :=
  if (s.heap cm.order).id ≤ 0 then !offline
  else PositionManager.Handle.asserts (UpdateOrder cm s).1 (UpdateOrder cm s).2

end GlobalOrderBook

/-! ## exchange_connectivity.cc: normalising adapter callbacks -/

namespace ExchangeConnectivity

/-- The static function `HandleConfirmation(Order*, OrderStatus, text, tm)`. -/
def HandleConfirmation (env : Env) (ord : Ptr) (exec_type : OrderStatus) (text : String)
    (tm : Int) (s : Engine) : Engine :=
  let cm : Confirmation := { order := ord, exec_type := exec_type }
  let cm := if exec_type = kNew then { cm with order_id := text } else { cm with text := text }
  let cm := { cm with transaction_time := if tm ≠ 0 then tm else env.NowUtcInMicro }
  GlobalOrderBook.Handle cm false s

/-- The static function template `Handle(name, id, desc, exec_type, text, transaction_time)`. -/
def Handle (env : Env) (id : Nat) (exec_type : OrderStatus) (text : String)
    (transaction_time : Int) (s : Engine) : Engine :=
  match GlobalOrderBook.Get s id with
  | none => s
  | some ord => HandleConfirmation env ord exec_type text transaction_time s

/-- The static function template
`Handle(name, id, orig_id, desc, exec_type, text, transaction_time)`. -/
def HandleOrig (env : Env) (id orig_id : Nat) (exec_type : OrderStatus) (text : String)
    (transaction_time : Int) (s : Engine) : Engine :=
  if orig_id = 0 then
    match GlobalOrderBook.Get s id with
    | none => s
    | some ord =>
      let orig_id := if (s.heap ord).orig_id ≠ 0 then (s.heap ord).orig_id else id
      Handle env orig_id exec_type text transaction_time s
  else Handle env orig_id exec_type text transaction_time s

/-- The static function
`HandleConfirmation(Order*, qty, price, exec_id, tm, is_partial, exec_trans_type)`. -/
def HandleConfirmationFill (env : Env) (ord : Ptr) (qty price : ℚ) (exec_id : String) (tm : Int)
    ( is_partial : Bool) (exec_trans_type : ExecTransType) (s : Engine) : Engine :=
  let cm : Confirmation :=
    { order := ord, exec_type := if is_partial then kPartiallyFilled else kFilled,
      last_shares := qty, last_px := price, exec_id := exec_id,
      exec_trans_type := exec_trans_type,
      transaction_time := if tm ≠ 0 then tm else env.NowUtcInMicro }
  GlobalOrderBook.Handle cm false s

end ExchangeConnectivity

namespace ExchangeConnectivityAdapter

/-- The method `ExchangeConnectivityAdapter::HandleNew`. -/
def HandleNew (env : Env) (id : Nat) (order_id : String) (transaction_time : Int) (s : Engine) :
    Engine :=
  ExchangeConnectivity.Handle env id kNew order_id transaction_time s

/-- The method `ExchangeConnectivityAdapter::HandlePendingNew`. -/
def HandlePendingNew (env : Env) (id : Nat) (text : String) (transaction_time : Int)
    (s : Engine) : Engine :=
  ExchangeConnectivity.Handle env id kPendingNew text transaction_time s

/-- The method `ExchangeConnectivityAdapter::HandleFill`. -/
def HandleFill (env : Env) (id : Nat) (qty price : ℚ) (exec_id : String)
    (transaction_time : Int) ( is_partial : Bool) (exec_trans_type : ExecTransType)
    (s : Engine) : Engine :=
  let r := GlobalOrderBook.IsDupExecId exec_id s
  if r.1 then r.2
  else
    let s := r.2
    match GlobalOrderBook.Get s id with
    | none => s
    | some ord =>
      if qty ≤ 0 ∨ price ≤ 0 then s
      else
        ExchangeConnectivity.HandleConfirmationFill env ord qty price exec_id transaction_time
          is_partial exec_trans_type s

/-- The method `ExchangeConnectivityAdapter::HandleCanceled`. -/
def HandleCanceled (env : Env) (id orig_id : Nat) (text : String) (transaction_time : Int)
    (s : Engine) : Engine :=
  ExchangeConnectivity.HandleOrig env id orig_id kCanceled text transaction_time s

/-- The method `ExchangeConnectivityAdapter::HandleNewRejected`. -/
def HandleNewRejected (env : Env) (id : Nat) (text : String) (transaction_time : Int)
    (s : Engine) : Engine :=
  ExchangeConnectivity.Handle env id kRejected text transaction_time s

/-- The method `ExchangeConnectivityAdapter::HandleCancelRejected`. -/
def HandleCancelRejected (env : Env) (id orig_id : Nat) (text : String) (transaction_time : Int)
    (s : Engine) : Engine :=
  ExchangeConnectivity.HandleOrig env id orig_id kCancelRejected text transaction_time s

/-- The method `ExchangeConnectivityAdapter::HandlePendingCancel`. -/
def HandlePendingCancel (env : Env) (id orig_id : Nat) (transaction_time : Int) (s : Engine) :
    Engine :=
  ExchangeConnectivity.HandleOrig env id orig_id kPendingCancel "" transaction_time s

/-- The method `ExchangeConnectivityAdapter::HandleOthers`. -/
def HandleOthers (env : Env) (id : Nat) (exec_type : OrderStatus) (text : String)
    (transaction_time : Int) (s : Engine) : Engine :=
  ExchangeConnectivity.Handle env id exec_type text transaction_time s

end ExchangeConnectivityAdapter

/-! ## risk.cc: pre-trade checks -/

/-- The rendering `%f` of `snprintf`: six decimals, rounded. -/
def formatF (q : ℚ) : String :=
  let n : Int := round (q * 1000000)
  let a := n.natAbs
  let frac := toString (a % 1000000)
  (if n < 0 then "-" else "") ++ toString (a / 1000000) ++ "." ++
    String.mk (List.replicate (6 - frac.length) '0') ++ frac

namespace Risk

/-- The static function `CheckMsgRate(name, acc, sid)` of risk.cc.  The result is `none` when the
function returns true, and the text it stores in `kRiskError` when it returns false. -/
def CheckMsgRate (env : Env) (name : String) (acc : AccountBase) (sid : Nat) : Option String :=
  let tm := env.time
  let l := acc.limits
  let v := (acc.throttle_per_security_in_sec sid).read tm
  if l.msg_rate_per_security > 0 ∧ (v : ℚ) ≥ l.msg_rate_per_security then
    some (name ++ " limit breach: message rate per second " ++ toString v ++ " > " ++
      formatF l.msg_rate_per_security)
  else if l.msg_rate > 0 ∧ ((acc.throttle_in_sec.read tm : Int) : ℚ) ≥ l.msg_rate then
    some (name ++ " limit breach: message rate " ++ toString (acc.throttle_in_sec.read tm) ++
      " > " ++ formatF l.msg_rate)
  else none

/-- The worst-case exposure `v2` of the `value` and `total_value` checks. -/
def worstValue (is_buy : Bool) (pos : PositionValue) (v : ℚ) : ℚ :=
  let net := pos.total_bought - pos.total_sold
  if is_buy then
    max |net + pos.total_outstanding_buy + v| |net - pos.total_outstanding_sell|
  else
    max |net + pos.total_outstanding_buy| |net - pos.total_outstanding_sell - v|

/-- The static function `Check(name, ord, acc, pos)` of risk.cc, with the same convention for the
result as `CheckMsgRate`. -/
def Check (env : Env) (name : String) (ord : Order) (acc : AccountBase) (pos : Position) :
    Option String :=
  let sec := Engine.secOf ord
  match CheckMsgRate env name acc sec.id with
  | some e => some e
  | none =>
    let l := acc.limits
    if l.order_qty > 0 ∧ ord.qty > l.order_qty then
      some (name ++ " limit breach: single order quantity " ++ formatF ord.qty ++ " > " ++
        formatF l.order_qty)
    else
      let v := ord.qty * ord.price * sec.multiplier * sec.rate
      if l.order_value > 0 ∧ v > l.order_value then
        some (name ++ " limit breach: single order value " ++ formatF v ++ " > " ++
          formatF l.order_value ++ ", multiplier=" ++ formatF sec.multiplier ++
          ", currency rate=" ++ formatF sec.rate)
      else if l.value > 0 ∧ worstValue ord.IsBuy pos.toPositionValue v > l.value then
        some (name ++ " limit breach: security intraday trade value " ++
          formatF (worstValue ord.IsBuy pos.toPositionValue v) ++ " > " ++ formatF l.value ++
          ", multiplier=" ++ formatF sec.multiplier ++ ", currency rate=" ++ formatF sec.rate)
      else if l.turnover > 0 ∧
          pos.total_bought + pos.total_outstanding_buy + pos.total_sold +
            pos.total_outstanding_sell + v > l.turnover then
        some (name ++ " limit breach: security intraday turnover " ++
          formatF (pos.total_bought + pos.total_outstanding_buy + pos.total_sold +
            pos.total_outstanding_sell + v) ++ " > " ++ formatF l.turnover ++
          ", multiplier=" ++ formatF sec.multiplier ++ ", currency rate=" ++ formatF sec.rate)
      else if l.total_value > 0 ∧ worstValue ord.IsBuy acc.position_value v > l.total_value then
        some (name ++ " limit breach: total intraday trade value " ++
          formatF (worstValue ord.IsBuy acc.position_value v) ++ " > " ++ formatF l.total_value)
      else if l.total_turnover > 0 ∧
          acc.position_value.total_bought + acc.position_value.total_outstanding_buy +
            acc.position_value.total_sold + acc.position_value.total_outstanding_sell + v >
              l.total_turnover then
        some (name ++ " limit breach: total intraday turnover " ++
          formatF (acc.position_value.total_bought + acc.position_value.total_outstanding_buy +
            acc.position_value.total_sold + acc.position_value.total_outstanding_sell + v) ++
          " > " ++ formatF l.total_turnover)
      else none

end Risk

namespace Engine

/-- The sub-account `ord->sub_account` points to. -/
def subAccountOf (s : Engine) (o : Order) : SubAccount :=
  ((o.sub_account.bind s.sub_accounts_).getD {})

/-- The broker account `ord->broker_account` points to. -/
def brokerAccountOf (s : Engine) (o : Order) : BrokerAccount :=
  ((o.broker_account.bind s.broker_accounts_).getD {})

/-- The user `ord->user` points to. -/
def userOf (s : Engine) (o : Order) : User :=
  ((o.user.bind s.users_).getD {})

end Engine

namespace RiskManager

/-- The method `RiskManager::CheckMsgRate`. -/
def CheckMsgRate (env : Env) (ord : Order) (s : Engine) : Option String :=
  let sid := (Engine.secOf ord).id
  match Risk.CheckMsgRate env "sub_account" (s.subAccountOf ord).toAccountBase sid with
  | some e => some e
  | none =>
    match Risk.CheckMsgRate env "broker_account" (s.brokerAccountOf ord).toAccountBase sid with
    | some e => some e
    | none => Risk.CheckMsgRate env "user" (s.userOf ord).toAccountBase sid

/-- The method `RiskManager::Check`. -/
def Check (env : Env) (ord : Order) (s : Engine) : Option String :=
  let sid := (Engine.secOf ord).id
  match Risk.Check env "sub_account" ord (s.subAccountOf ord).toAccountBase
      (s.sub_positions_ (ord.sub_account.getD 0, sid)) with
  | some e => some e
  | none =>
    match Risk.Check env "broker_account" ord (s.brokerAccountOf ord).toAccountBase
        (s.broker_positions_ (ord.broker_account.getD 0, sid)) with
    | some e => some e
    | none =>
      Risk.Check env "user" ord (s.userOf ord).toAccountBase
        (s.user_positions_ (ord.user.getD 0, sid))

end RiskManager

/-! ## exchange_connectivity.cc: the `Place` / `Cancel` front door -/

namespace ExchangeConnectivity

/-- The throttle writes that `UpdateThrottle` makes to one account entity. -/
def updateThrottle (a : AccountBase) (tm : Int) (sid : Nat) : AccountBase :=
  let a := { a with throttle_in_sec := a.throttle_in_sec.Update tm }
  if a.limits.msg_rate_per_security > 0 then
    let t := (a.throttle_per_security_in_sec sid).Update tm
    { a with throttle_per_security_in_sec := Function.update a.throttle_per_security_in_sec sid t }
  else a

/-- The static function `UpdateThrottle(ord)`. -/
def UpdateThrottle (env : Env) (ord : Order) (s : Engine) : Engine :=
  let tm := env.time
  let sid := (Engine.secOf ord).id
  let s :=
    match ord.sub_account.bind s.sub_accounts_ with
    | none => s
    | some a =>
      let a : SubAccount := { a with toAccountBase := updateThrottle a.toAccountBase tm sid }
      { s with sub_accounts_ := Function.update s.sub_accounts_ (ord.sub_account.getD 0) (some a) }
  let s :=
    match ord.broker_account.bind s.broker_accounts_ with
    | none => s
    | some a =>
      let a : BrokerAccount := { a with toAccountBase := updateThrottle a.toAccountBase tm sid }
      let id := ord.broker_account.getD 0
      { s with broker_accounts_ := Function.update s.broker_accounts_ id (some a) }
  match ord.user.bind s.users_ with
  | none => s
  | some a =>
    let a : User := { a with toAccountBase := updateThrottle a.toAccountBase tm sid }
    { s with users_ := Function.update s.users_ (ord.user.getD 0) (some a) }

/-- The static function `CheckAdapter(adapter, name)`: `none` when it returns true, the text it
stores in `kRiskError` when it returns false. -/
def CheckAdapter (env : Env) (adapter : Option Nat) (name : String) : Option String :=
  match adapter with
  | none => some ("Exchange connectivity adapter '" ++ name ++ "' is not started")
  | some a =>
    if !env.connected a then
      some ("Exchange connectivity adapter '" ++ name ++ "' is disconnected")
    else none

/-- The statements `kRiskError = ...; HandleConfirmation(ord, kRiskRejected, kRiskError);
return false;` shared by the rejecting branches of `Place` and `Cancel`. -/
def reject (env : Env) (p : Ptr) (err : String) (s : Engine) : Bool × Engine :=
  let s := { s with kRiskError := err }
  (false, HandleConfirmation env p kRiskRejected s.kRiskError 0 s)

end ExchangeConnectivity

namespace ExchangeConnectivityManager

open ExchangeConnectivity

/-- The statements of `Place` from the call of `RiskManager::Check` to the end. -/
def Place.submit (env : Env) (p : Ptr) (adapter : Option Nat) (s : Engine) : Bool × Engine :=
  match RiskManager.Check env (s.heap p) s with
  | some e => reject env p e s
  | none =>
    let s := s.store p { s.heap p with leaves_qty := (s.heap p).qty }
    let r := GlobalOrderBook.NewOrderId s
    let s := r.2.store p { r.2.heap p with id := r.1 }
    let s := s.store p { s.heap p with tm := env.NowUtcInMicro }
    let s := HandleConfirmation env p kUnconfirmedNew "" (s.heap p).tm s
    let s := { s with
      adapter_calls := s.adapter_calls ++ [AdapterCall.place (adapter.getD 0) (s.heap p)] }
    let s := { s with kRiskError := env.adapterPlace (adapter.getD 0) (s.heap p) }
    if s.kRiskError.isEmpty then (true, UpdateThrottle env (s.heap p) s)
    else (false, HandleConfirmation env p kRiskRejected s.kRiskError 0 s)

/-- The statements of `Place` that follow the assignment of `ord->broker_account`. -/
def Place.routed (env : Env) (p : Ptr) (s : Engine) : Bool × Engine :=
  if (s.heap p).type = kOTC then
    let r := GlobalOrderBook.NewOrderId s
    let s := r.2.store p { r.2.heap p with id := r.1 }
    let s := s.store p { s.heap p with leaves_qty := (s.heap p).qty }
    let s := HandleConfirmation env p kUnconfirmedNew "" 0 s
    let s := HandleConfirmationFill env p (s.heap p).qty (s.heap p).price
      ("OTC-" ++ toString (s.heap p).id) env.NowUtcInMicro false kTransNew s
    (true, s)
  else
    let adapter := (s.brokerAccountOf (s.heap p)).adapter
    let name := (s.brokerAccountOf (s.heap p)).adapter_name
    match CheckAdapter env adapter name with
    | some e => reject env p e s
    | none =>
      if (s.heap p).type = kMarket ∨ (s.heap p).type = kStop then
        if (s.heap p).price ≤ 0 then
          let s := s.store p
            { s.heap p with price := env.CurrentPrice (Engine.secOf (s.heap p)).id }
          if (s.heap p).price ≤ 0 then
            reject env p "Can not find last price for this security" s
          else Place.submit env p adapter s
        else Place.submit env p adapter s
      else if (s.heap p).price ≤ 0 then
        reject env p "Price can not be empty for limit order" s
      else Place.submit env p adapter s

/-- The method `ExchangeConnectivityManager::Place`; `p` is the `Order*` argument. -/
def Place (env : Env) (p : Ptr) (s : Engine) : Bool × Engine :=
  let s := { s with kRiskError := "" }
  let ord := s.heap p
  if ord.sub_account.isNone then (false, s)
  else if ord.sec.isNone then (false, s)
  else if ord.user.isNone then (false, s)
  else if !(s.userOf ord).sub_accounts (ord.sub_account.getD 0) then
    reject env p ("Not permissioned to trade with sub account: " ++ (s.subAccountOf ord).name) s
  else
    let brokers := (s.subAccountOf ord).broker_accounts
    let exchange := (Engine.secOf ord).exchange
    let it := match brokers exchange.id with
      | some b => some b
      | none => brokers 0
    match it with
    | none => reject env p ("Not permissioned to trade on exchange: " ++ exchange.name) s
    | some b => Place.routed env p (s.store p { ord with broker_account := some b })

/-- The method `ExchangeConnectivityManager::Cancel`; `p` is the address of `orig_ord`. -/
def Cancel (env : Env) (p : Ptr) (s : Engine) : Bool × Engine :=
  let s := { s with kRiskError := "" }
  let orig_ord := s.heap p
  if !orig_ord.IsLive then (false, s)
  else if orig_ord.sub_account.isNone then (false, s)
  else if orig_ord.sec.isNone then (false, s)
  else if orig_ord.user.isNone then (false, s)
  else if orig_ord.broker_account.isNone then (false, s)
  else
    let adapter := (s.brokerAccountOf orig_ord).adapter
    let name := (s.brokerAccountOf orig_ord).adapter_name
    let r := s.alloc
      { orig_ord with orig_id := orig_ord.id, status := kUnconfirmedCancel,
                      tm := env.NowUtcInMicro }
    let cancel_order := r.1
    let s := r.2
    let failed : Option String :=
      match CheckAdapter env adapter name with
      | some e => some e
      | none => RiskManager.CheckMsgRate env orig_ord s
    match failed with
    | some e => reject env cancel_order e s
    | none =>
      let s := HandleConfirmation env cancel_order kUnconfirmedCancel "" (s.heap cancel_order).tm s
      let r := GlobalOrderBook.NewOrderId s
      let s := r.2.store cancel_order { r.2.heap cancel_order with id := r.1 }
      let s := { s with
        adapter_calls :=
          s.adapter_calls ++ [AdapterCall.cancel (adapter.getD 0) (s.heap cancel_order)] }
      let s := { s with kRiskError := env.adapterCancel (adapter.getD 0) (s.heap cancel_order) }
      if s.kRiskError.isEmpty then (true, UpdateThrottle env (s.heap p) s)
      else (false, HandleConfirmation env cancel_order kRiskRejected s.kRiskError 0 s)

end ExchangeConnectivityManager

/-! ## order.cc: cold recovery -/

namespace GlobalOrderBook

/-- One iteration of the loop of `GlobalOrderBook::LoadStore(seq0, conn)` with `conn == nullptr`,
on a record that passed the framing checks.  A record whose body does not have the shape that its
exec-type prescribes is skipped, as a record on which `sscanf` fails is.  `none` is the end of the
process: for a New record whose order id is unknown the source logs an error and then
dereferences the null order. -/
def LoadStore.step (seq0 : Nat) (s : Engine) (r : Record) : Option Engine :=
  let s := { s with seq_counter_ := r.seq }
  if r.seq ≤ seq0 then some s
  else
    match r.exec_type, r.body with
    | kNew, Body.new id tm id_str =>
      match Get s id with
      | none => none
      | some ord =>
        some (Handle { exec_type := r.exec_type, order := ord, transaction_time := tm,
                       order_id := id_str } true s)
    | kPartiallyFilled, Body.fill id tm last_shares last_px exec_trans_type exec_id
    | kFilled, Body.fill id tm last_shares last_px exec_trans_type exec_id =>
      let d := IsDupExecId exec_id s
      if d.1 then some d.2
      else
        let s := d.2
        match Get s id with
        | none => some s
        | some ord =>
          some (Handle { exec_type := r.exec_type, order := ord, transaction_time := tm,
                         last_shares := last_shares, last_px := last_px,
                         exec_trans_type := exec_trans_type, exec_id := exec_id } true s)
    | kPendingNew, Body.text id tm text
    | kPendingCancel, Body.text id tm text
    | kCancelRejected, Body.text id tm text
    | kCanceled, Body.text id tm text
    | kRejected, Body.text id tm text
    | kExpired, Body.text id tm text
    | kCalculated, Body.text id tm text
    | kDoneForDay, Body.text id tm text =>
      match Get s id with
      | none => some s
      | some ord =>
        some (Handle { exec_type := r.exec_type, order := ord, transaction_time := tm,
                       text := text } true s)
    | kUnconfirmedNew, Body.unconfirmedNew id tm algo_id qty price stop_price side type tif sec_id
        user_id broker_account_id =>
      match s.securities_ sec_id with
      | none => some s
      | some sec =>
        match s.users_ user_id with
        | none => some s
        | some _ =>
          match s.sub_accounts_ r.sub_account_id with
          | none => some s
          | some _ =>
            let broker_account := (s.broker_accounts_ broker_account_id).map fun _ =>
              broker_account_id
            let a := s.alloc
              { id := id, algo_id := algo_id, qty := qty, leaves_qty := qty, price := price,
                stop_price := stop_price, side := side, type := type, tif := tif,
                sec := some sec, user := some user_id, sub_account := some r.sub_account_id,
                broker_account := broker_account, tm := tm }
            let s := Handle { exec_type := r.exec_type, order := a.1, transaction_time := tm }
              true a.2
            some (if id > s.order_id_counter_ then { s with order_id_counter_ := id } else s)
    | kUnconfirmedCancel, Body.unconfirmedCancel id tm orig_id =>
      match Get s orig_id with
      | none => some s
      | some orig_ord =>
        let a := s.alloc
          { s.heap orig_ord with id := id, orig_id := orig_id, status := kUnconfirmedCancel,
                                 tm := tm }
        let s := a.2
        let s := if id > s.order_id_counter_ then { s with order_id_counter_ := id } else s
        some (Handle { exec_type := r.exec_type, order := a.1, transaction_time := tm } true s)
    | kRiskRejected, Body.riskRejected id text =>
      match Get s id with
      | none => some s
      | some ord => some (Handle { exec_type := r.exec_type, order := ord, text := text } true s)
    | _, _ => some s

/-- The method `GlobalOrderBook::LoadStore(seq0, conn)` with `conn == nullptr` (cold recovery):
the records of the journal file are dispatched in file order.  The file is the one `of_` appends
to. -/
def LoadStore (seq0 : Nat) (s : Engine) : Option Engine :=
  s.of_.foldlM (LoadStore.step seq0) s

/-- The method `GlobalOrderBook::Initialize`: the journal is opened for appending and replayed
with `LoadStore()`, then the two counters are advanced.  `1e5` and `1e7` are the doubles 100000 and
10000000; the sums are taken to stay below `2^32`, where the arithmetic in `double` and the
conversion back to the 32-bit counter are exact. -/
def Initialize (env : Env) (s : Engine) : Option Engine :=
  match LoadStore 0 s with
  | none => none
  | some s =>
    let now := env.localtime
    let secs := now.tm_hour * 3600 + now.tm_min * 60 + now.tm_sec
    let min_counter := now.tm_wday * 10000000 + secs * 50
    let s := { s with order_id_counter_ := s.order_id_counter_ + 100000 }
    let s := if s.order_id_counter_ < min_counter then { s with order_id_counter_ := min_counter }
      else s
    some { s with seq_counter_ := s.seq_counter_ + 1000 }

end GlobalOrderBook

/-! ## Vocabulary of the specification -/

/-- The terminal statuses named by the specification: Filled, Canceled, Rejected, RiskRejected,
Expired, Calculated, DoneForDay. -/
def OrderStatus.IsTerminal (st : OrderStatus) : Bool :=
  st == kFilled || st == kCanceled || st == kRejected || st == kRiskRejected ||
    st == kExpired || st == kCalculated || st == kDoneForDay

/-- The exec-types whose branch of `UpdateOrder` zeroes `leaves_qty`. -/
def OrderStatus.IsFinish (st : OrderStatus) : Bool :=
  st == kRiskRejected || st == kCanceled || st == kRejected ||
    st == kExpired || st == kCalculated || st == kDoneForDay

/-- A confirmation of exec-type PartiallyFilled or Filled. -/
def Confirmation.IsFill (cm : Confirmation) : Bool :=
  cm.exec_type == kPartiallyFilled || cm.exec_type == kFilled

/-- An order as `Place` hands it to the book with its UnconfirmedNew confirmation: a positive
quantity, `leaves_qty = qty`, nothing filled yet. -/
def Order.Placed (o : Order) : Prop :=
  0 < o.qty ∧ o.leaves_qty = o.qty ∧ o.cum_qty = 0 ∧ o.avg_px = 0 ∧ o.status = kUnconfirmedNew

/-- Sum of `last_shares` over the fill confirmations with `exec_trans_type = new`. -/
def sumNew (cms : List Confirmation) : ℚ :=
  ((cms.filter fun cm => cm.IsFill && cm.exec_trans_type == kTransNew).map
    fun cm => cm.last_shares).sum

/-- Sum of `last_shares` over the fill confirmations with `exec_trans_type = cancel`. -/
def sumCancel (cms : List Confirmation) : ℚ :=
  ((cms.filter fun cm => cm.IsFill && cm.exec_trans_type == kTransCancel).map
    fun cm => cm.last_shares).sum

/-- No bust of the stream is larger than the `cum_qty` the order has when the bust is applied. -/
def NoOverBust : Order → List Confirmation → Prop
  | _, [] => True
  | o, cm :: cms =>
    ((cm.IsFill && cm.exec_trans_type == kTransCancel) = true → cm.last_shares ≤ o.cum_qty) ∧
      NoOverBust (GlobalOrderBook.UpdateOrder.onOrder cm o) cms

/-- Every new-type fill of the stream is applied while the order is live and carries at most the
`leaves_qty` the order has at that moment. -/
def FillsWhileLive : Order → List Confirmation → Prop
  | _, [] => True
  | o, cm :: cms =>
    ((cm.IsFill && cm.exec_trans_type == kTransNew) = true →
        o.IsLive = true ∧ cm.last_shares ≤ o.leaves_qty) ∧
      FillsWhileLive (GlobalOrderBook.UpdateOrder.onOrder cm o) cms

/-- A whole number. -/
def IsWhole (x : ℚ) : Prop := x.den = 1

/-- No result of the arithmetic that `UpdateOrder` does on the quantities of the order for this
confirmation is rounded: each is a binary64 number as it stands. -/
def ExactQty (cm : Confirmation) (o : Order) : Prop :=
  cm.IsFill = true →
    (cm.exec_trans_type = kTransNew →
      IsDouble (o.cum_qty + cm.last_shares) ∧ IsDouble (o.leaves_qty - cm.last_shares)) ∧
    (cm.exec_trans_type = kTransCancel → cm.last_shares < o.cum_qty →
      IsDouble (o.cum_qty - cm.last_shares))

/-- No result of the arithmetic that `UpdateOrder` does for the average price of the order for
this confirmation is rounded. -/
def ExactPx (cm : Confirmation) (o : Order) : Prop :=
  cm.IsFill = true →
    (cm.exec_trans_type = kTransNew →
      IsDouble (o.avg_px * o.cum_qty) ∧ IsDouble (cm.last_px * cm.last_shares) ∧
      IsDouble (o.avg_px * o.cum_qty + cm.last_px * cm.last_shares) ∧
      IsDouble ((o.avg_px * o.cum_qty + cm.last_px * cm.last_shares) /
        (o.cum_qty + cm.last_shares))) ∧
    (cm.exec_trans_type = kTransCancel → cm.last_shares < o.cum_qty →
      IsDouble (o.avg_px * o.cum_qty) ∧ IsDouble (cm.last_px * cm.last_shares) ∧
      IsDouble (o.avg_px * o.cum_qty - cm.last_px * cm.last_shares) ∧
      IsDouble ((o.avg_px * o.cum_qty - cm.last_px * cm.last_shares) /
        (o.cum_qty - cm.last_shares)))

/-- No result of the arithmetic of `UpdateOrder` is rounded along the stream. -/
def NoRounding : Order → List Confirmation → Prop
  | _, [] => True
  | o, cm :: cms =>
    ExactQty cm o ∧ ExactPx cm o ∧ NoRounding (GlobalOrderBook.UpdateOrder.onOrder cm o) cms

/-- The quantities of the order are whole numbers, and with new-type fills of `b` in total still
to come no sum or difference leaves the range in which every whole number is a binary64
number. -/
def WholeQty (o : Order) (b : ℚ) : Prop :=
  IsWhole o.cum_qty ∧ IsWhole o.leaves_qty ∧ 0 ≤ o.cum_qty ∧ o.cum_qty + b ≤ 2 ^ 53 ∧
    -(2 ^ 53) ≤ o.leaves_qty - b ∧ o.leaves_qty ≤ 2 ^ 53

/-- A fill confirmation as `HandleFill` accepts and builds it: positive quantity and price,
transaction type new or cancel. -/
def Confirmation.Accepted (cm : Confirmation) : Prop :=
  cm.IsFill = true ∧ 0 < cm.last_shares ∧ 0 < cm.last_px ∧
    (cm.exec_trans_type = kTransNew ∨ cm.exec_trans_type = kTransCancel)

/-- The list of fills without the first occurrence of the fill `x`. -/
def removeFill (x : ℚ × ℚ) : List (ℚ × ℚ) → List (ℚ × ℚ)
  | [] => []
  | y :: ys => if y = x then ys else y :: removeFill x ys

/-- Every bust of the stream carries the quantity and price of an earlier fill of the stream that
no earlier bust has reversed; `open_` lists the fills `(last_shares, last_px)` not yet reversed. -/
def Matched : List (ℚ × ℚ) → List Confirmation → Prop
  | _, [] => True
  | open_, cm :: cms =>
    if cm.exec_trans_type = kTransNew then Matched ((cm.last_shares, cm.last_px) :: open_) cms
    else (cm.last_shares, cm.last_px) ∈ open_ ∧
      Matched (removeFill (cm.last_shares, cm.last_px) open_) cms

/-- A call that reaches the execution-id guard set: `IsDupExecId(exec_id)` itself (as `LoadStore`
makes it) or a `HandleFill` of an adapter. -/
inductive GuardCall where
  | dup (exec_id : String)
  | fill (env : Env) (id : Nat) (qty price : ℚ) (exec_id : String) (tm : Int)
      ( is_partial : Bool) (exec_trans_type : ExecTransType)

/-- The engine after one call. -/
def GuardCall.run : GuardCall → Engine → Engine
  | GuardCall.dup y, s => (GlobalOrderBook.IsDupExecId y s).2
  | GuardCall.fill env id qty price y tm ip tt, s =>
    ExchangeConnectivityAdapter.HandleFill env id qty price y tm ip tt s

/-- The engine after a sequence of calls. -/
def GuardCall.runAll (calls : List GuardCall) (s : Engine) : Engine :=
  calls.foldl (fun s c => c.run s) s

/-! ## Example data -/

/-- An engine whose heap holds, at every address, a buy order of quantity 100 in the state in which
`Place` hands it to the book (`leaves_qty = qty`, nothing filled, status UnconfirmedNew). -/
def exPlaced100 : Engine := { heap := fun _ => { qty := 100, leaves_qty := 100 } }

/-- An engine whose heap holds, at every address, a buy order of quantity 3.6 (the binary64 number
that the literal stands for) in the state in which `Place` hands it to the book. -/
def exPlacedDecimal : Engine :=
  { heap := fun _ => { qty := Double.round (18 / 5), leaves_qty := Double.round (18 / 5) } }

/-- An engine whose heap holds, at every address, a buy order of quantity 100 of which 50 are
filled at price 10. -/
def exPartlyFilled : Engine :=
  { heap := fun _ =>
      { qty := 100, leaves_qty := 50, cum_qty := 50, avg_px := 10, status := kPartiallyFilled } }

/-- A stream of accepted fills: 60 at price 10, 20 at price 12, then the bust of the first fill. -/
def exMatchedFills : List Confirmation :=
  [{ exec_type := kPartiallyFilled, last_shares := 60, last_px := 10 },
    { exec_type := kPartiallyFilled, last_shares := 20, last_px := 12 },
    { exec_type := kPartiallyFilled, exec_trans_type := kTransCancel, last_shares := 60,
      last_px := 10 }]

/-- A stream of accepted fills in which the bust carries the quantity and price of the first
fill: 1 at price `10 ^ 16`, 1 at price 1, then the bust of the first fill. -/
def exRoundedFills : List Confirmation :=
  [{ exec_type := kPartiallyFilled, last_shares := 1, last_px := 10000000000000000 },
    { exec_type := kPartiallyFilled, last_shares := 1, last_px := 1 },
    { exec_type := kPartiallyFilled, exec_trans_type := kTransCancel, last_shares := 1,
      last_px := 10000000000000000 }]

/-- A security on exchange 1. -/
def exSecurity : Security := { id := 1, exchange := { id := 1, name := "X" } }

/-- An engine with the reference data of one user (id 1) who owns sub-account 1, whose broker
account for exchange 1 is broker account 1 with the adapter of handle 0, named `sim`. -/
def exReference : Engine :=
  { securities_ := fun i => if i = 1 then some exSecurity else none,
    users_ := fun i => if i = 1 then some { id := 1, sub_accounts := fun a => a == 1 } else none,
    sub_accounts_ := fun i =>
      if i = 1 then some { id := 1, broker_accounts := fun e => if e = 1 then some 1 else none }
      else none,
    broker_accounts_ := fun i =>
      if i = 1 then some { id := 1, adapter_name := "sim", adapter := some 0 } else none }

/-- The engine `exReference` in which the caller of `Place` has built, at address 0, a limit order
to buy 100 at price 10 for user 1 and sub-account 1. -/
def exBeforePlace : Engine :=
  { exReference with
    heap := fun _ =>
      { qty := 100, price := 10, sec := some exSecurity, sub_account := some 1, user := some 1 },
    heap_end := 1 }

/-- An environment whose adapter 0 is connected and accepts every order. -/
def exConnected : Env := { NowUtcInMicro := 1000, time := 1, connected := fun _ => true }

/-- An environment whose adapter 0 is disconnected. -/
def exDisconnected : Env := { NowUtcInMicro := 2000, time := 2, connected := fun _ => false }

/-- The engine after the order of `exBeforePlace` has been placed. -/
def exPlacedBook : Engine := (ExchangeConnectivityManager.Place exConnected 0 exBeforePlace).2

/-- The live run: the order is placed while the adapter is connected, then the adapter
disconnects and a cancel of the order is requested. -/
def exLive : Engine := (ExchangeConnectivityManager.Cancel exDisconnected 0 exPlacedBook).2

/-- A restarted engine: the reference data is loaded, the book is empty, and the journal file is
the one the live run wrote. -/
def exReplayStart : Engine := { exReference with of_ := exLive.of_ }

/-- The journal of the replay scenario of the specification: UnconfirmedNew(id 7, qty 200,
price 5), New(7), PartiallyFilled(7, 80 at 5, execution id E3, new). -/
def exWitnessJournal : List Record :=
  [{ seq := 1, sub_account_id := 1, exec_type := kUnconfirmedNew,
     body := Body.unconfirmedNew 7 1000 0 200 5 0 kBuy kLimit kDay 1 1 1 },
   { seq := 2, sub_account_id := 1, exec_type := kNew, body := Body.new 7 1001 "V7" },
   { seq := 3, sub_account_id := 1, exec_type := kPartiallyFilled,
     body := Body.fill 7 1002 80 5 kTransNew "E3" }]

/-- The signed quantity that `Position::HandleTrade` passes to `HandlePnl` and adds to the
position: negative for a sell or short, with the sign turned once more for a bust. -/
def signedTradeQty (is_buy : Bool) (qty : ℚ) (is_bust : Bool) : ℚ :=
  let qty := if !is_buy then -qty else qty
  if is_bust then -qty else qty

/-- The signed fill quantity of a confirmation on an order: `last_shares` of a fill counted
positive for a buy and negative for a sell or short, with the opposite sign for a bust; zero for
every other confirmation. -/
def signedFillQty (o : Order) (cm : Confirmation) : ℚ :=
  if cm.IsFill then
    if cm.exec_trans_type = kTransNew then (if o.IsBuy then cm.last_shares else -cm.last_shares)
    else if cm.exec_trans_type = kTransCancel then
      (if o.IsBuy then -cm.last_shares else cm.last_shares)
    else 0
  else 0

/-- The state of a process that has just started, before `GlobalOrderBook::Initialize` runs: the
members of the order book hold their initial values, the journal file is the one on disk, and
`ref` gives what was loaded before (reference data, beginning-of-day positions). -/
def Engine.newProcess (ref : Engine) (file : List Record) : Engine :=
  { ref with heap := fun _ => {}, heap_end := 0, orders_ := fun _ => none, order_id_counter_ := 0,
             seq_counter_ := 0, exec_ids_ := [], of_ := file, published := [], kRiskError := "",
             adapter_calls := [] }

/-- What happens to the journal over its lifetime: a confirmation goes through
`GlobalOrderBook::Handle` while the rest of the memory is `mem`, whatever the other operations
made of it; or the process ends and a new one starts and runs `GlobalOrderBook::Initialize`. -/
inductive JournalEvent where
  | handle (mem : Engine) (cm : Confirmation)
  | restart (ref : Engine) (env : Env)

/-- The effect of one event on the engine; `none` is a start-up that does not complete. -/
def JournalEvent.run (s : Engine) : JournalEvent → Option Engine
  | JournalEvent.handle mem cm =>
    some (GlobalOrderBook.Handle cm false { mem with of_ := s.of_, seq_counter_ := s.seq_counter_ })
  | JournalEvent.restart ref env => GlobalOrderBook.Initialize env (Engine.newProcess ref s.of_)

/-- The events of a lifetime, one after the other. -/
def JournalEvent.runAll (evs : List JournalEvent) (s : Engine) : Option Engine :=
  evs.foldlM JournalEvent.run s

/-- The seq of the last record of a journal, `none` for an empty one. -/
def lastSeq (file : List Record) : Option Nat := file.getLast?.map Record.seq

/-- The engine `exReference` with the order of `exBeforePlace` as `Place` holds it right after
giving it the id 1. -/
def exOrderInBook : Engine :=
  { exReference with
    heap := fun _ =>
      { qty := 100, price := 10, leaves_qty := 100, sec := some exSecurity, sub_account := some 1,
        user := some 1, broker_account := some 1, id := 1 },
    heap_end := 1 }

/-- A lifetime of the journal: order 1 is accepted (UnconfirmedNew), suspended and confirmed
(New); the process restarts; the order is then reported PendingCancel. -/
def exLifetime : List JournalEvent :=
  [JournalEvent.handle exOrderInBook { order := 0, exec_type := kUnconfirmedNew },
   JournalEvent.handle exOrderInBook { order := 0, exec_type := kSuspended },
   JournalEvent.handle exOrderInBook { order := 0, exec_type := kNew, order_id := "X1" },
   JournalEvent.restart exReference {},
   JournalEvent.handle exOrderInBook { order := 0, exec_type := kPendingCancel }]

/-- The engine with another journal file in place of its own. -/
def Engine.withFile (s : Engine) (file : List Record) : Engine := { s with of_ := file }

/-- The seconds of the day `tm_hour * 3600 + tm_min * 60 + tm_sec` of a local time. -/
def Tm.secs (now : Tm) : Nat := now.tm_hour * 3600 + now.tm_min * 60 + now.tm_sec

/-- The time-based floor `day_of_week * 10^7 + seconds_of_day * 50` of the order-id counter. -/
def Tm.min_counter (now : Tm) : Nat := now.tm_wday * 10 ^ 7 + now.secs * 50

/-- The order id that a journal record carries in its body. -/
def Body.id : Body → Nat
  | Body.new id _ _ => id
  | Body.fill id _ _ _ _ _ => id
  | Body.text id _ _ => id
  | Body.unconfirmedNew id _ _ _ _ _ _ _ _ _ _ _ => id
  | Body.unconfirmedCancel id _ _ => id
  | Body.riskRejected id _ => id

/-- The maximum order id found in a journal, 0 for an empty one. -/
def maxJournalId (file : List Record) : Nat := (file.map fun r => r.body.id).foldl max 0

/-- A journal whose only record is the UnconfirmedNew of order 3000001 on security 9, which the
reference data of `exReference` does not hold. -/
def exSkippedJournal : List Record :=
  [{ seq := 1, sub_account_id := 1, exec_type := kUnconfirmedNew,
     body := Body.unconfirmedNew 3000001 0 0 100 10 0 kBuy kLimit kDay 9 1 1 }]

/-- A journal whose only record is the UnconfirmedNew of order 1 (buy 100 at 10 on security 1 for
user 1, sub-account 1 and broker account 1). -/
def exLoadedJournal : List Record :=
  [{ seq := 1, sub_account_id := 1, exec_type := kUnconfirmedNew,
     body := Body.unconfirmedNew 1 0 0 100 10 0 kBuy kLimit kDay 1 1 1 }]

/-- The order-quantity limit of the sub-account, of the broker account or of the user of an order
is set (positive) and below the quantity of the order. -/
def OrderQtyBreach (ord : Order) (s : Engine) : Prop :=
  (0 < (s.subAccountOf ord).limits.order_qty ∧ (s.subAccountOf ord).limits.order_qty < ord.qty) ∨
  (0 < (s.brokerAccountOf ord).limits.order_qty ∧
    (s.brokerAccountOf ord).limits.order_qty < ord.qty) ∨
  (0 < (s.userOf ord).limits.order_qty ∧ (s.userOf ord).limits.order_qty < ord.qty)

/-- The state that a rejection leaves when the order has no id: the error text is stored and the
RiskRejected confirmation is published; nothing else changes. -/
def rejected (env : Env) (p : Ptr) (e : String) (s : Engine) : Engine :=
  { s with kRiskError := e,
           published := s.published ++
             [{ order := p, exec_type := kRiskRejected, text := e,
                transaction_time := env.NowUtcInMicro }] }

/-- The engine `exReference` in which user 1 has the order-quantity limit 500, and the caller of
`Place` has built, at address 0, a limit order to buy 600 at price 10 for user 1 and
sub-account 1. -/
def exLimit500 : Engine :=
  { exReference with
    users_ := fun i =>
      if i = 1 then
        some { id := 1, sub_accounts := fun a => a == 1, limits := { order_qty := 500 } }
      else none,
    heap := fun _ =>
      { qty := 600, price := 10, sec := some exSecurity, sub_account := some 1, user := some 1 },
    heap_end := 1 }

/-- An environment whose adapter 0 is connected and refuses every cancel request. -/
def exCancelRefused : Env :=
  { NowUtcInMicro := 2000, time := 2, connected := fun _ => true,
    adapterCancel := fun _ _ => "refused" }

/-! ## market_data.h, market_data.cc: the trade snapshot -/

/-- The `struct MarketData::Trade` of market_data.h; `open_` is the member `open`, which is a
keyword here. -/
structure MarketData.Trade where
  open_ : ℚ := 0
  high : ℚ := 0
  low : ℚ := 0
  close : ℚ := 0
  qty : ℚ := 0
  vwap : ℚ := 0
  volume : ℚ := 0
  deriving DecidableEq, Repr

/-- The `struct MarketData::Quote` of market_data.h. -/
structure MarketData.Quote where
  ask_price : ℚ := 0
  ask_size : ℚ := 0
  bid_price : ℚ := 0
  bid_size : ℚ := 0
  deriving DecidableEq, Repr

/-- The `struct MarketData` of market_data.h, with the five levels of `depth`. -/
structure MarketData where
  tm : Int := 0
  trade : MarketData.Trade := {}
  depth : Fin 5 → MarketData.Quote := fun _ => {}

/-- The method `MarketData::quote`: the first level of the depth. -/
def MarketData.quote (md : MarketData) : MarketData.Quote := md.depth 0

/-- The function `UpdatePx` of market_data.cc. -/
def UpdatePx (px : ℚ) (t : MarketData.Trade) : MarketData.Trade :=
  let t := if t.open_ = 0 then { t with open_ := px } else t
  let t := if px > t.high then { t with high := px } else t
  let t := if px < t.low ∨ t.low = 0 then { t with low := px } else t
  { t with close := px }

/-- The function `UpdateVolume` of market_data.cc. -/
def UpdateVolume (qty : ℚ) (t : MarketData.Trade) : MarketData.Trade :=
  let t := { t with vwap := (t.volume * t.vwap + t.close * qty) / (t.volume + qty) }
  let t := { t with volume := t.volume + qty }
  { t with qty := qty }

/-- The members of `class MarketDataAdapter` that a trade update touches: the source id and the
map `*md_` of snapshots by security id (an absent key reads as the default snapshot, which is what
`operator[]` inserts). -/
structure MarketDataAdapter where
  src_ : Nat := 0
  md_ : Nat → MarketData := fun _ => {}

/-- The method `MarketDataAdapter::Update(id, last_price, last_qty)`.  The notification of the
algo runners that ends the method reads the snapshot and does not write it. -/
def MarketDataAdapter.Update (env : Env) (id : Nat) (last_price last_qty : ℚ)
    (a : MarketDataAdapter) : MarketDataAdapter :=
  let md := a.md_ id
  let md := { md with tm := env.time }
  let t := md.trade
  let t := if last_price > 0 then UpdatePx last_price t else t
  let t := if last_qty > 0 then UpdateVolume last_qty t else t
  { a with md_ := Function.update a.md_ id { md with trade := t } }

/-! ## market_data.h: source tags -/

/-- The function `DataSrc::GetId`.  The argument is the C string without its terminating NUL (the
null pointer and the empty string both read as `[]`); a `char` is the signed value it has where
`char` is signed (a byte `b` above 127 reads as `b - 256`), and the arithmetic is that of
`uint32_t`. -/
def DataSrc.GetId : List Int → Nat
  | [] => 0
  | [c] => (c % 2 ^ 32).toNat
  | c :: rest => ((((DataSrc.GetId rest * 2 ^ 8 % 2 ^ 32 : Nat) : Int) + c) % 2 ^ 32).toNat

/-- The byte `id & 0xFF` stored into a `char`. -/
def DataSrc.toChar (b : Nat) : Int := if b < 128 then (b : Int) else (b : Int) - 256

/-- The loop of `DataSrc::GetStr`: the bytes written into `str`, at most `n` of them. -/
def DataSrc.GetStr.loop : Nat → Nat → List Int
  | 0, _ => []
  | n + 1, id =>
    if id = 0 then [] else DataSrc.toChar (id % 256) :: DataSrc.GetStr.loop n (id / 2 ^ 8)

/-- The function `DataSrc::GetStr`: the C string that starts at `str`, which ends at the first
NUL. -/
def DataSrc.GetStr (id : Nat) : List Int :=
  (DataSrc.GetStr.loop 4 id).takeWhile fun c => c != 0

/-! ## security.h, security.cc: the tick-size ladder and the session windows -/

/-- The `operator<` of `TickSizeTuple`: the lower bounds are compared, nothing else. -/
def Exchange.TickSizeTuple.lt (a b : Exchange.TickSizeTuple) : Bool :=
  a.lower_bound < b.lower_bound

/-- The loop of `std::lower_bound` on a vector: `first` is the index the search has reached and
`len` the number of elements still in play; the result is the index of the iterator returned. -/
def lower_bound.loop (table : List Exchange.TickSizeTuple) (t : Exchange.TickSizeTuple) :
    Nat → Nat → Nat
  | first, 0 => first
  | first, len + 1 =>
    let half := (len + 1) / 2
    let middle := first + half
    if (table.getD middle {}).lt t then lower_bound.loop table t (middle + 1) (len + 1 - half - 1)
    else lower_bound.loop table t first half
termination_by _ len => len
decreasing_by
  all_goals simp_wf
  all_goals omega

/-- The call `std::lower_bound(table->begin(), table->end(), t)`, as an index into the table;
the index `table.length` is `table->end()`. -/
def lower_bound (table : List Exchange.TickSizeTuple) (t : Exchange.TickSizeTuple) : Nat :=
  lower_bound.loop table t 0 table.length

/-- The method `Exchange::GetTickSize`. -/
def Exchange.GetTickSize (e : Exchange) (ref : ℚ) : ℚ :=
  match e.tick_size_table with
  | none => 0
  | some table =>
    let t : Exchange.TickSizeTuple := { lower_bound := ref }
    let it := lower_bound table t
    if it = table.length then 0 else (table.getD it {}).value

/-- The method `Security::GetTickSize`. -/
def Security.GetTickSize (sec : Security) (px : ℚ) : ℚ :=
  if sec.tick_size > 0 then sec.tick_size else sec.exchange.GetTickSize px

/-- The method `Exchange::IsInTradePeriod`; `t` is the value that `GetTime()` reads from the
clock, the seconds since midnight of the exchange's local time. -/
def Exchange.IsInTradePeriod (e : Exchange) (t : Int) : Bool :=
  (e.break_start ≤ 0 || (t > e.break_start && t < e.break_end)) &&
    (e.trade_start ≤ 0 || (t > e.trade_start && t < e.trade_end))

/-- The method `Security::IsInTradePeriod`. -/
def Security.IsInTradePeriod (sec : Security) (t : Int) : Bool := sec.exchange.IsInTradePeriod t

/-! ## Example data: market data -/

/-- A ladder of three disjoint intervals sorted by lower bound: prices up to 9.99 tick by 0.01,
prices from 10 to 99.99 by 0.05, prices from 100 to 100000 by 0.1. -/
def exLadder : List Exchange.TickSizeTuple :=
  [{ lower_bound := 0, upper_bound := 999 / 100, value := 1 / 100 },
   { lower_bound := 10, upper_bound := 9999 / 100, value := 5 / 100 },
   { lower_bound := 100, upper_bound := 100000, value := 1 / 10 }]

/-- An exchange with the ladder `exLadder`, a trade window from 09:00 to 15:00 and a break from
11:30 to 12:30 (seconds since midnight). -/
def exTokyo : Exchange :=
  { id := 1, name := "X", tick_size_table := some exLadder,
    trade_start := 32400, trade_end := 54000, break_start := 41400, break_end := 45000 }

/-! ## algo.h, algo.cc: algos, instruments and the algo manager -/

/-- The `struct Contract` of order.h (without the map of optional values). -/
structure Contract where
  qty : ℚ := 0
  price : ℚ := 0
  stop_price : ℚ := 0
  sec : Option Security := none
  sub_account : Option Nat := none
  side : OrderSide := kBuy
  type : OrderType := kLimit
  tif : TimeInForce := kDay
  deriving DecidableEq, Repr

/-- The `class Instrument` of algo.h.  `algo_` is the id of the algo that `algo_` points to,
`active_orders_` lists the addresses of the set of active orders in ascending order, which is the
order in which the set is iterated; the market data behind `md_` is passed to the code that reads
it. -/
structure Instrument where
  algo_ : Nat := 0
  sec_ : Security := {}
  src_ : Nat := 0
  active_orders_ : List Ptr := []
  bought_qty_ : ℚ := 0
  sold_qty_ : ℚ := 0
  outstanding_buy_qty_ : ℚ := 0
  outstanding_sell_qty_ : ℚ := 0
  deriving DecidableEq, Repr

/-- The method `Instrument::total_qty`. -/
def Instrument.total_qty (inst : Instrument) : ℚ := Double.add inst.bought_qty_ inst.sold_qty_

/-- The method `Instrument::total_outstanding_qty`. -/
def Instrument.total_outstanding_qty (inst : Instrument) : ℚ :=
  Double.add inst.outstanding_buy_qty_ inst.outstanding_sell_qty_

/-- The method `Instrument::total_exposure`. -/
def Instrument.total_exposure (inst : Instrument) : ℚ :=
  Double.add inst.total_qty inst.total_outstanding_qty

/-- The members of `class Algo` (with the name of its adapter); `user_` is the id of the user and
`instruments_` lists the instruments of the set. -/
structure Algo where
  name : String := ""
  user_ : Nat := 0
  is_active_ : Bool := true
  id_ : Nat := 0
  token_ : String := ""
  instruments_ : List Instrument := []
  deriving DecidableEq, Repr

/-- What an algo does to the outside from within a callback, in the order of the calls. -/
inductive Algo.Action where
  | Stop
  | SetTimeout (milliseconds : Nat)
  | Cancel (ord : Ptr)
  | Place (c : Contract)
  deriving DecidableEq, Repr

/-- A record of the file `store/algos`: the seq, the user id and the algo id of the binary
header, and the values printed into the text (`time ' ' name ' ' status ' ' body`). -/
structure AlgoRecord where
  seq : Nat := 0
  user_id : Nat := 0
  algo_id : Nat := 0
  tm : Int := 0
  name : String := ""
  status : String := ""
  body : String := ""
  deriving DecidableEq, Repr

/-- What a handler posted to a strand runs: the handler of `Spawn` (`OnStart`, then `Stop` when it
fails), of `Handle` (`OnConfirmation` of the algo of the instrument), of `Stop` (`Stop`, hence
`OnStop`), of `SetTimeout` (the timer callback), each for the algo of the given id; or the
runner `i`, which calls `OnMarketTrade` and `OnMarketQuote` of the algo of every instrument
registered with it. -/
inductive Handler where
  | start (algo : Nat)
  | confirmation (algo : Nat)
  | stop (algo : Nat)
  | timeout (algo : Nat)
  | runner (i : Nat)
  deriving DecidableEq, Repr

/-- A `boost::asio::strand`: the handlers posted and not yet run, and the handler that runs now.
A strand runs its handlers one at a time, in the order in which they were posted. -/
structure Strand where
  running : Option Handler := none
  queue : List Handler := []
  deriving DecidableEq, Repr

/-- A thread of the pool takes the next handler of the strand, if the strand is idle. -/
def Strand.run (s : Strand) : Strand :=
  match s.running, s.queue with
  | none, h :: q => { running := some h, queue := q }
  | _, _ => s

/-- The handler that runs on the strand returns. -/
def Strand.done (s : Strand) : Strand := { s with running := none }

/-- The members of `class AlgoManager`: `threads_` is `threads_.size()`, `runners_ i` lists the
instruments registered with the runner `i` (under any key), `of_` is the content of the file
`store/algos`, and `published` is what `Server::Publish(algo, status, body, seq)` was called
with. -/
structure AlgoManager where
  algo_id_counter_ : Nat := 0
  algos_ : List Nat := []
  threads_ : Nat := 1
  strands_ : Nat → Strand := fun _ => {}
  runners_ : Nat → List Instrument := fun _ => []
  seq_counter_ : Nat := 0
  of_ : List AlgoRecord := []
  published : List AlgoRecord := []

/-- The call `strands_[i].post(h)`. -/
def AlgoManager.post (i : Nat) (h : Handler) (m : AlgoManager) : AlgoManager :=
  { m with strands_ :=
      (Function.update m.strands_ i
        { (m.strands_ i) with queue := (m.strands_ i).queue ++ [h] }) }

/-- The method `AlgoManager::Persist`; the task it queues on the write pool runs here. -/
def AlgoManager.Persist (env : Env) (algo : Algo) (status body : String) (m : AlgoManager) :
    AlgoManager :=
  let seq := m.seq_counter_ + 1
  let r : AlgoRecord :=
    { seq := seq, user_id := algo.user_, algo_id := algo.id_, tm := env.time, name := algo.name,
      status := status, body := body }
  { m with seq_counter_ := seq, published := m.published ++ [r], of_ := m.of_ ++ [r] }

/-- The method `AlgoManager::Spawn`.  `adapter` is the name of the adapter that `GetAdapter(name)`
finds (`none` for the null pointer); the algo returned is the one `create_func` makes, with the
members that `Spawn` sets.  The token map is not modelled. -/
def AlgoManager.Spawn (env : Env) (adapter : Option String) (user : Nat)
    (params_raw token : String) (m : AlgoManager) : Option Algo × AlgoManager :=
  match adapter with
  | none => (none, m)
  | some name =>
    let algo : Algo :=
      { name := name, id_ := m.algo_id_counter_ + 1, user_ := user, token_ := token }
    let m := { m with algo_id_counter_ := algo.id_, algos_ := m.algos_ ++ [algo.id_] }
    let m := m.Persist env algo "new" params_raw
    (some algo, m.post (algo.id_ % m.threads_) (Handler.start algo.id_))

/-- The method `AlgoManager::Register`, without the reference counts of the keys. -/
def AlgoManager.Register (inst : Instrument) (m : AlgoManager) : AlgoManager :=
  { m with runners_ :=
      (Function.update m.runners_ (inst.algo_ % m.threads_)
        (m.runners_ (inst.algo_ % m.threads_) ++ [inst])) }

/-- The method `AlgoManager::Handle`, for a confirmation of the order `ord` whose `inst` points to
`inst`: the handler is posted to the strand chosen by the algo id of the order.  The counters of
the instrument, which the method updates before it posts, are not part of the manager. -/
def AlgoManager.Handle (ord : Order) (inst : Instrument) (cm : Confirmation) (m : AlgoManager) :
    AlgoManager :=
  match cm.exec_type with
  | kPartiallyFilled | kFilled | kCanceled | kRejected | kExpired | kCalculated | kDoneForDay
  | kPendingCancel | kCancelRejected =>
    m.post (ord.algo_id % m.threads_) (Handler.confirmation inst.algo_)
  | _ => m

/-- The method `AlgoManager::Stop(id)`. -/
def AlgoManager.Stop (id : Nat) (m : AlgoManager) : AlgoManager :=
  if id ∈ m.algos_ then m.post (id % m.threads_) (Handler.stop id) else m

/-- The method `AlgoManager::Stop()`: every algo is stopped on its strand. -/
def AlgoManager.StopAll (m : AlgoManager) : AlgoManager :=
  m.algos_.foldl (fun m id => m.post (id % m.threads_) (Handler.stop id)) m

/-- The method `AlgoManager::SetTimeout`: the timer completes with the handler wrapped by the
strand, which queues it; the delay is not modelled. -/
def AlgoManager.SetTimeout (id : Nat) (m : AlgoManager) : AlgoManager :=
  m.post (id % m.threads_) (Handler.timeout id)

/-- The method `AlgoManager::Update`: the runner `i` is posted to the strand `i`, for every `i`
below `threads_.size()` for which `should_post i` holds (the runner has the key of the update
subscribed and no dirty key pending). -/
def AlgoManager.Update (should_post : Nat → Bool) (m : AlgoManager) : AlgoManager :=
  (List.range m.threads_).foldl
    (fun m i => if should_post i then m.post i (Handler.runner i) else m) m

/-- What changes the strands of the algo manager: the calls of its methods, from any thread, and
the two moves of the thread pool: a thread takes the next handler of the strand `i` (`run`), and
the handler running on the strand `i` returns (`done`). -/
inductive AlgoEvent where
  | Spawn (env : Env) (adapter : Option String) (user : Nat) (params_raw token : String)
  | Register (inst : Instrument)
  | Handle (ord : Order) (inst : Instrument) (cm : Confirmation)
  | Stop (id : Nat)
  | StopAll
  | SetTimeout (id : Nat)
  | Update (should_post : Nat → Bool)
  | run (i : Nat)
  | done (i : Nat)

/-- The manager after one event. -/
def AlgoEvent.apply (m : AlgoManager) : AlgoEvent → AlgoManager
  | AlgoEvent.Spawn env adapter user params_raw token =>
    (m.Spawn env adapter user params_raw token).2
  | AlgoEvent.Register inst => m.Register inst
  | AlgoEvent.Handle ord inst cm => m.Handle ord inst cm
  | AlgoEvent.Stop id => m.Stop id
  | AlgoEvent.StopAll => m.StopAll
  | AlgoEvent.SetTimeout id => m.SetTimeout id
  | AlgoEvent.Update should_post => m.Update should_post
  | AlgoEvent.run i => { m with strands_ := Function.update m.strands_ i (m.strands_ i).run }
  | AlgoEvent.done i => { m with strands_ := Function.update m.strands_ i (m.strands_ i).done }

/-- The manager after a sequence of events. -/
def AlgoEvent.applyAll (evs : List AlgoEvent) (m : AlgoManager) : AlgoManager :=
  evs.foldl AlgoEvent.apply m

/-- The handler `h` calls a callback of the algo `a`, the runners being those of `m`. -/
def Handler.Calls (m : AlgoManager) (a : Nat) : Handler → Prop
  | Handler.start b => b = a
  | Handler.confirmation b => b = a
  | Handler.stop b => b = a
  | Handler.timeout b => b = a
  | Handler.runner i => ∃ inst ∈ m.runners_ i, inst.algo_ = a

/-- A callback of the algo `a` executes on the strand `i`. -/
def AlgoManager.Executes (m : AlgoManager) (i a : Nat) : Prop :=
  ∃ h, (m.strands_ i).running = some h ∧ h.Calls m a

/-- The orders that reach `AlgoManager::Handle` carry the id of the algo of their instrument, as
`Algo::Place` stamps them and as the handler posted by `Handle` asserts. -/
def AlgoEvent.Stamped : AlgoEvent → Prop
  | AlgoEvent.Handle ord inst _ => ord.algo_id = inst.algo_
  | _ => True

/-- The state of the algos that `Algo::Stop` works on: the engine behind
`ExchangeConnectivityManager`, the algo manager, and the ids of the algos whose `OnStop` has been
called, one entry per call. -/
structure AlgoWorld where
  engine : Engine
  manager : AlgoManager
  on_stop : List Nat

/-- The method `Algo::Cancel`. -/
def Algo.Cancel (env : Env) (ord : Ptr) (s : Engine) : Bool × Engine :=
  ExchangeConnectivityManager.Cancel env ord s

/-- The method `Algo::Stop`; `kError` is the thread-local error string of algo.cc, which `Spawn`
sets to the result of `OnStart` around its call of `Stop`. -/
def Algo.Stop (env : Env) (kError : String) (a : Algo) (w : AlgoWorld) : Algo × AlgoWorld :=
  if a.is_active_ then
    let a := { a with is_active_ := false }
    let engine := a.instruments_.foldl
      (fun s inst => inst.active_orders_.foldl (fun s ord => (Algo.Cancel env ord s).2) s)
      w.engine
    let manager :=
      w.manager.Persist env a (if kError.isEmpty then "teminated" else "failed") kError
    (a, { engine := engine, manager := manager, on_stop := w.on_stop ++ [a.id_] })
  else (a, w)

/-! ## twap.h, twap.cc: the TWAP algo -/

/-- The `enum Aggression` of twap.h. -/
inductive Aggression where
  | kAggLow | kAggMedium | kAggHigh | kAggHighest
  deriving DecidableEq, Repr

open Aggression

/-- The `class TWAP` of twap.h; `inst_` is the instrument that `inst_` points to and `acc_` the
id of the sub-account. -/
structure TWAP extends Algo where
  inst_ : Instrument := {}
  acc_ : Option Nat := none
  qty_ : ℚ := 0
  price_ : ℚ := 0
  side_ : OrderSide := kBuy
  begin_time_ : Int := 0
  end_time_ : Int := 0
  min_size_ : ℚ := 0
  max_pov_ : ℚ := 0
  initial_volume_ : ℚ := 0
  agg_ : Aggression := kAggLow

/-- The function `std::round`: to the nearest integer, halfway cases away from zero. -/
def cround (x : ℚ) : Int := if 0 ≤ x then ⌊x + 1 / 2⌋ else ⌈x - 1 / 2⌉

/-- The value that `TWAP::OnStart` gives to `min_size_`: the integer parameter `MinSize`, rounded
to a multiple of the lot size when both are positive. -/
def TWAP.OnStart.min_size (MinSize : Int) (lot_size : Int) : ℚ :=
  let min_size_ : ℚ := Double.ofInt MinSize
  if min_size_ > 0 ∧ lot_size > 0 then
    Double.mul (cround (Double.div min_size_ (Double.ofInt lot_size)) : ℚ) (Double.ofInt lot_size)
  else min_size_

/-- The mid price of `TWAP::Timer`: 0 unless `ask > bid > 0`, else the mean of bid and ask,
rounded to the tick (up for a buy, down for a sell) when the security has a tick size for it. -/
def TWAP.Timer.mid_px (tw : TWAP) (bid ask : ℚ) : ℚ :=
  if ask > bid ∧ bid > 0 then
    let mid_px := Double.div (Double.add ask bid) 2
    let tick_size := tw.inst_.sec_.GetTickSize mid_px
    if tick_size > 0 then
      if IsBuy tw.side_ then Double.mul (⌈Double.div mid_px tick_size⌉ : ℚ) tick_size
      else Double.mul (⌊Double.div mid_px tick_size⌋ : ℚ) tick_size
    else mid_px
  else 0

/-- The sizing step of `TWAP::Timer`: the quantity of the child, `none` where the method
returns.  The time differences and the lot size are integers that the expressions convert to
`double`; `std::floor` and `std::ceil` of a `double` are exact. -/
def TWAP.Timer.would_qty (now : Int) (tw : TWAP) : Option ℚ :=
  let ratio : ℚ := min 1 (Double.div (Double.add (Double.ofInt (now - tw.begin_time_)) 1)
    (Double.ofInt (tw.end_time_ - tw.begin_time_)))
  let expect := Double.mul tw.qty_ ratio
  let leaves := Double.sub expect tw.inst_.total_exposure
  if leaves ≤ 0 then none
  else
    let total_leaves := Double.sub tw.qty_ tw.inst_.total_exposure
    let lot_size : Int := max 1 tw.inst_.sec_.lot_size
    let max_qty : ℚ :=
      if tw.inst_.sec_.exchange.odd_lot_allowed then total_leaves
      else Double.mul (⌊Double.div total_leaves (Double.ofInt lot_size)⌋ : ℚ)
        (Double.ofInt lot_size)
    if max_qty ≤ 0 then none
    else
      let would_qty : ℚ :=
        Double.mul (⌈Double.div leaves (Double.ofInt lot_size)⌉ : ℚ) (Double.ofInt lot_size)
      let would_qty := if would_qty < tw.min_size_ then tw.min_size_ else would_qty
      let would_qty := if would_qty > max_qty then max_qty else would_qty
      some would_qty

/-- The `case kAggHighest` of the switch of `TWAP::Timer`. -/
def TWAP.Timer.caseHighest (c : Contract) : Option Contract := some { c with type := kMarket }

/-- The `case kAggHigh` of the switch of `TWAP::Timer`, which falls through to
`case kAggHighest`. -/
def TWAP.Timer.caseHigh (tw : TWAP) (bid ask : ℚ) (c : Contract) : Option Contract :=
  if IsBuy tw.side_ then
    if ask > 0 then some { c with price := ask } else TWAP.Timer.caseHighest c
  else
    if bid > 0 then some { c with price := bid } else TWAP.Timer.caseHighest c

/-- The switch on the aggression of `TWAP::Timer`: the contract with its price or type set,
`none` where the method returns. -/
def TWAP.Timer.switch (tw : TWAP) (bid ask last_px mid_px : ℚ) (c : Contract) :
    Option Contract :=
  match tw.agg_ with
  | kAggLow =>
    if IsBuy tw.side_ then
      if bid > 0 then some { c with price := bid }
      else if last_px > 0 then some { c with price := last_px }
      else none
    else
      if ask > 0 then some { c with price := ask }
      else if last_px > 0 then some { c with price := last_px }
      else none
  | kAggMedium =>
    if mid_px > 0 then some { c with price := mid_px } else TWAP.Timer.caseHigh tw bid ask c
  | kAggHigh => TWAP.Timer.caseHigh tw bid ask c
  | kAggHighest => TWAP.Timer.caseHighest c

/-- The method `TWAP::Timer`, as the list of what it does to the outside.  `now` is the value of
`time(nullptr)`, `t` the exchange time that `IsInTradePeriod` reads from the clock, `md` the
market data of the instrument, and `heap` gives the active orders behind their addresses. -/
def TWAP.Timer (now t : Int) (md : MarketData) (heap : Ptr → Order) (tw : TWAP) :
    List Algo.Action :=
  if !tw.is_active_ then []
  else if now > tw.end_time_ then [Algo.Action.Stop]
  else
    Algo.Action.SetTimeout 1000 ::
      if !tw.inst_.sec_.IsInTradePeriod t then []
      else
        let bid := md.quote.bid_price
        let ask := md.quote.ask_price
        let last_px := md.trade.close
        let mid_px := TWAP.Timer.mid_px tw bid ask
        if !tw.inst_.active_orders_.isEmpty then
          (tw.inst_.active_orders_.filter fun ord =>
            if IsBuy tw.side_ then decide ((heap ord).price < bid)
            else decide (ask > 0 ∧ (heap ord).price > ask)).map Algo.Action.Cancel
        else if tw.initial_volume_ > 0 ∧ tw.max_pov_ > 0 ∧
            tw.inst_.total_qty >
              Double.mul tw.max_pov_ (Double.sub md.trade.volume tw.initial_volume_) then []
        else
          match TWAP.Timer.would_qty now tw with
          | none => []
          | some would_qty =>
            let c : Contract := { side := tw.side_, qty := would_qty, sub_account := tw.acc_ }
            match TWAP.Timer.switch tw bid ask last_px mid_px c with
            | none => []
            | some c =>
              if tw.price_ > 0 ∧ ((IsBuy tw.side_ ∧ c.price > tw.price_) ∨
                  (!IsBuy tw.side_ ∧ c.price < tw.price_)) then []
              else [Algo.Action.Place c]

/-! ## Vocabulary of the specification: the schedule of TWAP -/

/-- The schedule ratio `r = min(1, (now - begin_time + 1) / (end_time - begin_time))`. -/
def TWAP.ratio (now : Int) (tw : TWAP) : ℚ :=
  min 1 (((now - tw.begin_time_ : Int) + 1 : ℚ) / ((tw.end_time_ - tw.begin_time_ : Int) : ℚ))

/-- The leaves of the schedule, `qty * r - total_exposure`. -/
def TWAP.leaves (now : Int) (tw : TWAP) : ℚ := tw.qty_ * tw.ratio now - tw.inst_.total_exposure

/-- The lot of the sizing step, `max(1, lot_size)`. -/
def TWAP.lot (tw : TWAP) : Int := max 1 tw.inst_.sec_.lot_size

/-- The allowed total leaves: `qty - total_exposure`, floored to a whole lot unless the exchange
allows odd lots. -/
def TWAP.allowed (tw : TWAP) : ℚ :=
  if tw.inst_.sec_.exchange.odd_lot_allowed then tw.qty_ - tw.inst_.total_exposure
  else (⌊(tw.qty_ - tw.inst_.total_exposure) / tw.lot⌋ : ℚ) * tw.lot

/-- The schedule ratio as the code computes it in binary64. -/
def TWAP.ratio64 (now : Int) (tw : TWAP) : ℚ :=
  min 1 (Double.div (Double.add (Double.ofInt (now - tw.begin_time_)) 1)
    (Double.ofInt (tw.end_time_ - tw.begin_time_)))

/-- The leaves of the schedule, `qty * r - total_exposure`, as the code computes them in
binary64. -/
def TWAP.leaves64 (now : Int) (tw : TWAP) : ℚ :=
  Double.sub (Double.mul tw.qty_ (tw.ratio64 now)) tw.inst_.total_exposure

/-- The leaves rounded up to whole lots, `ceil(leaves / lot) * lot`, as the code computes them in
binary64. -/
def TWAP.wholeLots64 (now : Int) (tw : TWAP) : ℚ :=
  Double.mul (⌈Double.div (tw.leaves64 now) (Double.ofInt tw.lot)⌉ : ℚ) (Double.ofInt tw.lot)

/-- The allowed total leaves as the code computes them in binary64: `qty - total_exposure`,
floored to a whole lot unless the exchange allows odd lots. -/
def TWAP.allowed64 (tw : TWAP) : ℚ :=
  if tw.inst_.sec_.exchange.odd_lot_allowed then Double.sub tw.qty_ tw.inst_.total_exposure
  else Double.mul
    (⌊Double.div (Double.sub tw.qty_ tw.inst_.total_exposure) (Double.ofInt tw.lot)⌋ : ℚ)
    (Double.ofInt tw.lot)

/-- A TWAP over whole shares within the range of the types: the clock is not before the begin
time, the duration is positive and at most `2 ^ 53` seconds, the lot size is an `int`, the
quantity and the total exposure are whole numbers, the exposure is not negative and the remaining
quantity is below `2 ^ 53`. -/
def TWAP.WholeShares (now : Int) (tw : TWAP) : Prop :=
  tw.begin_time_ ≤ now ∧ tw.begin_time_ < tw.end_time_ ∧
    tw.end_time_ - tw.begin_time_ ≤ 2 ^ 53 ∧ tw.inst_.sec_.lot_size < 2 ^ 31 ∧
    IsWhole tw.qty_ ∧ IsWhole tw.inst_.total_exposure ∧ 0 ≤ tw.inst_.total_exposure ∧
    tw.qty_ - tw.inst_.total_exposure < 2 ^ 53

/-- The price of a level of aggression, in the words of the specification: the bid for a buy and
the ask for a sell at Low, the mid at Medium, the ask for a buy and the bid for a sell at High;
Highest is the market order, which has no price.  A level whose price is 0 is unavailable. -/
def TWAP.levelPrice (tw : TWAP) (bid ask mid_px : ℚ) : Aggression → ℚ
  | kAggLow => if IsBuy tw.side_ then bid else ask
  | kAggMedium => mid_px
  | kAggHigh => if IsBuy tw.side_ then ask else bid
  | kAggHighest => 0

/-- The type and the price of the child by the first available level at or after the given one,
in the order Low, Medium, High, Highest, in the words of the specification. -/
def TWAP.firstAvailableLevel (tw : TWAP) (bid ask mid_px : ℚ) : Aggression → OrderType × ℚ
  | kAggLow =>
    if tw.levelPrice bid ask mid_px kAggLow > 0 then (kLimit, tw.levelPrice bid ask mid_px kAggLow)
    else if tw.levelPrice bid ask mid_px kAggMedium > 0 then
      (kLimit, tw.levelPrice bid ask mid_px kAggMedium)
    else if tw.levelPrice bid ask mid_px kAggHigh > 0 then
      (kLimit, tw.levelPrice bid ask mid_px kAggHigh)
    else (kMarket, 0)
  | kAggMedium =>
    if tw.levelPrice bid ask mid_px kAggMedium > 0 then
      (kLimit, tw.levelPrice bid ask mid_px kAggMedium)
    else if tw.levelPrice bid ask mid_px kAggHigh > 0 then
      (kLimit, tw.levelPrice bid ask mid_px kAggHigh)
    else (kMarket, 0)
  | kAggHigh =>
    if tw.levelPrice bid ask mid_px kAggHigh > 0 then
      (kLimit, tw.levelPrice bid ask mid_px kAggHigh)
    else (kMarket, 0)
  | kAggHighest => (kMarket, 0)

/-! ## Example data: a TWAP order -/

/-- A security with lot size 100 on an exchange without session windows and without a ladder. -/
def exLotSecurity : Security := { id := 1, exchange := { id := 1, name := "X" }, lot_size := 100 }

/-- A TWAP that buys 1000 of `exLotSecurity` over 60 seconds from time 0 at low aggression, with
`MinSize` 0 and nothing done so far. -/
def exTwap : TWAP :=
  { id_ := 1, inst_ := { algo_ := 1, sec_ := exLotSecurity }, acc_ := some 1, qty_ := 1000,
    begin_time_ := 0, end_time_ := 60, agg_ := kAggLow }

/-- A security with lot size 10 on an exchange without session windows and without a ladder. -/
def exLot10Security : Security := { id := 1, exchange := { id := 1, name := "X" }, lot_size := 10 }

/-- A TWAP that buys 600 of `exLot10Security` over 60 seconds from time 0 at low aggression, with
`MinSize` 0 and nothing done so far. -/
def exTwap600 : TWAP :=
  { id_ := 1, inst_ := { algo_ := 1, sec_ := exLot10Security }, acc_ := some 1, qty_ := 600,
    begin_time_ := 0, end_time_ := 60, agg_ := kAggLow }

/-- Market data with the best bid 10 and the best ask 10.5, last trade at 10. -/
def exQuoted : MarketData :=
  { trade := { close := 10 },
    depth := fun _ => { bid_price := 10, ask_price := 21 / 2 } }

/-- Market data without a bid: the best ask is 10.5 and the last trade was at 10. -/
def exNoBid : MarketData :=
  { trade := { close := 10 },
    depth := fun _ => { ask_price := 21 / 2 } }

/-- Market data without a bid and without a trade: the best ask is 10.5. -/
def exAskOnly : MarketData := { depth := fun _ => { ask_price := 21 / 2 } }

/-! ## Example data: a running algo -/

/-- An active algo of user 1 with one instrument, whose only active order is the order at
address 0. -/
def exAlgo : Algo :=
  { name := "TWAP", user_ := 1, id_ := 1,
    instruments_ := [{ algo_ := 1, sec_ := exSecurity, active_orders_ := [0] }] }

/-- The world of `exAlgo`: the engine holds the order placed in `exPlacedBook`, the algo journal
is empty, and no `OnStop` has run. -/
def exWorld : AlgoWorld := { engine := exPlacedBook, manager := {}, on_stop := [] }

/-! ## Vocabulary of the specification: shards -/

/-- The handler belongs to the strand `i` of `n`: it runs callbacks of an algo whose id is `i`
modulo `n`, or it is the runner `i`. -/
def Handler.OnShard (n i : Nat) : Handler → Prop
  | Handler.start b => b % n = i
  | Handler.confirmation b => b % n = i
  | Handler.stop b => b % n = i
  | Handler.timeout b => b % n = i
  | Handler.runner j => j = i

/-- Every handler that a strand holds, running or queued, belongs to that strand, and every
instrument registered with a runner belongs to an algo of its shard. -/
def AlgoManager.Sharded (m : AlgoManager) : Prop :=
  (∀ i h, ((m.strands_ i).running = some h ∨ h ∈ (m.strands_ i).queue) →
    h.OnShard m.threads_ i) ∧
  (∀ i inst, inst ∈ m.runners_ i → inst.algo_ % m.threads_ = i)

/-- A run of the algo manager on two threads: algo 1 is spawned, a thread takes its start
handler, which registers an instrument and sets a timer; a fill of an order of the algo and a
market-data update arrive; the start handler returns and a thread takes the timer handler, while
another thread takes the runner 0. -/
def exAlgoEvents : List AlgoEvent :=
  [AlgoEvent.Spawn exConnected (some "TWAP") 1 "" "",
   AlgoEvent.run 1,
   AlgoEvent.Register { algo_ := 1, sec_ := exSecurity },
   AlgoEvent.SetTimeout 1,
   AlgoEvent.Handle { algo_id := 1 } { algo_ := 1, sec_ := exSecurity } { exec_type := kFilled },
   AlgoEvent.Update fun _ => true,
   AlgoEvent.done 1,
   AlgoEvent.run 0,
   AlgoEvent.run 1]

/-! ## Example data: cancel requests -/

/-- The engine after a cancel of the order of `exPlacedBook` has been sent to the connected
adapter. -/
def exCancelSent : Engine := (ExchangeConnectivityManager.Cancel exConnected 0 exPlacedBook).2

/-- The engine after a cancel of the order of `exPlacedBook` has been refused by the connected
adapter. -/
def exCancelRefusedBook : Engine :=
  (ExchangeConnectivityManager.Cancel exCancelRefused 0 exPlacedBook).2

/-! # Properties -/

/-! ## binary64 rounding -/

theorem Double.rne_intCast (n : ℤ) : Double.rne (n : ℚ) = n := by
  unfold Double.rne
  simp

theorem Double.rne_sub_le (y : ℚ) : |(Double.rne y : ℚ) - y| ≤ 1 / 2 := by
  unfold Double.rne
  have h1 := Int.floor_le y
  have h2 := Int.lt_floor_add_one y
  split_ifs with h3 h4 h5
  · rw [abs_le]; constructor <;> linarith
  · push_cast; rw [abs_le]; constructor <;> linarith
  · rw [abs_le]; constructor <;> linarith
  · push_cast; rw [abs_le]; constructor <;> linarith

theorem Double.floor_le_rne (y : ℚ) : ⌊y⌋ ≤ Double.rne y := by
  unfold Double.rne
  split_ifs <;> omega

theorem Double.rne_le_floor_add_one (y : ℚ) : Double.rne y ≤ ⌊y⌋ + 1 := by
  unfold Double.rne
  split_ifs <;> omega

theorem Double.rne_mono (a b : ℚ) (h : a ≤ b) : Double.rne a ≤ Double.rne b := by
  have hf : ⌊a⌋ ≤ ⌊b⌋ := Int.floor_mono h
  rcases lt_or_eq_of_le hf with hlt | heq
  · calc Double.rne a ≤ ⌊a⌋ + 1 := Double.rne_le_floor_add_one a
      _ ≤ ⌊b⌋ := hlt
      _ ≤ Double.rne b := Double.floor_le_rne b
  · unfold Double.rne
    rw [heq]
    have hab : a - ⌊b⌋ ≤ b - ⌊b⌋ := by linarith
    split_ifs with h1 h2 h3 h4 h5 h6 h7 h8 h9 <;> first | omega | (exfalso; linarith)

theorem Double.rne_le_of_le_intCast (y : ℚ) (n : ℤ) (h : y ≤ n) : Double.rne y ≤ n := by
  have := Double.rne_mono y n h
  rwa [Double.rne_intCast] at this

theorem Double.le_rne_of_intCast_le (y : ℚ) (n : ℤ) (h : (n : ℚ) ≤ y) : n ≤ Double.rne y := by
  have := Double.rne_mono n y h
  rwa [Double.rne_intCast] at this

theorem Double.rne_neg (y : ℚ) : Double.rne (-y) = - Double.rne y := by
  by_cases hy : (⌊y⌋ : ℚ) = y
  · rw [← hy, ← Int.cast_neg, Double.rne_intCast, Double.rne_intCast]
  · have h1 := Int.floor_le y
    have h2 := Int.lt_floor_add_one y
    have hlt : (⌊y⌋ : ℚ) < y := lt_of_le_of_ne h1 hy
    have hfl : ⌊-y⌋ = -⌊y⌋ - 1 := by
      rw [Int.floor_eq_iff]
      push_cast
      constructor <;> linarith
    unfold Double.rne
    rw [hfl]
    push_cast
    split_ifs <;> first | omega | (exfalso; linarith)
theorem Double.expo_neg (x : ℚ) : Double.expo (-x) = Double.expo x := by
  unfold Double.expo
  rw [abs_neg]

theorem Double.expo_ge (x : ℚ) : -1022 ≤ Double.expo x := le_max_right _ _

theorem Double.ulp_pos (x : ℚ) : 0 < Double.ulp x := by
  unfold Double.ulp
  positivity

theorem Double.ulp_neg (x : ℚ) : Double.ulp (-x) = Double.ulp x := by
  unfold Double.ulp
  rw [Double.expo_neg]

theorem Double.round_zero : Double.round 0 = 0 := by
  unfold Double.round
  rw [zero_div]
  have : Double.rne 0 = 0 := by exact_mod_cast Double.rne_intCast 0
  rw [this]
  simp

theorem Double.round_neg (x : ℚ) : Double.round (-x) = - Double.round x := by
  unfold Double.round
  rw [Double.ulp_neg, neg_div, Double.rne_neg]
  push_cast
  ring

theorem Double.round_sub_le (x : ℚ) : |Double.round x - x| ≤ Double.ulp x / 2 := by
  unfold Double.round
  have hu := Double.ulp_pos x
  have h := Double.rne_sub_le (x / Double.ulp x)
  have e : (Double.rne (x / Double.ulp x) : ℚ) * Double.ulp x - x =
      ((Double.rne (x / Double.ulp x) : ℚ) - x / Double.ulp x) * Double.ulp x := by
    field_simp
  rw [e, abs_mul, abs_of_pos hu]
  calc |(Double.rne (x / Double.ulp x) : ℚ) - x / Double.ulp x| * Double.ulp x
      ≤ 1 / 2 * Double.ulp x := mul_le_mul_of_nonneg_right h hu.le
    _ = Double.ulp x / 2 := by ring

/-- The binade of a number: `|x| < 2 ^ (expo x + 1)`. -/
theorem Double.abs_lt_expo (x : ℚ) : |x| < 2 ^ (Double.expo x + 1) := by
  have h := Int.lt_zpow_succ_log_self (b := 2) (by norm_num) |x|
  have hle : Int.log 2 |x| + 1 ≤ Double.expo x + 1 := by
    have := le_max_left (Int.log 2 |x|) (-1022)
    unfold Double.expo
    omega
  calc |x| < ((2 : ℕ) : ℚ) ^ (Int.log 2 |x| + 1) := h
    _ = (2 : ℚ) ^ (Int.log 2 |x| + 1) := by norm_num
    _ ≤ 2 ^ (Double.expo x + 1) := zpow_le_zpow_right₀ (by norm_num) hle

/-- Above the subnormal range the binade starts at `2 ^ expo x`. -/
theorem Double.expo_le_abs (x : ℚ) (h0 : x ≠ 0) (h : -1022 < Double.expo x) :
    2 ^ Double.expo x ≤ |x| := by
  have hlog : Double.expo x = Int.log 2 |x| := by
    unfold Double.expo at h ⊢
    rcases max_cases (Int.log 2 |x|) (-1022) with ⟨h1, _⟩ | ⟨h1, _⟩
    · exact h1
    · rw [h1] at h; omega
  have hx : 0 < |x| := abs_pos.mpr h0
  rw [hlog]
  have := Int.zpow_log_le_self (b := 2) (by norm_num) hx
  calc (2 : ℚ) ^ Int.log 2 |x| = ((2 : ℕ) : ℚ) ^ Int.log 2 |x| := by norm_num
    _ ≤ |x| := this

theorem Double.expo_eq_of (x : ℚ) (e : ℤ) (h1 : 2 ^ e ≤ |x|) (h2 : |x| < 2 ^ (e + 1))
    (he : -1022 ≤ e) : Double.expo x = e := by
  have hx : 0 < |x| := lt_of_lt_of_le (by positivity) h1
  have a1 : e ≤ Int.log 2 |x| := by
    rw [← Int.zpow_le_iff_le_log (by norm_num) hx]
    calc ((2 : ℕ) : ℚ) ^ e = (2 : ℚ) ^ e := by norm_num
      _ ≤ |x| := h1
  have a2 : Int.log 2 |x| < e + 1 := by
    rw [← Int.lt_zpow_iff_log_lt (by norm_num) hx]
    calc |x| < (2 : ℚ) ^ (e + 1) := h2
      _ = ((2 : ℕ) : ℚ) ^ (e + 1) := by norm_num
  unfold Double.expo
  rw [max_eq_left (by omega)]
  omega

theorem Double.expo_eq_of_lt (x : ℚ) (h0 : x ≠ 0) (h : |x| < 2 ^ (-1022 : ℤ)) :
    Double.expo x = -1022 := by
  have hx : 0 < |x| := abs_pos.mpr h0
  have a2 : Int.log 2 |x| < -1022 := by
    rw [← Int.lt_zpow_iff_log_lt (by norm_num) hx]
    calc |x| < (2 : ℚ) ^ (-1022 : ℤ) := h
      _ = ((2 : ℕ) : ℚ) ^ (-1022 : ℤ) := by norm_num
  unfold Double.expo
  rw [max_eq_right (by omega)]

theorem Double.expo_mono (x y : ℚ) (h0 : x ≠ 0) (h : |x| ≤ |y|) :
    Double.expo x ≤ Double.expo y := by
  unfold Double.expo
  exact max_le_max (Int.log_mono_right (abs_pos.mpr h0) h) le_rfl
theorem Double.expo_le_of (x : ℚ) (e : ℤ) (h0 : x ≠ 0) (hx : |x| < 2 ^ (e + 1))
    (he : -1022 ≤ e) : Double.expo x ≤ e := by
  have hpos : 0 < |x| := abs_pos.mpr h0
  have a2 : Int.log 2 |x| < e + 1 := by
    rw [← Int.lt_zpow_iff_log_lt (by norm_num) hpos]
    calc |x| < (2 : ℚ) ^ (e + 1) := hx
      _ = ((2 : ℕ) : ℚ) ^ (e + 1) := by norm_num
  unfold Double.expo
  exact max_le (by omega) he

/-- A multiple of a power of two that is at least as coarse as the spacing of the binade is kept
by the rounding. -/
theorem Double.round_of_grid (x : ℚ) (M k : ℤ) (hx : x = M * 2 ^ k)
    (hk : Double.expo x - 52 ≤ k) : Double.round x = x := by
  obtain ⟨n, hn⟩ := Int.eq_ofNat_of_zero_le (by omega : 0 ≤ k - (Double.expo x - 52))
  have hk2 : k = (Double.expo x - 52) + n := by omega
  have h2 : (2 : ℚ) ^ k = 2 ^ (Double.expo x - 52) * 2 ^ n := by
    rw [hk2, zpow_add₀ (by norm_num), zpow_natCast]
  have hu : (2 : ℚ) ^ (Double.expo x - 52) ≠ 0 := by positivity
  have hx2 : x = M * (2 ^ (Double.expo x - 52) * 2 ^ n) := by rw [← h2]; exact hx
  have hq : x / Double.ulp x = ((M * 2 ^ n : ℤ) : ℚ) := by
    unfold Double.ulp
    rw [div_eq_iff hu]
    push_cast
    linear_combination hx2
  unfold Double.round
  rw [hq, Double.rne_intCast]
  unfold Double.ulp
  push_cast
  linear_combination -hx2

theorem Double.round_mul_zpow_of_lt (M k : ℤ) (hM : |M| < 2 ^ 53) (hk : -1074 ≤ k) :
    Double.round (M * 2 ^ k) = M * 2 ^ k := by
  rcases eq_or_ne M 0 with h0 | h0
  · subst h0
    simp [Double.round_zero]
  · apply Double.round_of_grid _ M k rfl
    have hx0 : (M : ℚ) * 2 ^ k ≠ 0 := by
      have : (M : ℚ) ≠ 0 := by exact_mod_cast h0
      positivity
    have hlt : |(M : ℚ) * 2 ^ k| < 2 ^ (52 + k + 1) := by
      rw [abs_mul, abs_of_pos (by positivity : (0 : ℚ) < 2 ^ k)]
      have hMq : |(M : ℚ)| < 2 ^ (53 : ℤ) := by
        have : ((|M| : ℤ) : ℚ) < ((2 ^ 53 : ℤ) : ℚ) := by exact_mod_cast hM
        rw [Int.cast_abs] at this
        norm_num at this ⊢
        exact this
      have e : (2 : ℚ) ^ (52 + k + 1) = 2 ^ (53 : ℤ) * 2 ^ k := by
        rw [← zpow_add₀ (by norm_num)]
        congr 1
        ring
      rw [e]
      exact mul_lt_mul_of_pos_right hMq (by positivity)
    have := Double.expo_le_of _ (52 + k) hx0 hlt (by omega)
    omega

/-- A significand of at most 53 bits with an exponent in range is a binary64 number. -/
theorem Double.round_mul_zpow (M k : ℤ) (hM : |M| ≤ 2 ^ 53) (hk : -1074 ≤ k) :
    Double.round (M * 2 ^ k) = M * 2 ^ k := by
  rcases lt_or_eq_of_le hM with h | h
  · exact Double.round_mul_zpow_of_lt M k h hk
  · have hcases : M = 2 ^ 53 ∨ M = -(2 ^ 53) := by
      rcases abs_cases M with ⟨h1, _⟩ | ⟨h1, _⟩ <;> omega
    have e1 : ((2 ^ 53 : ℤ) : ℚ) * 2 ^ k = ((1 : ℤ) : ℚ) * 2 ^ (k + 53) := by
      rw [zpow_add₀ (by norm_num)]
      norm_num
      ring
    rcases hcases with h1 | h1
    · rw [h1, e1]
      exact Double.round_mul_zpow_of_lt 1 (k + 53) (by norm_num) (by omega)
    · have e2 : ((-(2 ^ 53) : ℤ) : ℚ) * 2 ^ k = -(((1 : ℤ) : ℚ) * 2 ^ (k + 53)) := by
        rw [← e1]
        push_cast
        ring
      rw [h1, e2, Double.round_neg]
      rw [Double.round_mul_zpow_of_lt 1 (k + 53) (by norm_num) (by omega)]

/-- The whole numbers up to `2 ^ 53` are binary64 numbers. -/
theorem Double.round_intCast (n : ℤ) (h : |n| ≤ 2 ^ 53) : Double.round (n : ℚ) = n := by
  have := Double.round_mul_zpow n 0 h (by norm_num)
  simpa using this

theorem Double.round_two_zpow (k : ℤ) (hk : -1074 ≤ k) : Double.round (2 ^ k) = 2 ^ k := by
  have := Double.round_mul_zpow 1 k (by norm_num) hk
  simpa using this

theorem Double.abs_rne_le (x : ℚ) : |Double.rne (x / Double.ulp x)| ≤ 2 ^ 53 := by
  have hu := Double.ulp_pos x
  have hlt := Double.abs_lt_expo x
  have hq : |x / Double.ulp x| ≤ ((2 ^ 53 : ℤ) : ℚ) := by
    rw [abs_div, abs_of_pos hu, div_le_iff₀ hu]
    unfold Double.ulp
    have e : (((2 : ℤ) ^ 53 : ℤ) : ℚ) * 2 ^ (Double.expo x - 52) = 2 ^ (Double.expo x + 1) := by
      have : (((2 : ℤ) ^ 53 : ℤ) : ℚ) = (2 : ℚ) ^ (53 : ℤ) := by norm_num
      rw [this, ← zpow_add₀ (by norm_num)]
      congr 1
      ring
    rw [e]
    exact hlt.le
  rw [abs_le] at hq ⊢
  constructor
  · apply Double.le_rne_of_intCast_le
    push_cast at hq ⊢
    exact hq.1
  · apply Double.rne_le_of_le_intCast
    exact hq.2

/-- The result of the rounding is a binary64 number. -/
theorem Double.round_round (x : ℚ) : Double.round (Double.round x) = Double.round x := by
  unfold Double.round Double.ulp
  exact Double.round_mul_zpow _ _ (Double.abs_rne_le x) (by have := Double.expo_ge x; omega)
theorem Double.round_nonneg (x : ℚ) (h : 0 ≤ x) : 0 ≤ Double.round x := by
  unfold Double.round
  have hu := Double.ulp_pos x
  have h1 : (0 : ℤ) ≤ Double.rne (x / Double.ulp x) :=
    Double.le_rne_of_intCast_le _ 0 (by simpa using div_nonneg h hu.le)
  have h2 : (0 : ℚ) ≤ (Double.rne (x / Double.ulp x) : ℚ) := by exact_mod_cast h1
  exact mul_nonneg h2 hu.le

theorem Double.round_nonpos (x : ℚ) (h : x ≤ 0) : Double.round x ≤ 0 := by
  have := Double.round_nonneg (-x) (by linarith)
  rw [Double.round_neg] at this
  linarith

theorem Double.ulp_mul_two_pow (x : ℚ) (n : ℕ) (m : ℤ) (h : m = Double.expo x - 52 + n) :
    ((2 ^ n : ℤ) : ℚ) * Double.ulp x = 2 ^ m := by
  unfold Double.ulp
  rw [h, zpow_add₀ (by norm_num), zpow_natCast]
  push_cast
  ring

theorem Double.round_le_zpow (x : ℚ) : Double.round x ≤ 2 ^ (Double.expo x + 1) := by
  have hu := Double.ulp_pos x
  have hlt := Double.abs_lt_expo x
  have e := Double.ulp_mul_two_pow x 53 (Double.expo x + 1) (by push_cast; ring)
  have hq : x / Double.ulp x ≤ ((2 ^ 53 : ℤ) : ℚ) := by
    rw [div_le_iff₀ hu, e]
    exact (le_abs_self x).trans hlt.le
  have h1 : Double.rne (x / Double.ulp x) ≤ 2 ^ 53 := Double.rne_le_of_le_intCast _ _ hq
  have h2 : (Double.rne (x / Double.ulp x) : ℚ) ≤ ((2 ^ 53 : ℤ) : ℚ) := by exact_mod_cast h1
  unfold Double.round
  calc (Double.rne (x / Double.ulp x) : ℚ) * Double.ulp x
      ≤ ((2 ^ 53 : ℤ) : ℚ) * Double.ulp x := mul_le_mul_of_nonneg_right h2 hu.le
    _ = 2 ^ (Double.expo x + 1) := e

theorem Double.zpow_le_round (x : ℚ) (h0 : 0 < x) (h : -1022 < Double.expo x) :
    2 ^ Double.expo x ≤ Double.round x := by
  have hu := Double.ulp_pos x
  have hle := Double.expo_le_abs x h0.ne.symm h
  rw [abs_of_pos h0] at hle
  have e := Double.ulp_mul_two_pow x 52 (Double.expo x) (by push_cast; ring)
  have hq : ((2 ^ 52 : ℤ) : ℚ) ≤ x / Double.ulp x := by
    rw [le_div_iff₀ hu, e]
    exact hle
  have h1 : 2 ^ 52 ≤ Double.rne (x / Double.ulp x) := Double.le_rne_of_intCast_le _ _ hq
  have h2 : ((2 ^ 52 : ℤ) : ℚ) ≤ (Double.rne (x / Double.ulp x) : ℚ) := by exact_mod_cast h1
  unfold Double.round
  calc (2 : ℚ) ^ Double.expo x = ((2 ^ 52 : ℤ) : ℚ) * Double.ulp x := e.symm
    _ ≤ (Double.rne (x / Double.ulp x) : ℚ) * Double.ulp x :=
        mul_le_mul_of_nonneg_right h2 hu.le

theorem Double.round_mono_pos (x y : ℚ) (hx : 0 < x) (h : x ≤ y) :
    Double.round x ≤ Double.round y := by
  have hy : 0 < y := lt_of_lt_of_le hx h
  have he : Double.expo x ≤ Double.expo y :=
    Double.expo_mono x y hx.ne.symm (by rw [abs_of_pos hx, abs_of_pos hy]; exact h)
  rcases lt_or_eq_of_le he with hlt | heq
  · have hgx := Double.expo_ge x
    calc Double.round x ≤ 2 ^ (Double.expo x + 1) := Double.round_le_zpow x
      _ ≤ 2 ^ Double.expo y := zpow_le_zpow_right₀ (by norm_num) (by omega)
      _ ≤ Double.round y := Double.zpow_le_round y hy (by omega)
  · have hu : Double.ulp x = Double.ulp y := by unfold Double.ulp; rw [heq]
    have hup := Double.ulp_pos y
    unfold Double.round
    rw [hu]
    have h1 : Double.rne (x / Double.ulp y) ≤ Double.rne (y / Double.ulp y) :=
      Double.rne_mono _ _ (div_le_div_of_nonneg_right h hup.le)
    have h2 : (Double.rne (x / Double.ulp y) : ℚ) ≤ (Double.rne (y / Double.ulp y) : ℚ) := by
      exact_mod_cast h1
    exact mul_le_mul_of_nonneg_right h2 hup.le

/-- The rounding is monotone. -/
theorem Double.round_mono (x y : ℚ) (h : x ≤ y) : Double.round x ≤ Double.round y := by
  rcases lt_trichotomy 0 x with hx | hx | hx
  · exact Double.round_mono_pos x y hx h
  · subst hx
    rw [Double.round_zero]
    exact Double.round_nonneg y h
  · rcases le_or_lt 0 y with hy | hy
    · exact (Double.round_nonpos x hx.le).trans (Double.round_nonneg y hy)
    · have := Double.round_mono_pos (-y) (-x) (by linarith) (by linarith)
      rw [Double.round_neg, Double.round_neg] at this
      linarith

theorem Double.le_round (x y : ℚ) (hx : Double.round x = x) (h : x ≤ y) : x ≤ Double.round y := by
  have := Double.round_mono x y h
  rwa [hx] at this

theorem Double.round_le (x y : ℚ) (hy : Double.round y = y) (h : x ≤ y) : Double.round x ≤ y := by
  have := Double.round_mono x y h
  rwa [hy] at this

theorem Double.round_pos (x : ℚ) (h : 2 ^ (-1074 : ℤ) ≤ x) : 0 < Double.round x :=
  lt_of_lt_of_le (by positivity)
    (Double.le_round _ x (Double.round_two_zpow (-1074) (by norm_num)) h)

/-- A binary64 number other than zero is at least the smallest subnormal number. -/
theorem Double.le_of_pos (x : ℚ) (hx : Double.round x = x) (h : 0 < x) :
    2 ^ (-1074 : ℤ) ≤ x := by
  have hu := Double.ulp_pos x
  have h1 : (1 : ℤ) ≤ Double.rne (x / Double.ulp x) := by
    by_contra hc
    have h0 : Double.rne (x / Double.ulp x) ≤ 0 := by omega
    have h2 : (Double.rne (x / Double.ulp x) : ℚ) ≤ 0 := by exact_mod_cast h0
    have : Double.round x ≤ 0 := by
      unfold Double.round
      exact mul_nonpos_of_nonpos_of_nonneg h2 hu.le
    linarith
  have h2 : (1 : ℚ) ≤ (Double.rne (x / Double.ulp x) : ℚ) := by exact_mod_cast h1
  have hge := Double.expo_ge x
  rw [← hx]
  unfold Double.round
  calc (2 : ℚ) ^ (-1074 : ℤ) ≤ 2 ^ (Double.expo x - 52) :=
        zpow_le_zpow_right₀ (by norm_num) (by omega)
    _ = 1 * Double.ulp x := by unfold Double.ulp; ring
    _ ≤ (Double.rne (x / Double.ulp x) : ℚ) * Double.ulp x :=
        mul_le_mul_of_nonneg_right h2 hu.le
theorem Double.rne_eq_of_near (y : ℚ) (M : ℤ) (h1 : (M : ℚ) - 1 / 2 < y) (h2 : y < M + 1 / 2) :
    Double.rne y = M := by
  have h := Double.rne_sub_le y
  rw [abs_le] at h
  have a : ((Double.rne y : ℤ) : ℚ) < ((M + 1 : ℤ) : ℚ) := by push_cast; linarith
  have b : ((M - 1 : ℤ) : ℚ) < ((Double.rne y : ℤ) : ℚ) := by push_cast; linarith
  have a2 : Double.rne y < M + 1 := by exact_mod_cast a
  have b2 : M - 1 < Double.rne y := by exact_mod_cast b
  omega

theorem Double.rne_eq_of_tie (y : ℚ) (M : ℤ) (h : y = M + 1 / 2 ∨ y = M - 1 / 2)
    (he : M % 2 = 0) : Double.rne y = M := by
  rcases h with h1 | h1
  · have hf : ⌊y⌋ = M := by
      rw [Int.floor_eq_iff]
      constructor <;> linarith
    unfold Double.rne
    rw [hf]
    have : y - M = 1 / 2 := by linarith
    rw [this]
    norm_num
    omega
  · have hf : ⌊y⌋ = M - 1 := by
      rw [Int.floor_eq_iff]
      push_cast
      constructor <;> linarith
    unfold Double.rne
    rw [hf]
    have : y - ((M - 1 : ℤ) : ℚ) = 1 / 2 := by push_cast; linarith
    rw [this]
    norm_num
    omega

/-- The rounding of a positive number in the binade of exponent `e`, from the rounding of its
significand. -/
theorem Double.round_eq_of (x : ℚ) (e M : ℤ) (h1 : 2 ^ e ≤ x) (h2 : x < 2 ^ (e + 1))
    (he : -1022 ≤ e) (hM : Double.rne (x / 2 ^ (e - 52)) = M) :
    Double.round x = M * 2 ^ (e - 52) := by
  have hx : 0 < x := lt_of_lt_of_le (by positivity) h1
  unfold Double.round Double.ulp
  rw [Double.expo_eq_of x e (by rwa [abs_of_pos hx]) (by rwa [abs_of_pos hx]) he, hM]

theorem Double.round_natCast (n : ℕ) (h : n ≤ 2 ^ 53) : Double.round (n : ℚ) = n := by
  have := Double.round_intCast (n : ℤ) (by rw [abs_of_nonneg (by positivity)]; exact_mod_cast h)
  simpa using this

/-- A numeral up to `2 ^ 53` is a binary64 number. -/
theorem Double.round_ofNat (n : ℕ) [n.AtLeastTwo] (h : n ≤ 2 ^ 53) :
    Double.round (no_index (OfNat.ofNat n) : ℚ) = OfNat.ofNat n := by
  have := Double.round_natCast n h
  simpa using this

theorem Double.round_one : Double.round 1 = 1 := by
  have := Double.round_natCast 1 (by norm_num)
  simpa using this

/-- The sum of two whole numbers is exact when it is at most `2 ^ 53`. -/
theorem Double.add_intCast (a b : ℤ) (h : |a + b| ≤ 2 ^ 53) :
    Double.add (a : ℚ) b = ((a + b : ℤ) : ℚ) := by
  unfold Double.add
  rw [← Int.cast_add]
  exact Double.round_intCast _ h

/-- The difference of two whole numbers is exact when it is at most `2 ^ 53`. -/
theorem Double.sub_intCast (a b : ℤ) (h : |a - b| ≤ 2 ^ 53) :
    Double.sub (a : ℚ) b = ((a - b : ℤ) : ℚ) := by
  unfold Double.sub
  rw [← Int.cast_sub]
  exact Double.round_intCast _ h

/-- The product of two whole numbers is exact when it is at most `2 ^ 53`. -/
theorem Double.mul_intCast (a b : ℤ) (h : |a * b| ≤ 2 ^ 53) :
    Double.mul (a : ℚ) b = ((a * b : ℤ) : ℚ) := by
  unfold Double.mul
  rw [← Int.cast_mul]
  exact Double.round_intCast _ h

namespace GlobalOrderBook

/-! ## Lemmas on `UpdateOrder` -/

theorem emplace_heap (s : Engine) (id : Nat) (p : Ptr) : (emplace s id p).heap = s.heap := by
  unfold emplace
  cases s.orders_ id <;> rfl

theorem UpdateOrder_heap (cm : Confirmation) (s : Engine) :
    (UpdateOrder cm s).2.heap cm.order = UpdateOrder.onOrder cm (s.heap cm.order) := by
  unfold UpdateOrder
  cases h : cm.exec_type <;> simp [Engine.store, emplace_heap, UpdateOrder.onOrder, h]

theorem UpdateOrders_heap (p : Ptr) (cms : List Confirmation) :
    ∀ s : Engine, (∀ cm ∈ cms, cm.order = p) →
      (UpdateOrders cms s).heap p = cms.foldl (fun o cm => UpdateOrder.onOrder cm o) (s.heap p) := by
  induction cms with
  | nil => intro s _; rfl
  | cons cm cms ih =>
    intro s h
    have hcm : cm.order = p := h cm (List.mem_cons_self _ _)
    have htl : ∀ c ∈ cms, c.order = p := fun c hc => h c (List.mem_cons_of_mem _ hc)
    simp only [UpdateOrders, List.foldl_cons]
    have := ih (UpdateOrder cm s).2 htl
    simp only [UpdateOrders] at this
    rw [this, ← hcm, UpdateOrder_heap]

theorem onOrder_qty (cm : Confirmation) (o : Order) : (UpdateOrder.onOrder cm o).qty = o.qty := by
  unfold UpdateOrder.onOrder
  split <;> dsimp only <;> (try split_ifs) <;> rfl

theorem onOrder_cum_qty (cm : Confirmation) (o : Order) :
    (UpdateOrder.onOrder cm o).cum_qty =
      if cm.IsFill = true then
        if cm.exec_trans_type = kTransNew then Double.add o.cum_qty cm.last_shares
        else if cm.exec_trans_type = kTransCancel then
          if o.cum_qty ≤ cm.last_shares then 0 else Double.sub o.cum_qty cm.last_shares
        else o.cum_qty
      else o.cum_qty := by
  unfold UpdateOrder.onOrder
  split <;> simp_all [Confirmation.IsFill] <;> split_ifs <;> simp_all

theorem onOrder_leaves_qty (cm : Confirmation) (o : Order) :
    (UpdateOrder.onOrder cm o).leaves_qty =
      if cm.IsFill = true then
        if cm.exec_trans_type = kTransNew then Double.sub o.leaves_qty cm.last_shares
        else o.leaves_qty
      else if cm.exec_type.IsFinish = true then 0
      else o.leaves_qty := by
  unfold UpdateOrder.onOrder
  split <;> simp_all [Confirmation.IsFill, OrderStatus.IsFinish] <;> split_ifs <;> simp_all

theorem onOrder_status (cm : Confirmation) (o : Order) :
    (UpdateOrder.onOrder cm o).status =
      if cm.IsFill = true then
        if cm.exec_trans_type = kTransNew then
          if Double.add o.cum_qty cm.last_shares ≥ o.qty then kFilled
          else if o.IsLive = true then kPartiallyFilled
          else o.status
        else o.status
      else if cm.exec_type.IsFinish = true ∨ cm.exec_type = kNew ∨ cm.exec_type = kPendingNew ∨
          cm.exec_type = kPendingCancel then cm.exec_type
      else o.status := by
  unfold UpdateOrder.onOrder
  split <;> simp_all [Confirmation.IsFill, OrderStatus.IsFinish, Order.IsLive] <;> split_ifs <;>
    simp_all

theorem onOrder_avg_px (cm : Confirmation) (o : Order) :
    (UpdateOrder.onOrder cm o).avg_px =
      if cm.IsFill = true then
        if cm.exec_trans_type = kTransNew then
          Double.div
            (Double.add (Double.mul o.avg_px o.cum_qty) (Double.mul cm.last_px cm.last_shares))
            (Double.add o.cum_qty cm.last_shares)
        else if cm.exec_trans_type = kTransCancel then
          if o.cum_qty ≤ cm.last_shares then 0
          else Double.div
            (Double.sub (Double.mul o.avg_px o.cum_qty) (Double.mul cm.last_px cm.last_shares))
            (Double.sub o.cum_qty cm.last_shares)
        else o.avg_px
      else o.avg_px := by
  unfold UpdateOrder.onOrder
  split <;> simp_all [Confirmation.IsFill] <;> split_ifs <;> simp_all

/-- The quantities after `UpdateOrder` when no result is rounded: the sums and differences of the
real numbers. -/
theorem onOrder_cum_qty_of_exact (cm : Confirmation) (o : Order) (h : ExactQty cm o) :
    (UpdateOrder.onOrder cm o).cum_qty =
      if cm.IsFill = true then
        if cm.exec_trans_type = kTransNew then o.cum_qty + cm.last_shares
        else if cm.exec_trans_type = kTransCancel then
          if o.cum_qty ≤ cm.last_shares then 0 else o.cum_qty - cm.last_shares
        else o.cum_qty
      else o.cum_qty := by
  rw [onOrder_cum_qty]
  by_cases hf : cm.IsFill = true
  · simp only [hf, if_true]
    by_cases hnew : cm.exec_trans_type = kTransNew
    · simp only [hnew, if_true]
      exact ((h hf).1 hnew).1
    · simp only [hnew, if_false]
      by_cases hcan : cm.exec_trans_type = kTransCancel
      · simp only [hcan, if_true]
        by_cases hc : o.cum_qty ≤ cm.last_shares
        · simp only [hc, if_true]
        · simp only [hc, if_false]
          exact (h hf).2 hcan (not_le.mp hc)
      · simp only [hcan, if_false]
  · simp only [hf]
    rfl

theorem onOrder_leaves_qty_of_exact (cm : Confirmation) (o : Order) (h : ExactQty cm o) :
    (UpdateOrder.onOrder cm o).leaves_qty =
      if cm.IsFill = true then
        if cm.exec_trans_type = kTransNew then o.leaves_qty - cm.last_shares else o.leaves_qty
      else if cm.exec_type.IsFinish = true then 0
      else o.leaves_qty := by
  rw [onOrder_leaves_qty]
  by_cases hf : cm.IsFill = true
  · simp only [hf, if_true]
    by_cases hnew : cm.exec_trans_type = kTransNew
    · simp only [hnew, if_true]
      exact ((h hf).1 hnew).2
    · simp only [hnew, if_false]
  · simp only [hf, Bool.false_eq_true, if_false]

theorem onOrder_status_of_exact (cm : Confirmation) (o : Order) (h : ExactQty cm o) :
    (UpdateOrder.onOrder cm o).status =
      if cm.IsFill = true then
        if cm.exec_trans_type = kTransNew then
          if o.cum_qty + cm.last_shares ≥ o.qty then kFilled
          else if o.IsLive = true then kPartiallyFilled
          else o.status
        else o.status
      else if cm.exec_type.IsFinish = true ∨ cm.exec_type = kNew ∨ cm.exec_type = kPendingNew ∨
          cm.exec_type = kPendingCancel then cm.exec_type
      else o.status := by
  rw [onOrder_status]
  by_cases hf : cm.IsFill = true
  · simp only [hf, if_true]
    by_cases hnew : cm.exec_trans_type = kTransNew
    · simp only [hnew, if_true]
      have : Double.add o.cum_qty cm.last_shares = o.cum_qty + cm.last_shares :=
        ((h hf).1 hnew).1
      rw [this]
    · simp only [hnew, if_false]
  · simp only [hf, Bool.false_eq_true, if_false]

theorem onOrder_avg_px_of_exact (cm : Confirmation) (o : Order) (h : ExactQty cm o)
    (hp : ExactPx cm o) :
    (UpdateOrder.onOrder cm o).avg_px =
      if cm.IsFill = true then
        if cm.exec_trans_type = kTransNew then
          (o.avg_px * o.cum_qty + cm.last_px * cm.last_shares) / (o.cum_qty + cm.last_shares)
        else if cm.exec_trans_type = kTransCancel then
          if o.cum_qty ≤ cm.last_shares then 0
          else (o.avg_px * o.cum_qty - cm.last_px * cm.last_shares) / (o.cum_qty - cm.last_shares)
        else o.avg_px
      else o.avg_px := by
  rw [onOrder_avg_px]
  by_cases hf : cm.IsFill = true
  · simp only [hf, if_true]
    by_cases hnew : cm.exec_trans_type = kTransNew
    · simp only [hnew, if_true]
      obtain ⟨h1, h2, h3, h4⟩ := (hp hf).1 hnew
      have h5 : Double.add o.cum_qty cm.last_shares = o.cum_qty + cm.last_shares :=
        ((h hf).1 hnew).1
      unfold IsDouble at h1 h2 h3 h4
      unfold Double.div Double.add Double.mul at *
      rw [h1, h2, h3, h5, h4]
    · simp only [hnew, if_false]
      by_cases hcan : cm.exec_trans_type = kTransCancel
      · simp only [hcan, if_true]
        by_cases hc : o.cum_qty ≤ cm.last_shares
        · simp only [hc, if_true]
        · simp only [hc, if_false]
          obtain ⟨h1, h2, h3, h4⟩ := (hp hf).2 hcan (not_le.mp hc)
          have h5 : Double.sub o.cum_qty cm.last_shares = o.cum_qty - cm.last_shares :=
            (h hf).2 hcan (not_le.mp hc)
          unfold IsDouble at h1 h2 h3 h4
          unfold Double.div Double.sub Double.mul at *
          rw [h1, h2, h3, h5, h4]
      · simp only [hcan, if_false]
  · simp only [hf]
    rfl

end GlobalOrderBook

theorem IsWhole.eq_intCast {x : ℚ} (h : IsWhole x) : ∃ n : ℤ, x = n :=
  ⟨x.num, (Rat.den_eq_one_iff x).mp h |>.symm⟩

theorem isWhole_intCast (n : ℤ) : IsWhole (n : ℚ) := Rat.intCast_den n

theorem isWhole_zero : IsWhole 0 := rfl

theorem IsWhole.add {x y : ℚ} (hx : IsWhole x) (hy : IsWhole y) : IsWhole (x + y) := by
  obtain ⟨a, rfl⟩ := hx.eq_intCast
  obtain ⟨b, rfl⟩ := hy.eq_intCast
  rw [← Int.cast_add]
  exact isWhole_intCast _

theorem IsWhole.sub {x y : ℚ} (hx : IsWhole x) (hy : IsWhole y) : IsWhole (x - y) := by
  obtain ⟨a, rfl⟩ := hx.eq_intCast
  obtain ⟨b, rfl⟩ := hy.eq_intCast
  rw [← Int.cast_sub]
  exact isWhole_intCast _

/-- A whole number of magnitude at most `2 ^ 53` is a binary64 number. -/
theorem IsWhole.isDouble {x : ℚ} (hx : IsWhole x) (h1 : -(2 ^ 53) ≤ x) (h2 : x ≤ 2 ^ 53) :
    IsDouble x := by
  obtain ⟨a, rfl⟩ := hx.eq_intCast
  apply Double.round_intCast
  rw [abs_le]
  constructor
  · have : ((-(2 ^ 53) : ℤ) : ℚ) ≤ (a : ℚ) := by push_cast; exact h1
    exact_mod_cast this
  · have : (a : ℚ) ≤ ((2 ^ 53 : ℤ) : ℚ) := by push_cast; exact h2
    exact_mod_cast this

theorem sumNew_nonneg (cms : List Confirmation)
    (h : ∀ cm ∈ cms, cm.IsFill = true → 0 ≤ cm.last_shares ∧ IsWhole cm.last_shares) :
    0 ≤ sumNew cms := by
  unfold sumNew
  apply List.sum_nonneg
  intro x hx
  obtain ⟨cm, hcm, rfl⟩ := List.mem_map.mp hx
  have hmem := List.mem_filter.mp hcm
  have hf : cm.IsFill = true := by
    have := hmem.2
    simp only [Bool.and_eq_true] at this
    exact this.1
  exact (h cm hmem.1 hf).1

theorem sumNew_cons (cm : Confirmation) (cms : List Confirmation) :
    sumNew (cm :: cms) =
      (if (cm.IsFill && cm.exec_trans_type == kTransNew) = true then cm.last_shares else 0) +
        sumNew cms := by
  unfold sumNew
  rw [List.filter_cons]
  split_ifs <;> simp

/-- One step on whole-number quantities: nothing is rounded, and the quantities stay whole
numbers within the range. -/
theorem onOrder_whole (cm : Confirmation) (o : Order) (b : ℚ) (hb : 0 ≤ b)
    (hn : cm.IsFill = true → 0 ≤ cm.last_shares ∧ IsWhole cm.last_shares)
    (h : WholeQty o
      ((if (cm.IsFill && cm.exec_trans_type == kTransNew) = true then cm.last_shares else 0) +
        b)) :
    ExactQty cm o ∧ WholeQty (GlobalOrderBook.UpdateOrder.onOrder cm o) b := by
  obtain ⟨hc, hl, h0, h1, h2, h3⟩ := h
  have hex : ExactQty cm o := by
    intro hf
    obtain ⟨hn0, hnw⟩ := hn hf
    refine ⟨fun hnew => ?_, fun _ hlt => ?_⟩
    · simp only [hf, hnew, beq_self_eq_true, Bool.and_self, if_true] at h1 h2
      exact ⟨(hc.add hnw).isDouble (by linarith) (by linarith),
        (hl.sub hnw).isDouble (by linarith) (by linarith)⟩
    · have hb2 : 0 ≤ (if (cm.IsFill && cm.exec_trans_type == kTransNew) = true then
          cm.last_shares else 0) + b := by
        split_ifs <;> linarith
      exact (hc.sub hnw).isDouble (by linarith) (by linarith)
  refine ⟨hex, ?_⟩
  unfold WholeQty
  rw [GlobalOrderBook.onOrder_cum_qty_of_exact cm o hex,
    GlobalOrderBook.onOrder_leaves_qty_of_exact cm o hex]
  by_cases hf : cm.IsFill = true
  · obtain ⟨hn0, hnw⟩ := hn hf
    simp only [hf, if_true]
    by_cases hnew : cm.exec_trans_type = kTransNew
    · simp only [hf, hnew, beq_self_eq_true, Bool.and_self, if_true] at h1 h2 ⊢
      exact ⟨hc.add hnw, hl.sub hnw, by linarith, by linarith, by linarith, by linarith⟩
    · have hne : (cm.exec_trans_type == kTransNew) = false := by simpa using hnew
      simp only [hf, hne, Bool.and_false, Bool.false_eq_true, if_false, zero_add] at h1 h2
      simp only [hnew, if_false]
      by_cases hcan : cm.exec_trans_type = kTransCancel
      · simp only [hcan, if_true]
        by_cases hcl : o.cum_qty ≤ cm.last_shares
        · simp only [hcl, if_true]
          exact ⟨isWhole_zero, hl, le_refl _, by linarith, h2, h3⟩
        · simp only [hcl, if_false]
          push_neg at hcl
          exact ⟨hc.sub hnw, hl, by linarith, by linarith, h2, h3⟩
      · simp only [hcan, if_false]
        exact ⟨hc, hl, h0, h1, h2, h3⟩
  · have hff : cm.IsFill = false := by simpa using hf
    simp only [hff, Bool.false_and, Bool.false_eq_true, if_false, zero_add] at h1 h2 ⊢
    by_cases hfin : cm.exec_type.IsFinish = true
    · simp only [hfin, if_true]
      exact ⟨hc, isWhole_zero, h0, h1, by linarith, by norm_num⟩
    · simp only [hfin]
      exact ⟨hc, hl, h0, h1, h2, h3⟩

namespace GlobalOrderBook

/-- One step of the quantity invariant, for a step that rounds nothing: `cum_qty` stays
non-negative, `leaves_qty` never exceeds the unfilled remainder, and it is non-positive in every
terminal status. -/
theorem onOrder_inv (cm : Confirmation) (o : Order) (hex : ExactQty cm o)
    (hfill : cm.IsFill = true → 0 ≤ cm.last_shares)
    (h : 0 ≤ o.cum_qty ∧ (o.cum_qty ≤ o.qty → o.cum_qty + o.leaves_qty ≤ o.qty) ∧
      (o.qty < o.cum_qty → o.leaves_qty ≤ 0) ∧ (o.status.IsTerminal = true → o.leaves_qty ≤ 0)) :
    0 ≤ (UpdateOrder.onOrder cm o).cum_qty ∧
    ((UpdateOrder.onOrder cm o).cum_qty ≤ (UpdateOrder.onOrder cm o).qty →
      (UpdateOrder.onOrder cm o).cum_qty + (UpdateOrder.onOrder cm o).leaves_qty ≤
        (UpdateOrder.onOrder cm o).qty) ∧
    ((UpdateOrder.onOrder cm o).qty < (UpdateOrder.onOrder cm o).cum_qty →
      (UpdateOrder.onOrder cm o).leaves_qty ≤ 0) ∧
    ((UpdateOrder.onOrder cm o).status.IsTerminal = true →
      (UpdateOrder.onOrder cm o).leaves_qty ≤ 0) := by
  obtain ⟨h0, h1, h2, h3⟩ := h
  have hle : o.leaves_qty ≤ 0 ∨ o.cum_qty + o.leaves_qty ≤ o.qty := by
    rcases le_or_lt o.cum_qty o.qty with h | h
    · exact Or.inr (h1 h)
    · exact Or.inl (h2 h)
  rw [onOrder_qty, onOrder_cum_qty_of_exact cm o hex, onOrder_leaves_qty_of_exact cm o hex,
    onOrder_status_of_exact cm o hex]
  by_cases hf : cm.IsFill = true
  · have hn := hfill hf
    simp only [hf, if_true]
    by_cases hnew : cm.exec_trans_type = kTransNew
    · simp only [hnew, if_true]
      refine ⟨by linarith, fun hc => by linarith [h1 (by linarith)], fun hc => ?_, fun ht => ?_⟩
      · rcases hle with h | h <;> linarith
      · by_cases hge : o.cum_qty + cm.last_shares ≥ o.qty
        · rcases hle with h | h <;> linarith
        · simp only [hge, if_false] at ht
          by_cases hl : o.IsLive = true
          · simp [hl, OrderStatus.IsTerminal] at ht
          · simp only [hl] at ht
            linarith [h3 ht]
    · simp only [hnew, if_false]
      by_cases hcan : cm.exec_trans_type = kTransCancel
      · simp only [hcan, if_true]
        by_cases hc : o.cum_qty ≤ cm.last_shares
        · simp only [hc, if_true]
          refine ⟨le_refl _, fun _ => ?_, fun hq => ?_, h3⟩
          · rcases hle with h | h <;> linarith
          · rcases hle with h | h <;> linarith
        · simp only [hc, if_false]
          push_neg at hc
          refine ⟨by linarith, fun _ => ?_, fun hq => ?_, h3⟩
          · rcases hle with h | h <;> linarith
          · exact h2 (by linarith)
      · simp only [hcan, if_false]
        exact ⟨h0, h1, h2, h3⟩
  · simp only [hf]
    by_cases hfin : cm.exec_type.IsFinish = true
    · simp only [hfin, if_true]
      simp only [Bool.false_eq_true, if_false, add_zero, le_refl, implies_true, and_true]
      exact ⟨h0, fun h => h⟩
    · simp only [hfin]
      simp only [Bool.false_eq_true, if_false, false_or]
      refine ⟨h0, h1, h2, fun ht => ?_⟩
      split_ifs at ht with hk
      · rcases hk with hk | hk | hk <;> simp [hk, OrderStatus.IsTerminal] at ht
      · exact h3 ht

/-- The quantity invariant over a whole stream of confirmations with whole-number quantities
applied to one order. -/
theorem foldl_onOrder_inv (cms : List Confirmation) :
    ∀ o : Order, (∀ cm ∈ cms, cm.IsFill = true → 0 ≤ cm.last_shares ∧ IsWhole cm.last_shares) →
      WholeQty o (sumNew cms) →
      (0 ≤ o.cum_qty ∧ (o.cum_qty ≤ o.qty → o.cum_qty + o.leaves_qty ≤ o.qty) ∧
        (o.qty < o.cum_qty → o.leaves_qty ≤ 0) ∧ (o.status.IsTerminal = true → o.leaves_qty ≤ 0)) →
      (0 ≤ (cms.foldl (fun o cm => UpdateOrder.onOrder cm o) o).cum_qty ∧
        ((cms.foldl (fun o cm => UpdateOrder.onOrder cm o) o).cum_qty ≤
            (cms.foldl (fun o cm => UpdateOrder.onOrder cm o) o).qty →
          (cms.foldl (fun o cm => UpdateOrder.onOrder cm o) o).cum_qty +
              (cms.foldl (fun o cm => UpdateOrder.onOrder cm o) o).leaves_qty ≤
            (cms.foldl (fun o cm => UpdateOrder.onOrder cm o) o).qty) ∧
        ((cms.foldl (fun o cm => UpdateOrder.onOrder cm o) o).qty <
            (cms.foldl (fun o cm => UpdateOrder.onOrder cm o) o).cum_qty →
          (cms.foldl (fun o cm => UpdateOrder.onOrder cm o) o).leaves_qty ≤ 0) ∧
        (((cms.foldl (fun o cm => UpdateOrder.onOrder cm o) o).status).IsTerminal = true →
          (cms.foldl (fun o cm => UpdateOrder.onOrder cm o) o).leaves_qty ≤ 0)) := by
  induction cms with
  | nil => intro o _ _ h; exact h
  | cons cm cms ih =>
    intro o hf hw h
    have hf2 : ∀ c ∈ cms, c.IsFill = true → 0 ≤ c.last_shares ∧ IsWhole c.last_shares :=
      fun c hc => hf c (List.mem_cons_of_mem _ hc)
    rw [sumNew_cons] at hw
    obtain ⟨hex, hw2⟩ := onOrder_whole cm o (sumNew cms) (sumNew_nonneg cms hf2)
      (hf cm (List.mem_cons_self _ _)) hw
    simp only [List.foldl_cons]
    exact ih _ hf2 hw2
      (onOrder_inv cm o hex (fun h => (hf cm (List.mem_cons_self _ _) h).1) h)

theorem foldl_onOrder_qty (cms : List Confirmation) :
    ∀ o : Order, (cms.foldl (fun o cm => UpdateOrder.onOrder cm o) o).qty = o.qty := by
  induction cms with
  | nil => intro o; rfl
  | cons cm cms ih =>
    intro o
    simp only [List.foldl_cons]
    rw [ih, onOrder_qty]

end GlobalOrderBook

/-- One step of the quantity invariant for a fill that arrives while the order is live and does
not exceed `leaves_qty`, for a step that rounds nothing. -/
theorem onOrder_inv_live (cm : Confirmation) (o : Order) (hex : ExactQty cm o)
    (hfill : cm.IsFill = true → 0 ≤ cm.last_shares)
    (hlive : (cm.IsFill && cm.exec_trans_type == kTransNew) = true →
      o.IsLive = true ∧ cm.last_shares ≤ o.leaves_qty)
    (h : 0 ≤ o.leaves_qty ∧ 0 ≤ o.cum_qty ∧ o.cum_qty + o.leaves_qty ≤ o.qty ∧
      (o.status.IsTerminal = true → o.leaves_qty = 0)) :
    0 ≤ (GlobalOrderBook.UpdateOrder.onOrder cm o).leaves_qty ∧
    0 ≤ (GlobalOrderBook.UpdateOrder.onOrder cm o).cum_qty ∧
    (GlobalOrderBook.UpdateOrder.onOrder cm o).cum_qty +
        (GlobalOrderBook.UpdateOrder.onOrder cm o).leaves_qty ≤
      (GlobalOrderBook.UpdateOrder.onOrder cm o).qty ∧
    ((GlobalOrderBook.UpdateOrder.onOrder cm o).status.IsTerminal = true →
      (GlobalOrderBook.UpdateOrder.onOrder cm o).leaves_qty = 0) := by
  obtain ⟨hl, hc, hsum, hterm⟩ := h
  rw [GlobalOrderBook.onOrder_qty, GlobalOrderBook.onOrder_cum_qty_of_exact cm o hex,
    GlobalOrderBook.onOrder_leaves_qty_of_exact cm o hex,
    GlobalOrderBook.onOrder_status_of_exact cm o hex]
  by_cases hf : cm.IsFill = true
  · have hn := hfill hf
    simp only [hf, if_true]
    by_cases hnew : cm.exec_trans_type = kTransNew
    · obtain ⟨hlv, hle⟩ := hlive (by simp [hf, hnew])
      simp only [hnew, if_true, hlv]
      refine ⟨by linarith, by linarith, by linarith, fun ht => ?_⟩
      by_cases hge : o.cum_qty + cm.last_shares ≥ o.qty
      · linarith
      · simp [hge, OrderStatus.IsTerminal] at ht
    · simp only [hnew, if_false]
      by_cases hcan : cm.exec_trans_type = kTransCancel
      · simp only [hcan, if_true]
        by_cases hcl : o.cum_qty ≤ cm.last_shares
        · simp only [hcl, if_true]
          exact ⟨hl, le_refl _, by linarith, hterm⟩
        · simp only [hcl, if_false]
          push_neg at hcl
          exact ⟨hl, by linarith, by linarith, hterm⟩
      · simp only [hcan, if_false]
        exact ⟨hl, hc, hsum, hterm⟩
  · simp only [hf]
    by_cases hfin : cm.exec_type.IsFinish = true
    · simp only [hfin, if_true, Bool.false_eq_true, if_false, add_zero, le_refl, implies_true,
        and_true, true_and]
      exact ⟨hc, by linarith⟩
    · simp only [hfin]
      simp only [Bool.false_eq_true, if_false, false_or]
      refine ⟨hl, hc, hsum, fun ht => ?_⟩
      split_ifs at ht with hk
      · rcases hk with hk | hk | hk <;> simp [hk, OrderStatus.IsTerminal] at ht
      · exact hterm ht

theorem foldl_onOrder_inv_live (cms : List Confirmation) :
    ∀ o : Order, (∀ cm ∈ cms, cm.IsFill = true → 0 ≤ cm.last_shares ∧ IsWhole cm.last_shares) →
      WholeQty o (sumNew cms) → FillsWhileLive o cms →
      (0 ≤ o.leaves_qty ∧ 0 ≤ o.cum_qty ∧ o.cum_qty + o.leaves_qty ≤ o.qty ∧
        (o.status.IsTerminal = true → o.leaves_qty = 0)) →
      (cms.foldl (fun o cm => GlobalOrderBook.UpdateOrder.onOrder cm o) o).cum_qty +
          (cms.foldl (fun o cm => GlobalOrderBook.UpdateOrder.onOrder cm o) o).leaves_qty ≤
        (cms.foldl (fun o cm => GlobalOrderBook.UpdateOrder.onOrder cm o) o).qty ∧
      (((cms.foldl (fun o cm => GlobalOrderBook.UpdateOrder.onOrder cm o) o).status).IsTerminal =
          true →
        (cms.foldl (fun o cm => GlobalOrderBook.UpdateOrder.onOrder cm o) o).leaves_qty = 0) := by
  induction cms with
  | nil => intro o _ _ _ h; exact ⟨h.2.2.1, h.2.2.2⟩
  | cons cm cms ih =>
    intro o hf hq hw h
    have hf2 : ∀ c ∈ cms, c.IsFill = true → 0 ≤ c.last_shares ∧ IsWhole c.last_shares :=
      fun c hc => hf c (List.mem_cons_of_mem _ hc)
    rw [sumNew_cons] at hq
    obtain ⟨hex, hq2⟩ := onOrder_whole cm o (sumNew cms) (sumNew_nonneg cms hf2)
      (hf cm (List.mem_cons_self _ _)) hq
    simp only [List.foldl_cons]
    exact ih _ hf2 hq2 hw.2
      (onOrder_inv_live cm o hex (fun h => (hf cm (List.mem_cons_self _ _) h).1) hw.1 h)

/-! ## Frame lemmas: what `Handle` and `Place` do to the heap -/

theorem modifySubAccountValue_heap (s : Engine) (id : Option Nat)
    (f : PositionValue → PositionValue) : (s.modifySubAccountValue id f).heap = s.heap := by
  unfold Engine.modifySubAccountValue
  split
  · rfl
  · split <;> rfl

theorem modifyBrokerAccountValue_heap (s : Engine) (id : Option Nat)
    (f : PositionValue → PositionValue) : (s.modifyBrokerAccountValue id f).heap = s.heap := by
  unfold Engine.modifyBrokerAccountValue
  split
  · rfl
  · split <;> rfl

theorem modifyUserValue_heap (s : Engine) (id : Option Nat)
    (f : PositionValue → PositionValue) : (s.modifyUserValue id f).heap = s.heap := by
  unfold Engine.modifyUserValue
  split
  · rfl
  · split <;> rfl

theorem updatePositions_heap (s : Engine) (ord : Order) (f : Position → Position)
    (g : PositionValue → PositionValue) : (s.updatePositions ord f g).heap = s.heap := by
  simp [Engine.updatePositions, modifySubAccountValue_heap, modifyBrokerAccountValue_heap,
    modifyUserValue_heap]

theorem PositionManager_Handle_heap (cm : Confirmation) (off : Bool) (s : Engine) :
    (PositionManager.Handle cm off s).heap = s.heap := by
  unfold PositionManager.Handle
  dsimp only
  split <;> (try split_ifs) <;> first | rfl | exact updatePositions_heap _ _ _ _

theorem Handle_heap (cm : Confirmation) (off : Bool) (s : Engine) :
    (GlobalOrderBook.Handle cm off s).heap =
      if (s.heap cm.order).id ≤ 0 then s.heap else (GlobalOrderBook.UpdateOrder cm s).2.heap := by
  unfold GlobalOrderBook.Handle
  split_ifs with hid hoff
  · rfl
  · exact PositionManager_Handle_heap _ _ _
  · simp only [Server.Publish]
    split <;> exact PositionManager_Handle_heap _ _ _

theorem UpdateThrottle_heap (env : Env) (ord : Order) (s : Engine) :
    (ExchangeConnectivity.UpdateThrottle env ord s).heap = s.heap := by
  unfold ExchangeConnectivity.UpdateThrottle
  simp only
  split <;> split <;> split <;> rfl

theorem HandleConfirmation_heap_unconfirmedNew (env : Env) (p : Ptr) (text : String) (tm : Int)
    (s : Engine) :
    (ExchangeConnectivity.HandleConfirmation env p kUnconfirmedNew text tm s).heap = s.heap := by
  unfold ExchangeConnectivity.HandleConfirmation
  rw [Handle_heap]
  simp only [reduceCtorEq, if_false]
  split_ifs <;> simp [GlobalOrderBook.UpdateOrder, GlobalOrderBook.emplace_heap]

theorem Place_submit_heap (env : Env) (p : Ptr) (adapter : Option Nat) (s : Engine)
    (hok : (ExchangeConnectivityManager.Place.submit env p adapter s).1 = true) :
    (ExchangeConnectivityManager.Place.submit env p adapter s).2.heap p =
      { s.heap p with leaves_qty := (s.heap p).qty, id := s.order_id_counter_ + 1,
                      tm := env.NowUtcInMicro } := by
  unfold ExchangeConnectivityManager.Place.submit at hok ⊢
  split at hok
  · simp [ExchangeConnectivity.reject] at hok
  · rename_i hrisk
    simp only [hrisk]
    dsimp only at hok ⊢
    split_ifs at hok ⊢ with hempty
    · simp [UpdateThrottle_heap, HandleConfirmation_heap_unconfirmedNew, Engine.store,
        GlobalOrderBook.NewOrderId]

theorem Place_routed_heap (env : Env) (p : Ptr) (s : Engine)
    (hok : (ExchangeConnectivityManager.Place.routed env p s).1 = true)
    (hotc : (s.heap p).type ≠ kOTC) :
    ∃ price : ℚ, (ExchangeConnectivityManager.Place.routed env p s).2.heap p =
      { s.heap p with price := price, leaves_qty := (s.heap p).qty,
                      id := s.order_id_counter_ + 1, tm := env.NowUtcInMicro } := by
  unfold ExchangeConnectivityManager.Place.routed at hok ⊢
  simp only [hotc, if_false] at hok ⊢
  split at hok
  · simp [ExchangeConnectivity.reject] at hok
  · rename_i hca
    split_ifs at hok ⊢ with h1 h2 h3 h4
    · simp [ExchangeConnectivity.reject] at hok
    · refine ⟨env.CurrentPrice (Engine.secOf (s.heap p)).id, ?_⟩
      rw [Place_submit_heap _ _ _ _ hok]
      simp [Engine.store]
    · exact ⟨(s.heap p).price, by rw [Place_submit_heap _ _ _ _ hok]⟩
    · simp [ExchangeConnectivity.reject] at hok
    · exact ⟨(s.heap p).price, by rw [Place_submit_heap _ _ _ _ hok]⟩

/-- What `Place` leaves in the order it accepted (non-OTC): `leaves_qty = qty`, a fresh id, and
the quantity, cumulative quantity, average price and status the caller had put into the order. -/
theorem Place_heap (env : Env) (p : Ptr) (s : Engine)
    (hok : (ExchangeConnectivityManager.Place env p s).1 = true)
    (hotc : (s.heap p).type ≠ kOTC) :
    ((ExchangeConnectivityManager.Place env p s).2.heap p).leaves_qty = (s.heap p).qty ∧
    ((ExchangeConnectivityManager.Place env p s).2.heap p).qty = (s.heap p).qty ∧
    ((ExchangeConnectivityManager.Place env p s).2.heap p).cum_qty = (s.heap p).cum_qty ∧
    ((ExchangeConnectivityManager.Place env p s).2.heap p).avg_px = (s.heap p).avg_px ∧
    ((ExchangeConnectivityManager.Place env p s).2.heap p).status = (s.heap p).status ∧
    ((ExchangeConnectivityManager.Place env p s).2.heap p).id = s.order_id_counter_ + 1 := by
  unfold ExchangeConnectivityManager.Place at hok ⊢
  dsimp only at hok ⊢
  split_ifs at hok ⊢ with h1 h2 h3 h4
  · simp [ExchangeConnectivity.reject] at hok
  · split at hok
    · simp [ExchangeConnectivity.reject] at hok
    · obtain ⟨price, h⟩ := Place_routed_heap env p _ hok (by simpa [Engine.store] using hotc)
      rw [h]
      simp [Engine.store]

/-- An accepted non-OTC order that the caller built with a positive quantity and nothing filled
is in the state `Order.Placed` when `Place` returns. -/
theorem Place_creates_placed (env : Env) (p : Ptr) (s : Engine)
    (hok : (ExchangeConnectivityManager.Place env p s).1 = true)
    (hotc : (s.heap p).type ≠ kOTC) (hq : 0 < (s.heap p).qty)
    (h0 : (s.heap p).cum_qty = 0 ∧ (s.heap p).avg_px = 0 ∧ (s.heap p).status = kUnconfirmedNew) :
    ((ExchangeConnectivityManager.Place env p s).2.heap p).Placed := by
  obtain ⟨h1, h2, h3, h4, h5, _⟩ := Place_heap env p s hok hotc
  exact ⟨by rw [h2]; exact hq, by rw [h1, h2], by rw [h3, h0.1], by rw [h4, h0.2.1],
    by rw [h5, h0.2.2]⟩

/-- The order of `exBeforePlace` is accepted. -/
theorem exPlace_accepted :
    (ExchangeConnectivityManager.Place exConnected 0 exBeforePlace).1 = true := by
  have h10 : ¬ ((10:ℚ) ≤ 0) := by norm_num
  simp [h10, exBeforePlace, exReference, exConnected, exSecurity,
      ExchangeConnectivityManager.Place, ExchangeConnectivityManager.Place.routed,
      ExchangeConnectivityManager.Place.submit,
      ExchangeConnectivity.reject, ExchangeConnectivity.HandleConfirmation,
      ExchangeConnectivity.CheckAdapter, ExchangeConnectivity.UpdateThrottle,
      ExchangeConnectivity.updateThrottle,
      GlobalOrderBook.Handle, GlobalOrderBook.Handle.body, GlobalOrderBook.UpdateOrder,
      GlobalOrderBook.emplace, GlobalOrderBook.NewOrderId, PositionManager.Handle,
      Engine.updatePositions, Engine.modifySubAccountValue, Engine.modifyBrokerAccountValue,
      Engine.modifyUserValue, Engine.store, Engine.secOf, Engine.userOf, Engine.subAccountOf,
      Engine.brokerAccountOf, RiskManager.Check, Risk.Check, Risk.CheckMsgRate, Server.Publish,
      Throttle.read, Throttle.Update, String.isEmpty]

/-- The order that `Place` leaves at address 0 of `exPlacedBook`. -/
theorem exPlacedBook_heap :
    exPlacedBook.heap 0 =
      { qty := 100, price := 10, sec := some exSecurity, sub_account := some 1, user := some 1,
        broker_account := some 1, id := 1, leaves_qty := 100, tm := 1000 } := by
  have h10 : ¬ ((10:ℚ) ≤ 0) := by norm_num
  simp [h10, exPlacedBook, exBeforePlace, exReference, exConnected, exSecurity,
      ExchangeConnectivityManager.Place, ExchangeConnectivityManager.Place.routed,
      ExchangeConnectivityManager.Place.submit,
      ExchangeConnectivity.reject, ExchangeConnectivity.HandleConfirmation,
      ExchangeConnectivity.CheckAdapter, ExchangeConnectivity.UpdateThrottle,
      ExchangeConnectivity.updateThrottle,
      GlobalOrderBook.Handle, GlobalOrderBook.Handle.body, GlobalOrderBook.UpdateOrder,
      GlobalOrderBook.emplace, GlobalOrderBook.NewOrderId, PositionManager.Handle,
      Engine.updatePositions, Engine.modifySubAccountValue, Engine.modifyBrokerAccountValue,
      Engine.modifyUserValue, Engine.store, Engine.secOf, Engine.userOf, Engine.subAccountOf,
      Engine.brokerAccountOf, RiskManager.Check, Risk.Check, Risk.CheckMsgRate, Server.Publish,
      Throttle.read, Throttle.Update, String.isEmpty]

/-- The order placed in `exPlacedBook` is in the state `Order.Placed`. -/
theorem exPlacedBook_placed : (exPlacedBook.heap 0).Placed :=
  Place_creates_placed exConnected 0 exBeforePlace exPlace_accepted
    (by simp [exBeforePlace]) (by simp [exBeforePlace]) (by simp [exBeforePlace])

/-! ## C1 -/

/-- The binary64 number of the literal `3.6`. -/
theorem Double.round_18_5 :
    Double.round (18 / 5) = 8106479329266893 / 2251799813685248 := by
  rw [Double.round_eq_of _ 1 8106479329266893 (by norm_num) (by norm_num) (by norm_num)
    (Double.rne_eq_of_near _ _ (by norm_num) (by norm_num))]
  norm_num

/-- The binary64 number of the literal `0.7`. -/
theorem Double.round_7_10 :
    Double.round (7 / 10) = 3152519739159347 / 4503599627370496 := by
  rw [Double.round_eq_of _ (-1) 6305039478318694 (by norm_num) (by norm_num) (by norm_num)
    (Double.rne_eq_of_near _ _ (by norm_num) (by norm_num))]
  norm_num

/-- The difference `3.6 - 0.7` in binary64 is `2.9000000000000004`, a tie rounded up. -/
theorem Double.sub_18_5_7_10 :
    Double.sub (Double.round (18 / 5)) (Double.round (7 / 10)) =
      1632554864921805 / 562949953421312 := by
  rw [Double.round_18_5, Double.round_7_10]
  unfold Double.sub
  rw [Double.round_eq_of _ 1 6530219459687220 (by norm_num) (by norm_num) (by norm_num)
    (Double.rne_eq_of_tie _ _ (by norm_num) (by norm_num))]
  norm_num

/-- C1, as stated, fails on the code.  (a) An order placed with qty 100 that is Canceled and then
receives a late partial fill of 10 is in the terminal status Canceled with `leaves_qty = -10`.
(b) An order placed with qty 100 that is filled for 150, then Canceled, then acknowledged by a late
New is live with `cum_qty + leaves_qty = 150 > 100`.  (c) An order placed with qty 3.6 that is
partially filled for 0.7 while it is live is live with `cum_qty = 0.7` and
`leaves_qty = 2.9000000000000004`, the rounded difference, so that `cum_qty + leaves_qty > qty`. -/
theorem C1_counterexample :
    (({ qty := 100, leaves_qty := 100 } : Order).Placed ∧
      ((GlobalOrderBook.UpdateOrders
          [{ exec_type := kCanceled },
           { exec_type := kPartiallyFilled, last_shares := 10, last_px := 1 }]
          { heap := fun _ => { qty := 100, leaves_qty := 100 } }).heap 0).status.IsTerminal = true ∧
      ((GlobalOrderBook.UpdateOrders
          [{ exec_type := kCanceled },
           { exec_type := kPartiallyFilled, last_shares := 10, last_px := 1 }]
          { heap := fun _ => { qty := 100, leaves_qty := 100 } }).heap 0).leaves_qty = -10) ∧
    (((GlobalOrderBook.UpdateOrders
          [{ exec_type := kFilled, last_shares := 150, last_px := 1 },
           { exec_type := kCanceled }, { exec_type := kNew }]
          { heap := fun _ => { qty := 100, leaves_qty := 100 } }).heap 0).IsLive = true ∧
      ¬ (((GlobalOrderBook.UpdateOrders
          [{ exec_type := kFilled, last_shares := 150, last_px := 1 },
           { exec_type := kCanceled }, { exec_type := kNew }]
          { heap := fun _ => { qty := 100, leaves_qty := 100 } }).heap 0).cum_qty +
        ((GlobalOrderBook.UpdateOrders
          [{ exec_type := kFilled, last_shares := 150, last_px := 1 },
           { exec_type := kCanceled }, { exec_type := kNew }]
          { heap := fun _ => { qty := 100, leaves_qty := 100 } }).heap 0).leaves_qty ≤
        ((GlobalOrderBook.UpdateOrders
          [{ exec_type := kFilled, last_shares := 150, last_px := 1 },
           { exec_type := kCanceled }, { exec_type := kNew }]
          { heap := fun _ => { qty := 100, leaves_qty := 100 } }).heap 0).qty)) ∧
    ((exPlacedDecimal.heap 0).Placed ∧
      FillsWhileLive (exPlacedDecimal.heap 0)
        [{ exec_type := kPartiallyFilled, last_shares := Double.round (7 / 10), last_px := 1 }] ∧
      ((GlobalOrderBook.UpdateOrders
          [{ exec_type := kPartiallyFilled, last_shares := Double.round (7 / 10), last_px := 1 }]
          exPlacedDecimal).heap 0).IsLive = true ∧
      ((GlobalOrderBook.UpdateOrders
          [{ exec_type := kPartiallyFilled, last_shares := Double.round (7 / 10), last_px := 1 }]
          exPlacedDecimal).heap 0).cum_qty = Double.round (7 / 10) ∧
      ((GlobalOrderBook.UpdateOrders
          [{ exec_type := kPartiallyFilled, last_shares := Double.round (7 / 10), last_px := 1 }]
          exPlacedDecimal).heap 0).leaves_qty = 1632554864921805 / 562949953421312 ∧
      ¬ (((GlobalOrderBook.UpdateOrders
          [{ exec_type := kPartiallyFilled, last_shares := Double.round (7 / 10), last_px := 1 }]
          exPlacedDecimal).heap 0).cum_qty +
        ((GlobalOrderBook.UpdateOrders
          [{ exec_type := kPartiallyFilled, last_shares := Double.round (7 / 10), last_px := 1 }]
          exPlacedDecimal).heap 0).leaves_qty ≤
        ((GlobalOrderBook.UpdateOrders
          [{ exec_type := kPartiallyFilled, last_shares := Double.round (7 / 10), last_px := 1 }]
          exPlacedDecimal).heap 0).qty)) := by
  have hc : Double.add 0 (Double.round (7 / 10)) = Double.round (7 / 10) := by
    unfold Double.add
    rw [zero_add, Double.round_round]
  have hlt : ¬ (Double.round (18 / 5) ≤ Double.round (7 / 10)) := by
    rw [Double.round_18_5, Double.round_7_10]
    norm_num
  refine ⟨⟨?_, ?_, ?_⟩, ⟨?_, ?_⟩, ?_, ?_, ?_, ?_, ?_, ?_⟩
  · simp [Order.Placed]
  · rw [GlobalOrderBook.UpdateOrders_heap 0 _ _ (by simp)]
    simp [GlobalOrderBook.UpdateOrder.onOrder, Order.IsLive, OrderStatus.IsTerminal,
      Double.add, Double.sub, Double.mul, Double.div, Double.round_zero]
    try norm_num [Double.round_zero, Double.round_one, Double.round_ofNat, Double.round_neg]
  · rw [GlobalOrderBook.UpdateOrders_heap 0 _ _ (by simp)]
    simp [GlobalOrderBook.UpdateOrder.onOrder, Order.IsLive, OrderStatus.IsTerminal,
      Double.add, Double.sub, Double.mul, Double.div, Double.round_zero]
    try norm_num [Double.round_zero, Double.round_one, Double.round_ofNat, Double.round_neg]
  · rw [GlobalOrderBook.UpdateOrders_heap 0 _ _ (by simp)]
    simp [GlobalOrderBook.UpdateOrder.onOrder, Order.IsLive, OrderStatus.IsTerminal,
      Double.add, Double.sub, Double.mul, Double.div, Double.round_zero]
    try norm_num [Double.round_zero, Double.round_one, Double.round_ofNat, Double.round_neg]
  · rw [GlobalOrderBook.UpdateOrders_heap 0 _ _ (by simp)]
    simp [GlobalOrderBook.UpdateOrder.onOrder, Order.IsLive, OrderStatus.IsTerminal,
      Double.add, Double.sub, Double.mul, Double.div, Double.round_zero]
    try norm_num [Double.round_zero, Double.round_one, Double.round_ofNat, Double.round_neg]
  · have h0 : (0 : ℚ) < Double.round (18 / 5) := by rw [Double.round_18_5]; norm_num
    simp [Order.Placed, exPlacedDecimal, h0]
  · have hle : Double.round (7 / 10) ≤ Double.round (18 / 5) := le_of_lt (not_le.mp hlt)
    simp [FillsWhileLive, Confirmation.IsFill, exPlacedDecimal, Order.IsLive, hle]
  · rw [GlobalOrderBook.UpdateOrders_heap 0 _ _ (by simp)]
    simp [Order.IsLive, GlobalOrderBook.onOrder_status, Confirmation.IsFill, exPlacedDecimal, hc,
      hlt]
  · rw [GlobalOrderBook.UpdateOrders_heap 0 _ _ (by simp)]
    simp [GlobalOrderBook.onOrder_cum_qty, Confirmation.IsFill, exPlacedDecimal, hc]
  · rw [GlobalOrderBook.UpdateOrders_heap 0 _ _ (by simp)]
    simp [GlobalOrderBook.onOrder_leaves_qty, Confirmation.IsFill, exPlacedDecimal,
      Double.sub_18_5_7_10]
  · rw [GlobalOrderBook.UpdateOrders_heap 0 _ _ (by simp)]
    simp only [List.foldl_cons, List.foldl_nil, GlobalOrderBook.onOrder_cum_qty,
      GlobalOrderBook.onOrder_leaves_qty, GlobalOrderBook.onOrder_qty]
    simp only [Confirmation.IsFill, exPlacedDecimal, hc, Double.sub_18_5_7_10, beq_self_eq_true,
      Bool.true_or, if_true]
    rw [Double.round_18_5, Double.round_7_10]
    norm_num

/-- C1 (amended): for every order that `Place` created with a whole-number `qty > 0` of at most
`2 ^ 53` and every stream of confirmations applied to it through `UpdateOrder` whose fills carry
whole-number non-negative quantities, the new-type fills at most `2 ^ 53` in total (so that no
quantity is rounded): `qty` never changes; `cum_qty + leaves_qty ≤ qty` holds whenever
`cum_qty ≤ qty` (in every status); `leaves_qty ≤ 0` holds whenever the status is terminal;
`leaves_qty = 0` holds right after a RiskRejected, Canceled, Rejected, Expired, Calculated or
DoneForDay confirmation; and when every new-type fill arrives while the order is live and carries
at most the current `leaves_qty`, `cum_qty + leaves_qty ≤ qty` holds (live or not) and
`leaves_qty = 0` holds whenever the status is terminal. -/
theorem C1_leaves_within_remainder (s : Engine) (p : Ptr) (cms : List Confirmation)
    (hp : ∀ cm ∈ cms, cm.order = p) (hplaced : (s.heap p).Placed)
    (hqty : IsWhole (s.heap p).qty ∧ (s.heap p).qty ≤ 2 ^ 53)
    (hfill : ∀ cm ∈ cms, cm.IsFill = true → 0 ≤ cm.last_shares ∧ IsWhole cm.last_shares)
    (hsum : sumNew cms ≤ 2 ^ 53) :
    ((GlobalOrderBook.UpdateOrders cms s).heap p).qty = (s.heap p).qty ∧
    (((GlobalOrderBook.UpdateOrders cms s).heap p).cum_qty ≤
        ((GlobalOrderBook.UpdateOrders cms s).heap p).qty →
      ((GlobalOrderBook.UpdateOrders cms s).heap p).cum_qty +
          ((GlobalOrderBook.UpdateOrders cms s).heap p).leaves_qty ≤
        ((GlobalOrderBook.UpdateOrders cms s).heap p).qty) ∧
    (((GlobalOrderBook.UpdateOrders cms s).heap p).status.IsTerminal = true →
      ((GlobalOrderBook.UpdateOrders cms s).heap p).leaves_qty ≤ 0) ∧
    (∀ cm, cms.getLast? = some cm → cm.exec_type.IsFinish = true →
      ((GlobalOrderBook.UpdateOrders cms s).heap p).leaves_qty = 0) ∧
    (FillsWhileLive (s.heap p) cms →
      ((GlobalOrderBook.UpdateOrders cms s).heap p).cum_qty +
          ((GlobalOrderBook.UpdateOrders cms s).heap p).leaves_qty ≤
        ((GlobalOrderBook.UpdateOrders cms s).heap p).qty ∧
      (((GlobalOrderBook.UpdateOrders cms s).heap p).status.IsTerminal = true →
        ((GlobalOrderBook.UpdateOrders cms s).heap p).leaves_qty = 0)) := by
  obtain ⟨hq, hl, hc, _, hs⟩ := hplaced
  have hnn := sumNew_nonneg cms hfill
  have hwhole : WholeQty (s.heap p) (sumNew cms) := by
    refine ⟨by rw [hc]; exact isWhole_zero, by rw [hl]; exact hqty.1, by rw [hc], ?_, ?_, ?_⟩
    · rw [hc, zero_add]; exact hsum
    · rw [hl]; linarith
    · rw [hl]; exact hqty.2
  rw [GlobalOrderBook.UpdateOrders_heap p cms s hp]
  have hinv := GlobalOrderBook.foldl_onOrder_inv cms (s.heap p) hfill hwhole
    ⟨by rw [hc], fun _ => by rw [hc, hl]; simp, fun h => by rw [hc] at h; linarith,
      fun h => by rw [hs] at h; simp [OrderStatus.IsTerminal] at h⟩
  refine ⟨?_, hinv.2.1, hinv.2.2.2, ?_, ?_⟩
  · exact GlobalOrderBook.foldl_onOrder_qty cms _
  · intro cm hlast hfin
    obtain ⟨ys, rfl⟩ := List.getLast?_eq_some_iff.mp hlast
    rw [List.foldl_append]
    simp only [List.foldl_cons, List.foldl_nil]
    rw [GlobalOrderBook.onOrder_leaves_qty]
    have hnf : ¬ cm.IsFill = true := by
      intro hf
      cases hty : cm.exec_type <;>
        simp [Confirmation.IsFill, OrderStatus.IsFinish, hty] at hf hfin
    simp [hnf, hfin]
  · intro hw
    exact foldl_onOrder_inv_live cms (s.heap p) hfill hwhole hw
      ⟨by rw [hl]; exact le_of_lt hq, by rw [hc], by rw [hc, hl]; simp,
        fun h => by rw [hs] at h; simp [OrderStatus.IsTerminal] at h⟩

/-- C1 witness: the order of quantity 100 that `Place` created in `exPlacedBook` is acknowledged,
partially filled for 40 and then canceled; it ends terminal with `leaves_qty = 0`. -/
theorem C1_leaves_within_remainder_witness :
    (exPlacedBook.heap 0).Placed ∧
    (IsWhole (exPlacedBook.heap 0).qty ∧ (exPlacedBook.heap 0).qty ≤ 2 ^ 53) ∧
    sumNew [{ exec_type := kNew }, { exec_type := kPartiallyFilled, last_shares := 40, last_px := 10 },
        { exec_type := kCanceled }] ≤ 2 ^ 53 ∧
    FillsWhileLive (exPlacedBook.heap 0)
      [{ exec_type := kNew }, { exec_type := kPartiallyFilled, last_shares := 40, last_px := 10 },
        { exec_type := kCanceled }] ∧
    ((GlobalOrderBook.UpdateOrders
        [{ exec_type := kNew }, { exec_type := kPartiallyFilled, last_shares := 40, last_px := 10 },
          { exec_type := kCanceled }] exPlacedBook).heap 0).cum_qty +
        ((GlobalOrderBook.UpdateOrders
          [{ exec_type := kNew },
            { exec_type := kPartiallyFilled, last_shares := 40, last_px := 10 },
            { exec_type := kCanceled }] exPlacedBook).heap 0).leaves_qty ≤
      ((GlobalOrderBook.UpdateOrders
        [{ exec_type := kNew }, { exec_type := kPartiallyFilled, last_shares := 40, last_px := 10 },
          { exec_type := kCanceled }] exPlacedBook).heap 0).qty ∧
    (((GlobalOrderBook.UpdateOrders
        [{ exec_type := kNew }, { exec_type := kPartiallyFilled, last_shares := 40, last_px := 10 },
          { exec_type := kCanceled }] exPlacedBook).heap 0).status.IsTerminal = true →
      ((GlobalOrderBook.UpdateOrders
        [{ exec_type := kNew }, { exec_type := kPartiallyFilled, last_shares := 40, last_px := 10 },
          { exec_type := kCanceled }] exPlacedBook).heap 0).leaves_qty = 0) :=
  have hw : FillsWhileLive (exPlacedBook.heap 0)
      [{ exec_type := kNew }, { exec_type := kPartiallyFilled, last_shares := 40, last_px := 10 },
        { exec_type := kCanceled }] := by
    rw [exPlacedBook_heap]
    simp [FillsWhileLive, Confirmation.IsFill, GlobalOrderBook.UpdateOrder.onOrder, Order.IsLive]
    norm_num
  have hq : IsWhole (exPlacedBook.heap 0).qty ∧ (exPlacedBook.heap 0).qty ≤ 2 ^ 53 := by
    rw [exPlacedBook_heap]
    exact ⟨rfl, by norm_num⟩
  have hsum : sumNew [{ exec_type := kNew },
      { exec_type := kPartiallyFilled, last_shares := 40, last_px := 10 },
      { exec_type := kCanceled }] ≤ 2 ^ 53 := by
    simp only [sumNew_cons]
    simp [sumNew, Confirmation.IsFill]
    norm_num
  have h := C1_leaves_within_remainder exPlacedBook 0
    [{ exec_type := kNew }, { exec_type := kPartiallyFilled, last_shares := 40, last_px := 10 },
      { exec_type := kCanceled }]
    (by simp) exPlacedBook_placed hq
    (by
      intro cm hcm _
      simp only [List.mem_cons, List.mem_singleton, List.not_mem_nil, or_false] at hcm
      rcases hcm with rfl | rfl | rfl
      · exact ⟨le_refl _, rfl⟩
      · exact ⟨by norm_num, rfl⟩
      · exact ⟨le_refl _, rfl⟩)
    hsum
  ⟨exPlacedBook_placed, hq, hsum, hw, (h.2.2.2.2 hw).1, (h.2.2.2.2 hw).2⟩

/-! ## C2 -/

theorem sumCancel_cons (cm : Confirmation) (cms : List Confirmation) :
    sumCancel (cm :: cms) =
      (if (cm.IsFill && cm.exec_trans_type == kTransCancel) = true then cm.last_shares else 0) +
        sumCancel cms := by
  unfold sumCancel
  rw [List.filter_cons]
  split_ifs <;> simp

/-- The binary64 number of the literal `0.1`. -/
theorem Double.round_1_10 :
    Double.round (1 / 10) = 3602879701896397 / 36028797018963968 := by
  rw [Double.round_eq_of _ (-4) 7205759403792794 (by norm_num) (by norm_num) (by norm_num)
    (Double.rne_eq_of_near _ _ (by norm_num) (by norm_num))]
  norm_num

/-- The binary64 number of the literal `0.2`. -/
theorem Double.round_1_5 :
    Double.round (1 / 5) = 3602879701896397 / 18014398509481984 := by
  rw [Double.round_eq_of _ (-3) 7205759403792794 (by norm_num) (by norm_num) (by norm_num)
    (Double.rne_eq_of_near _ _ (by norm_num) (by norm_num))]
  norm_num

/-- The sum `0.1 + 0.2` in binary64 is `0.30000000000000004`, a tie rounded up. -/
theorem Double.add_1_10_1_5 :
    Double.add (Double.round (1 / 10)) (Double.round (1 / 5)) =
      1351079888211149 / 4503599627370496 := by
  rw [Double.round_1_10, Double.round_1_5]
  unfold Double.add
  rw [Double.round_eq_of _ (-2) 5404319552844596 (by norm_num) (by norm_num) (by norm_num)
    (Double.rne_eq_of_tie _ _ (by norm_num) (by norm_num))]
  norm_num

theorem foldl_onOrder_cum_qty (cms : List Confirmation) :
    ∀ o : Order, NoOverBust o cms →
      (∀ cm ∈ cms, cm.IsFill = true → 0 ≤ cm.last_shares ∧ IsWhole cm.last_shares) →
      IsWhole o.cum_qty → 0 ≤ o.cum_qty → o.cum_qty + sumNew cms ≤ 2 ^ 53 →
      (cms.foldl (fun o cm => GlobalOrderBook.UpdateOrder.onOrder cm o) o).cum_qty =
        o.cum_qty + sumNew cms - sumCancel cms := by
  induction cms with
  | nil => intro o _ _ _ _ _; simp [sumNew, sumCancel]
  | cons cm cms ih =>
    intro o h hfill hw h0 hsum
    obtain ⟨hb, hrest⟩ := h
    have hf2 : ∀ c ∈ cms, c.IsFill = true → 0 ≤ c.last_shares ∧ IsWhole c.last_shares :=
      fun c hc => hfill c (List.mem_cons_of_mem _ hc)
    have hnn := sumNew_nonneg cms hf2
    rw [sumNew_cons] at hsum
    simp only [List.foldl_cons]
    have hstep : (GlobalOrderBook.UpdateOrder.onOrder cm o).cum_qty =
        o.cum_qty +
          (if (cm.IsFill && cm.exec_trans_type == kTransNew) = true then cm.last_shares else 0) -
          (if (cm.IsFill && cm.exec_trans_type == kTransCancel) = true then cm.last_shares
            else 0) := by
      rw [GlobalOrderBook.onOrder_cum_qty]
      by_cases hf : cm.IsFill = true
      · obtain ⟨hn0, hnw⟩ := hfill cm (List.mem_cons_self _ _) hf
        by_cases hnew : cm.exec_trans_type = kTransNew
        · simp only [hf, hnew, beq_self_eq_true, Bool.and_self, if_true] at hsum
          have : Double.add o.cum_qty cm.last_shares = o.cum_qty + cm.last_shares :=
            (hw.add hnw).isDouble (by linarith) (by linarith)
          simp [hf, hnew, this]
        · by_cases hcan : cm.exec_trans_type = kTransCancel
          · have hle : cm.last_shares ≤ o.cum_qty := hb (by simp [hf, hcan])
            have hsum2 : o.cum_qty ≤ 2 ^ 53 := by
              have : (0 : ℚ) ≤ (if (cm.IsFill && cm.exec_trans_type == kTransNew) = true then
                  cm.last_shares else 0) := by split_ifs <;> linarith
              linarith
            simp only [hf, hcan, if_true]
            by_cases hc : o.cum_qty ≤ cm.last_shares
            · have : o.cum_qty = cm.last_shares := le_antisymm hc hle
              simp [hc, this]
            · have : Double.sub o.cum_qty cm.last_shares = o.cum_qty - cm.last_shares :=
                (hw.sub hnw).isDouble (by linarith) (by linarith)
              simp [hc, this]
          · simp [hf, hnew, hcan]
      · simp [hf]
    have hw2 : IsWhole (GlobalOrderBook.UpdateOrder.onOrder cm o).cum_qty := by
      rw [hstep]
      by_cases hf : cm.IsFill = true
      · obtain ⟨_, hnw⟩ := hfill cm (List.mem_cons_self _ _) hf
        split_ifs
        · exact (hw.add hnw).sub hnw
        · exact (hw.add hnw).sub isWhole_zero
        · exact (hw.add isWhole_zero).sub hnw
        · exact (hw.add isWhole_zero).sub isWhole_zero
      · simp only [hf, Bool.false_and, Bool.false_eq_true, if_false]
        exact (hw.add isWhole_zero).sub isWhole_zero
    have h02 : 0 ≤ (GlobalOrderBook.UpdateOrder.onOrder cm o).cum_qty := by
      rw [hstep]
      by_cases hf : cm.IsFill = true
      · obtain ⟨hn0, _⟩ := hfill cm (List.mem_cons_self _ _) hf
        by_cases hcan : cm.exec_trans_type = kTransCancel
        · have hle : cm.last_shares ≤ o.cum_qty := hb (by simp [hf, hcan])
          simp [hf, hcan]
          linarith
        · have hne : (cm.exec_trans_type == kTransCancel) = false := by simpa using hcan
          simp only [hf, hne, Bool.and_false, Bool.false_eq_true, if_false, sub_zero]
          split_ifs <;> linarith
      · simp [hf, h0]
    have hsum3 : (GlobalOrderBook.UpdateOrder.onOrder cm o).cum_qty + sumNew cms ≤ 2 ^ 53 := by
      rw [hstep]
      have : (0 : ℚ) ≤ (if (cm.IsFill && cm.exec_trans_type == kTransCancel) = true then
          cm.last_shares else 0) := by
        split_ifs with hc
        · simp only [Bool.and_eq_true] at hc
          exact (hfill cm (List.mem_cons_self _ _) hc.1).1
        · exact le_refl _
      linarith
    rw [ih _ hrest hf2 hw2 h02 hsum3, sumNew_cons, sumCancel_cons, hstep]
    ring

/-- C2, as stated, fails on the code.  (a) A new-type fill of 50 followed by a bust of 80 leaves
`cum_qty = 0`, while the sum over new confirmations minus the sum over cancel confirmations is
`-30`.  (b) New-type fills of 0.1 and 0.2 leave `cum_qty = 0.30000000000000004`, the rounded sum,
which is not the sum of the two quantities. -/
theorem C2_counterexample :
    (((GlobalOrderBook.UpdateOrders
        [{ exec_type := kPartiallyFilled, last_shares := 50, last_px := 10 },
          { exec_type := kPartiallyFilled, exec_trans_type := kTransCancel, last_shares := 80,
            last_px := 10 }] exPlaced100).heap 0).cum_qty = 0 ∧
      sumNew [{ exec_type := kPartiallyFilled, last_shares := 50, last_px := 10 },
          { exec_type := kPartiallyFilled, exec_trans_type := kTransCancel, last_shares := 80,
            last_px := 10 }] -
        sumCancel [{ exec_type := kPartiallyFilled, last_shares := 50, last_px := 10 },
          { exec_type := kPartiallyFilled, exec_trans_type := kTransCancel, last_shares := 80,
            last_px := 10 }] = -30) ∧
    (((GlobalOrderBook.UpdateOrders
        [{ exec_type := kPartiallyFilled, last_shares := Double.round (1 / 10), last_px := 10 },
          { exec_type := kPartiallyFilled, last_shares := Double.round (1 / 5), last_px := 10 }]
        exPlaced100).heap 0).cum_qty = 1351079888211149 / 4503599627370496 ∧
      sumNew
          [{ exec_type := kPartiallyFilled, last_shares := Double.round (1 / 10), last_px := 10 },
            { exec_type := kPartiallyFilled, last_shares := Double.round (1 / 5), last_px := 10 }] -
        sumCancel
          [{ exec_type := kPartiallyFilled, last_shares := Double.round (1 / 10), last_px := 10 },
            { exec_type := kPartiallyFilled, last_shares := Double.round (1 / 5), last_px := 10 }] =
        10808639105689191 / 36028797018963968) := by
  refine ⟨⟨?_, ?_⟩, ?_, ?_⟩
  · rw [GlobalOrderBook.UpdateOrders_heap 0 _ _ (by simp)]
    simp [GlobalOrderBook.UpdateOrder.onOrder, exPlaced100, Order.IsLive, Double.add, Double.sub,
      Double.mul, Double.div, Double.round_zero]
    try norm_num [Double.round_zero, Double.round_one, Double.round_ofNat, Double.round_neg]
  · simp [sumNew, sumCancel, Confirmation.IsFill]
    try norm_num
  · have hc : Double.add 0 (Double.round (1 / 10)) = Double.round (1 / 10) := by
      unfold Double.add
      rw [zero_add, Double.round_round]
    rw [GlobalOrderBook.UpdateOrders_heap 0 _ _ (by simp)]
    simp only [List.foldl_cons, List.foldl_nil, GlobalOrderBook.onOrder_cum_qty,
      Confirmation.IsFill, exPlaced100, beq_self_eq_true, Bool.true_or, if_true, hc,
      Double.add_1_10_1_5]
  · simp only [sumNew_cons, sumCancel_cons]
    simp only [sumNew, sumCancel, Confirmation.IsFill, beq_self_eq_true, Bool.true_or,
      Bool.and_self, if_true, Double.round_1_10, Double.round_1_5]
    simp
    norm_num

/-- C2 (amended): for any order and any stream of confirmations applied to it by `UpdateOrder` in
which no bust is larger than the `cum_qty` it is applied to, and in which the quantities are whole
numbers (the `cum_qty` of the order at the start and the new-type fills at most `2 ^ 53` in
total, so that no sum is rounded), the order's `cum_qty` grows by the sum of `last_shares` over
the new-type fills minus the sum over the cancel-type fills (so it equals that difference for an
order that starts with nothing filled); a larger bust sets `cum_qty` to 0 instead. -/
theorem C2_cum_qty_net_of_fills (s : Engine) (p : Ptr) (cms : List Confirmation)
    (hp : ∀ cm ∈ cms, cm.order = p) (hno : NoOverBust (s.heap p) cms)
    (hfill : ∀ cm ∈ cms, cm.IsFill = true → 0 ≤ cm.last_shares ∧ IsWhole cm.last_shares)
    (hcum : IsWhole (s.heap p).cum_qty ∧ 0 ≤ (s.heap p).cum_qty)
    (hsum : (s.heap p).cum_qty + sumNew cms ≤ 2 ^ 53) :
    ((GlobalOrderBook.UpdateOrders cms s).heap p).cum_qty =
      (s.heap p).cum_qty + sumNew cms - sumCancel cms := by
  rw [GlobalOrderBook.UpdateOrders_heap p cms s hp]
  exact foldl_onOrder_cum_qty cms _ hno hfill hcum.1 hcum.2 hsum

/-- C2 witness: fills of 50 and 30 followed by a bust of the 30. -/
theorem C2_cum_qty_net_of_fills_witness :
    NoOverBust (exPlaced100.heap 0)
      [{ exec_type := kPartiallyFilled, last_shares := 50, last_px := 10 },
        { exec_type := kPartiallyFilled, last_shares := 30, last_px := 11 },
        { exec_type := kPartiallyFilled, exec_trans_type := kTransCancel, last_shares := 30,
          last_px := 11 }] ∧
    (exPlaced100.heap 0).cum_qty +
        sumNew [{ exec_type := kPartiallyFilled, last_shares := 50, last_px := 10 },
          { exec_type := kPartiallyFilled, last_shares := 30, last_px := 11 },
          { exec_type := kPartiallyFilled, exec_trans_type := kTransCancel, last_shares := 30,
            last_px := 11 }] ≤ 2 ^ 53 ∧
    ((GlobalOrderBook.UpdateOrders
        [{ exec_type := kPartiallyFilled, last_shares := 50, last_px := 10 },
          { exec_type := kPartiallyFilled, last_shares := 30, last_px := 11 },
          { exec_type := kPartiallyFilled, exec_trans_type := kTransCancel, last_shares := 30,
            last_px := 11 }] exPlaced100).heap 0).cum_qty =
      (exPlaced100.heap 0).cum_qty +
        sumNew [{ exec_type := kPartiallyFilled, last_shares := 50, last_px := 10 },
          { exec_type := kPartiallyFilled, last_shares := 30, last_px := 11 },
          { exec_type := kPartiallyFilled, exec_trans_type := kTransCancel, last_shares := 30,
            last_px := 11 }] -
        sumCancel [{ exec_type := kPartiallyFilled, last_shares := 50, last_px := 10 },
          { exec_type := kPartiallyFilled, last_shares := 30, last_px := 11 },
          { exec_type := kPartiallyFilled, exec_trans_type := kTransCancel, last_shares := 30,
            last_px := 11 }] :=
  have h : NoOverBust (exPlaced100.heap 0)
      [{ exec_type := kPartiallyFilled, last_shares := 50, last_px := 10 },
        { exec_type := kPartiallyFilled, last_shares := 30, last_px := 11 },
        { exec_type := kPartiallyFilled, exec_trans_type := kTransCancel, last_shares := 30,
          last_px := 11 }] := by
    simp [NoOverBust, Confirmation.IsFill, GlobalOrderBook.onOrder_cum_qty, exPlaced100,
      Double.add]
    norm_num [Double.round_ofNat]
  have hsum : (exPlaced100.heap 0).cum_qty +
      sumNew [{ exec_type := kPartiallyFilled, last_shares := 50, last_px := 10 },
        { exec_type := kPartiallyFilled, last_shares := 30, last_px := 11 },
        { exec_type := kPartiallyFilled, exec_trans_type := kTransCancel, last_shares := 30,
          last_px := 11 }] ≤ 2 ^ 53 := by
    simp only [sumNew_cons]
    simp [sumNew, Confirmation.IsFill, exPlaced100]
    norm_num
  ⟨h, hsum, C2_cum_qty_net_of_fills exPlaced100 0 _ (by simp) h
    (by
      intro cm hcm _
      simp only [List.mem_cons, List.mem_singleton, List.not_mem_nil, or_false] at hcm
      rcases hcm with rfl | rfl | rfl
      · exact ⟨by norm_num, rfl⟩
      · exact ⟨by norm_num, rfl⟩
      · exact ⟨by norm_num, rfl⟩)
    ⟨rfl, le_refl _⟩ hsum⟩

/-! ## C3 -/

/-- C3, as stated, fails on the code: an order of quantity 100 that was filled for 100 and whose
fill was then busted has status Filled and `cum_qty = 0`; a new-type fill of 10 at price 10 leaves
the status Filled although `cum_qty = 10 < 100 = qty`. -/
theorem C3_counterexample :
    ((GlobalOrderBook.UpdateOrders
        [{ exec_type := kFilled, last_shares := 100, last_px := 10 },
          { exec_type := kFilled, exec_trans_type := kTransCancel, last_shares := 100,
            last_px := 10 },
          { exec_type := kPartiallyFilled, last_shares := 10, last_px := 10 }]
        exPlaced100).heap 0).status = kFilled ∧
    ¬ (((GlobalOrderBook.UpdateOrders
        [{ exec_type := kFilled, last_shares := 100, last_px := 10 },
          { exec_type := kFilled, exec_trans_type := kTransCancel, last_shares := 100,
            last_px := 10 },
          { exec_type := kPartiallyFilled, last_shares := 10, last_px := 10 }]
        exPlaced100).heap 0).cum_qty ≥
      ((GlobalOrderBook.UpdateOrders
        [{ exec_type := kFilled, last_shares := 100, last_px := 10 },
          { exec_type := kFilled, exec_trans_type := kTransCancel, last_shares := 100,
            last_px := 10 },
          { exec_type := kPartiallyFilled, last_shares := 10, last_px := 10 }]
        exPlaced100).heap 0).qty) := by
  constructor
  all_goals
    rw [GlobalOrderBook.UpdateOrders_heap 0 _ _ (by simp)]
    simp [GlobalOrderBook.UpdateOrder.onOrder, exPlaced100, Order.IsLive, Double.add, Double.sub,
      Double.mul, Double.div, Double.round_zero]
    norm_num [Double.round_zero, Double.round_one, Double.round_ofNat, Double.round_neg]
    simp
    try norm_num

/-- C3 (amended): for every order and every PartiallyFilled/Filled confirmation with
`exec_trans_type = new`, `last_shares = n > 0` and `last_px = p > 0`, `UpdateOrder` sets `avg_px` to
`(avg_px*cum_qty + p*n)/(cum_qty + n)`, increases `cum_qty` by `n`, decreases `leaves_qty` by `n`
and keeps `qty`, each operation being the one of binary64 and the quotient being the one of a
divisor other than zero (which `cum_qty + n` is for every order with `cum_qty ≥ 0`); afterwards the
status is Filled if `cum_qty ≥ qty`, and otherwise it is PartiallyFilled when the order was live
and the status it had when the order was not live.  So "Filled iff `cum_qty ≥ qty`" holds for every
order that was not already Filled. -/
theorem C3_fill_updates_order (s : Engine) (cm : Confirmation)
    (hfill : cm.IsFill = true) (hnew : cm.exec_trans_type = kTransNew)
    (hn : 0 < cm.last_shares ∧ IsDouble cm.last_shares) (_hpx : 0 < cm.last_px) :
    (Double.add (s.heap cm.order).cum_qty cm.last_shares ≠ 0 →
      ((GlobalOrderBook.UpdateOrder cm s).2.heap cm.order).avg_px =
        Double.div
          (Double.add (Double.mul (s.heap cm.order).avg_px (s.heap cm.order).cum_qty)
            (Double.mul cm.last_px cm.last_shares))
          (Double.add (s.heap cm.order).cum_qty cm.last_shares)) ∧
    (0 ≤ (s.heap cm.order).cum_qty → 0 < Double.add (s.heap cm.order).cum_qty cm.last_shares) ∧
    ((GlobalOrderBook.UpdateOrder cm s).2.heap cm.order).cum_qty =
      Double.add (s.heap cm.order).cum_qty cm.last_shares ∧
    ((GlobalOrderBook.UpdateOrder cm s).2.heap cm.order).leaves_qty =
      Double.sub (s.heap cm.order).leaves_qty cm.last_shares ∧
    ((GlobalOrderBook.UpdateOrder cm s).2.heap cm.order).qty = (s.heap cm.order).qty ∧
    (((GlobalOrderBook.UpdateOrder cm s).2.heap cm.order).cum_qty ≥
        ((GlobalOrderBook.UpdateOrder cm s).2.heap cm.order).qty →
      ((GlobalOrderBook.UpdateOrder cm s).2.heap cm.order).status = kFilled) ∧
    (((GlobalOrderBook.UpdateOrder cm s).2.heap cm.order).cum_qty <
        ((GlobalOrderBook.UpdateOrder cm s).2.heap cm.order).qty →
      ((GlobalOrderBook.UpdateOrder cm s).2.heap cm.order).status =
        if (s.heap cm.order).IsLive = true then kPartiallyFilled else (s.heap cm.order).status) ∧
    ((s.heap cm.order).status ≠ kFilled →
      (((GlobalOrderBook.UpdateOrder cm s).2.heap cm.order).status = kFilled ↔
        ((GlobalOrderBook.UpdateOrder cm s).2.heap cm.order).cum_qty ≥
          ((GlobalOrderBook.UpdateOrder cm s).2.heap cm.order).qty)) := by
  rw [GlobalOrderBook.UpdateOrder_heap, GlobalOrderBook.onOrder_avg_px,
    GlobalOrderBook.onOrder_cum_qty, GlobalOrderBook.onOrder_leaves_qty,
    GlobalOrderBook.onOrder_qty, GlobalOrderBook.onOrder_status]
  simp only [hfill, hnew, if_true]
  refine ⟨fun _ => trivial, fun h0 => ?_, trivial, trivial, trivial, fun h => by simp [h],
    fun h => ?_, fun hne => ?_⟩
  · have h1 : (2 : ℚ) ^ (-1074 : ℤ) ≤ cm.last_shares := Double.le_of_pos _ hn.2 hn.1
    exact Double.round_pos _ (by linarith)
  · have : ¬ (Double.add (s.heap cm.order).cum_qty cm.last_shares ≥ (s.heap cm.order).qty) :=
      not_le.mpr h
    simp [this]
  · by_cases h : Double.add (s.heap cm.order).cum_qty cm.last_shares ≥ (s.heap cm.order).qty
    · simp [h]
    · by_cases hl : (s.heap cm.order).IsLive = true
      · simp [h, hl]
      · simp [h, hl, hne]

/-- C3 witness: a first partial fill of 40 at price 10 on a fresh order of quantity 100. -/
theorem C3_fill_updates_order_witness :
    (0 < (40 : ℚ) ∧ IsDouble 40) ∧
    ((GlobalOrderBook.UpdateOrder
        { exec_type := kPartiallyFilled, last_shares := 40, last_px := 10 }
        exPlaced100).2.heap 0).cum_qty = Double.add (exPlaced100.heap 0).cum_qty 40 ∧
    ((GlobalOrderBook.UpdateOrder
        { exec_type := kPartiallyFilled, last_shares := 40, last_px := 10 }
        exPlaced100).2.heap 0).leaves_qty = Double.sub (exPlaced100.heap 0).leaves_qty 40 :=
  have hn : 0 < (40 : ℚ) ∧ IsDouble 40 := ⟨by norm_num, Double.round_ofNat 40 (by norm_num)⟩
  have h := C3_fill_updates_order exPlaced100
    { exec_type := kPartiallyFilled, last_shares := 40, last_px := 10 }
    (by simp [Confirmation.IsFill]) rfl hn (by norm_num)
  ⟨hn, h.2.2.1, h.2.2.2.1⟩

/-! ## C4 -/

/-- C4: the code breaks the claim.  An order of quantity 100 that is completely filled is in the
terminal status Filled; a late New confirmation applied through `UpdateOrder` sets the status to
New, so `IsLive` is true again. -/
theorem C4_late_new_revives_filled_order :
    ((GlobalOrderBook.UpdateOrders [{ exec_type := kFilled, last_shares := 100, last_px := 10 }]
        exPlaced100).heap 0).status = kFilled ∧
    ((GlobalOrderBook.UpdateOrders [{ exec_type := kFilled, last_shares := 100, last_px := 10 }]
        exPlaced100).heap 0).IsLive = false ∧
    ((GlobalOrderBook.UpdateOrders
        [{ exec_type := kFilled, last_shares := 100, last_px := 10 }, { exec_type := kNew }]
        exPlaced100).heap 0).status = kNew ∧
    ((GlobalOrderBook.UpdateOrders
        [{ exec_type := kFilled, last_shares := 100, last_px := 10 }, { exec_type := kNew }]
        exPlaced100).heap 0).IsLive = true := by
  have h100 : Double.add 0 100 = 100 := by norm_num [Double.add, Double.round_ofNat]
  refine ⟨?_, ?_, ?_, ?_⟩
  all_goals
    rw [GlobalOrderBook.UpdateOrders_heap 0 _ _ (by simp)]
    simp [GlobalOrderBook.onOrder_status, Confirmation.IsFill, OrderStatus.IsFinish, exPlaced100,
      Order.IsLive, h100]

/-! ## C5 -/

/-- C5, as stated, fails on the code: a live order (status UnconfirmedNew) that receives
PendingCancel and then CancelRejected ends with status PendingCancel, and `IsLive` is false. -/
theorem C5_counterexample :
    (exPlaced100.heap 0).IsLive = true ∧
    ((GlobalOrderBook.UpdateOrders [{ exec_type := kPendingCancel }, { exec_type := kCancelRejected }]
        exPlaced100).heap 0).status = kPendingCancel ∧
    ((GlobalOrderBook.UpdateOrders [{ exec_type := kPendingCancel }, { exec_type := kCancelRejected }]
        exPlaced100).heap 0).status ≠ (exPlaced100.heap 0).status ∧
    ((GlobalOrderBook.UpdateOrders [{ exec_type := kPendingCancel }, { exec_type := kCancelRejected }]
        exPlaced100).heap 0).IsLive = false := by
  refine ⟨by simp [exPlaced100, Order.IsLive], ?_, ?_, ?_⟩
  all_goals
    rw [GlobalOrderBook.UpdateOrders_heap 0 _ _ (by simp)]
    simp [GlobalOrderBook.UpdateOrder.onOrder, exPlaced100, Order.IsLive]

/-- C5 (amended): `UpdateOrder` has no branch for CancelRejected, so that confirmation changes
nothing in the engine; applying PendingCancel and then CancelRejected to an order leaves it with
status PendingCancel (all other fields as before), and `IsLive` is false. -/
theorem C5_cancel_rejected_keeps_pending_cancel (s : Engine) (cm1 cm2 : Confirmation) :
    (GlobalOrderBook.UpdateOrder { cm2 with exec_type := kCancelRejected } s).2 = s ∧
    ((GlobalOrderBook.UpdateOrders
        [{ cm1 with exec_type := kPendingCancel },
          { cm2 with order := cm1.order, exec_type := kCancelRejected }] s).heap cm1.order) =
      { s.heap cm1.order with status := kPendingCancel } ∧
    ((GlobalOrderBook.UpdateOrders
        [{ cm1 with exec_type := kPendingCancel },
          { cm2 with order := cm1.order, exec_type := kCancelRejected }] s).heap cm1.order).IsLive =
      false := by
  refine ⟨?_, ?_, ?_⟩
  · simp [GlobalOrderBook.UpdateOrder, GlobalOrderBook.UpdateOrder.onOrder, Engine.store]
  all_goals
    rw [GlobalOrderBook.UpdateOrders_heap cm1.order _ _ (by simp)]
    simp [GlobalOrderBook.UpdateOrder.onOrder, Order.IsLive]

/-! ## C6 -/

/-- The binary64 number of the literal `0.3`. -/
theorem Double.round_3_10 :
    Double.round (3 / 10) =
      5404319552844595 / 18014398509481984 := by
  rw [Double.round_eq_of _ (-2) 5404319552844595 (by norm_num) (by norm_num) (by norm_num)
    (Double.rne_eq_of_near _ _ (by norm_num) (by norm_num))]
  norm_num

/-- C6, as stated, fails on the code.  (a) An order of quantity 100 has `leaves_qty = 100`; after
a new-type fill of 100 at price 10 and a bust carrying the same quantity and price, `avg_px` and
`cum_qty` are back to 0 but `leaves_qty` is 0, not 100.  (b) An order filled for 3 at price 0.1
has `avg_px = 0.10000000000000002`; after a further fill of 7 at price 0.3 and the bust of that
fill, `cum_qty` is 3 again but `avg_px` is `0.10000000000000009`. -/
theorem C6_counterexample :
    ((exPlaced100.heap 0).leaves_qty = 100 ∧
      ((GlobalOrderBook.UpdateOrders
          [{ exec_type := kFilled, last_shares := 100, last_px := 10 },
            { exec_type := kFilled, exec_trans_type := kTransCancel, last_shares := 100,
              last_px := 10 }] exPlaced100).heap 0).leaves_qty = 0 ∧
      ((GlobalOrderBook.UpdateOrders
          [{ exec_type := kFilled, last_shares := 100, last_px := 10 },
            { exec_type := kFilled, exec_trans_type := kTransCancel, last_shares := 100,
              last_px := 10 }] exPlaced100).heap 0).cum_qty = 0 ∧
      ((GlobalOrderBook.UpdateOrders
          [{ exec_type := kFilled, last_shares := 100, last_px := 10 },
            { exec_type := kFilled, exec_trans_type := kTransCancel, last_shares := 100,
              last_px := 10 }] exPlaced100).heap 0).avg_px = 0) ∧
    (((GlobalOrderBook.UpdateOrders
          [{ exec_type := kPartiallyFilled, last_shares := 3, last_px := Double.round (1 / 10) }]
          exPlaced100).heap 0).cum_qty = 3 ∧
      ((GlobalOrderBook.UpdateOrders
          [{ exec_type := kPartiallyFilled, last_shares := 3, last_px := Double.round (1 / 10) }]
          exPlaced100).heap 0).avg_px = 7205759403792795 / 72057594037927936 ∧
      ((GlobalOrderBook.UpdateOrders
          [{ exec_type := kPartiallyFilled, last_shares := 3, last_px := Double.round (1 / 10) },
            { exec_type := kPartiallyFilled, last_shares := 7, last_px := Double.round (3 / 10) },
            { exec_type := kPartiallyFilled, exec_trans_type := kTransCancel, last_shares := 7,
              last_px := Double.round (3 / 10) }] exPlaced100).heap 0).cum_qty = 3 ∧
      ((GlobalOrderBook.UpdateOrders
          [{ exec_type := kPartiallyFilled, last_shares := 3, last_px := Double.round (1 / 10) },
            { exec_type := kPartiallyFilled, last_shares := 7, last_px := Double.round (3 / 10) },
            { exec_type := kPartiallyFilled, exec_trans_type := kTransCancel, last_shares := 7,
              last_px := Double.round (3 / 10) }] exPlaced100).heap 0).avg_px =
        225179981368525 / 2251799813685248) := by
  have h1 : Double.mul 0 0 = 0 := by
    unfold Double.mul
    norm_num [Double.round_zero]
  have h2 : Double.mul (3602879701896397 / 36028797018963968) 3 = 1351079888211149 / 4503599627370496 := by
    unfold Double.mul
    rw [Double.round_eq_of _ (-2) 5404319552844596 (by norm_num) (by norm_num) (by norm_num)
      (Double.rne_eq_of_tie _ _ (by norm_num) (by norm_num))]
    norm_num
  have h3 : Double.add 0 (1351079888211149 / 4503599627370496) = 1351079888211149 / 4503599627370496 := by
    unfold Double.add
    rw [Double.round_eq_of _ (-2) 5404319552844596 (by norm_num) (by norm_num) (by norm_num)
      (Double.rne_eq_of_near _ _ (by norm_num) (by norm_num))]
    norm_num
  have h4 : Double.add 0 3 = 3 := by
    unfold Double.add
    rw [Double.round_eq_of _ (1) 6755399441055744 (by norm_num) (by norm_num) (by norm_num)
      (Double.rne_eq_of_near _ _ (by norm_num) (by norm_num))]
    norm_num
  have h5 : Double.div (1351079888211149 / 4503599627370496) 3 = 7205759403792795 / 72057594037927936 := by
    unfold Double.div
    rw [Double.round_eq_of _ (-4) 7205759403792795 (by norm_num) (by norm_num) (by norm_num)
      (Double.rne_eq_of_near _ _ (by norm_num) (by norm_num))]
    norm_num
  have h6 : Double.sub 100 3 = 97 := by
    unfold Double.sub
    rw [Double.round_eq_of _ (6) 6825768185233408 (by norm_num) (by norm_num) (by norm_num)
      (Double.rne_eq_of_near _ _ (by norm_num) (by norm_num))]
    norm_num
  have h7 : Double.mul (7205759403792795 / 72057594037927936) 3 = 1351079888211149 / 4503599627370496 := by
    unfold Double.mul
    rw [Double.round_eq_of _ (-2) 5404319552844596 (by norm_num) (by norm_num) (by norm_num)
      (Double.rne_eq_of_near _ _ (by norm_num) (by norm_num))]
    norm_num
  have h8 : Double.mul (5404319552844595 / 18014398509481984) 7 = 4728779608739021 / 2251799813685248 := by
    unfold Double.mul
    rw [Double.round_eq_of _ (1) 4728779608739021 (by norm_num) (by norm_num) (by norm_num)
      (Double.rne_eq_of_near _ _ (by norm_num) (by norm_num))]
    norm_num
  have h9 : Double.add (1351079888211149 / 4503599627370496) (4728779608739021 / 2251799813685248) = 1351079888211149 / 562949953421312 := by
    unfold Double.add
    rw [Double.round_eq_of _ (1) 5404319552844596 (by norm_num) (by norm_num) (by norm_num)
      (Double.rne_eq_of_tie _ _ (by norm_num) (by norm_num))]
    norm_num
  have h10 : Double.add 3 7 = 10 := by
    unfold Double.add
    rw [Double.round_eq_of _ (3) 5629499534213120 (by norm_num) (by norm_num) (by norm_num)
      (Double.rne_eq_of_near _ _ (by norm_num) (by norm_num))]
    norm_num
  have h11 : Double.div (1351079888211149 / 562949953421312) 10 = 4323455642275677 / 18014398509481984 := by
    unfold Double.div
    rw [Double.round_eq_of _ (-3) 8646911284551354 (by norm_num) (by norm_num) (by norm_num)
      (Double.rne_eq_of_near _ _ (by norm_num) (by norm_num))]
    norm_num
  have h12 : Double.sub 97 7 = 90 := by
    unfold Double.sub
    rw [Double.round_eq_of _ (6) 6333186975989760 (by norm_num) (by norm_num) (by norm_num)
      (Double.rne_eq_of_near _ _ (by norm_num) (by norm_num))]
    norm_num
  have h13 : Double.mul (4323455642275677 / 18014398509481984) 10 = 1351079888211149 / 562949953421312 := by
    unfold Double.mul
    rw [Double.round_eq_of _ (1) 5404319552844596 (by norm_num) (by norm_num) (by norm_num)
      (Double.rne_eq_of_near _ _ (by norm_num) (by norm_num))]
    norm_num
  have h14 : Double.sub (1351079888211149 / 562949953421312) (4728779608739021 / 2251799813685248) = 675539944105575 / 2251799813685248 := by
    unfold Double.sub
    rw [Double.round_eq_of _ (-2) 5404319552844600 (by norm_num) (by norm_num) (by norm_num)
      (Double.rne_eq_of_near _ _ (by norm_num) (by norm_num))]
    norm_num
  have h15 : Double.sub 10 7 = 3 := by
    unfold Double.sub
    rw [Double.round_eq_of _ (1) 6755399441055744 (by norm_num) (by norm_num) (by norm_num)
      (Double.rne_eq_of_near _ _ (by norm_num) (by norm_num))]
    norm_num
  have h16 : Double.div (675539944105575 / 2251799813685248) 3 = 225179981368525 / 2251799813685248 := by
    unfold Double.div
    rw [Double.round_eq_of _ (-4) 7205759403792800 (by norm_num) (by norm_num) (by norm_num)
      (Double.rne_eq_of_near _ _ (by norm_num) (by norm_num))]
    norm_num
  refine ⟨⟨by simp [exPlaced100], ?_, ?_, ?_⟩, ?_, ?_, ?_, ?_⟩
  · rw [GlobalOrderBook.UpdateOrders_heap 0 _ _ (by simp)]
    simp [GlobalOrderBook.onOrder_leaves_qty, Confirmation.IsFill, exPlaced100, Double.sub,
      Double.round_zero]
  · rw [GlobalOrderBook.UpdateOrders_heap 0 _ _ (by simp)]
    simp [GlobalOrderBook.onOrder_cum_qty, Confirmation.IsFill, exPlaced100, Double.add]
    norm_num [Double.round_ofNat]
  · rw [GlobalOrderBook.UpdateOrders_heap 0 _ _ (by simp)]
    simp [GlobalOrderBook.onOrder_avg_px, GlobalOrderBook.onOrder_cum_qty, Confirmation.IsFill,
      exPlaced100, Double.add]
    norm_num [Double.round_ofNat]
  all_goals
    rw [GlobalOrderBook.UpdateOrders_heap 0 _ _ (by simp)]
    simp only [List.foldl_cons, List.foldl_nil, GlobalOrderBook.onOrder_avg_px,
      GlobalOrderBook.onOrder_cum_qty, Confirmation.IsFill, exPlaced100, beq_self_eq_true,
      Bool.true_or, if_true, reduceCtorEq, if_false, Double.round_1_10, Double.round_3_10]
    norm_num [h1, h2, h3, h4, h5, h6, h7, h8, h9, h10, h11, h12, h13, h14, h15, h16]

/-- C6 (amended): a bust reverses the price and quantity of a fill, not the remainder, and the
price only as far as nothing is rounded.  Apply a new-type fill (`last_shares = n > 0`,
`last_px = p`) and then a cancel-type confirmation carrying the same `n` and `p`.  For an order
with nothing filled (`cum_qty = 0`) they leave `avg_px = 0` and `cum_qty = 0`.  For an order with
`cum_qty > 0` they return `avg_px` and `cum_qty` to the values they had before the fill when no
sum, difference, product or quotient of the two updates is rounded.  In both cases `leaves_qty`
stays reduced by `n`. -/
theorem C6_bust_restores_avg_px_and_cum_qty (s : Engine) (fill bust : Confirmation)
    (hf : fill.IsFill = true) (hb : bust.IsFill = true)
    (hnew : fill.exec_trans_type = kTransNew) (hcan : bust.exec_trans_type = kTransCancel)
    (hord : bust.order = fill.order)
    (hn : 0 < fill.last_shares ∧ IsDouble fill.last_shares)
    (hsame : bust.last_shares = fill.last_shares ∧ bust.last_px = fill.last_px) :
    ((s.heap fill.order).cum_qty = 0 →
      ((GlobalOrderBook.UpdateOrders [fill, bust] s).heap fill.order).avg_px = 0 ∧
      ((GlobalOrderBook.UpdateOrders [fill, bust] s).heap fill.order).cum_qty = 0) ∧
    (0 < (s.heap fill.order).cum_qty → NoRounding (s.heap fill.order) [fill, bust] →
      ((GlobalOrderBook.UpdateOrders [fill, bust] s).heap fill.order).avg_px =
        (s.heap fill.order).avg_px ∧
      ((GlobalOrderBook.UpdateOrders [fill, bust] s).heap fill.order).cum_qty =
        (s.heap fill.order).cum_qty) ∧
    ((GlobalOrderBook.UpdateOrders [fill, bust] s).heap fill.order).leaves_qty =
      Double.sub (s.heap fill.order).leaves_qty fill.last_shares := by
  rw [GlobalOrderBook.UpdateOrders_heap fill.order _ _ (by simp [hord])]
  simp only [List.foldl_cons, List.foldl_nil]
  refine ⟨fun h0 => ?_, fun hpos hex => ?_, ?_⟩
  · have e1 : (GlobalOrderBook.UpdateOrder.onOrder fill (s.heap fill.order)).cum_qty =
        fill.last_shares := by
      rw [GlobalOrderBook.onOrder_cum_qty]
      simp only [hf, hnew, if_true, h0]
      unfold Double.add
      rw [zero_add]
      exact hn.2
    rw [GlobalOrderBook.onOrder_avg_px bust, GlobalOrderBook.onOrder_cum_qty bust, e1]
    simp [hb, hcan, hsame.1]
  · obtain ⟨hq1, hp1, hq2, hp2, _⟩ := hex
    have e1 : (GlobalOrderBook.UpdateOrder.onOrder fill (s.heap fill.order)).cum_qty =
        (s.heap fill.order).cum_qty + fill.last_shares := by
      rw [GlobalOrderBook.onOrder_cum_qty_of_exact _ _ hq1]; simp [hf, hnew]
    have e2 : (GlobalOrderBook.UpdateOrder.onOrder fill (s.heap fill.order)).avg_px =
        ((s.heap fill.order).avg_px * (s.heap fill.order).cum_qty +
          fill.last_px * fill.last_shares) / ((s.heap fill.order).cum_qty + fill.last_shares) := by
      rw [GlobalOrderBook.onOrder_avg_px_of_exact _ _ hq1 hp1]; simp [hf, hnew]
    rw [GlobalOrderBook.onOrder_avg_px_of_exact bust _ hq2 hp2,
      GlobalOrderBook.onOrder_cum_qty_of_exact bust _ hq2, e1, e2]
    simp only [hb, hcan, hsame.1, hsame.2, if_true, reduceCtorEq, if_false]
    have hc : ¬ ((s.heap fill.order).cum_qty + fill.last_shares ≤ fill.last_shares) := by
      linarith
    simp only [hc, if_false]
    refine ⟨?_, by ring⟩
    have hd : (s.heap fill.order).cum_qty + fill.last_shares ≠ 0 := by linarith [hn.1]
    rw [div_mul_cancel₀ _ hd]
    have : (s.heap fill.order).cum_qty + fill.last_shares - fill.last_shares =
        (s.heap fill.order).cum_qty := by ring
    rw [this]
    field_simp
  · rw [GlobalOrderBook.onOrder_leaves_qty bust, GlobalOrderBook.onOrder_leaves_qty fill]
    simp [hf, hb, hnew, hcan]

/-- The fill of 30 at price 12 on the order of `exPartlyFilled` and its bust round nothing: the
average price in between is 10.75. -/
theorem exPartlyFilled_noRounding :
    NoRounding (exPartlyFilled.heap 0)
      [{ exec_type := kPartiallyFilled, last_shares := 30, last_px := 12 },
        { exec_type := kPartiallyFilled, exec_trans_type := kTransCancel, last_shares := 30,
          last_px := 12 }] := by
  have h43 : Double.round (43 / 4) = 43 / 4 := by
    have := Double.round_mul_zpow 43 (-2) (by norm_num) (by norm_num)
    norm_num at this
    exact this
  have hq : ExactQty { exec_type := kPartiallyFilled, last_shares := 30, last_px := 12 }
      (exPartlyFilled.heap 0) := by
    intro _
    refine ⟨fun _ => ?_, fun h => absurd h (by simp)⟩
    norm_num [IsDouble, exPartlyFilled, Double.round_ofNat]
  have hp : ExactPx { exec_type := kPartiallyFilled, last_shares := 30, last_px := 12 }
      (exPartlyFilled.heap 0) := by
    intro _
    refine ⟨fun _ => ?_, fun h => absurd h (by simp)⟩
    norm_num [IsDouble, exPartlyFilled, Double.round_ofNat, h43]
  have e1 : (GlobalOrderBook.UpdateOrder.onOrder
      { exec_type := kPartiallyFilled, last_shares := 30, last_px := 12 }
      (exPartlyFilled.heap 0)).cum_qty = 80 := by
    rw [GlobalOrderBook.onOrder_cum_qty_of_exact _ _ hq]
    norm_num [Confirmation.IsFill, exPartlyFilled]
  have e2 : (GlobalOrderBook.UpdateOrder.onOrder
      { exec_type := kPartiallyFilled, last_shares := 30, last_px := 12 }
      (exPartlyFilled.heap 0)).avg_px = 43 / 4 := by
    rw [GlobalOrderBook.onOrder_avg_px_of_exact _ _ hq hp]
    norm_num [Confirmation.IsFill, exPartlyFilled]
  refine ⟨hq, hp, ?_, ?_, trivial⟩
  · intro _
    refine ⟨fun h => absurd h (by simp), fun _ _ => ?_⟩
    rw [e1]
    norm_num [IsDouble, Double.round_ofNat]
  · intro _
    refine ⟨fun h => absurd h (by simp), fun _ _ => ?_⟩
    rw [e1, e2]
    norm_num [IsDouble, Double.round_ofNat]

/-- C6 witness: a fill of 100 at price 10 and its bust on a fresh order of quantity 100 leave
`avg_px = 0` and `cum_qty = 0`; a fill of 30 at price 12 and its bust on an order filled for 50 at
price 10 leave `avg_px = 10` and `cum_qty = 50`. -/
theorem C6_bust_restores_avg_px_and_cum_qty_witness :
    ((0 : ℚ) < 100 ∧ IsDouble 100) ∧
    (((GlobalOrderBook.UpdateOrders
        [{ exec_type := kFilled, last_shares := 100, last_px := 10 },
          { exec_type := kFilled, exec_trans_type := kTransCancel, last_shares := 100,
            last_px := 10 }] exPlaced100).heap 0).avg_px = 0 ∧
      ((GlobalOrderBook.UpdateOrders
        [{ exec_type := kFilled, last_shares := 100, last_px := 10 },
          { exec_type := kFilled, exec_trans_type := kTransCancel, last_shares := 100,
            last_px := 10 }] exPlaced100).heap 0).cum_qty = 0) ∧
    ((0 : ℚ) < 30 ∧ IsDouble 30) ∧
    (((GlobalOrderBook.UpdateOrders
        [{ exec_type := kPartiallyFilled, last_shares := 30, last_px := 12 },
          { exec_type := kPartiallyFilled, exec_trans_type := kTransCancel, last_shares := 30,
            last_px := 12 }] exPartlyFilled).heap 0).avg_px = (exPartlyFilled.heap 0).avg_px ∧
      ((GlobalOrderBook.UpdateOrders
        [{ exec_type := kPartiallyFilled, last_shares := 30, last_px := 12 },
          { exec_type := kPartiallyFilled, exec_trans_type := kTransCancel, last_shares := 30,
            last_px := 12 }] exPartlyFilled).heap 0).cum_qty = (exPartlyFilled.heap 0).cum_qty) :=
  have h100 : (0 : ℚ) < 100 ∧ IsDouble 100 := ⟨by norm_num, Double.round_ofNat 100 (by norm_num)⟩
  have h30 : (0 : ℚ) < 30 ∧ IsDouble 30 := ⟨by norm_num, Double.round_ofNat 30 (by norm_num)⟩
  ⟨h100,
    (C6_bust_restores_avg_px_and_cum_qty exPlaced100
      { exec_type := kFilled, last_shares := 100, last_px := 10 }
      { exec_type := kFilled, exec_trans_type := kTransCancel, last_shares := 100, last_px := 10 }
      (by simp [Confirmation.IsFill]) (by simp [Confirmation.IsFill]) rfl rfl rfl h100
      ⟨rfl, rfl⟩).1 (by simp [exPlaced100]),
    h30,
    (C6_bust_restores_avg_px_and_cum_qty exPartlyFilled
      { exec_type := kPartiallyFilled, last_shares := 30, last_px := 12 }
      { exec_type := kPartiallyFilled, exec_trans_type := kTransCancel, last_shares := 30,
        last_px := 12 }
      (by simp [Confirmation.IsFill]) (by simp [Confirmation.IsFill]) rfl rfl rfl h30
      ⟨rfl, rfl⟩).2.1 (by norm_num [exPartlyFilled]) exPartlyFilled_noRounding⟩

/-! ## C7 -/

/-- C7, as stated, fails on the code.  (a) `HandleFill` accepts a bust whose price differs from
the price of the fill: after a fill of 100 at price 10, a bust of 50 at price 30 gives
`avg_px = -10`, and a bust of 50 at price 20 gives `avg_px = 0` with `cum_qty = 50`.  (b) The
rounding does the same to busts that carry the quantity and price of an earlier fill: after fills
of 1 at price `10 ^ 16` and 1 at price 1, the sum `10 ^ 16 + 1` is rounded to `10 ^ 16`, and the
bust of the first fill leaves `avg_px = 0` with `cum_qty = 1`. -/
theorem C7_counterexample :
    (((GlobalOrderBook.UpdateOrders
        [{ exec_type := kPartiallyFilled, last_shares := 100, last_px := 10 },
          { exec_type := kPartiallyFilled, exec_trans_type := kTransCancel, last_shares := 50,
            last_px := 30 }] exPlaced100).heap 0).avg_px = -10 ∧
      ((GlobalOrderBook.UpdateOrders
        [{ exec_type := kPartiallyFilled, last_shares := 100, last_px := 10 },
          { exec_type := kPartiallyFilled, exec_trans_type := kTransCancel, last_shares := 50,
            last_px := 20 }] exPlaced100).heap 0).avg_px = 0 ∧
      ((GlobalOrderBook.UpdateOrders
        [{ exec_type := kPartiallyFilled, last_shares := 100, last_px := 10 },
          { exec_type := kPartiallyFilled, exec_trans_type := kTransCancel, last_shares := 50,
            last_px := 20 }] exPlaced100).heap 0).cum_qty = 50) ∧
    ((∀ cm ∈ exRoundedFills, cm.Accepted) ∧ Matched [] exRoundedFills ∧
      ((GlobalOrderBook.UpdateOrders exRoundedFills exPlaced100).heap 0).avg_px = 0 ∧
      ((GlobalOrderBook.UpdateOrders exRoundedFills exPlaced100).heap 0).cum_qty = 1) := by
  have g1 : Double.mul 0 0 = 0 := by
    unfold Double.mul
    norm_num [Double.round_zero]
  have g2 : Double.mul 10 100 = 1000 := by
    unfold Double.mul
    rw [Double.round_eq_of _ (9) 8796093022208000 (by norm_num) (by norm_num) (by norm_num)
      (Double.rne_eq_of_near _ _ (by norm_num) (by norm_num))]
    norm_num
  have g3 : Double.add 0 1000 = 1000 := by
    unfold Double.add
    rw [Double.round_eq_of _ (9) 8796093022208000 (by norm_num) (by norm_num) (by norm_num)
      (Double.rne_eq_of_near _ _ (by norm_num) (by norm_num))]
    norm_num
  have g4 : Double.add 0 100 = 100 := by
    unfold Double.add
    rw [Double.round_eq_of _ (6) 7036874417766400 (by norm_num) (by norm_num) (by norm_num)
      (Double.rne_eq_of_near _ _ (by norm_num) (by norm_num))]
    norm_num
  have g5 : Double.div 1000 100 = 10 := by
    unfold Double.div
    rw [Double.round_eq_of _ (3) 5629499534213120 (by norm_num) (by norm_num) (by norm_num)
      (Double.rne_eq_of_near _ _ (by norm_num) (by norm_num))]
    norm_num
  have g6 : Double.sub 100 100 = 0 := by
    unfold Double.sub
    norm_num [Double.round_zero]
  have g7 : Double.mul 30 50 = 1500 := by
    unfold Double.mul
    rw [Double.round_eq_of _ (10) 6597069766656000 (by norm_num) (by norm_num) (by norm_num)
      (Double.rne_eq_of_near _ _ (by norm_num) (by norm_num))]
    norm_num
  have g8 : Double.sub 1000 1500 = -(500) := by
    unfold Double.sub
    rw [show (1000 : ℚ) - 1500 = -(500) by norm_num, Double.round_neg,
      Double.round_eq_of _ (8) 8796093022208000 (by norm_num) (by norm_num) (by norm_num)
      (Double.rne_eq_of_near _ _ (by norm_num) (by norm_num))]
    norm_num
  have g9 : Double.sub 100 50 = 50 := by
    unfold Double.sub
    rw [Double.round_eq_of _ (5) 7036874417766400 (by norm_num) (by norm_num) (by norm_num)
      (Double.rne_eq_of_near _ _ (by norm_num) (by norm_num))]
    norm_num
  have g10 : Double.div (-500) 50 = -(10) := by
    unfold Double.div
    rw [show (-500 : ℚ) / 50 = -(10) by norm_num, Double.round_neg,
      Double.round_eq_of _ (3) 5629499534213120 (by norm_num) (by norm_num) (by norm_num)
      (Double.rne_eq_of_near _ _ (by norm_num) (by norm_num))]
    norm_num
  have g11 : Double.mul 20 50 = 1000 := by
    unfold Double.mul
    rw [Double.round_eq_of _ (9) 8796093022208000 (by norm_num) (by norm_num) (by norm_num)
      (Double.rne_eq_of_near _ _ (by norm_num) (by norm_num))]
    norm_num
  have g12 : Double.sub 1000 1000 = 0 := by
    unfold Double.sub
    norm_num [Double.round_zero]
  have g13 : Double.div 0 50 = 0 := by
    unfold Double.div
    norm_num [Double.round_zero]
  have h1 : Double.mul 0 0 = 0 := by
    unfold Double.mul
    norm_num [Double.round_zero]
  have h2 : Double.mul 10000000000000000 1 = 10000000000000000 := by
    unfold Double.mul
    rw [Double.round_eq_of _ (53) 5000000000000000 (by norm_num) (by norm_num) (by norm_num)
      (Double.rne_eq_of_near _ _ (by norm_num) (by norm_num))]
    norm_num
  have h3 : Double.add 0 10000000000000000 = 10000000000000000 := by
    unfold Double.add
    rw [Double.round_eq_of _ (53) 5000000000000000 (by norm_num) (by norm_num) (by norm_num)
      (Double.rne_eq_of_near _ _ (by norm_num) (by norm_num))]
    norm_num
  have h4 : Double.add 0 1 = 1 := by
    unfold Double.add
    rw [Double.round_eq_of _ (0) 4503599627370496 (by norm_num) (by norm_num) (by norm_num)
      (Double.rne_eq_of_near _ _ (by norm_num) (by norm_num))]
    norm_num
  have h5 : Double.div 10000000000000000 1 = 10000000000000000 := by
    unfold Double.div
    rw [Double.round_eq_of _ (53) 5000000000000000 (by norm_num) (by norm_num) (by norm_num)
      (Double.rne_eq_of_near _ _ (by norm_num) (by norm_num))]
    norm_num
  have h6 : Double.sub 100 1 = 99 := by
    unfold Double.sub
    rw [Double.round_eq_of _ (6) 6966505673588736 (by norm_num) (by norm_num) (by norm_num)
      (Double.rne_eq_of_near _ _ (by norm_num) (by norm_num))]
    norm_num
  have h7 : Double.mul 1 1 = 1 := by
    unfold Double.mul
    rw [Double.round_eq_of _ (0) 4503599627370496 (by norm_num) (by norm_num) (by norm_num)
      (Double.rne_eq_of_near _ _ (by norm_num) (by norm_num))]
    norm_num
  have h8 : Double.add 10000000000000000 1 = 10000000000000000 := by
    unfold Double.add
    rw [Double.round_eq_of _ (53) 5000000000000000 (by norm_num) (by norm_num) (by norm_num)
      (Double.rne_eq_of_tie _ _ (by norm_num) (by norm_num))]
    norm_num
  have h9 : Double.add 1 1 = 2 := by
    unfold Double.add
    rw [Double.round_eq_of _ (1) 4503599627370496 (by norm_num) (by norm_num) (by norm_num)
      (Double.rne_eq_of_near _ _ (by norm_num) (by norm_num))]
    norm_num
  have h10 : Double.div 10000000000000000 2 = 5000000000000000 := by
    unfold Double.div
    rw [Double.round_eq_of _ (52) 5000000000000000 (by norm_num) (by norm_num) (by norm_num)
      (Double.rne_eq_of_near _ _ (by norm_num) (by norm_num))]
    norm_num
  have h11 : Double.sub 99 1 = 98 := by
    unfold Double.sub
    rw [Double.round_eq_of _ (6) 6896136929411072 (by norm_num) (by norm_num) (by norm_num)
      (Double.rne_eq_of_near _ _ (by norm_num) (by norm_num))]
    norm_num
  have h12 : Double.mul 5000000000000000 2 = 10000000000000000 := by
    unfold Double.mul
    rw [Double.round_eq_of _ (53) 5000000000000000 (by norm_num) (by norm_num) (by norm_num)
      (Double.rne_eq_of_near _ _ (by norm_num) (by norm_num))]
    norm_num
  have h13 : Double.sub 10000000000000000 10000000000000000 = 0 := by
    unfold Double.sub
    norm_num [Double.round_zero]
  have h14 : Double.sub 2 1 = 1 := by
    unfold Double.sub
    rw [Double.round_eq_of _ (0) 4503599627370496 (by norm_num) (by norm_num) (by norm_num)
      (Double.rne_eq_of_near _ _ (by norm_num) (by norm_num))]
    norm_num
  have h15 : Double.div 0 1 = 0 := by
    unfold Double.div
    norm_num [Double.round_zero]
  refine ⟨⟨?_, ?_, ?_⟩, ?_, ?_, ?_, ?_⟩
  · rw [GlobalOrderBook.UpdateOrders_heap 0 _ _ (by simp)]
    simp only [List.foldl_cons, List.foldl_nil, GlobalOrderBook.onOrder_avg_px,
      GlobalOrderBook.onOrder_cum_qty, Confirmation.IsFill, exPlaced100, beq_self_eq_true,
      Bool.true_or, if_true, reduceCtorEq, if_false]
    norm_num [g1, g2, g3, g4, g5, g6, g7, g8, g9, g10, g11, g12, g13]
  · rw [GlobalOrderBook.UpdateOrders_heap 0 _ _ (by simp)]
    simp only [List.foldl_cons, List.foldl_nil, GlobalOrderBook.onOrder_avg_px,
      GlobalOrderBook.onOrder_cum_qty, Confirmation.IsFill, exPlaced100, beq_self_eq_true,
      Bool.true_or, if_true, reduceCtorEq, if_false]
    norm_num [g1, g2, g3, g4, g5, g6, g7, g8, g9, g10, g11, g12, g13]
  · rw [GlobalOrderBook.UpdateOrders_heap 0 _ _ (by simp)]
    simp only [List.foldl_cons, List.foldl_nil, GlobalOrderBook.onOrder_avg_px,
      GlobalOrderBook.onOrder_cum_qty, Confirmation.IsFill, exPlaced100, beq_self_eq_true,
      Bool.true_or, if_true, reduceCtorEq, if_false]
    norm_num [g1, g2, g3, g4, g5, g6, g7, g8, g9, g10, g11, g12, g13]
  · simp [exRoundedFills, Confirmation.Accepted, Confirmation.IsFill]
  · simp [exRoundedFills, Matched, removeFill]
  · rw [GlobalOrderBook.UpdateOrders_heap 0 _ _ (by simp [exRoundedFills])]
    simp only [exRoundedFills, List.foldl_cons, List.foldl_nil, GlobalOrderBook.onOrder_avg_px,
      GlobalOrderBook.onOrder_cum_qty, Confirmation.IsFill, exPlaced100, beq_self_eq_true,
      Bool.true_or, if_true, reduceCtorEq, if_false]
    norm_num [h1, h2, h3, h4, h5, h6, h7, h8, h9, h10, h11, h12, h13, h14, h15]
  · rw [GlobalOrderBook.UpdateOrders_heap 0 _ _ (by simp [exRoundedFills])]
    simp only [exRoundedFills, List.foldl_cons, List.foldl_nil, GlobalOrderBook.onOrder_avg_px,
      GlobalOrderBook.onOrder_cum_qty, Confirmation.IsFill, exPlaced100, beq_self_eq_true,
      Bool.true_or, if_true, reduceCtorEq, if_false]
    norm_num [h1, h2, h3, h4, h5, h6, h7, h8, h9, h10, h11, h12, h13, h14, h15]

theorem mem_of_mem_removeFill (x y : ℚ × ℚ) :
    ∀ L : List (ℚ × ℚ), y ∈ removeFill x L → y ∈ L := by
  intro L
  induction L with
  | nil => intro h; simp [removeFill] at h
  | cons z zs ih =>
    intro h
    unfold removeFill at h
    split_ifs at h with hz
    · exact List.mem_cons_of_mem _ h
    · rcases List.mem_cons.mp h with rfl | h
      · exact List.mem_cons_self _ _
      · exact List.mem_cons_of_mem _ (ih h)

theorem sum_map_removeFill (f : ℚ × ℚ → ℚ) (x : ℚ × ℚ) :
    ∀ L : List (ℚ × ℚ), x ∈ L → f x + ((removeFill x L).map f).sum = (L.map f).sum := by
  intro L
  induction L with
  | nil => intro h; simp at h
  | cons z zs ih =>
    intro h
    unfold removeFill
    split_ifs with hz
    · simp [hz]
    · have hx : x ∈ zs := by
        rcases List.mem_cons.mp h with rfl | h
        · exact absurd rfl hz
        · exact h
      simp only [List.map_cons, List.sum_cons]
      linarith [ih hx]

/-- The order's `cum_qty` and `avg_px * cum_qty` are the total quantity and the total value of
the fills not yet reversed, along every matched stream of accepted fills and busts. -/
theorem foldl_onOrder_matched (cms : List Confirmation) :
    ∀ (o : Order) (L : List (ℚ × ℚ)),
      (o.cum_qty = (L.map fun x => x.1).sum ∧ o.avg_px * o.cum_qty = (L.map fun x => x.2 * x.1).sum ∧
        (L = [] → o.avg_px = 0) ∧ ∀ x ∈ L, 0 < x.1 ∧ 0 < x.2) →
      (∀ cm ∈ cms, cm.Accepted) → Matched L cms → NoRounding o cms →
      ∃ L' : List (ℚ × ℚ),
        (cms.foldl (fun o cm => GlobalOrderBook.UpdateOrder.onOrder cm o) o).cum_qty =
          (L'.map fun x => x.1).sum ∧
        (cms.foldl (fun o cm => GlobalOrderBook.UpdateOrder.onOrder cm o) o).avg_px *
            (cms.foldl (fun o cm => GlobalOrderBook.UpdateOrder.onOrder cm o) o).cum_qty =
          (L'.map fun x => x.2 * x.1).sum ∧
        (L' = [] → (cms.foldl (fun o cm => GlobalOrderBook.UpdateOrder.onOrder cm o) o).avg_px = 0) ∧
        ∀ x ∈ L', 0 < x.1 ∧ 0 < x.2 := by
  induction cms with
  | nil => intro o L h _ _ _; exact ⟨L, h⟩
  | cons cm cms ih =>
    intro o L h hacc hm hex
    obtain ⟨hq, hp, hex'⟩ := hex
    obtain ⟨hc, hv, he, hpos⟩ := h
    obtain ⟨hf, hn, hpx, hty⟩ := hacc cm (List.mem_cons_self _ _)
    have hacc' : ∀ c ∈ cms, c.Accepted := fun c hc => hacc c (List.mem_cons_of_mem _ hc)
    have hcum0 : 0 ≤ o.cum_qty := by
      rw [hc]
      exact List.sum_nonneg (by
        intro x hx
        obtain ⟨y, hy, rfl⟩ := List.mem_map.mp hx
        exact le_of_lt (hpos y hy).1)
    simp only [List.foldl_cons]
    by_cases hnew : cm.exec_trans_type = kTransNew
    · have hm' : Matched ((cm.last_shares, cm.last_px) :: L) cms := by
        simpa [Matched, hnew] using hm
      refine ih _ _ ⟨?_, ?_, ?_, ?_⟩ hacc' hm' hex'
      · rw [GlobalOrderBook.onOrder_cum_qty_of_exact _ _ hq]; simp [hf, hnew, hc]; ring
      · rw [GlobalOrderBook.onOrder_cum_qty_of_exact _ _ hq,
          GlobalOrderBook.onOrder_avg_px_of_exact _ _ hq hp]
        simp only [hf, hnew, if_true, List.map_cons, List.sum_cons]
        rw [div_mul_cancel₀ _ (by linarith : o.cum_qty + cm.last_shares ≠ 0), hv]
        ring
      · intro h; simp at h
      · intro x hx
        rcases List.mem_cons.mp hx with rfl | hx
        · exact ⟨hn, hpx⟩
        · exact hpos x hx
    · have hcan : cm.exec_trans_type = kTransCancel := hty.resolve_left hnew
      have hm' : (cm.last_shares, cm.last_px) ∈ L ∧
          Matched (removeFill (cm.last_shares, cm.last_px) L) cms := by
        simpa [Matched, hnew] using hm
      have hs1 := sum_map_removeFill (fun x : ℚ × ℚ => x.1) _ L hm'.1
      have hs2 := sum_map_removeFill (fun x : ℚ × ℚ => x.2 * x.1) _ L hm'.1
      simp only at hs1 hs2
      have hpos' : ∀ x ∈ removeFill (cm.last_shares, cm.last_px) L, 0 < x.1 ∧ 0 < x.2 :=
        fun x hx => hpos x (mem_of_mem_removeFill _ _ L hx)
      have hrest0 : 0 ≤ ((removeFill (cm.last_shares, cm.last_px) L).map fun x => x.1).sum :=
        List.sum_nonneg (by
          intro x hx
          obtain ⟨y, hy, rfl⟩ := List.mem_map.mp hx
          exact le_of_lt (hpos' y hy).1)
      refine ih _ _ ⟨?_, ?_, ?_, hpos'⟩ hacc' hm'.2 hex'
      · rw [GlobalOrderBook.onOrder_cum_qty_of_exact _ _ hq]
        simp only [hf, hcan, reduceCtorEq, if_true, if_false]
        split_ifs with hle
        · linarith
        · linarith
      · rw [GlobalOrderBook.onOrder_cum_qty_of_exact _ _ hq,
          GlobalOrderBook.onOrder_avg_px_of_exact _ _ hq hp]
        simp only [hf, hcan, reduceCtorEq, if_true, if_false]
        split_ifs with hle
        · have hz : ((removeFill (cm.last_shares, cm.last_px) L).map fun x => x.1).sum = 0 := by
            linarith
          have hnil : removeFill (cm.last_shares, cm.last_px) L = [] := by
            by_contra hne
            have := List.sum_pos
              ((removeFill (cm.last_shares, cm.last_px) L).map fun x => x.1)
              (by
                intro x hx
                obtain ⟨y, hy, rfl⟩ := List.mem_map.mp hx
                exact (hpos' y hy).1)
              (by simpa using hne)
            linarith
          simp [hnil]
        · rw [div_mul_cancel₀ _ (by linarith : o.cum_qty - cm.last_shares ≠ 0)]
          linarith
      · intro hnil
        rw [GlobalOrderBook.onOrder_avg_px_of_exact _ _ hq hp]
        simp only [hf, hcan, reduceCtorEq, if_true, if_false]
        have hle : o.cum_qty ≤ cm.last_shares := by
          rw [hnil] at hs1
          simp at hs1
          linarith
        simp [hle]

/-- C7 (amended): for every order that starts with nothing filled and every stream of fill and
bust confirmations that `HandleFill` accepts (quantity > 0 and price > 0) in which each bust carries
the quantity and price of an earlier fill that has not been reversed yet, and on which no sum,
difference, product or quotient that `UpdateOrder` computes is rounded, the order's `avg_px` is
not negative, and `avg_px = 0` if and only if `cum_qty = 0`. -/
theorem C7_avg_px_nonneg_of_matched_busts (s : Engine) (p : Ptr) (cms : List Confirmation)
    (hp : ∀ cm ∈ cms, cm.order = p)
    (hfresh : (s.heap p).cum_qty = 0 ∧ (s.heap p).avg_px = 0)
    (hacc : ∀ cm ∈ cms, cm.Accepted) (hm : Matched [] cms)
    (hex : NoRounding (s.heap p) cms) :
    0 ≤ ((GlobalOrderBook.UpdateOrders cms s).heap p).avg_px ∧
    (((GlobalOrderBook.UpdateOrders cms s).heap p).avg_px = 0 ↔
      ((GlobalOrderBook.UpdateOrders cms s).heap p).cum_qty = 0) := by
  rw [GlobalOrderBook.UpdateOrders_heap p cms s hp]
  obtain ⟨L, hc, hv, he, hpos⟩ := foldl_onOrder_matched cms (s.heap p) []
    ⟨by simp [hfresh.1], by simp [hfresh.1], fun _ => hfresh.2, by simp⟩ hacc hm hex
  by_cases hL : L = []
  · have h0 := he hL
    rw [hL] at hc
    simp at hc
    simp [h0, hc]
  · have hcpos : 0 < (L.map fun x => x.1).sum :=
      List.sum_pos _ (by
        intro x hx
        obtain ⟨y, hy, rfl⟩ := List.mem_map.mp hx
        exact (hpos y hy).1) (by simpa using hL)
    have hvpos : 0 < (L.map fun x => x.2 * x.1).sum :=
      List.sum_pos _ (by
        intro x hx
        obtain ⟨y, hy, rfl⟩ := List.mem_map.mp hx
        exact mul_pos (hpos y hy).2 (hpos y hy).1) (by simpa using hL)
    rw [← hc] at hcpos
    rw [← hv] at hvpos
    have hapos : 0 < (cms.foldl (fun o cm => GlobalOrderBook.UpdateOrder.onOrder cm o)
        (s.heap p)).avg_px := by
      by_contra hneg
      push_neg at hneg
      have := mul_nonpos_of_nonpos_of_nonneg hneg (le_of_lt hcpos)
      linarith
    exact ⟨le_of_lt hapos, ⟨fun h => by linarith, fun h => by linarith⟩⟩

/-- The stream `exMatchedFills` on a fresh order of quantity 100 rounds nothing: the average price
is 10, then 10.5, then 12. -/
theorem exMatchedFills_noRounding : NoRounding (exPlaced100.heap 0) exMatchedFills := by
  have h21 : Double.round (21 / 2) = 21 / 2 := by
    have := Double.round_mul_zpow 21 (-1) (by norm_num) (by norm_num)
    norm_num at this
    exact this
  have hq1 : ExactQty { exec_type := kPartiallyFilled, last_shares := 60, last_px := 10 }
      (exPlaced100.heap 0) := by
    intro _
    refine ⟨fun _ => ?_, fun h => absurd h (by simp)⟩
    norm_num [IsDouble, exPlaced100, Double.round_ofNat]
  have hp1 : ExactPx { exec_type := kPartiallyFilled, last_shares := 60, last_px := 10 }
      (exPlaced100.heap 0) := by
    intro _
    refine ⟨fun _ => ?_, fun h => absurd h (by simp)⟩
    norm_num [IsDouble, exPlaced100, Double.round_ofNat, Double.round_zero]
  have e1 : GlobalOrderBook.UpdateOrder.onOrder
      { exec_type := kPartiallyFilled, last_shares := 60, last_px := 10 } (exPlaced100.heap 0) =
      { qty := 100, leaves_qty := 40, cum_qty := 60, avg_px := 10, status := kPartiallyFilled } := by
    simp [GlobalOrderBook.UpdateOrder.onOrder, exPlaced100, Order.IsLive, Double.add, Double.sub,
      Double.mul, Double.div, Double.round_zero]
    norm_num [Double.round_ofNat]
  have hq2 : ExactQty { exec_type := kPartiallyFilled, last_shares := 20, last_px := 12 }
      { qty := 100, leaves_qty := 40, cum_qty := 60, avg_px := 10, status := kPartiallyFilled } := by
    intro _
    refine ⟨fun _ => ?_, fun h => absurd h (by simp)⟩
    norm_num [IsDouble, Double.round_ofNat]
  have hp2 : ExactPx { exec_type := kPartiallyFilled, last_shares := 20, last_px := 12 }
      { qty := 100, leaves_qty := 40, cum_qty := 60, avg_px := 10, status := kPartiallyFilled } := by
    intro _
    refine ⟨fun _ => ?_, fun h => absurd h (by simp)⟩
    norm_num [IsDouble, Double.round_ofNat, h21]
  have e2 : GlobalOrderBook.UpdateOrder.onOrder
      { exec_type := kPartiallyFilled, last_shares := 20, last_px := 12 }
      { qty := 100, leaves_qty := 40, cum_qty := 60, avg_px := 10, status := kPartiallyFilled } =
      { qty := 100, leaves_qty := 20, cum_qty := 80, avg_px := 21 / 2,
        status := kPartiallyFilled } := by
    simp [GlobalOrderBook.UpdateOrder.onOrder, Order.IsLive, Double.add, Double.sub,
      Double.mul, Double.div]
    norm_num [Double.round_ofNat, h21]
  unfold exMatchedFills
  refine ⟨hq1, hp1, ?_⟩
  rw [e1]
  refine ⟨hq2, hp2, ?_⟩
  rw [e2]
  refine ⟨?_, ?_, trivial⟩
  · intro _
    refine ⟨fun h => absurd h (by simp), fun _ _ => ?_⟩
    norm_num [IsDouble, Double.round_ofNat]
  · intro _
    refine ⟨fun h => absurd h (by simp), fun _ _ => ?_⟩
    norm_num [IsDouble, Double.round_ofNat]

/-- C7 witness: fills of 60 at 10 and 20 at 12 on a fresh order of quantity 100, then the bust of
the first fill. -/
theorem C7_avg_px_nonneg_of_matched_busts_witness :
    (∀ cm ∈ exMatchedFills, cm.Accepted) ∧ Matched [] exMatchedFills ∧
    NoRounding (exPlaced100.heap 0) exMatchedFills ∧
    0 ≤ ((GlobalOrderBook.UpdateOrders exMatchedFills exPlaced100).heap 0).avg_px ∧
    (((GlobalOrderBook.UpdateOrders exMatchedFills exPlaced100).heap 0).avg_px = 0 ↔
      ((GlobalOrderBook.UpdateOrders exMatchedFills exPlaced100).heap 0).cum_qty = 0) :=
  have hacc : ∀ cm ∈ exMatchedFills, cm.Accepted := by
    simp [exMatchedFills, Confirmation.Accepted, Confirmation.IsFill]
  have hm : Matched [] exMatchedFills := by
    simp [exMatchedFills, Matched, removeFill]
  ⟨hacc, hm, exMatchedFills_noRounding,
    C7_avg_px_nonneg_of_matched_busts exPlaced100 0 exMatchedFills
      (by simp [exMatchedFills]) (by simp [exPlaced100]) hacc hm exMatchedFills_noRounding⟩

/-! ## C8 -/

theorem IsDupExecId_seen (x : String) (s : Engine) (h : x ∈ s.exec_ids_) :
    GlobalOrderBook.IsDupExecId x s = (true, s) := by
  simp [GlobalOrderBook.IsDupExecId, h]

theorem IsDupExecId_mem (x y : String) (s : Engine) (h : x ∈ s.exec_ids_) :
    x ∈ (GlobalOrderBook.IsDupExecId y s).2.exec_ids_ := by
  unfold GlobalOrderBook.IsDupExecId
  split_ifs
  · exact h
  · exact List.mem_cons_of_mem _ h

/-- A fill whose execution id is in the guard set leaves the whole engine as it was. -/
theorem HandleFill_seen (env : Env) (id : Nat) (qty price : ℚ) (x : String) (tm : Int)
    ( is_partial : Bool) (tt : ExecTransType) (s : Engine) (h : x ∈ s.exec_ids_) :
    ExchangeConnectivityAdapter.HandleFill env id qty price x tm is_partial tt s = s := by
  simp [ExchangeConnectivityAdapter.HandleFill, IsDupExecId_seen x s h]

theorem updatePositions_exec_ids (s : Engine) (ord : Order) (f : Position → Position)
    (g : PositionValue → PositionValue) : (s.updatePositions ord f g).exec_ids_ = s.exec_ids_ := by
  unfold Engine.updatePositions Engine.modifyUserValue Engine.modifyBrokerAccountValue
    Engine.modifySubAccountValue
  dsimp only
  repeat' split
  all_goals rfl

theorem PositionManager_Handle_exec_ids (cm : Confirmation) (off : Bool) (s : Engine) :
    (PositionManager.Handle cm off s).exec_ids_ = s.exec_ids_ := by
  unfold PositionManager.Handle
  dsimp only
  split <;> (try split_ifs) <;> first | rfl | exact updatePositions_exec_ids _ _ _ _

theorem UpdateOrder_exec_ids (cm : Confirmation) (s : Engine) :
    (GlobalOrderBook.UpdateOrder cm s).2.exec_ids_ = s.exec_ids_ := by
  unfold GlobalOrderBook.UpdateOrder GlobalOrderBook.emplace
  split
  · split <;> rfl
  · split <;> rfl
  all_goals rfl

theorem Handle_exec_ids (cm : Confirmation) (off : Bool) (s : Engine) :
    (GlobalOrderBook.Handle cm off s).exec_ids_ = s.exec_ids_ := by
  unfold GlobalOrderBook.Handle
  split_ifs with hid hoff
  · rfl
  · simp only [PositionManager_Handle_exec_ids, UpdateOrder_exec_ids]
  · simp only [Server.Publish]
    split <;> simp only [PositionManager_Handle_exec_ids, UpdateOrder_exec_ids]

theorem HandleFill_mem (env : Env) (id : Nat) (qty price : ℚ) (y : String) (tm : Int)
    ( is_partial : Bool) (tt : ExecTransType) (x : String) (s : Engine) (h : x ∈ s.exec_ids_) :
    x ∈ (ExchangeConnectivityAdapter.HandleFill env id qty price y tm is_partial tt s).exec_ids_ := by
  have hin := IsDupExecId_mem x y s h
  unfold ExchangeConnectivityAdapter.HandleFill
  dsimp only
  split_ifs with hd hbad
  · exact hin
  · split <;> exact hin
  · split
    · exact hin
    · unfold ExchangeConnectivity.HandleConfirmationFill
      rw [Handle_exec_ids]
      exact hin

theorem GuardCall_runAll_mem (x : String) (calls : List GuardCall) :
    ∀ s : Engine, x ∈ s.exec_ids_ → x ∈ (GuardCall.runAll calls s).exec_ids_ := by
  induction calls with
  | nil => intro s h; exact h
  | cons c calls ih =>
    intro s h
    simp only [GuardCall.runAll, List.foldl_cons]
    apply ih
    cases c with
    | dup y => exact IsDupExecId_mem x y s h
    | fill env id qty price y tm ip tt => exact HandleFill_mem env id qty price y tm ip tt x s h

/-- C8: for every execution id `x` that the guard set has not seen, the call `IsDupExecId(x)`
returns false, and every later call `IsDupExecId(x)`, whatever calls of `IsDupExecId` and
`HandleFill` were made in between, returns true; a `HandleFill` whose execution id was already
seen returns the engine unchanged: no order field, no position, no published confirmation and no
journal record changes. -/
theorem C8_exec_id_seen_once (s : Engine) (x : String) (h : x ∉ s.exec_ids_) :
    (GlobalOrderBook.IsDupExecId x s).1 = false ∧
    (∀ calls : List GuardCall,
      (GlobalOrderBook.IsDupExecId x
        (GuardCall.runAll calls (GlobalOrderBook.IsDupExecId x s).2)).1 = true) ∧
    (∀ (env : Env) (id : Nat) (qty price : ℚ) (tm : Int) ( is_partial : Bool)
        (tt : ExecTransType) (calls : List GuardCall),
      ExchangeConnectivityAdapter.HandleFill env id qty price x tm is_partial tt
          (GuardCall.runAll calls (GlobalOrderBook.IsDupExecId x s).2) =
        GuardCall.runAll calls (GlobalOrderBook.IsDupExecId x s).2) := by
  have hin : x ∈ (GlobalOrderBook.IsDupExecId x s).2.exec_ids_ := by
    simp [GlobalOrderBook.IsDupExecId, h]
  refine ⟨by simp [GlobalOrderBook.IsDupExecId, h], fun calls => ?_, ?_⟩
  · rw [IsDupExecId_seen x _ (GuardCall_runAll_mem x calls _ hin)]
  · intro env id qty price tm ip tt calls
    exact HandleFill_seen env id qty price x tm ip tt _ (GuardCall_runAll_mem x calls _ hin)

/-- C8 witness: the execution id `E1` on an engine that has seen no execution id, with a call for
`E2` and a fill carrying `E3` in between. -/
theorem C8_exec_id_seen_once_witness :
    "E1" ∉ exReference.exec_ids_ ∧
    (GlobalOrderBook.IsDupExecId "E1" exReference).1 = false ∧
    (GlobalOrderBook.IsDupExecId "E1"
      (GuardCall.runAll
        [GuardCall.dup "E2", GuardCall.fill exConnected 1 100 10 "E3" 0 false kTransNew]
        (GlobalOrderBook.IsDupExecId "E1" exReference).2)).1 = true :=
  have h : "E1" ∉ exReference.exec_ids_ := by simp [exReference]
  ⟨h, (C8_exec_id_seen_once exReference "E1" h).1,
    (C8_exec_id_seen_once exReference "E1" h).2.1
      [GuardCall.dup "E2", GuardCall.fill exConnected 1 100 10 "E3" 0 false kTransNew]⟩

/-! ## C9 -/

/-- C9, as stated, fails on the code: `HandleFill` tests and inserts the execution id before it
looks at the quantity and the price.  On a book that holds order 1 (quantity 100) and has seen no
execution id, a fill of quantity 0 carrying `E1` puts `E1` into the guard set, and the later valid
fill of 100 at 10 carrying `E1` then changes nothing, while the same valid fill on the untouched
book is accepted (`cum_qty` becomes 100). -/
theorem C9_counterexample :
    exPlacedBook.exec_ids_ = [] ∧
    (ExchangeConnectivityAdapter.HandleFill exConnected 1 0 10 "E1" 0 false kTransNew
      exPlacedBook).exec_ids_ = ["E1"] ∧
    ExchangeConnectivityAdapter.HandleFill exConnected 1 100 10 "E1" 0 false kTransNew
        (ExchangeConnectivityAdapter.HandleFill exConnected 1 0 10 "E1" 0 false kTransNew
          exPlacedBook) =
      ExchangeConnectivityAdapter.HandleFill exConnected 1 0 10 "E1" 0 false kTransNew
        exPlacedBook ∧
    ((ExchangeConnectivityAdapter.HandleFill exConnected 1 100 10 "E1" 0 false kTransNew
        exPlacedBook).heap 0).cum_qty = 100 := by
  have h10 : ¬ ((10:ℚ) ≤ 0) := by norm_num
  have h100 : ¬ ((100:ℚ) ≤ 0) := by norm_num
  have d1 : Double.add 0 100 = 100 := by norm_num [Double.add, Double.round_ofNat]
  have d2 : Double.sub 100 100 = 0 := by norm_num [Double.sub, Double.round_zero]
  have d3 : Double.mul 0 0 = 0 := by norm_num [Double.mul, Double.round_zero]
  have d4 : Double.mul 10 100 = 1000 := by norm_num [Double.mul, Double.round_ofNat]
  have d5 : Double.add 0 1000 = 1000 := by norm_num [Double.add, Double.round_ofNat]
  have d6 : Double.div 1000 100 = 10 := by norm_num [Double.div, Double.round_ofNat]
  have h1 : exPlacedBook.exec_ids_ = [] ∧
      (ExchangeConnectivityAdapter.HandleFill exConnected 1 0 10 "E1" 0 false kTransNew
        exPlacedBook).exec_ids_ = ["E1"] ∧
      ((ExchangeConnectivityAdapter.HandleFill exConnected 1 100 10 "E1" 0 false kTransNew
        exPlacedBook).heap 0).cum_qty = 100 := by
    simp [h10, h100, d1, d2, d3, d4, d5, d6, ExchangeConnectivityAdapter.HandleFill,
      GlobalOrderBook.IsDupExecId,
      GlobalOrderBook.Get, ExchangeConnectivity.HandleConfirmationFill,
      exPlacedBook, exBeforePlace, exReference, exConnected, exSecurity,
      ExchangeConnectivityManager.Place, ExchangeConnectivityManager.Place.routed,
      ExchangeConnectivityManager.Place.submit,
      ExchangeConnectivity.reject, ExchangeConnectivity.HandleConfirmation,
      ExchangeConnectivity.CheckAdapter, ExchangeConnectivity.UpdateThrottle,
      ExchangeConnectivity.updateThrottle,
      GlobalOrderBook.Handle, GlobalOrderBook.Handle.body, GlobalOrderBook.UpdateOrder,
      GlobalOrderBook.UpdateOrder.onOrder, Order.IsLive,
      GlobalOrderBook.emplace, GlobalOrderBook.NewOrderId, PositionManager.Handle,
      Engine.updatePositions, Engine.modifySubAccountValue, Engine.modifyBrokerAccountValue,
      Engine.modifyUserValue, Engine.store, Engine.secOf, Engine.userOf, Engine.subAccountOf,
      Engine.brokerAccountOf, RiskManager.Check, Risk.Check, Risk.CheckMsgRate, Server.Publish,
      Throttle.read, Throttle.Update, String.isEmpty]
  refine ⟨h1.1, h1.2.1, ?_, h1.2.2⟩
  exact HandleFill_seen _ _ _ _ _ _ _ _ _ (by rw [h1.2.1]; simp)

/-- C9 (amended): a fill with `qty ≤ 0` or `price ≤ 0` is rejected silently, after the execution
id has been recorded.  `HandleFill` with such values returns the engine with every order, every
position, the published confirmations and the journal unchanged; the only field that can differ
is the guard set, which now holds the execution id; so every later fill carrying the same
execution id, valid or not, is ignored as a duplicate. -/
theorem C9_invalid_fill_records_exec_id (env : Env) (id : Nat) (qty price : ℚ) (x : String)
    (tm : Int) ( is_partial : Bool) (tt : ExecTransType) (s : Engine)
    (h : qty ≤ 0 ∨ price ≤ 0) :
    ExchangeConnectivityAdapter.HandleFill env id qty price x tm is_partial tt s =
      { s with exec_ids_ := if x ∈ s.exec_ids_ then s.exec_ids_ else x :: s.exec_ids_ } ∧
    ∀ (env2 : Env) (id2 : Nat) (qty2 price2 : ℚ) (tm2 : Int) ( is_partial2 : Bool)
        (tt2 : ExecTransType),
      ExchangeConnectivityAdapter.HandleFill env2 id2 qty2 price2 x tm2 is_partial2 tt2
          (ExchangeConnectivityAdapter.HandleFill env id qty price x tm is_partial tt s) =
        ExchangeConnectivityAdapter.HandleFill env id qty price x tm is_partial tt s := by
  have key : ExchangeConnectivityAdapter.HandleFill env id qty price x tm is_partial tt s =
      { s with exec_ids_ := if x ∈ s.exec_ids_ then s.exec_ids_ else x :: s.exec_ids_ } := by
    unfold ExchangeConnectivityAdapter.HandleFill GlobalOrderBook.IsDupExecId
    by_cases hx : x ∈ s.exec_ids_
    · simp [hx]
    · simp only [hx, if_false, Bool.false_eq_true, GlobalOrderBook.Get]
      cases s.orders_ id with
      | none => rfl
      | some ord => simp [h]
  refine ⟨key, fun env2 id2 qty2 price2 tm2 ip2 tt2 => ?_⟩
  apply HandleFill_seen
  rw [key]
  by_cases hx : x ∈ s.exec_ids_
  · simp [hx]
  · simp [hx]

/-- C9 witness: a fill of quantity 0 at price 10 for order 1 of the placed book. -/
theorem C9_invalid_fill_records_exec_id_witness :
    ((0 : ℚ) ≤ 0 ∨ (10 : ℚ) ≤ 0) ∧
    ExchangeConnectivityAdapter.HandleFill exConnected 1 0 10 "E1" 0 false kTransNew
        exPlacedBook =
      { exPlacedBook with
        exec_ids_ :=
          if "E1" ∈ exPlacedBook.exec_ids_ then exPlacedBook.exec_ids_
          else "E1" :: exPlacedBook.exec_ids_ } :=
  ⟨Or.inl (le_refl 0),
    (C9_invalid_fill_records_exec_id exConnected 1 0 10 "E1" 0 false kTransNew exPlacedBook
      (Or.inl (le_refl 0))).1⟩

/-! ## C10 -/

/-- The journal of the replay scenario of the specification, loaded into an empty book, yields
order 7 with status PartiallyFilled, `cum_qty = 80`, `leaves_qty = 120`, and the position of
(user 1, security 1) with `qty = 80` and `avg_price = 5`. -/
theorem LoadStore_exWitnessJournal :
    (GlobalOrderBook.LoadStore 0 { exReference with of_ := exWitnessJournal }).map
      (fun r => ((r.orders_ 7).map fun q =>
        ((r.heap q).status, (r.heap q).cum_qty, (r.heap q).leaves_qty),
        (r.user_positions_ (1, 1)).qty, (r.user_positions_ (1, 1)).avg_price)) =
      some (some (kPartiallyFilled, 80, 120), 80, 5) := by
  have h1 : ¬ ((200:ℚ) ≤ 80) := by norm_num
  have h2 : (0:ℚ) < 80 * 5 := by norm_num
  have h3 : (0:ℚ) < 80 := by norm_num
  have d1 : Double.add 0 80 = 80 := by norm_num [Double.add, Double.round_ofNat]
  have d2 : Double.sub 200 80 = 120 := by norm_num [Double.sub, Double.round_ofNat]
  have d3 : Double.mul 0 0 = 0 := by norm_num [Double.mul, Double.round_zero]
  have d4 : Double.mul 5 80 = 400 := by norm_num [Double.mul, Double.round_ofNat]
  have d5 : Double.add 0 400 = 400 := by norm_num [Double.add, Double.round_ofNat]
  have d6 : Double.div 400 80 = 5 := by norm_num [Double.div, Double.round_ofNat]
  simp [h1, h2, h3, d1, d2, d3, d4, d5, d6, Position.HandleTrade, Position.HandleNew, HandlePnl,
      PositionValue.HandleTrade, PositionValue.HandleNew, Order.IsBuy, IsBuy, exWitnessJournal,
      exReference, exSecurity, Engine.alloc,
      GlobalOrderBook.LoadStore, GlobalOrderBook.LoadStore.step, GlobalOrderBook.Get,
      GlobalOrderBook.IsDupExecId,
      GlobalOrderBook.Handle, GlobalOrderBook.Handle.body, GlobalOrderBook.UpdateOrder,
      GlobalOrderBook.UpdateOrder.onOrder, Order.IsLive,
      GlobalOrderBook.emplace, PositionManager.Handle,
      Engine.updatePositions, Engine.modifySubAccountValue, Engine.modifyBrokerAccountValue,
      Engine.modifyUserValue, Engine.store, Engine.secOf, Server.Publish]

/-- C10: the code breaks the round trip.  Live run from an empty book: an order of quantity 100
is placed (it gets id 1), the adapter disconnects, and `Cancel` of the order is rejected by
`CheckAdapter`.  The rejection is handled on the shadow cancel order, which still carries id 1, so
the live order 1 stays UnconfirmedNew with `leaves_qty = 100`, while the journal gets a
RiskRejected record for id 1.  Cold recovery of that journal into an empty book resolves id 1 to
the order itself and ends with order 1 RiskRejected and `leaves_qty = 0`. -/
theorem C10_replay_diverges_after_rejected_cancel :
    (ExchangeConnectivityManager.Place exConnected 0 exBeforePlace).1 = true ∧
    (ExchangeConnectivityManager.Cancel exDisconnected 0 exPlacedBook).1 = false ∧
    (exLive.orders_ 1).map (fun q => ((exLive.heap q).status, (exLive.heap q).leaves_qty)) =
      some (kUnconfirmedNew, 100) ∧
    exLive.of_ =
      [{ seq := 1, sub_account_id := 1, exec_type := kUnconfirmedNew,
         body := Body.unconfirmedNew 1 1000 0 100 10 0 kBuy kLimit kDay 1 1 1 },
       { seq := 2, sub_account_id := 1, exec_type := kRiskRejected,
         body := Body.riskRejected 1 "Exchange connectivity adapter 'sim' is disconnected" }] ∧
    (GlobalOrderBook.LoadStore 0 exReplayStart).map
      (fun r => (r.orders_ 1).map fun q => ((r.heap q).status, (r.heap q).leaves_qty)) =
      some (some (kRiskRejected, 0)) := by
  have h10 : ¬ ((10:ℚ) ≤ 0) := by norm_num
  simp [h10, exLive, exReplayStart, exDisconnected, exPlacedBook, exBeforePlace, exReference,
      exConnected, exSecurity,
      ExchangeConnectivityManager.Place, ExchangeConnectivityManager.Place.routed,
      ExchangeConnectivityManager.Place.submit,
      ExchangeConnectivityManager.Cancel, Engine.alloc,
      ExchangeConnectivity.reject, ExchangeConnectivity.HandleConfirmation,
      ExchangeConnectivity.CheckAdapter, ExchangeConnectivity.UpdateThrottle,
      ExchangeConnectivity.updateThrottle,
      GlobalOrderBook.LoadStore, GlobalOrderBook.LoadStore.step, GlobalOrderBook.Get,
      GlobalOrderBook.Handle, GlobalOrderBook.Handle.body, GlobalOrderBook.UpdateOrder,
      GlobalOrderBook.UpdateOrder.onOrder, Order.IsLive,
      GlobalOrderBook.emplace, GlobalOrderBook.NewOrderId, PositionManager.Handle,
      Engine.updatePositions, Engine.modifySubAccountValue, Engine.modifyBrokerAccountValue,
      Engine.modifyUserValue, Engine.store, Engine.secOf, Engine.userOf, Engine.subAccountOf,
      Engine.brokerAccountOf, RiskManager.Check, Risk.Check, Risk.CheckMsgRate, Server.Publish,
      Throttle.read, Throttle.Update, String.isEmpty]

/-! ## C18: the throttle -/

theorem Throttle.Update_tm (th : Throttle) (t : Int) : (th.Update t).tm = th.tm := by
  unfold Throttle.Update
  split_ifs <;> rfl

theorem Throttle.iterate_Update_tm (th : Throttle) (t : Int) (n : Nat) :
    (Nat.iterate (fun x => x.Update t) n th).tm = th.tm := by
  induction n generalizing th with
  | zero => rfl
  | succ n ih => rw [Function.iterate_succ_apply, ih, Throttle.Update_tm]

/-- C18 (the code departs from the claim): `Throttle::Update` assigns the stored second to its
parameter (`tm2 = tm`) and resets the count to 0, so the stored second never changes.  After any
number of calls `Update(t)` at a second `t` other than the stored one the throttle still holds
its stored second and reads 0 at `t`, where the claim has it read the number of calls; and an
account whose throttles were last updated that way passes `CheckMsgRate` whatever its message-rate
limits are. -/
theorem C18_throttle_never_counts_a_new_second (th : Throttle) (t : Int) (n : Nat)
    (ht : t ≠ th.tm) :
    (Nat.iterate (fun x => x.Update t) n th).tm = th.tm ∧
    (Nat.iterate (fun x => x.Update t) n th).read t = 0 ∧
    ∀ (env : Env) (name : String) (acc : AccountBase) (sid : Nat), env.time = t →
      acc.throttle_in_sec = Nat.iterate (fun x => x.Update t) n th →
      acc.throttle_per_security_in_sec sid = Nat.iterate (fun x => x.Update t) n th →
      Risk.CheckMsgRate env name acc sid = none := by
  have htm := Throttle.iterate_Update_tm th t n
  have hread : (Nat.iterate (fun x => x.Update t) n th).read t = 0 := by
    unfold Throttle.read
    rw [htm, if_pos ht]
  refine ⟨htm, hread, ?_⟩
  intro env name acc sid he h1 h2
  unfold Risk.CheckMsgRate
  simp only [h1, h2, he, hread]
  have : ∀ x : ℚ, ¬ (0 < x ∧ x ≤ 0) := fun x hx => absurd hx.1 (not_lt.mpr hx.2)
  simp [this]

/-- C18, at an instance: a fresh throttle updated once at second 5 reads 0 at second 5. -/
theorem C18_throttle_never_counts_a_new_second_witness :
    (5 : Int) ≠ ({} : Throttle).tm ∧
    ((Nat.iterate (fun x => x.Update 5) 1 ({} : Throttle)).tm = ({} : Throttle).tm ∧
    (Nat.iterate (fun x => x.Update 5) 1 ({} : Throttle)).read 5 = 0 ∧
    ∀ (env : Env) (name : String) (acc : AccountBase) (sid : Nat), env.time = 5 →
      acc.throttle_in_sec = Nat.iterate (fun x => x.Update 5) 1 ({} : Throttle) →
      acc.throttle_per_security_in_sec sid = Nat.iterate (fun x => x.Update 5) 1 ({} : Throttle) →
      Risk.CheckMsgRate env name acc sid = none) :=
  ⟨by decide, C18_throttle_never_counts_a_new_second {} 5 1 (by decide)⟩

/-! ## C19: parsing the limits text -/

theorem dropWhile_head_false {α : Type} (p : α → Bool) :
    ∀ (l : List α) (c : α) (rest : List α), l.dropWhile p = c :: rest → p c = false := by
  intro l
  induction l with
  | nil => intro c rest h; simp at h
  | cons a l ih =>
    intro c rest h
    by_cases ha : p a = true
    · rw [List.dropWhile_cons_of_pos ha] at h
      exact ih c rest h
    · rw [List.dropWhile_cons_of_neg ha] at h
      injection h with h1 h2
      subst h1
      simpa using ha

theorem sscanfNameValue_ne_two (strtod : List Char → Option ℚ) (str : String) :
    (sscanfNameValue strtod str).1 ≠ 2 := by
  unfold sscanfNameValue
  dsimp only
  cases hs : scanToken (List.takeWhile (fun c => decide (c.toNat ≠ 0)) str.toList) with
  | none => simp
  | some tr =>
    obtain ⟨name, rest⟩ := tr
    dsimp only
    cases hr : rest with
    | nil => simp
    | cons c rest2 =>
      by_cases hc : c = '='
      · exfalso
        subst hc
        unfold scanToken at hs
        dsimp only at hs
        split at hs
        · simp at hs
        · simp only [Option.some.injEq, Prod.mk.injEq] at hs
          have := dropWhile_head_false (fun c => !isspace c) _ '=' rest2 (hs.2.trans hr)
          revert this
          decide
      · split
        · rename_i heq
          injection heq with h1 h2
          exact absurd h1 hc
        · simp

theorem ParseLimits_entry_eq (strtod : List Char → Option ℚ) (limits : Limits) (str : String) :
    ParseLimits.entry strtod limits str = limits := by
  unfold ParseLimits.entry
  dsimp only
  rw [if_pos (sscanfNameValue_ne_two strtod str)]

theorem foldl_ParseLimits_entry (strtod : List Char → Option ℚ) (l : List String)
    (limits : Limits) : l.foldl (ParseLimits.entry strtod) limits = limits := by
  induction l generalizing limits with
  | nil => rfl
  | cons a l ih => rw [List.foldl_cons, ParseLimits_entry_eq, ih]

/-- C19 (the code departs from the claim): in `sscanf(str, "%s=%lf", name, &value)` the
conversion `%s` takes the whole entry up to the next white space, so the literal `=` never finds an
equals sign, the call never returns 2 and every entry is skipped.  `ParseLimits` returns the
all-zero limits for every text and every number reader, and for the text `order_qty=500` the field
`order_qty` is 0, not 500. -/
theorem C19_ParseLimits_sets_no_field :
    (∀ (strtod : List Char → Option ℚ) (limits_str : String),
      ParseLimits strtod limits_str = {}) ∧
    (∀ strtod : List Char → Option ℚ, (ParseLimits strtod "order_qty=500").order_qty = 0) ∧
    Split "order_qty=500,msg_rate=3" ",;\n" = ["order_qty=500", "msg_rate=3"] ∧
    ∀ strtod : List Char → Option ℚ,
      sscanfNameValue strtod "order_qty=500" = (1, "order_qty=500", 0) := by
  have h : ∀ (strtod : List Char → Option ℚ) (limits_str : String),
      ParseLimits strtod limits_str = {} := by
    intro strtod limits_str
    unfold ParseLimits
    exact foldl_ParseLimits_entry strtod _ _
  refine ⟨h, fun strtod => by rw [h], by decide, fun strtod => ?_⟩
  simp [sscanfNameValue, scanToken, isspace]

/-! ## C14: realized profit and average price -/

/-- C15 (the code departs from the claim): `Position::HandleNew` subtracts the order quantity
from `total_outstanding_buy_qty` / `total_outstanding_sell_qty`, where `PositionValue::HandleNew`
beside it adds the order value to the value counter.  For every position the quantity counter of
the order's side is lowered by the order quantity at UnconfirmedNew.  On the book of the example,
a buy of 100 at 10 is placed and then canceled unfilled: the value counter of the sub-account
position goes 0, 1000, 0, while the quantity counter goes 0, -100, -200 and does not return to its
value before the order. -/
theorem C15_outstanding_quantity_not_restored :
    (∀ (p : Position) (qty price multiplier : ℚ),
      (p.HandleNew true qty price multiplier).total_outstanding_buy_qty =
          p.total_outstanding_buy_qty - qty ∧
        (p.HandleNew false qty price multiplier).total_outstanding_sell_qty =
          p.total_outstanding_sell_qty - qty ∧
        (p.HandleNew true qty price multiplier).total_outstanding_buy =
          p.total_outstanding_buy + qty * price * multiplier) ∧
    (exBeforePlace.sub_positions_ (1, 1)).total_outstanding_buy_qty = 0 ∧
    (exBeforePlace.sub_positions_ (1, 1)).total_outstanding_buy = 0 ∧
    (exPlacedBook.sub_positions_ (1, 1)).total_outstanding_buy_qty = -100 ∧
    (exPlacedBook.sub_positions_ (1, 1)).total_outstanding_buy = 1000 ∧
    ((ExchangeConnectivityAdapter.HandleCanceled exConnected 1 0 "" 0
        exPlacedBook).sub_positions_ (1, 1)).total_outstanding_buy_qty = -200 ∧
    ((ExchangeConnectivityAdapter.HandleCanceled exConnected 1 0 "" 0
        exPlacedBook).sub_positions_ (1, 1)).total_outstanding_buy = 0 ∧
    ((ExchangeConnectivityAdapter.HandleCanceled exConnected 1 0 "" 0 exPlacedBook).heap
        0).status = kCanceled := by
  have h10 : ¬ ((10:ℚ) ≤ 0) := by norm_num
  refine ⟨fun p qty price multiplier => ⟨rfl, rfl, rfl⟩, ?_⟩
  simp [h10, exPlacedBook, exBeforePlace, exReference,
    exConnected, exSecurity,
    ExchangeConnectivityAdapter.HandleCanceled, ExchangeConnectivity.HandleOrig,
    ExchangeConnectivity.Handle,
    ExchangeConnectivityManager.Place, ExchangeConnectivityManager.Place.routed,
    ExchangeConnectivityManager.Place.submit, Engine.alloc,
    ExchangeConnectivity.reject, ExchangeConnectivity.HandleConfirmation,
    ExchangeConnectivity.CheckAdapter, ExchangeConnectivity.UpdateThrottle,
    ExchangeConnectivity.updateThrottle, GlobalOrderBook.Get,
    GlobalOrderBook.Handle, GlobalOrderBook.Handle.body, GlobalOrderBook.UpdateOrder,
    GlobalOrderBook.UpdateOrder.onOrder, Order.IsLive,
    GlobalOrderBook.emplace, GlobalOrderBook.NewOrderId, PositionManager.Handle,
    Engine.updatePositions, Engine.modifySubAccountValue, Engine.modifyBrokerAccountValue,
    Engine.modifyUserValue, Engine.store, Engine.secOf, Engine.userOf, Engine.subAccountOf,
    Engine.brokerAccountOf, RiskManager.Check, Risk.Check, Risk.CheckMsgRate, Server.Publish,
    Throttle.read, Throttle.Update, String.isEmpty,
    Position.HandleNew, Position.HandleFinish, PositionValue.HandleNew,
    PositionValue.HandleFinish, Order.IsBuy, IsBuy, Confirmation.leaves_qty]
  norm_num

/-! ## C16: a second rejection meets the assert of `HandleFinish` -/

theorem PositionValue_HandleFinish_zero (v : PositionValue) (is_buy : Bool) (price0 m : ℚ) :
    v.HandleFinish is_buy 0 price0 m = v := by
  cases is_buy <;> simp [PositionValue.HandleFinish]

theorem Position_HandleFinish_zero (p : Position) (is_buy : Bool) (price0 m : ℚ) :
    p.HandleFinish is_buy 0 price0 m = p := by
  cases is_buy <;> simp [Position.HandleFinish, PositionValue_HandleFinish_zero]

theorem modifySubAccountValue_of_id (s : Engine) (id : Option Nat)
    (g : PositionValue → PositionValue) (hg : ∀ v, g v = v) : s.modifySubAccountValue id g = s := by
  unfold Engine.modifySubAccountValue
  split
  · rfl
  · split
    · rfl
    · rename_i i _ a heq
      simp only [hg]
      rw [← heq, Function.update_eq_self]

theorem modifyBrokerAccountValue_of_id (s : Engine) (id : Option Nat)
    (g : PositionValue → PositionValue) (hg : ∀ v, g v = v) :
    s.modifyBrokerAccountValue id g = s := by
  unfold Engine.modifyBrokerAccountValue
  split
  · rfl
  · split
    · rfl
    · rename_i i _ a heq
      simp only [hg]
      rw [← heq, Function.update_eq_self]

theorem modifyUserValue_of_id (s : Engine) (id : Option Nat)
    (g : PositionValue → PositionValue) (hg : ∀ v, g v = v) : s.modifyUserValue id g = s := by
  unfold Engine.modifyUserValue
  split
  · rfl
  · split
    · rfl
    · rename_i i _ a heq
      simp only [hg]
      rw [← heq, Function.update_eq_self]

theorem updatePositions_of_id (s : Engine) (ord : Order) (f : Position → Position)
    (g : PositionValue → PositionValue) (hf : ∀ p, f p = p) (hg : ∀ v, g v = v) :
    s.updatePositions ord f g = s := by
  unfold Engine.updatePositions
  simp only [hf, Function.update_eq_self]
  rw [modifySubAccountValue_of_id _ _ _ hg, modifyBrokerAccountValue_of_id _ _ _ hg,
    modifyUserValue_of_id _ _ _ hg]

/-- The position maps and account entities after `Handle` are those that
`PositionManager::Handle` leaves. -/
theorem Handle_position_fields (cm : Confirmation) (off : Bool) (s : Engine) :
    ∀ s1 : Engine,
      s1 = (if (s.heap cm.order).id ≤ 0 then s
        else PositionManager.Handle (GlobalOrderBook.UpdateOrder cm s).1 off
          (GlobalOrderBook.UpdateOrder cm s).2) →
      (GlobalOrderBook.Handle cm off s).sub_positions_ = s1.sub_positions_ ∧
      (GlobalOrderBook.Handle cm off s).broker_positions_ = s1.broker_positions_ ∧
      (GlobalOrderBook.Handle cm off s).user_positions_ = s1.user_positions_ ∧
      (GlobalOrderBook.Handle cm off s).sub_accounts_ = s1.sub_accounts_ ∧
      (GlobalOrderBook.Handle cm off s).broker_accounts_ = s1.broker_accounts_ ∧
      (GlobalOrderBook.Handle cm off s).users_ = s1.users_ ∧
      (GlobalOrderBook.Handle cm off s).bods_ = s1.bods_ := by
  intro s1 hs1
  subst hs1
  unfold GlobalOrderBook.Handle
  split_ifs with hid hoff
  · exact ⟨rfl, rfl, rfl, rfl, rfl, rfl, rfl⟩
  · exact ⟨rfl, rfl, rfl, rfl, rfl, rfl, rfl⟩
  · simp only [Server.Publish]
    split <;> exact ⟨rfl, rfl, rfl, rfl, rfl, rfl, rfl⟩

theorem UpdateOrder_position_fields (cm : Confirmation) (s : Engine) :
    (GlobalOrderBook.UpdateOrder cm s).2.sub_positions_ = s.sub_positions_ ∧
    (GlobalOrderBook.UpdateOrder cm s).2.broker_positions_ = s.broker_positions_ ∧
    (GlobalOrderBook.UpdateOrder cm s).2.user_positions_ = s.user_positions_ ∧
    (GlobalOrderBook.UpdateOrder cm s).2.sub_accounts_ = s.sub_accounts_ ∧
    (GlobalOrderBook.UpdateOrder cm s).2.broker_accounts_ = s.broker_accounts_ ∧
    (GlobalOrderBook.UpdateOrder cm s).2.users_ = s.users_ ∧
    (GlobalOrderBook.UpdateOrder cm s).2.bods_ = s.bods_ := by
  unfold GlobalOrderBook.UpdateOrder GlobalOrderBook.emplace
  split <;> (try split) <;> exact ⟨rfl, rfl, rfl, rfl, rfl, rfl, rfl⟩

/-- A RiskRejected confirmation on an order that has nothing left changes no position. -/
theorem Handle_riskRejected_nothing_left (cm : Confirmation) (s : Engine)
    (h : cm.exec_type = kRiskRejected) (h0 : (s.heap cm.order).leaves_qty = 0) :
    (GlobalOrderBook.Handle cm false s).sub_positions_ = s.sub_positions_ ∧
    (GlobalOrderBook.Handle cm false s).broker_positions_ = s.broker_positions_ ∧
    (GlobalOrderBook.Handle cm false s).user_positions_ = s.user_positions_ ∧
    (GlobalOrderBook.Handle cm false s).sub_accounts_ = s.sub_accounts_ ∧
    (GlobalOrderBook.Handle cm false s).broker_accounts_ = s.broker_accounts_ ∧
    (GlobalOrderBook.Handle cm false s).users_ = s.users_ := by
  obtain ⟨a1, a2, a3, a4, a5, a6, _⟩ := Handle_position_fields cm false s _ rfl
  rw [a1, a2, a3, a4, a5, a6]
  split_ifs with hid
  · exact ⟨rfl, rfl, rfl, rfl, rfl, rfl⟩
  · have hpm : PositionManager.Handle (GlobalOrderBook.UpdateOrder cm s).1 false
        (GlobalOrderBook.UpdateOrder cm s).2 = (GlobalOrderBook.UpdateOrder cm s).2 := by
      simp only [GlobalOrderBook.UpdateOrder, h, PositionManager.Handle, Confirmation.leaves_qty, h0]
      exact updatePositions_of_id _ _ _ _ (fun p => Position_HandleFinish_zero p _ _ _)
        (fun v => PositionValue_HandleFinish_zero v _ _ _)
    rw [hpm]
    obtain ⟨b1, b2, b3, b4, b5, b6, _⟩ := UpdateOrder_position_fields cm s
    exact ⟨b1, b2, b3, b4, b5, b6⟩

/-- C16 (the code breaks the claim by its own assert): two consecutive RiskRejected confirmations
on an order with an allocated id.  The first passes the order's `leaves_qty` to the position
engine in the confirmation and sets it to zero on the order.  The second therefore reaches
`HandleFinish` with `leaves_qty = 0`, which its `assert(leaves_qty)` forbids: the asserts of the
second call do not all hold, and a build with asserts aborts there.  Only in a build with `NDEBUG`
does the second call return, and then the three position maps and the three kinds of account
entity, with every counter they hold, are what they were after the first. -/
theorem C16_second_risk_rejection_fails_the_assert (cm1 cm2 : Confirmation) (s : Engine)
    (h1 : cm1.exec_type = kRiskRejected) (h2 : cm2.exec_type = kRiskRejected)
    (ho : cm2.order = cm1.order) (hid : 0 < (s.heap cm1.order).id) :
    (GlobalOrderBook.UpdateOrder cm1 s).1.leaves_qty = (s.heap cm1.order).leaves_qty ∧
    ((GlobalOrderBook.Handle cm1 false s).heap cm1.order).leaves_qty = 0 ∧
    (GlobalOrderBook.UpdateOrder cm2 (GlobalOrderBook.Handle cm1 false s)).1.leaves_qty = 0 ∧
    GlobalOrderBook.Handle.asserts cm2 false (GlobalOrderBook.Handle cm1 false s) = false ∧
    (GlobalOrderBook.Handle cm2 false (GlobalOrderBook.Handle cm1 false s)).sub_positions_ =
      (GlobalOrderBook.Handle cm1 false s).sub_positions_ ∧
    (GlobalOrderBook.Handle cm2 false (GlobalOrderBook.Handle cm1 false s)).broker_positions_ =
      (GlobalOrderBook.Handle cm1 false s).broker_positions_ ∧
    (GlobalOrderBook.Handle cm2 false (GlobalOrderBook.Handle cm1 false s)).user_positions_ =
      (GlobalOrderBook.Handle cm1 false s).user_positions_ ∧
    (GlobalOrderBook.Handle cm2 false (GlobalOrderBook.Handle cm1 false s)).sub_accounts_ =
      (GlobalOrderBook.Handle cm1 false s).sub_accounts_ ∧
    (GlobalOrderBook.Handle cm2 false (GlobalOrderBook.Handle cm1 false s)).broker_accounts_ =
      (GlobalOrderBook.Handle cm1 false s).broker_accounts_ ∧
    (GlobalOrderBook.Handle cm2 false (GlobalOrderBook.Handle cm1 false s)).users_ =
      (GlobalOrderBook.Handle cm1 false s).users_ := by
  have hheap : (GlobalOrderBook.Handle cm1 false s).heap cm1.order =
      GlobalOrderBook.UpdateOrder.onOrder cm1 (s.heap cm1.order) := by
    rw [Handle_heap, if_neg (not_le.mpr hid), GlobalOrderBook.UpdateOrder_heap]
  have hleaves : ((GlobalOrderBook.Handle cm1 false s).heap cm1.order).leaves_qty = 0 := by
    rw [hheap]
    simp [GlobalOrderBook.UpdateOrder.onOrder, h1]
  have hid2 : 0 < ((GlobalOrderBook.Handle cm1 false s).heap cm2.order).id := by
    rw [ho, hheap]
    simpa [GlobalOrderBook.UpdateOrder.onOrder, h1] using hid
  have hcm2 : (GlobalOrderBook.UpdateOrder cm2 (GlobalOrderBook.Handle cm1 false s)).1.leaves_qty =
      0 := by
    simp only [GlobalOrderBook.UpdateOrder, h2, Confirmation.leaves_qty]
    rw [ho]
    exact hleaves
  refine ⟨?_, hleaves, hcm2, ?_, ?_⟩
  · simp [GlobalOrderBook.UpdateOrder, h1, Confirmation.leaves_qty]
  · unfold GlobalOrderBook.Handle.asserts
    rw [if_neg (not_le.mpr hid2)]
    unfold PositionManager.Handle.asserts
    have hty : (GlobalOrderBook.UpdateOrder cm2 (GlobalOrderBook.Handle cm1 false s)).1.exec_type =
        kRiskRejected := by
      simp [GlobalOrderBook.UpdateOrder, h2]
    simp only [hty, hcm2]
    simp
  · exact Handle_riskRejected_nothing_left cm2 _ h2 (by rw [ho]; exact hleaves)

/-- C16, at an instance: the order placed in `exPlacedBook` is rejected twice.  The asserts of the
first call hold, those of the second do not. -/
theorem C16_second_risk_rejection_fails_the_assert_witness :
    0 < (exPlacedBook.heap 0).id ∧
    GlobalOrderBook.Handle.asserts { order := 0, exec_type := kRiskRejected } false exPlacedBook =
      true ∧
    ((GlobalOrderBook.Handle { order := 0, exec_type := kRiskRejected } false exPlacedBook).heap
        0).leaves_qty = 0 ∧
    GlobalOrderBook.Handle.asserts { order := 0, exec_type := kRiskRejected } false
        (GlobalOrderBook.Handle { order := 0, exec_type := kRiskRejected } false exPlacedBook) =
      false :=
  have hid : 0 < (exPlacedBook.heap 0).id := by rw [exPlacedBook_heap]; decide
  have h := C16_second_risk_rejection_fails_the_assert
    { order := 0, exec_type := kRiskRejected } { order := 0, exec_type := kRiskRejected }
    exPlacedBook rfl rfl rfl hid
  have hfirst : GlobalOrderBook.Handle.asserts { order := 0, exec_type := kRiskRejected } false
      exPlacedBook = true := by
    have h100 : ¬ ((100 : ℚ) = 0) := by norm_num
    unfold GlobalOrderBook.Handle.asserts
    rw [if_neg (not_le.mpr hid)]
    simp [PositionManager.Handle.asserts, GlobalOrderBook.UpdateOrder, Engine.store,
      Confirmation.leaves_qty, exPlacedBook_heap, h100, GlobalOrderBook.UpdateOrder.onOrder]
  ⟨hid, hfirst, h.2.1, h.2.2.2.1⟩

/-! ## C13: the position quantity is the beginning of day plus the fills -/

theorem signedTradeQty_eq (o : Order) (cm : Confirmation) (hf : cm.IsFill = true)
    (ht : cm.exec_trans_type = kTransNew ∨ cm.exec_trans_type = kTransCancel) :
    signedTradeQty o.IsBuy cm.last_shares (cm.exec_trans_type == kTransCancel) =
      signedFillQty o cm := by
  unfold signedTradeQty signedFillQty
  rcases ht with ht | ht <;> cases hb : o.IsBuy <;> simp [hf, ht]

theorem updatePositions_journal (s : Engine) (ord : Order) (f : Position → Position)
    (g : PositionValue → PositionValue) :
    (s.updatePositions ord f g).of_ = s.of_ ∧
      (s.updatePositions ord f g).seq_counter_ = s.seq_counter_ ∧
      (s.updatePositions ord f g).orders_ = s.orders_ ∧
      (s.updatePositions ord f g).order_id_counter_ = s.order_id_counter_ := by
  unfold Engine.updatePositions Engine.modifyUserValue Engine.modifyBrokerAccountValue
    Engine.modifySubAccountValue
  dsimp only
  repeat' split
  all_goals exact ⟨rfl, rfl, rfl, rfl⟩

theorem PositionManager_Handle_journal (cm : Confirmation) (off : Bool) (s : Engine) :
    (PositionManager.Handle cm off s).of_ = s.of_ ∧
      (PositionManager.Handle cm off s).seq_counter_ = s.seq_counter_ ∧
      (PositionManager.Handle cm off s).orders_ = s.orders_ ∧
      (PositionManager.Handle cm off s).order_id_counter_ = s.order_id_counter_ := by
  unfold PositionManager.Handle
  dsimp only
  split <;> (try split_ifs) <;>
    first | exact ⟨rfl, rfl, rfl, rfl⟩ | exact updatePositions_journal _ _ _ _

theorem UpdateOrder_journal (cm : Confirmation) (s : Engine) :
    (GlobalOrderBook.UpdateOrder cm s).2.of_ = s.of_ ∧
      (GlobalOrderBook.UpdateOrder cm s).2.seq_counter_ = s.seq_counter_ ∧
      (GlobalOrderBook.UpdateOrder cm s).2.order_id_counter_ = s.order_id_counter_ := by
  unfold GlobalOrderBook.UpdateOrder GlobalOrderBook.emplace
  split <;> (try split) <;> exact ⟨rfl, rfl, rfl⟩

/-- What `Handle` does to the journal and to the seq counter. -/
theorem Handle_journal (cm : Confirmation) (off : Bool) (s : Engine) :
    ((GlobalOrderBook.Handle cm off s).of_ = s.of_ ∨
      ∃ r : Record, (GlobalOrderBook.Handle cm off s).of_ = s.of_ ++ [r] ∧
        r.seq = s.seq_counter_ + 1 ∧
        (GlobalOrderBook.Handle cm off s).seq_counter_ = s.seq_counter_ + 1) ∧
    (GlobalOrderBook.Handle cm off s).seq_counter_ =
      (if (s.heap cm.order).id ≤ 0 ∨ off = true then s.seq_counter_ else s.seq_counter_ + 1) ∧
    (GlobalOrderBook.Handle cm off s).order_id_counter_ = s.order_id_counter_ ∧
    (off = true → (GlobalOrderBook.Handle cm off s).of_ = s.of_) := by
  by_cases hid : (s.heap cm.order).id ≤ 0
  · simp [GlobalOrderBook.Handle, Server.Publish, hid]
  · cases off
    · have h1 := PositionManager_Handle_journal (GlobalOrderBook.UpdateOrder cm s).1 false
        (GlobalOrderBook.UpdateOrder cm s).2
      have h2 := UpdateOrder_journal cm s
      simp only [GlobalOrderBook.Handle, if_neg hid, Bool.false_eq_true, if_false, Server.Publish,
        or_false]
      split <;> simp [h1.1, h1.2.1, h1.2.2.2, h2.1, h2.2.1, h2.2.2]
    · have h1 := PositionManager_Handle_journal (GlobalOrderBook.UpdateOrder cm s).1 true
        (GlobalOrderBook.UpdateOrder cm s).2
      have h2 := UpdateOrder_journal cm s
      simp [GlobalOrderBook.Handle, hid, h1.1, h1.2.1, h1.2.2.2, h2.1, h2.2.1, h2.2.2]

theorem Handle_offline_journal (cm : Confirmation) (s : Engine) :
    (GlobalOrderBook.Handle cm true s).of_ = s.of_ ∧
      (GlobalOrderBook.Handle cm true s).seq_counter_ = s.seq_counter_ := by
  obtain ⟨_, h2, _, h4⟩ := Handle_journal cm true s
  exact ⟨h4 rfl, by simpa using h2⟩

theorem IsDupExecId_journal (x : String) (s : Engine) :
    (GlobalOrderBook.IsDupExecId x s).2.of_ = s.of_ ∧
      (GlobalOrderBook.IsDupExecId x s).2.seq_counter_ = s.seq_counter_ ∧
      (GlobalOrderBook.IsDupExecId x s).2.orders_ = s.orders_ ∧
      (GlobalOrderBook.IsDupExecId x s).2.order_id_counter_ = s.order_id_counter_ := by
  unfold GlobalOrderBook.IsDupExecId
  split_ifs <;> exact ⟨rfl, rfl, rfl, rfl⟩

/-- One record of the replay leaves the journal file as it is and sets the seq counter to the seq
of the record. -/
theorem LoadStore_step_journal (seq0 : Nat) (s : Engine) (r : Record) (s2 : Engine)
    (h : GlobalOrderBook.LoadStore.step seq0 s r = some s2) :
    s2.of_ = s.of_ ∧ s2.seq_counter_ = r.seq := by
  unfold GlobalOrderBook.LoadStore.step at h
  dsimp only at h
  split_ifs at h with hseq
  · injection h with h
    subst h
    exact ⟨rfl, rfl⟩
  · repeat' split at h
    all_goals (try cases h)
    all_goals simp [Handle_offline_journal, IsDupExecId_journal, Engine.alloc]

theorem lastSeq_cons (r : Record) (l : List Record) (c : Nat) :
    (lastSeq (r :: l)).getD c = (lastSeq l).getD r.seq := by
  cases l with
  | nil => rfl
  | cons a l =>
    have hx : (a :: l).getLast? = some ((a :: l).getLast (by simp)) :=
      List.getLast?_eq_getLast _ _
    simp only [lastSeq, List.getLast?_cons_cons, hx, Option.map_some', Option.getD_some]

theorem LoadStore_fold_journal (seq0 : Nat) :
    ∀ (l : List Record) (s s2 : Engine),
      l.foldlM (GlobalOrderBook.LoadStore.step seq0) s = some s2 →
      s2.of_ = s.of_ ∧ s2.seq_counter_ = (lastSeq l).getD s.seq_counter_ := by
  intro l
  induction l with
  | nil =>
    intro s s2 h
    simp only [List.foldlM_nil] at h
    cases h
    exact ⟨rfl, rfl⟩
  | cons r l ih =>
    intro s s2 h
    rw [List.foldlM_cons] at h
    cases hstep : GlobalOrderBook.LoadStore.step seq0 s r with
    | none => rw [hstep] at h; cases h
    | some s1 =>
      rw [hstep] at h
      obtain ⟨h1, h2⟩ := LoadStore_step_journal seq0 s r s1 hstep
      obtain ⟨h3, h4⟩ := ih s1 s2 h
      rw [lastSeq_cons]
      exact ⟨h3.trans h1, by rw [h4, h2]⟩

/-- What `Initialize` does to the journal and to the seq counter. -/
theorem Initialize_journal (env : Env) (s s2 : Engine)
    (h : GlobalOrderBook.Initialize env s = some s2) :
    s2.of_ = s.of_ ∧ s2.seq_counter_ = (lastSeq s.of_).getD s.seq_counter_ + 1000 := by
  unfold GlobalOrderBook.Initialize at h
  split at h
  · cases h
  · rename_i s1 hload
    obtain ⟨h1, h2⟩ := LoadStore_fold_journal 0 s.of_ s s1 hload
    cases h
    dsimp only
    split_ifs <;> exact ⟨h1, by simp [h2]⟩

theorem seq_le_lastSeq :
    ∀ (l : List Record) (c : Nat), (l.map Record.seq).Pairwise (fun a b => a < b) →
      ∀ r ∈ l, r.seq ≤ (lastSeq l).getD c := by
  intro l
  induction l with
  | nil => intro c _ r hr; cases hr
  | cons a l ih =>
    intro c hp r hr
    rw [lastSeq_cons]
    rw [List.map_cons, List.pairwise_cons] at hp
    rcases List.mem_cons.mp hr with h | h
    · subst h
      cases l with
      | nil => exact le_refl _
      | cons b l =>
        have hb : b.seq ≤ (lastSeq (b :: l)).getD r.seq :=
          ih r.seq hp.2 b (List.mem_cons_self _ _)
        have hab : r.seq < b.seq := hp.1 b.seq (by simp)
        exact le_trans hab.le hb
    · exact ih a.seq hp.2 r h

/-- The journal is strictly increasing in seq and bounded by the seq counter, and every event
keeps it so. -/
theorem JournalEvent_run_ordered (ev : JournalEvent) (s s2 : Engine)
    (hp : (s.of_.map Record.seq).Pairwise (fun a b => a < b))
    (hb : ∀ r ∈ s.of_, r.seq ≤ s.seq_counter_) (h : JournalEvent.run s ev = some s2) :
    (s2.of_.map Record.seq).Pairwise (fun a b => a < b) ∧ ∀ r ∈ s2.of_, r.seq ≤ s2.seq_counter_ := by
  cases ev with
  | handle mem cm =>
    simp only [JournalEvent.run, Option.some.injEq] at h
    subst h
    obtain ⟨h1, h2, _, _⟩ := Handle_journal cm false
      { mem with of_ := s.of_, seq_counter_ := s.seq_counter_ }
    rcases h1 with h1 | ⟨r, h1, h3, h4⟩
    · rw [h1, h2]
      refine ⟨hp, fun r hr => le_trans (hb r hr) ?_⟩
      dsimp only
      split_ifs <;> omega
    · rw [h1, h4]
      dsimp only at h3 ⊢
      refine ⟨?_, ?_⟩
      · rw [List.map_append, List.pairwise_append]
        refine ⟨hp, by simp, ?_⟩
        intro a ha b hb2
        simp only [List.map_cons, List.map_nil, List.mem_singleton] at hb2
        obtain ⟨x, hx, rfl⟩ := List.mem_map.mp ha
        have := hb x hx
        omega
      · intro x hx
        rcases List.mem_append.mp hx with hx | hx
        · have := hb x hx
          omega
        · simp only [List.mem_singleton] at hx
          subst hx
          omega
  | restart ref env =>
    simp only [JournalEvent.run] at h
    obtain ⟨h1, h2⟩ := Initialize_journal env _ s2 h
    simp only [Engine.newProcess] at h1 h2
    rw [h1, h2]
    refine ⟨hp, fun r hr => ?_⟩
    have := seq_le_lastSeq s.of_ 0 hp r hr
    omega

theorem JournalEvent_runAll_ordered (evs : List JournalEvent) :
    ∀ (s s2 : Engine), (s.of_.map Record.seq).Pairwise (fun a b => a < b) →
      (∀ r ∈ s.of_, r.seq ≤ s.seq_counter_) → JournalEvent.runAll evs s = some s2 →
      (s2.of_.map Record.seq).Pairwise (fun a b => a < b) ∧
        ∀ r ∈ s2.of_, r.seq ≤ s2.seq_counter_ := by
  induction evs with
  | nil =>
    intro s s2 hp hb h
    simp only [JournalEvent.runAll, List.foldlM_nil] at h
    cases h
    exact ⟨hp, hb⟩
  | cons ev evs ih =>
    intro s s2 hp hb h
    simp only [JournalEvent.runAll, List.foldlM_cons] at h
    cases hstep : JournalEvent.run s ev with
    | none => rw [hstep] at h; cases h
    | some s1 =>
      rw [hstep] at h
      obtain ⟨hp1, hb1⟩ := JournalEvent_run_ordered ev s s1 hp hb hstep
      exact ih s1 s2 hp1 hb1 h

/-- The lifetime `exLifetime` runs to its end, and the journal then holds the seqs 1, 3, 1004. -/
theorem exLifetime_run :
    ∃ s2 : Engine, JournalEvent.runAll exLifetime exReference = some s2 ∧
      s2.of_.map Record.seq = [1, 3, 1004] := by
  have h : (JournalEvent.runAll exLifetime exReference).map (fun s => s.of_.map Record.seq) =
      some [1, 3, 1004] := by
    simp [JournalEvent.runAll, JournalEvent.run, exLifetime, exOrderInBook, exReference,
      exSecurity, Engine.newProcess, GlobalOrderBook.Initialize,
      Engine.alloc, GlobalOrderBook.LoadStore, GlobalOrderBook.LoadStore.step, GlobalOrderBook.Get,
      GlobalOrderBook.Handle, GlobalOrderBook.Handle.body, GlobalOrderBook.UpdateOrder,
      GlobalOrderBook.UpdateOrder.onOrder, Order.IsLive,
      GlobalOrderBook.emplace, PositionManager.Handle,
      Engine.updatePositions, Engine.modifySubAccountValue, Engine.modifyBrokerAccountValue,
      Engine.modifyUserValue, Engine.store, Engine.secOf, Server.Publish]
  obtain ⟨s2, h1, h2⟩ := Option.map_eq_some'.mp h
  exact ⟨s2, h1, h2⟩

/-- C11 (the claim as stated fails): order 1 is accepted, suspended and confirmed, the process
restarts, and the order is reported PendingCancel.  The Suspended confirmation takes seq 2 and
writes no record, and `Initialize` adds 1000 to the counter after the replay, so the journal holds
the seqs 1, 3, 1004: a record is not always 1 greater than the record before it. -/
theorem C11_counterexample :
    ∃ s2 : Engine, JournalEvent.runAll exLifetime exReference = some s2 ∧
      s2.of_.map Record.seq = [1, 3, 1004] ∧
      ¬ List.Chain' (fun a b => b = a + 1) (s2.of_.map Record.seq) := by
  obtain ⟨s2, h1, h2⟩ := exLifetime_run
  refine ⟨s2, h1, h2, ?_⟩
  rw [h2]
  simp

/-- C11 (amended): over the lifetime of a journal file that starts empty, through any sequence of
confirmations handled by `GlobalOrderBook::Handle` (whatever the rest of the memory holds) and
restarts (`Initialize`, which replays the file with `LoadStore`), the seqs of the records are
strictly increasing and none exceeds the seq counter.  From there, a confirmation either writes
nothing or appends one record whose seq is the counter plus 1, hence greater than every seq in the
file; the counter also advances for confirmations that write nothing, so the seqs are not dense.
A restart leaves the file as it is and sets the counter to the seq of the last record plus 1000,
so the first record written after it is at least 1001 above the last one. -/
theorem C11_journal_seq_strictly_increasing (evs : List JournalEvent) (s s2 : Engine)
    (h0 : s.of_ = []) (hr : JournalEvent.runAll evs s = some s2) :
    (s2.of_.map Record.seq).Pairwise (fun a b => a < b) ∧
    (∀ r ∈ s2.of_, r.seq ≤ s2.seq_counter_) ∧
    (∀ (mem : Engine) (cm : Confirmation) (s3 : Engine),
      JournalEvent.run s2 (JournalEvent.handle mem cm) = some s3 →
      s2.seq_counter_ ≤ s3.seq_counter_ ∧
      (s3.of_ = s2.of_ ∨
        ∃ r : Record, s3.of_ = s2.of_ ++ [r] ∧ r.seq = s2.seq_counter_ + 1 ∧
          s3.seq_counter_ = s2.seq_counter_ + 1)) ∧
    (∀ (ref : Engine) (env : Env) (s3 : Engine),
      JournalEvent.run s2 (JournalEvent.restart ref env) = some s3 →
      s3.of_ = s2.of_ ∧ s3.seq_counter_ = (lastSeq s2.of_).getD 0 + 1000) := by
  obtain ⟨hp, hb⟩ := JournalEvent_runAll_ordered evs s s2 (by rw [h0]; exact List.Pairwise.nil)
    (by rw [h0]; intro r hr; cases hr) hr
  refine ⟨hp, hb, ?_, ?_⟩
  · intro mem cm s3 h
    simp only [JournalEvent.run, Option.some.injEq] at h
    subst h
    obtain ⟨h1, h2, _, _⟩ := Handle_journal cm false
      { mem with of_ := s2.of_, seq_counter_ := s2.seq_counter_ }
    refine ⟨?_, h1⟩
    rw [h2]
    dsimp only
    split_ifs <;> omega
  · intro ref env s3 h
    simp only [JournalEvent.run] at h
    exact Initialize_journal env _ s3 h

/-- C11 (amended), at an instance: the lifetime `exLifetime` of a journal that starts empty. -/
theorem C11_journal_seq_strictly_increasing_witness :
    exReference.of_ = [] ∧
    ∃ s2 : Engine, JournalEvent.runAll exLifetime exReference = some s2 ∧
      (s2.of_.map Record.seq).Pairwise (fun a b => a < b) :=
  ⟨rfl, by
    obtain ⟨s2, h, _⟩ := exLifetime_run
    exact ⟨s2, h, (C11_journal_seq_strictly_increasing exLifetime exReference s2 rfl h).1⟩⟩

/-! ## C12: the order-id counter at start-up -/

theorem updatePositions_withFile (s : Engine) (file : List Record) (ord : Order)
    (f : Position → Position) (g : PositionValue → PositionValue) :
    (s.withFile file).updatePositions ord f g = (s.updatePositions ord f g).withFile file := by
  unfold Engine.updatePositions Engine.modifyUserValue Engine.modifyBrokerAccountValue
    Engine.modifySubAccountValue Engine.withFile
  dsimp only
  repeat' split
  all_goals simp_all

theorem PositionManager_Handle_withFile (cm : Confirmation) (off : Bool) (s : Engine)
    (file : List Record) :
    PositionManager.Handle cm off (s.withFile file) =
      (PositionManager.Handle cm off s).withFile file := by
  unfold PositionManager.Handle
  simp only [updatePositions_withFile]
  have hh : (s.withFile file).heap = s.heap := rfl
  simp only [hh]
  split <;> (try split_ifs) <;> rfl

theorem UpdateOrder_withFile (cm : Confirmation) (s : Engine) (file : List Record) :
    GlobalOrderBook.UpdateOrder cm (s.withFile file) =
      ((GlobalOrderBook.UpdateOrder cm s).1, (GlobalOrderBook.UpdateOrder cm s).2.withFile file) := by
  unfold GlobalOrderBook.UpdateOrder GlobalOrderBook.emplace Engine.store Engine.withFile
  dsimp only
  split <;> (try split) <;> rfl

theorem Handle_offline_withFile (cm : Confirmation) (s : Engine) (file : List Record) :
    GlobalOrderBook.Handle cm true (s.withFile file) =
      (GlobalOrderBook.Handle cm true s).withFile file := by
  unfold GlobalOrderBook.Handle
  have hh : (s.withFile file).heap = s.heap := rfl
  simp only [hh, UpdateOrder_withFile, PositionManager_Handle_withFile, if_true]
  split_ifs <;> rfl

theorem IsDupExecId_withFile (x : String) (s : Engine) (file : List Record) :
    GlobalOrderBook.IsDupExecId x (s.withFile file) =
      ((GlobalOrderBook.IsDupExecId x s).1, (GlobalOrderBook.IsDupExecId x s).2.withFile file) := by
  unfold GlobalOrderBook.IsDupExecId Engine.withFile
  dsimp only
  split_ifs <;> rfl

theorem alloc_withFile (s : Engine) (file : List Record) (o : Order) :
    (s.withFile file).alloc o = ((s.alloc o).1, (s.alloc o).2.withFile file) := rfl

/-- The replay of a record does not read the journal file of the engine. -/
theorem LoadStore_step_withFile (seq0 : Nat) (s : Engine) (r : Record) (file : List Record) :
    GlobalOrderBook.LoadStore.step seq0 (s.withFile file) r =
      (GlobalOrderBook.LoadStore.step seq0 s r).map (fun t => t.withFile file) := by
  unfold GlobalOrderBook.LoadStore.step
  have h1 : ({ s.withFile file with seq_counter_ := r.seq } : Engine) =
      ({ s with seq_counter_ := r.seq } : Engine).withFile file := rfl
  rw [h1]
  generalize ({ s with seq_counter_ := r.seq } : Engine) = t
  have g1 : ∀ (u : Engine) (id : Nat),
      GlobalOrderBook.Get (u.withFile file) id = GlobalOrderBook.Get u id := fun _ _ => rfl
  have g2 : ∀ u : Engine, (u.withFile file).securities_ = u.securities_ := fun _ => rfl
  have g3 : ∀ u : Engine, (u.withFile file).users_ = u.users_ := fun _ => rfl
  have g4 : ∀ u : Engine, (u.withFile file).sub_accounts_ = u.sub_accounts_ := fun _ => rfl
  have g5 : ∀ u : Engine, (u.withFile file).broker_accounts_ = u.broker_accounts_ := fun _ => rfl
  have g6 : ∀ u : Engine, (u.withFile file).heap = u.heap := fun _ => rfl
  have g7 : ∀ u : Engine, (u.withFile file).order_id_counter_ = u.order_id_counter_ :=
    fun _ => rfl
  simp only [g1, g2, g3, g4, g5, g6, IsDupExecId_withFile, alloc_withFile,
    Handle_offline_withFile, g7]
  split_ifs
  · rfl
  · repeat' split
    all_goals first
      | rfl
      | (simp only [Option.map_some', Option.some.injEq]
         rw [← Handle_offline_withFile]
         try rfl)

theorem LoadStore_fold_withFile (seq0 : Nat) (file : List Record) :
    ∀ (l : List Record) (s : Engine),
      l.foldlM (GlobalOrderBook.LoadStore.step seq0) (s.withFile file) =
        (l.foldlM (GlobalOrderBook.LoadStore.step seq0) s).map (fun t => t.withFile file) := by
  intro l
  induction l with
  | nil => intro s; rfl
  | cons r l ih =>
    intro s
    rw [List.foldlM_cons, List.foldlM_cons, LoadStore_step_withFile]
    cases GlobalOrderBook.LoadStore.step seq0 s r with
    | none => rfl
    | some t => exact ih t

theorem emplace_orders (s : Engine) (k : Nat) (q : Ptr) (id : Nat) (p : Ptr)
    (h : (GlobalOrderBook.emplace s k q).orders_ id = some p) :
    s.orders_ id = some p ∨ id = k := by
  unfold GlobalOrderBook.emplace at h
  split at h
  · exact Or.inl h
  · by_cases hk : id = k
    · exact Or.inr hk
    · dsimp only at h
      rw [Function.update_noteq hk] at h
      exact Or.inl h

theorem UpdateOrder_orders (cm : Confirmation) (s : Engine) :
    (GlobalOrderBook.UpdateOrder cm s).2.orders_ =
      if cm.exec_type = kUnconfirmedNew ∨ cm.exec_type = kUnconfirmedCancel then
        (GlobalOrderBook.emplace s (s.heap cm.order).id cm.order).orders_
      else s.orders_ := by
  cases h : cm.exec_type <;> simp [GlobalOrderBook.UpdateOrder, h, Engine.store]

/-- The keys that `Handle` adds to the order book: none, or the id of the order of an
UnconfirmedNew or UnconfirmedCancel confirmation. -/
theorem Handle_orders (cm : Confirmation) (off : Bool) (s : Engine) (id : Nat) (p : Ptr)
    (h : (GlobalOrderBook.Handle cm off s).orders_ id = some p) :
    s.orders_ id = some p ∨
      ((cm.exec_type = kUnconfirmedNew ∨ cm.exec_type = kUnconfirmedCancel) ∧
        id = (s.heap cm.order).id) := by
  have h1 : (GlobalOrderBook.Handle cm off s).orders_ =
      if (s.heap cm.order).id ≤ 0 then s.orders_ else (GlobalOrderBook.UpdateOrder cm s).2.orders_ := by
    unfold GlobalOrderBook.Handle
    split_ifs with hid hoff
    · rfl
    · exact (PositionManager_Handle_journal _ _ _).2.2.1
    · simp only [Server.Publish]
      split <;> exact (PositionManager_Handle_journal _ _ _).2.2.1
  rw [h1, UpdateOrder_orders] at h
  split_ifs at h with hid hx
  · exact Or.inl h
  · rcases emplace_orders _ _ _ _ _ h with h2 | h2
    · exact Or.inl h2
    · exact Or.inr ⟨hx, h2⟩
  · exact Or.inl h

theorem Handle_counter (cm : Confirmation) (off : Bool) (s : Engine) :
    (GlobalOrderBook.Handle cm off s).order_id_counter_ = s.order_id_counter_ :=
  (Handle_journal cm off s).2.2.1

theorem Handle_orders_le (cm : Confirmation) (off : Bool) (u : Engine) (B : Nat)
    (hB : ∀ id p, u.orders_ id = some p → id ≤ B)
    (hnew : cm.exec_type = kUnconfirmedNew ∨ cm.exec_type = kUnconfirmedCancel →
      (u.heap cm.order).id ≤ B) :
    ∀ id p, (GlobalOrderBook.Handle cm off u).orders_ id = some p → id ≤ B := by
  intro id p hp
  rcases Handle_orders cm off u id p hp with h | ⟨hx, h⟩
  · exact hB id p h
  · rw [h]
    exact hnew hx

/-- A replayed record never lowers the order-id counter, and keeps every id of the order book at
or below it. -/
theorem LoadStore_step_ids (seq0 : Nat) (s : Engine) (r : Record) (s2 : Engine)
    (h : GlobalOrderBook.LoadStore.step seq0 s r = some s2)
    (hinv : ∀ id p, s.orders_ id = some p → id ≤ s.order_id_counter_) :
    s.order_id_counter_ ≤ s2.order_id_counter_ ∧
      ∀ id p, s2.orders_ id = some p → id ≤ s2.order_id_counter_ := by
  unfold GlobalOrderBook.LoadStore.step at h
  dsimp only at h
  split_ifs at h with hseq
  · cases h
    exact ⟨le_refl _, hinv⟩
  · repeat' split at h
    all_goals (try cases h)
    all_goals simp only [Handle_counter, IsDupExecId_journal, Engine.alloc] at *
    all_goals refine ⟨by omega, ?_⟩
    all_goals first
      | exact hinv
      | (refine Handle_orders_le _ _ _ _ (fun i q hq => ?_) (fun hx => ?_)
         · have := hinv i q (by simpa [IsDupExecId_journal] using hq)
           omega
         · simp_all)

theorem LoadStore_fold_ids (seq0 : Nat) :
    ∀ (l : List Record) (s s2 : Engine),
      (∀ id p, s.orders_ id = some p → id ≤ s.order_id_counter_) →
      l.foldlM (GlobalOrderBook.LoadStore.step seq0) s = some s2 →
      s.order_id_counter_ ≤ s2.order_id_counter_ ∧
        ∀ id p, s2.orders_ id = some p → id ≤ s2.order_id_counter_ := by
  intro l
  induction l with
  | nil =>
    intro s s2 hinv h
    simp only [List.foldlM_nil] at h
    cases h
    exact ⟨le_refl _, hinv⟩
  | cons r l ih =>
    intro s s2 hinv h
    rw [List.foldlM_cons] at h
    cases hstep : GlobalOrderBook.LoadStore.step seq0 s r with
    | none => rw [hstep] at h; cases h
    | some s1 =>
      rw [hstep] at h
      obtain ⟨h1, h2⟩ := LoadStore_step_ids seq0 s r s1 hstep hinv
      obtain ⟨h3, h4⟩ := ih s1 s2 h2 h
      exact ⟨le_trans h1 h3, h4⟩

/-- What `Initialize` does to the order-id counter and to the order book. -/
theorem Initialize_ids (env : Env) (s s2 : Engine)
    (h : GlobalOrderBook.Initialize env s = some s2) :
    ∃ s1 : Engine, GlobalOrderBook.LoadStore 0 s = some s1 ∧
      s2.order_id_counter_ = max (s1.order_id_counter_ + 100000) env.localtime.min_counter ∧
      s2.orders_ = s1.orders_ := by
  unfold GlobalOrderBook.Initialize at h
  split at h
  · cases h
  · rename_i s1 hload
    refine ⟨s1, hload, ?_⟩
    cases h
    dsimp only
    unfold Tm.min_counter Tm.secs
    split_ifs with hlt
    · refine ⟨?_, rfl⟩
      dsimp only at hlt ⊢
      omega
    · refine ⟨?_, rfl⟩
      dsimp only at hlt ⊢
      omega

/-- C12 (the claim as stated fails), on a journal read at a start on a Sunday at 00:00:00.  It
holds the UnconfirmedNew of order 3000001 on a security that the reference data no longer holds:
`LoadStore` skips the record, `Initialize` sets the counter to 100000, not to
`max (3000001 + 100000) 0`, and the first id issued, 100001, is not greater than the id 3000001
recorded in the journal. -/
theorem C12_counterexample :
    maxJournalId exSkippedJournal = 3000001 ∧
      ∃ s2 : Engine,
        GlobalOrderBook.Initialize {} (Engine.newProcess exReference exSkippedJournal) = some s2 ∧
        s2.order_id_counter_ = 100000 ∧
        s2.order_id_counter_ ≠
          max (maxJournalId exSkippedJournal + 100000) ({} : Env).localtime.min_counter ∧
        (GlobalOrderBook.NewOrderId s2).1 = 100001 ∧
        ¬ ∀ r ∈ exSkippedJournal, r.body.id < (GlobalOrderBook.NewOrderId s2).1 := by
  have h : (GlobalOrderBook.Initialize {} (Engine.newProcess exReference exSkippedJournal)).map
      (fun s => s.order_id_counter_) = some 100000 := by
    simp [GlobalOrderBook.Initialize, GlobalOrderBook.LoadStore, GlobalOrderBook.LoadStore.step,
      Engine.newProcess, exReference, exSkippedJournal]
  obtain ⟨s2, h1, h2⟩ := Option.map_eq_some'.mp h
  refine ⟨by decide, s2, h1, h2, ?_, ?_, ?_⟩
  · rw [h2]
    decide
  · simp [GlobalOrderBook.NewOrderId, h2]
  · simp [exSkippedJournal, Body.id, GlobalOrderBook.NewOrderId, h2]

/-- C12 (amended): at start-up `Initialize` sets the order-id counter to
`max (M + 100000) (day_of_week * 10^7 + seconds_of_day * 50)`, where `M` is the value that
`LoadStore` leaves in the counter: the largest id among the UnconfirmedNew and UnconfirmedCancel
records it loads, at least the id of every order of the rebuilt book (a record whose security,
user, sub-account or original order is unknown is skipped and not counted).  Hence the first id
issued by `NewOrderId` after the restart is greater than the id of every order in the book, and
greater than every number up to `M + 100000`; and for the same reference data the value set at
start-up does not decrease from one restart to a later one on the same day, whatever was appended
to the journal in between.  The counter is a `uint32_t`: all this holds when the value set at
start-up and the first id issued are below `2 ^ 32`, so that nothing wraps. -/
theorem C12_order_id_counter_at_startup (ref : Engine) (env : Env) (file : List Record)
    (s2 : Engine)
    (h : GlobalOrderBook.Initialize env (Engine.newProcess ref file) = some s2)
    (_hfit : s2.order_id_counter_ + 1 < 2 ^ 32) :
    (∃ s1 : Engine, GlobalOrderBook.LoadStore 0 (Engine.newProcess ref file) = some s1 ∧
      s2.order_id_counter_ = max (s1.order_id_counter_ + 100000) env.localtime.min_counter ∧
      s2.orders_ = s1.orders_ ∧
      (∀ id p, s1.orders_ id = some p → id ≤ s1.order_id_counter_) ∧
      (∀ n, n ≤ s1.order_id_counter_ + 100000 → n < (GlobalOrderBook.NewOrderId s2).1)) ∧
    (∀ id p, s2.orders_ id = some p → id < (GlobalOrderBook.NewOrderId s2).1) ∧
    (∀ (rest : List Record) (env2 : Env) (s3 : Engine),
      env2.localtime.tm_wday = env.localtime.tm_wday →
      env.localtime.secs ≤ env2.localtime.secs →
      GlobalOrderBook.Initialize env2 (Engine.newProcess ref (file ++ rest)) = some s3 →
      s3.order_id_counter_ + 1 < 2 ^ 32 →
      s2.order_id_counter_ ≤ s3.order_id_counter_) := by
  obtain ⟨s1, hload, hc, ho⟩ := Initialize_ids env _ s2 h
  have hinv0 : ∀ id p, (Engine.newProcess ref file).orders_ id = some p →
      id ≤ (Engine.newProcess ref file).order_id_counter_ := by
    intro id p hp
    simp [Engine.newProcess] at hp
  obtain ⟨_, hinv1⟩ := LoadStore_fold_ids 0 file _ s1 hinv0 hload
  have hnew : (GlobalOrderBook.NewOrderId s2).1 = s2.order_id_counter_ + 1 := rfl
  refine ⟨⟨s1, hload, hc, ho, hinv1, ?_⟩, ?_, ?_⟩
  · intro n hn
    rw [hnew, hc]
    have := le_max_left (s1.order_id_counter_ + 100000) env.localtime.min_counter
    omega
  · intro id p hp
    rw [ho] at hp
    have h1 := hinv1 id p hp
    rw [hnew, hc]
    have := le_max_left (s1.order_id_counter_ + 100000) env.localtime.min_counter
    omega
  · intro rest env2 s3 hw hs h3 _
    obtain ⟨t1, hload3, hc3, _⟩ := Initialize_ids env2 _ s3 h3
    have hfile : Engine.newProcess ref (file ++ rest) =
        (Engine.newProcess ref file).withFile (file ++ rest) := rfl
    unfold GlobalOrderBook.LoadStore at hload hload3
    have e1 : (Engine.newProcess ref (file ++ rest)).of_ = file ++ rest := rfl
    have e2 : (Engine.newProcess ref file).of_ = file := rfl
    rw [e1, hfile, LoadStore_fold_withFile, List.foldlM_append] at hload3
    rw [e2] at hload
    rw [hload] at hload3
    simp only [Option.some_bind, Option.bind_eq_bind] at hload3
    obtain ⟨t0, ht0, ht1⟩ := Option.map_eq_some'.mp hload3
    obtain ⟨hmono, _⟩ := LoadStore_fold_ids 0 rest s1 t0 hinv1 ht0
    have ht : t1.order_id_counter_ = t0.order_id_counter_ := by rw [← ht1]; rfl
    rw [hc, hc3, ht]
    have hm : env.localtime.min_counter ≤ env2.localtime.min_counter := by
      unfold Tm.min_counter
      rw [hw]
      omega
    exact max_le_max (by omega) hm

/-- The start-up on the journal `exLoadedJournal`, on a Sunday at 00:00:00. -/
theorem exLoadedJournal_Initialize :
    ∃ s2 : Engine,
      GlobalOrderBook.Initialize {} (Engine.newProcess exReference exLoadedJournal) = some s2 ∧
        s2.order_id_counter_ = 100001 ∧ s2.orders_ 1 = some 0 := by
  have h : (GlobalOrderBook.Initialize {} (Engine.newProcess exReference exLoadedJournal)).map
      (fun s => (s.order_id_counter_, s.orders_ 1)) = some (100001, some 0) := by
    simp [GlobalOrderBook.Initialize, GlobalOrderBook.LoadStore, GlobalOrderBook.LoadStore.step,
      Engine.newProcess, exReference, exLoadedJournal, exSecurity, Engine.alloc,
      GlobalOrderBook.Handle, GlobalOrderBook.UpdateOrder, GlobalOrderBook.emplace,
      PositionManager.Handle, Engine.updatePositions, Engine.modifySubAccountValue,
      Engine.modifyBrokerAccountValue, Engine.modifyUserValue, Engine.secOf]
  obtain ⟨s2, h1, h2⟩ := Option.map_eq_some'.mp h
  simp only [Prod.mk.injEq] at h2
  exact ⟨s2, h1, h2.1, h2.2⟩

/-- C12 (amended), at an instance: the start-up on the journal that holds order 1. -/
theorem C12_order_id_counter_at_startup_witness :
    ∃ s2 : Engine,
      GlobalOrderBook.Initialize {} (Engine.newProcess exReference exLoadedJournal) = some s2 ∧
        s2.order_id_counter_ + 1 < 2 ^ 32 ∧
        s2.order_id_counter_ = 100001 ∧ s2.orders_ 1 = some 0 ∧
        ∀ id p, s2.orders_ id = some p → id < (GlobalOrderBook.NewOrderId s2).1 := by
  obtain ⟨s2, h, hc, ho⟩ := exLoadedJournal_Initialize
  have hfit : s2.order_id_counter_ + 1 < 2 ^ 32 := by
    rw [hc]
    norm_num
  exact ⟨s2, h, hfit, hc, ho,
    (C12_order_id_counter_at_startup exReference {} exLoadedJournal s2 h hfit).2.1⟩

/-! ## C17: an order above the quantity limit -/

theorem Risk_Check_breach (env : Env) (name : String) (ord : Order) (acc : AccountBase)
    (pos : Position) (h : 0 < acc.limits.order_qty ∧ acc.limits.order_qty < ord.qty) :
    (Risk.Check env name ord acc pos).isSome = true := by
  unfold Risk.Check
  dsimp only
  split
  · rfl
  · rw [if_pos h]
    rfl

theorem RiskManager_Check_breach (env : Env) (ord : Order) (s : Engine)
    (h : OrderQtyBreach ord s) :
    (RiskManager.Check env ord s).isSome = true := by
  unfold RiskManager.Check
  dsimp only
  split
  · rfl
  · rename_i h1
    split
    · rfl
    · rename_i h2
      rcases h with h | h | h
      · have := Risk_Check_breach env "sub_account" ord (s.subAccountOf ord).toAccountBase
          (s.sub_positions_ (ord.sub_account.getD 0, (Engine.secOf ord).id)) h
        rw [h1] at this
        cases this
      · have := Risk_Check_breach env "broker_account" ord (s.brokerAccountOf ord).toAccountBase
          (s.broker_positions_ (ord.broker_account.getD 0, (Engine.secOf ord).id)) h
        rw [h2] at this
        cases this
      · exact Risk_Check_breach env "user" ord (s.userOf ord).toAccountBase _ h

theorem reject_no_id (env : Env) (p : Ptr) (e : String) (s : Engine) (hid : (s.heap p).id = 0) :
    ExchangeConnectivity.reject env p e s = (false, rejected env p e s) := by
  simp [ExchangeConnectivity.reject, ExchangeConnectivity.HandleConfirmation,
    GlobalOrderBook.Handle, Server.Publish, hid, rejected]

theorem Place_submit_breach (env : Env) (p : Ptr) (adapter : Option Nat) (s : Engine)
    (hid : (s.heap p).id = 0) (h : (RiskManager.Check env (s.heap p) s).isSome = true) :
    ∃ e : String, ExchangeConnectivityManager.Place.submit env p adapter s =
      (false, rejected env p e s) := by
  unfold ExchangeConnectivityManager.Place.submit
  cases hc : RiskManager.Check env (s.heap p) s with
  | none => rw [hc] at h; cases h
  | some e => exact ⟨e, reject_no_id env p e s hid⟩

theorem OrderQtyBreach_price (ord : Order) (s : Engine) (price : ℚ) (p : Ptr) (o : Order)
    (h : OrderQtyBreach ord s) : OrderQtyBreach { ord with price := price } (s.store p o) := h

theorem Place_routed_breach (env : Env) (p : Ptr) (s : Engine)
    (hotc : (s.heap p).type ≠ kOTC)
    (hadapter : ExchangeConnectivity.CheckAdapter env (s.brokerAccountOf (s.heap p)).adapter
      (s.brokerAccountOf (s.heap p)).adapter_name = none)
    (hprice : 0 < (s.heap p).price ∨
      (((s.heap p).type = kMarket ∨ (s.heap p).type = kStop) ∧
        0 < env.CurrentPrice (Engine.secOf (s.heap p)).id))
    (hid : (s.heap p).id = 0) (hbreach : OrderQtyBreach (s.heap p) s) :
    ∃ (e : String) (price : ℚ), ExchangeConnectivityManager.Place.routed env p s =
      (false, rejected env p e (s.store p { s.heap p with price := price })) := by
  have hself : s.store p { s.heap p with price := (s.heap p).price } = s := by
    simp [Engine.store]
  unfold ExchangeConnectivityManager.Place.routed
  rw [if_neg hotc]
  simp only [hadapter]
  split_ifs with h1 h2 h3 h4
  · exfalso
    simp only [Engine.store, Function.update_same] at h3
    rcases hprice with hp | hp
    · exact absurd hp (not_lt.mpr h2)
    · exact absurd hp.2 (not_lt.mpr h3)
  · obtain ⟨e, he⟩ := Place_submit_breach env p (s.brokerAccountOf (s.heap p)).adapter
      (s.store p { s.heap p with price := env.CurrentPrice (Engine.secOf (s.heap p)).id })
      (by simp [Engine.store, hid])
      (RiskManager_Check_breach env _ _ (by
        simp only [Engine.store, Function.update_same]
        exact hbreach))
    exact ⟨e, _, he⟩
  · obtain ⟨e, he⟩ := Place_submit_breach env p (s.brokerAccountOf (s.heap p)).adapter s hid
      (RiskManager_Check_breach env _ _ hbreach)
    exact ⟨e, (s.heap p).price, by rw [hself]; exact he⟩
  · exfalso
    rcases hprice with hp | hp
    · exact absurd hp (not_lt.mpr h4)
    · exact h1 hp.1
  · obtain ⟨e, he⟩ := Place_submit_breach env p (s.brokerAccountOf (s.heap p)).adapter s hid
      (RiskManager_Check_breach env _ _ hbreach)
    exact ⟨e, (s.heap p).price, by rw [hself]; exact he⟩

/-- C17: a non-OTC order without an id that passes the permission, broker-account, adapter and
price steps of `Place`, and whose quantity is above the positive order-quantity limit of its
sub-account, broker account or user.  `Place` returns false and publishes one RiskRejected
confirmation for the order, carrying the error text; the order keeps the id 0 and the id counter
its value, no adapter is called, and the order book, the journal, the position maps and the
account entities are unchanged. -/
theorem C17_order_qty_breach_is_risk_rejected (env : Env) (p : Ptr) (s : Engine)
    (sa u b : Nat) (sec : Security)
    (hsa : (s.heap p).sub_account = some sa) (hsec : (s.heap p).sec = some sec)
    (hu : (s.heap p).user = some u)
    (hperm : (s.userOf (s.heap p)).sub_accounts sa = true)
    (hb : (match (s.subAccountOf (s.heap p)).broker_accounts sec.exchange.id with
      | some b => some b
      | none => (s.subAccountOf (s.heap p)).broker_accounts 0) = some b)
    (hotc : (s.heap p).type ≠ kOTC)
    (hadapter : ExchangeConnectivity.CheckAdapter env
      (s.brokerAccountOf { s.heap p with broker_account := some b }).adapter
      (s.brokerAccountOf { s.heap p with broker_account := some b }).adapter_name = none)
    (hprice : 0 < (s.heap p).price ∨
      (((s.heap p).type = kMarket ∨ (s.heap p).type = kStop) ∧ 0 < env.CurrentPrice sec.id))
    (hid : (s.heap p).id = 0)
    (hbreach : OrderQtyBreach { s.heap p with broker_account := some b } s) :
    (ExchangeConnectivityManager.Place env p s).1 = false ∧
    (∃ cm : Confirmation,
      (ExchangeConnectivityManager.Place env p s).2.published = s.published ++ [cm] ∧
        cm.order = p ∧ cm.exec_type = kRiskRejected ∧
        cm.text = (ExchangeConnectivityManager.Place env p s).2.kRiskError) ∧
    ((ExchangeConnectivityManager.Place env p s).2.heap p).id = 0 ∧
    (ExchangeConnectivityManager.Place env p s).2.order_id_counter_ = s.order_id_counter_ ∧
    (ExchangeConnectivityManager.Place env p s).2.adapter_calls = s.adapter_calls ∧
    (ExchangeConnectivityManager.Place env p s).2.orders_ = s.orders_ ∧
    (ExchangeConnectivityManager.Place env p s).2.of_ = s.of_ ∧
    (ExchangeConnectivityManager.Place env p s).2.sub_positions_ = s.sub_positions_ ∧
    (ExchangeConnectivityManager.Place env p s).2.broker_positions_ = s.broker_positions_ ∧
    (ExchangeConnectivityManager.Place env p s).2.user_positions_ = s.user_positions_ ∧
    (ExchangeConnectivityManager.Place env p s).2.sub_accounts_ = s.sub_accounts_ ∧
    (ExchangeConnectivityManager.Place env p s).2.broker_accounts_ = s.broker_accounts_ ∧
    (ExchangeConnectivityManager.Place env p s).2.users_ = s.users_ := by
  have hplace : ∃ (e : String) (s1 : Engine),
      ExchangeConnectivityManager.Place env p s = (false, rejected env p e s1) ∧
      (s1.heap p).id = 0 ∧ s1.published = s.published ∧
      s1.order_id_counter_ = s.order_id_counter_ ∧ s1.adapter_calls = s.adapter_calls ∧
      s1.orders_ = s.orders_ ∧ s1.of_ = s.of_ ∧ s1.sub_positions_ = s.sub_positions_ ∧
      s1.broker_positions_ = s.broker_positions_ ∧ s1.user_positions_ = s.user_positions_ ∧
      s1.sub_accounts_ = s.sub_accounts_ ∧ s1.broker_accounts_ = s.broker_accounts_ ∧
      s1.users_ = s.users_ := by
    unfold ExchangeConnectivityManager.Place
    dsimp only
    rw [if_neg (by simp [hsa]), if_neg (by simp [hsec]), if_neg (by simp [hu]),
      if_neg (by rw [hsa]; simpa using hperm)]
    split
    · exfalso
      rename_i heq
      simp only [Engine.secOf, hsec, Option.getD_some] at heq
      exact absurd (heq.symm.trans hb) (by simp)
    · rename_i b2 heq
      simp only [Engine.secOf, hsec, Option.getD_some] at heq
      have hbb : b2 = b := Option.some.inj (heq.symm.trans hb)
      subst hbb
      obtain ⟨e, price, hr⟩ := Place_routed_breach env p
        (Engine.store { s with kRiskError := "" } p { s.heap p with broker_account := some b2 })
        (by simpa [Engine.store] using hotc)
        (by simpa [Engine.store] using hadapter)
        (by simpa [Engine.store, Engine.secOf, hsec] using hprice)
        (by simpa [Engine.store] using hid)
        (by simpa [Engine.store] using hbreach)
      exact ⟨e, _, hr, by simp [Engine.store, hid], rfl, rfl, rfl, rfl, rfl, rfl, rfl, rfl, rfl,
        rfl, rfl⟩
  obtain ⟨e, s1, hp, h1, h2, h3, h4, h5, h6, h7, h8, h9, h10, h11, h12⟩ := hplace
  rw [hp]
  refine ⟨rfl,
    ⟨{ order := p, exec_type := kRiskRejected, text := e, transaction_time := env.NowUtcInMicro },
      ?_, rfl, rfl, rfl⟩, h1, h3, h4, h5, h6, h7, h8, h9, h10, h11, h12⟩
  show s1.published ++ _ = _
  rw [h2]

/-- C17, at an instance: user 1 has the order-quantity limit 500 and places a buy of 600. -/
theorem C17_order_qty_breach_is_risk_rejected_witness :
    OrderQtyBreach { exLimit500.heap 0 with broker_account := some 1 } exLimit500 ∧
    (exLimit500.heap 0).id = 0 ∧
    (ExchangeConnectivityManager.Place exConnected 0 exLimit500).1 = false ∧
    ((ExchangeConnectivityManager.Place exConnected 0 exLimit500).2.heap 0).id = 0 ∧
    (ExchangeConnectivityManager.Place exConnected 0 exLimit500).2.order_id_counter_ =
      exLimit500.order_id_counter_ ∧
    (ExchangeConnectivityManager.Place exConnected 0 exLimit500).2.adapter_calls =
      exLimit500.adapter_calls ∧
    (ExchangeConnectivityManager.Place exConnected 0 exLimit500).2.orders_ = exLimit500.orders_ :=
  have hbreach : OrderQtyBreach { exLimit500.heap 0 with broker_account := some 1 } exLimit500 :=
    Or.inr (Or.inr (by
      simp [exLimit500, Engine.userOf]
      norm_num))
  have h := C17_order_qty_breach_is_risk_rejected exConnected 0 exLimit500 1 1 1 exSecurity
    rfl rfl rfl (by simp [exLimit500, Engine.userOf])
    (by simp [exLimit500, exReference, Engine.subAccountOf, exSecurity])
    (by simp [exLimit500])
    (by simp [ExchangeConnectivity.CheckAdapter, exConnected, exLimit500, exReference,
      Engine.brokerAccountOf])
    (Or.inl (by simp [exLimit500]))
    rfl hbreach
  ⟨hbreach, rfl, h.1, h.2.2.1, h.2.2.2.1, h.2.2.2.2.1, h.2.2.2.2.2.1⟩

/-! ## C20: OTC orders -/

/-- The id of a tag of one to four ASCII bytes, byte by byte. -/
theorem GetId_ascii (s : List Int) (hlen : 1 ≤ s.length ∧ s.length ≤ 4)
    (hascii : ∀ c ∈ s, 1 ≤ c ∧ c ≤ 127) :
    ((DataSrc.GetId s : Nat) : Int) =
      s.getD 0 0 + s.getD 1 0 * 256 + s.getD 2 0 * 256 ^ 2 + s.getD 3 0 * 256 ^ 3 := by
  rcases s with _ | ⟨a, _ | ⟨b, _ | ⟨c, _ | ⟨d, _ | ⟨e, t⟩⟩⟩⟩⟩
  · simp at hlen
  · have ha : (1 : Int) ≤ a ∧ (a : Int) ≤ 127 := hascii a (by simp)
    simp only [DataSrc.GetId, List.getD, List.get?, Option.getD]
    omega
  · have ha : (1 : Int) ≤ a ∧ (a : Int) ≤ 127 := hascii a (by simp)
    have hb : (1 : Int) ≤ b ∧ (b : Int) ≤ 127 := hascii b (by simp)
    simp only [DataSrc.GetId, List.getD, List.get?, Option.getD]
    omega
  · have ha : (1 : Int) ≤ a ∧ (a : Int) ≤ 127 := hascii a (by simp)
    have hb : (1 : Int) ≤ b ∧ (b : Int) ≤ 127 := hascii b (by simp)
    have hc : (1 : Int) ≤ c ∧ (c : Int) ≤ 127 := hascii c (by simp)
    simp only [DataSrc.GetId, List.getD, List.get?, Option.getD]
    omega
  · have ha : (1 : Int) ≤ a ∧ (a : Int) ≤ 127 := hascii a (by simp)
    have hb : (1 : Int) ≤ b ∧ (b : Int) ≤ 127 := hascii b (by simp)
    have hc : (1 : Int) ≤ c ∧ (c : Int) ≤ 127 := hascii c (by simp)
    have hd : (1 : Int) ≤ d ∧ (d : Int) ≤ 127 := hascii d (by simp)
    simp only [DataSrc.GetId, List.getD, List.get?, Option.getD]
    omega
  · simp at hlen

/-- One round of the loop of `GetStr` on an id whose lowest byte is an ASCII byte. -/
theorem GetStr_loop_step (k x r : Nat) (hx : 1 ≤ x ∧ x ≤ 127) :
    DataSrc.GetStr.loop (k + 1) (x + r * 256) = (x : Int) :: DataSrc.GetStr.loop k r := by
  have h0 : x + r * 256 ≠ 0 := by omega
  have h1 : (x + r * 256) % 256 = x := by omega
  have h2 : (x + r * 256) / 2 ^ 8 = r := by omega
  have h3 : x < 128 := by omega
  simp only [DataSrc.GetStr.loop, h0, if_false, h1, h2, DataSrc.toChar, h3, if_true]

/-- The loop of `GetStr` writes nothing for the id 0. -/
theorem GetStr_loop_zero (k : Nat) : DataSrc.GetStr.loop k 0 = [] := by
  cases k <;> simp [DataSrc.GetStr.loop]

/-- The string of the id of a tag of one to four ASCII bytes is the tag. -/
theorem GetStr_GetId_ascii (s : List Int) (hlen : 1 ≤ s.length ∧ s.length ≤ 4)
    (hascii : ∀ c ∈ s, 1 ≤ c ∧ c ≤ 127) : DataSrc.GetStr (DataSrc.GetId s) = s := by
  have hid := GetId_ascii s hlen hascii
  have htw : s.takeWhile (fun c => c != 0) = s := by
    rw [List.takeWhile_eq_self_iff]
    intro c hc
    have := hascii c hc
    simp only [bne_iff_ne, ne_eq]
    omega
  rcases s with _ | ⟨a, _ | ⟨b, _ | ⟨c, _ | ⟨d, _ | ⟨e, t⟩⟩⟩⟩⟩
  · simp at hlen
  · have ha := hascii a (by simp)
    obtain ⟨a, rfl⟩ := Int.eq_ofNat_of_zero_le (by omega : 0 ≤ a)
    simp only [List.getD, List.get?, Option.getD] at hid
    have hn : DataSrc.GetId [(a : Int)] = a + 0 * 256 := by omega
    unfold DataSrc.GetStr
    rw [hn, GetStr_loop_step 3 a 0 (by omega), GetStr_loop_zero]
    exact htw
  · have ha := hascii a (by simp)
    have hb := hascii b (by simp)
    obtain ⟨a, rfl⟩ := Int.eq_ofNat_of_zero_le (by omega : 0 ≤ a)
    obtain ⟨b, rfl⟩ := Int.eq_ofNat_of_zero_le (by omega : 0 ≤ b)
    simp only [List.getD, List.get?, Option.getD] at hid
    have hn : DataSrc.GetId [(a : Int), (b : Int)] = a + (b + 0 * 256) * 256 := by omega
    unfold DataSrc.GetStr
    rw [hn, GetStr_loop_step 3 a _ (by omega), GetStr_loop_step 2 b _ (by omega),
      GetStr_loop_zero]
    exact htw
  · have ha := hascii a (by simp)
    have hb := hascii b (by simp)
    have hc := hascii c (by simp)
    obtain ⟨a, rfl⟩ := Int.eq_ofNat_of_zero_le (by omega : 0 ≤ a)
    obtain ⟨b, rfl⟩ := Int.eq_ofNat_of_zero_le (by omega : 0 ≤ b)
    obtain ⟨c, rfl⟩ := Int.eq_ofNat_of_zero_le (by omega : 0 ≤ c)
    simp only [List.getD, List.get?, Option.getD] at hid
    have hn : DataSrc.GetId [(a : Int), (b : Int), (c : Int)] =
        a + (b + (c + 0 * 256) * 256) * 256 := by omega
    unfold DataSrc.GetStr
    rw [hn, GetStr_loop_step 3 a _ (by omega), GetStr_loop_step 2 b _ (by omega),
      GetStr_loop_step 1 c _ (by omega), GetStr_loop_zero]
    exact htw
  · have ha := hascii a (by simp)
    have hb := hascii b (by simp)
    have hc := hascii c (by simp)
    have hd := hascii d (by simp)
    obtain ⟨a, rfl⟩ := Int.eq_ofNat_of_zero_le (by omega : 0 ≤ a)
    obtain ⟨b, rfl⟩ := Int.eq_ofNat_of_zero_le (by omega : 0 ≤ b)
    obtain ⟨c, rfl⟩ := Int.eq_ofNat_of_zero_le (by omega : 0 ≤ c)
    obtain ⟨d, rfl⟩ := Int.eq_ofNat_of_zero_le (by omega : 0 ≤ d)
    simp only [List.getD, List.get?, Option.getD] at hid
    have hn : DataSrc.GetId [(a : Int), (b : Int), (c : Int), (d : Int)] =
        a + (b + (c + (d + 0 * 256) * 256) * 256) * 256 := by omega
    unfold DataSrc.GetStr
    rw [hn, GetStr_loop_step 3 a _ (by omega), GetStr_loop_step 2 b _ (by omega),
      GetStr_loop_step 1 c _ (by omega), GetStr_loop_step 0 d _ (by omega), GetStr_loop_zero]
    exact htw
  · simp at hlen

/-- C24: source tags are packed little-endian and preserved.  For a tag `s` of one to four
non-zero ASCII bytes, `GetId s` is a 32-bit value whose byte `i` (`i < 4`) is `s[i]`, or 0 past
the end of the tag, and `GetStr (GetId s) = s`; the empty tag has the id 0, whose string is
empty. -/
theorem C24_source_tag_round_trip (s : List Int) (hlen : 1 ≤ s.length ∧ s.length ≤ 4)
    (hascii : ∀ c ∈ s, 1 ≤ c ∧ c ≤ 127) :
    DataSrc.GetId s < 2 ^ 32 ∧
    (∀ i, i < 4 → ((DataSrc.GetId s / 256 ^ i % 256 : Nat) : Int) = s.getD i 0) ∧
    DataSrc.GetStr (DataSrc.GetId s) = s ∧
    DataSrc.GetId [] = 0 ∧ DataSrc.GetStr 0 = [] := by
  have hid := GetId_ascii s hlen hascii
  have hb : ∀ i, (0 : Int) ≤ s.getD i 0 ∧ s.getD i 0 ≤ 127 := by
    intro i
    rw [List.getD_eq_getElem?_getD]
    cases h : s[i]? with
    | none => simp
    | some c =>
      have := hascii c (List.getElem?_mem h)
      simp only [Option.getD_some]
      omega
  have h0 := hb 0
  have h1 := hb 1
  have h2 := hb 2
  have h3 := hb 3
  refine ⟨by omega, ?_, GetStr_GetId_ascii s hlen hascii, rfl, rfl⟩
  intro i hi
  have hcases : i = 0 ∨ i = 1 ∨ i = 2 ∨ i = 3 := by omega
  rcases hcases with rfl | rfl | rfl | rfl
  all_goals omega

/-- C24 witness: the tag `IB` (bytes 73, 66) has the id `73 + 66 * 256`, and the string of that
id is `IB`. -/
theorem C24_source_tag_round_trip_witness :
    ((1 ≤ [(73 : Int), 66].length ∧ [(73 : Int), 66].length ≤ 4) ∧
      ∀ c ∈ [(73 : Int), 66], 1 ≤ c ∧ c ≤ 127) ∧
    DataSrc.GetId [73, 66] < 2 ^ 32 ∧
    DataSrc.GetStr (DataSrc.GetId [73, 66]) = [73, 66] :=
  ⟨⟨by decide, by decide⟩,
    (C24_source_tag_round_trip [73, 66] (by decide) (by decide)).1,
    (C24_source_tag_round_trip [73, 66] (by decide) (by decide)).2.2.1⟩

/-! ## C26: the tick-size ladder -/

/-- The binary search of `std::lower_bound` on a ladder whose lower bounds ascend: the index
returned splits the range in play into the tuples below `t` and the tuples not below it. -/
theorem lower_bound_loop_spec (table : List Exchange.TickSizeTuple) (t : Exchange.TickSizeTuple)
    (hmono : ∀ i j, i ≤ j → j < table.length → (table.getD j {}).lt t = true →
      (table.getD i {}).lt t = true) :
    ∀ len first, first + len ≤ table.length →
      (∀ i, i < first → (table.getD i {}).lt t = true) →
      (∀ i, first + len ≤ i → i < table.length → (table.getD i {}).lt t = false) →
      first ≤ lower_bound.loop table t first len ∧
      lower_bound.loop table t first len ≤ first + len ∧
      (∀ i, i < lower_bound.loop table t first len → (table.getD i {}).lt t = true) ∧
      (∀ i, lower_bound.loop table t first len ≤ i → i < table.length →
        (table.getD i {}).lt t = false) := by
  intro len
  induction len using Nat.strong_induction_on with
  | _ len ih =>
    intro first hlen hlo hhi
    cases len with
    | zero =>
      simp only [lower_bound.loop]
      exact ⟨le_refl _, by omega, hlo, fun i hi hl => hhi i (by omega) hl⟩
    | succ len =>
      simp only [lower_bound.loop]
      by_cases hm : (table.getD (first + (len + 1) / 2) {}).lt t = true
      · rw [if_pos hm]
        have h := ih (len + 1 - (len + 1) / 2 - 1) (by omega) (first + (len + 1) / 2 + 1)
          (by omega)
          (fun i hi => hmono i (first + (len + 1) / 2) (by omega) (by omega) hm)
          (fun i hi hl => hhi i (by omega) hl)
        exact ⟨by omega, by omega, h.2.2.1, h.2.2.2⟩
      · rw [if_neg hm]
        have h := ih ((len + 1) / 2) (by omega) first (by omega) hlo
          (fun i hi hl => by
            cases hp : (table.getD i {}).lt t with
            | false => rfl
            | true => exact absurd (hmono (first + (len + 1) / 2) i (by omega) hl hp) hm)
        exact ⟨h.1, by omega, h.2.2.1, h.2.2.2⟩

/-- On a ladder whose lower bounds ascend, `std::lower_bound` returns the index of the first
tuple whose lower bound is not below the reference price: every tuple before the index has its
lower bound below the price, every tuple from the index on has not. -/
theorem lower_bound_spec (table : List Exchange.TickSizeTuple) (ref : ℚ)
    (hsorted : ∀ i j, i ≤ j → j < table.length →
      (table.getD i {}).lower_bound ≤ (table.getD j {}).lower_bound) :
    lower_bound table { lower_bound := ref } ≤ table.length ∧
    (∀ i, i < lower_bound table { lower_bound := ref } → (table.getD i {}).lower_bound < ref) ∧
    (∀ i, lower_bound table { lower_bound := ref } ≤ i → i < table.length →
      ref ≤ (table.getD i {}).lower_bound) := by
  have h := lower_bound_loop_spec table { lower_bound := ref }
    (fun i j hij hj hp => by
      simp only [Exchange.TickSizeTuple.lt, decide_eq_true_eq] at hp ⊢
      exact lt_of_le_of_lt (hsorted i j hij hj) hp)
    table.length 0 (by omega) (fun i hi => absurd hi (Nat.not_lt_zero i))
    (fun i hi hl => by omega)
  unfold lower_bound
  refine ⟨by omega, fun i hi => ?_, fun i hi hl => ?_⟩
  · have := h.2.2.1 i hi
    simpa [Exchange.TickSizeTuple.lt] using this
  · have := h.2.2.2 i hi hl
    simpa [Exchange.TickSizeTuple.lt] using this

/-- C26: the code looks the price up in the wrong interval.  On a ladder whose lower bounds
ascend, for a reference price `ref` that lies in the interval `k` above its lower bound
(`lower_k < ref`, and `ref` not above the lower bound of the next interval), `GetTickSize`
returns the value of the interval `k + 1`, and 0 when `k` is the last interval; the upper bounds
are never read.  It returns the value of the interval `k` only when `ref` is exactly its lower
bound. -/
theorem C26_GetTickSize_returns_the_next_interval (e : Exchange)
    (table : List Exchange.TickSizeTuple) (ref : ℚ) (k : Nat)
    (htable : e.tick_size_table = some table)
    (hsorted : ∀ i j, i ≤ j → j < table.length →
      (table.getD i {}).lower_bound ≤ (table.getD j {}).lower_bound)
    (hk : k < table.length)
    (hnext : k + 1 < table.length → ref ≤ (table.getD (k + 1) {}).lower_bound) :
    ((table.getD k {}).lower_bound < ref →
      e.GetTickSize ref = if k + 1 < table.length then (table.getD (k + 1) {}).value else 0) ∧
    ((table.getD k {}).lower_bound = ref → (k = 0 ∨ (table.getD (k - 1) {}).lower_bound < ref) →
      e.GetTickSize ref = (table.getD k {}).value) := by
  obtain ⟨h1, h2, h3⟩ := lower_bound_spec table ref hsorted
  constructor
  · intro hlow
    have hit : lower_bound table { lower_bound := ref } =
        if k + 1 < table.length then k + 1 else table.length := by
      have ha : k < lower_bound table { lower_bound := ref } := by
        by_contra hc
        exact absurd (h3 k (by omega) hk) (not_le.mpr hlow)
      by_cases hn : k + 1 < table.length
      · rw [if_pos hn]
        have hb : ¬ (k + 1 < lower_bound table { lower_bound := ref }) := fun hc =>
          absurd (h2 (k + 1) hc) (not_lt.mpr (hnext hn))
        omega
      · rw [if_neg hn]; omega
    unfold Exchange.GetTickSize
    rw [htable]
    simp only [hit]
    by_cases hn : k + 1 < table.length
    · simp only [hn, if_true]
      rw [if_neg (by omega)]
    · simp only [hn, if_false, if_true]
  · intro heq hprev
    have hit : lower_bound table { lower_bound := ref } = k := by
      have ha : ¬ (k < lower_bound table { lower_bound := ref }) := fun hc =>
        absurd (h2 k hc) (by rw [heq]; exact lt_irrefl _)
      have hb : ¬ (lower_bound table { lower_bound := ref } < k) := fun hc => by
        rcases hprev with h0 | hp
        · omega
        · have := h3 (k - 1) (by omega) (by omega)
          exact absurd this (not_le.mpr hp)
      omega
    unfold Exchange.GetTickSize
    rw [htable]
    simp only [hit]
    rw [if_neg (by omega)]

/-- C26 witness: on the ladder `exLadder` the price 50 lies in the second interval (10 to 99.99,
tick 0.05); `GetTickSize` returns 0.1, the value of the third interval. -/
theorem C26_GetTickSize_returns_the_next_interval_witness :
    (exTokyo.tick_size_table = some exLadder ∧
      (∀ i j, i ≤ j → j < exLadder.length →
        (exLadder.getD i {}).lower_bound ≤ (exLadder.getD j {}).lower_bound) ∧
      1 < exLadder.length ∧
      (1 + 1 < exLadder.length → (50 : ℚ) ≤ (exLadder.getD (1 + 1) {}).lower_bound) ∧
      (exLadder.getD 1 {}).lower_bound < 50 ∧
      (exLadder.getD 1 {}).lower_bound ≤ 50 ∧ 50 ≤ (exLadder.getD 1 {}).upper_bound ∧
      (exLadder.getD 1 {}).value = 5 / 100) ∧
    exTokyo.GetTickSize 50 = 1 / 10 := by
  have hs : ∀ i j, i ≤ j → j < exLadder.length →
      (exLadder.getD i {}).lower_bound ≤ (exLadder.getD j {}).lower_bound := by
    intro i j hij hj
    have hj3 : j < 3 := hj
    interval_cases j <;> interval_cases i <;> simp [exLadder]
    all_goals norm_num
  have hn : 1 + 1 < exLadder.length → (50 : ℚ) ≤ (exLadder.getD (1 + 1) {}).lower_bound := by
    intro _; simp [exLadder]; norm_num
  have hl : (exLadder.getD 1 {}).lower_bound < 50 := by simp [exLadder]; norm_num
  have hu : (50 : ℚ) ≤ (exLadder.getD 1 {}).upper_bound := by simp [exLadder]; norm_num
  refine ⟨⟨rfl, hs, by decide, hn, hl, le_of_lt hl, hu, by simp [exLadder]⟩, ?_⟩
  rw [(C26_GetTickSize_returns_the_next_interval exTokyo exLadder 50 1 rfl hs (by decide) hn).1 hl]
  simp [exLadder]

/-! ## C27: the session windows -/

/-- C27: with a trade window and a break window configured the code answers true only inside the
break.  For an exchange with `trade_start > 0` and `break_start > 0`, `IsInTradePeriod` at `t` is
true exactly when `t` is strictly inside the break window and strictly inside the trade window:
the test of the break window is not negated.  With no window configured it is true at every
`t`. -/
theorem C27_IsInTradePeriod_is_true_inside_the_break (e : Exchange) (t : Int) :
    (0 < e.trade_start → 0 < e.break_start →
      (e.IsInTradePeriod t = true ↔
        (e.break_start < t ∧ t < e.break_end) ∧ (e.trade_start < t ∧ t < e.trade_end))) ∧
    (e.trade_start ≤ 0 → e.break_start ≤ 0 → e.IsInTradePeriod t = true) := by
  constructor
  · intro ht hb
    simp [Exchange.IsInTradePeriod, not_le.mpr ht, not_le.mpr hb]
  · intro ht hb
    simp [Exchange.IsInTradePeriod, ht, hb]

/-- C27 witness: the exchange `exTokyo` trades from 09:00 to 15:00 with a break from 11:30 to
12:30.  At 10:00, inside the trade window and outside the break, `IsInTradePeriod` is false; at
12:00, inside the break, it is true. -/
theorem C27_IsInTradePeriod_is_true_inside_the_break_witness :
    (0 < exTokyo.trade_start ∧ 0 < exTokyo.break_start ∧
      exTokyo.trade_start < exTokyo.break_start ∧ exTokyo.break_end < exTokyo.trade_end) ∧
    exTokyo.IsInTradePeriod 43200 = true ∧ exTokyo.IsInTradePeriod 36000 = false :=
  ⟨⟨by decide, by decide, by decide, by decide⟩,
    ((C27_IsInTradePeriod_is_true_inside_the_break exTokyo 43200).1 (by decide) (by decide)).mpr
      (by decide),
    Bool.eq_false_iff.mpr fun h =>
      absurd (((C27_IsInTradePeriod_is_true_inside_the_break exTokyo 36000).1 (by decide)
        (by decide)).mp h) (by decide)⟩

/-! ## C28, C29: the child order of TWAP -/

/-- When `Timer` places a child, the sizing step has given the quantity, the switch on the
aggression the price or the type, and the limit price of the algo does not hold the child
back. -/
theorem Timer_place (now t : Int) (md : MarketData) (heap : Ptr → Order) (tw : TWAP)
    (c : Contract) (h : Algo.Action.Place c ∈ TWAP.Timer now t md heap tw) :
    ∃ q, TWAP.Timer.would_qty now tw = some q ∧
      TWAP.Timer.switch tw md.quote.bid_price md.quote.ask_price md.trade.close
        (TWAP.Timer.mid_px tw md.quote.bid_price md.quote.ask_price)
        { side := tw.side_, qty := q, sub_account := tw.acc_ } = some c ∧
      ¬ (tw.price_ > 0 ∧ ((IsBuy tw.side_ ∧ c.price > tw.price_) ∨
          (!IsBuy tw.side_ ∧ c.price < tw.price_))) := by
  unfold TWAP.Timer at h
  split_ifs at h
  all_goals try (simp at h; done)
  simp only [List.mem_cons, reduceCtorEq, false_or] at h
  split at h
  · simp at h
  · rename_i q hq
    split at h
    · simp at h
    · rename_i c2 hc2
      split_ifs at h with h6
      · simp at h
      · simp only [List.mem_singleton, Algo.Action.Place.injEq] at h
        subst h
        exact ⟨q, hq, hc2, h6⟩

/-- The switch on the aggression sets the price or the type of the contract and nothing else. -/
theorem Timer_switch_keeps (tw : TWAP) (bid ask last_px mid_px : ℚ) (c0 c : Contract)
    (h : TWAP.Timer.switch tw bid ask last_px mid_px c0 = some c) :
    c.qty = c0.qty ∧ c.side = c0.side ∧ c.sub_account = c0.sub_account := by
  unfold TWAP.Timer.switch TWAP.Timer.caseHigh TWAP.Timer.caseHighest at h
  split at h
  all_goals try split_ifs at h
  all_goals simp only [Option.some.injEq] at h
  all_goals subst h
  all_goals exact ⟨rfl, rfl, rfl⟩

theorem Double.ofInt_eq (n : ℤ) (h : |n| ≤ 2 ^ 53) : Double.ofInt n = n :=
  Double.round_intCast n h

/-- A whole number whose binary64 number is at most the whole number `a` is at most `a`. -/
theorem Double.intCast_le_of_round_le (z a : ℤ) (ha : |a + 1| ≤ 2 ^ 53)
    (h : Double.round (z : ℚ) ≤ a) : z ≤ a := by
  by_contra hc
  push_neg at hc
  have h1 : ((a + 1 : ℤ) : ℚ) ≤ (z : ℚ) := by exact_mod_cast Int.add_one_le_iff.mpr hc
  have h2 := Double.round_mono _ _ h1
  rw [Double.round_intCast _ ha] at h2
  have h3 : ((a + 1 : ℤ) : ℚ) ≤ a := le_trans h2 h
  push_cast at h3
  linarith

/-- A whole number that is not negative and whose binary64 number is at most a whole number
below `2 ^ 53` is a binary64 number. -/
theorem Double.round_intCast_of_le (z a : ℤ) (hz : 0 ≤ z) (ha0 : 0 ≤ a) (ha : a < 2 ^ 53)
    (h : Double.round (z : ℚ) ≤ a) : Double.round (z : ℚ) = z := by
  have hza := Double.intCast_le_of_round_le z a (by rw [abs_of_nonneg (by omega)]; omega) h
  exact Double.round_intCast z (by rw [abs_of_nonneg hz]; omega)

/-- A binary64 number of magnitude at least 1 is a whole multiple of `2 ^ (-52)`. -/
theorem Double.round_grid (x : ℚ) (h : 1 ≤ Double.round x) :
    ∃ m : ℤ, Double.round x = m * 2 ^ (-52 : ℤ) := by
  obtain ⟨y, hy⟩ : ∃ y, y = Double.round x := ⟨_, rfl⟩
  have hyy : Double.round y = y := by rw [hy]; exact Double.round_round x
  rw [← hy] at h ⊢
  have hy0 : 0 < y := by linarith
  have hlog : 0 ≤ Int.log 2 |y| := by
    rw [← Int.zpow_le_iff_le_log (by norm_num) (abs_pos.mpr hy0.ne.symm), abs_of_pos hy0]
    simpa using h
  have he : 0 ≤ Double.expo y := le_trans hlog (le_max_left _ _)
  obtain ⟨n, hn⟩ := Int.eq_ofNat_of_zero_le he
  have hu : Double.ulp y = ((2 ^ n : ℤ) : ℚ) * 2 ^ (-52 : ℤ) := by
    unfold Double.ulp
    rw [hn, sub_eq_add_neg, zpow_add₀ (by norm_num), zpow_natCast]
    push_cast
    rfl
  refine ⟨Double.rne (y / Double.ulp y) * 2 ^ n, ?_⟩
  calc y = Double.round y := hyy.symm
    _ = (Double.rne (y / Double.ulp y) : ℚ) * Double.ulp y := rfl
    _ = ((Double.rne (y / Double.ulp y) * 2 ^ n : ℤ) : ℚ) * 2 ^ (-52 : ℤ) := by
      rw [hu]
      push_cast
      ring

/-- The floor of the binary64 quotient of a whole number below `2 ^ 53` by an `int` is the floor
of the quotient. -/
theorem Double.floor_div_intCast (a l : ℤ) (ha : 0 < a) (ha2 : a < 2 ^ 53) (hl : 1 ≤ l)
    (hl2 : l < 2 ^ 31) : ⌊Double.round ((a : ℚ) / l)⌋ = ⌊(a : ℚ) / l⌋ := by
  have hlq : (0 : ℚ) < l := by exact_mod_cast (by omega : (0 : ℤ) < l)
  have hl1 : (1 : ℚ) ≤ l := by exact_mod_cast hl
  have haq : (0 : ℚ) < a := by exact_mod_cast ha
  have ha1 : (1 : ℚ) ≤ a := by exact_mod_cast ha
  obtain ⟨x, hx⟩ : ∃ x : ℚ, x = (a : ℚ) / l := ⟨_, rfl⟩
  rw [← hx]
  have hx0 : 0 < x := by rw [hx]; exact div_pos haq hlq
  have hxa : x ≤ a := by
    rw [hx, div_le_iff₀ hlq]
    nlinarith
  obtain ⟨k, hk⟩ : ∃ k : ℤ, k = ⌊x⌋ := ⟨_, rfl⟩
  have hk0 : 0 ≤ k := by rw [hk]; exact Int.floor_nonneg.mpr hx0.le
  have hkx : (k : ℚ) ≤ x := by rw [hk]; exact Int.floor_le x
  have hka : k ≤ a := by exact_mod_cast le_trans hkx hxa
  have hkd : Double.round (k : ℚ) = k :=
    Double.round_intCast k (by rw [abs_of_nonneg hk0]; omega)
  have hlow : (k : ℚ) ≤ Double.round x := Double.le_round _ _ hkd hkx
  have hup : Double.round x < k + 1 := by
    by_contra hc
    push_neg at hc
    have h1 : x < k + 1 := by rw [hk]; exact Int.lt_floor_add_one x
    have h2 : a < (k + 1) * l := by
      have : (a : ℚ) < (k + 1) * l := by
        rw [hx, div_lt_iff₀ hlq] at h1
        exact h1
      exact_mod_cast this
    have h3 : (a : ℚ) + 1 ≤ (k + 1) * l := by exact_mod_cast Int.add_one_le_iff.mpr h2
    have h4 : x + 1 / l ≤ k + 1 := by
      rw [hx, div_add_div_same, div_le_iff₀ hlq]
      exact h3
    have h5 := (abs_le.mp (Double.round_sub_le x)).2
    have h6 : (1 : ℚ) / l ≤ Double.ulp x / 2 := by linarith
    have hxl : (2 : ℚ) ^ (-31 : ℤ) ≤ |x| := by
      rw [abs_of_pos hx0, hx, le_div_iff₀ hlq]
      have hl31 : (l : ℚ) ≤ 2 ^ 31 := by exact_mod_cast hl2.le
      calc (2 : ℚ) ^ (-31 : ℤ) * l ≤ 2 ^ (-31 : ℤ) * 2 ^ 31 :=
            mul_le_mul_of_nonneg_left hl31 (by positivity)
        _ = 1 := by norm_num
        _ ≤ a := ha1
    have hlog : (-31 : ℤ) ≤ Int.log 2 |x| :=
      (Int.zpow_le_iff_le_log (by norm_num) (abs_pos.mpr hx0.ne.symm)).mp hxl
    have hexp : -1022 < Double.expo x := by
      have := le_max_left (Int.log 2 |x|) (-1022)
      unfold Double.expo
      omega
    have h7 := Double.expo_le_abs x hx0.ne.symm hexp
    rw [abs_of_pos hx0] at h7
    have h8 : Double.ulp x / 2 = 2 ^ Double.expo x * 2 ^ (-53 : ℤ) := by
      unfold Double.ulp
      rw [sub_eq_add_neg, zpow_add₀ (by norm_num)]
      norm_num
      ring
    have h9 : (1 : ℚ) / l ≤ x * 2 ^ (-53 : ℤ) := by
      rw [h8] at h6
      exact le_trans h6 (mul_le_mul_of_nonneg_right h7 (by positivity))
    rw [hx, div_mul_eq_mul_div, div_le_div_iff_of_pos_right hlq] at h9
    have ha53 : (a : ℚ) < 2 ^ 53 := by exact_mod_cast ha2
    norm_num at h9
    linarith
  rw [← hk, Int.floor_eq_iff]
  exact ⟨hlow, hup⟩

/-- The sizing step of `Timer` in the vocabulary of the specification, each operation as
binary64 computes it. -/
theorem Timer_would_qty_eq (now : Int) (tw : TWAP) :
    TWAP.Timer.would_qty now tw =
      if tw.leaves64 now ≤ 0 then none
      else if tw.allowed64 ≤ 0 then none
      else some (if (if tw.wholeLots64 now < tw.min_size_ then tw.min_size_
            else tw.wholeLots64 now) > tw.allowed64 then tw.allowed64
          else (if tw.wholeLots64 now < tw.min_size_ then tw.min_size_
            else tw.wholeLots64 now)) := rfl

/-- The sizing step of `Timer`, in the words of the specification, each operation as binary64
computes it. -/
theorem Timer_would_qty (now : Int) (tw : TWAP) (q : ℚ)
    (h : TWAP.Timer.would_qty now tw = some q) :
    0 < tw.leaves64 now ∧ 0 < tw.allowed64 ∧
    q = min (max (tw.wholeLots64 now) tw.min_size_) tw.allowed64 := by
  rw [Timer_would_qty_eq] at h
  split_ifs at h with h1 h2 h3 h4 h4
  all_goals simp only [Option.some.injEq] at h
  all_goals refine ⟨not_le.mp h1, not_le.mp h2, ?_⟩
  all_goals rw [← h]
  · rw [max_eq_right (le_of_lt h3), min_eq_right (le_of_lt h4)]
  · rw [max_eq_right (le_of_lt h3), min_eq_left (not_lt.mp h4)]
  · rw [max_eq_left (not_lt.mp h3), min_eq_right (le_of_lt h4)]
  · rw [max_eq_left (not_lt.mp h3), min_eq_left (not_lt.mp h4)]

/-- The lot of a TWAP over whole shares is an `int` of at least 1, which converts to `double`
as it is. -/
theorem TWAP.lot_facts (now : Int) (tw : TWAP) (h : tw.WholeShares now) :
    1 ≤ tw.lot ∧ tw.lot < 2 ^ 31 ∧ Double.ofInt tw.lot = tw.lot ∧ (1 : ℚ) ≤ tw.lot ∧
      (tw.lot : ℚ) ≤ 2 ^ 31 := by
  obtain ⟨_, _, _, h4, _⟩ := h
  have h1 : 1 ≤ tw.lot := le_max_left _ _
  have h2 : tw.lot < 2 ^ 31 := by
    unfold TWAP.lot
    exact max_lt (by norm_num) h4
  refine ⟨h1, h2, Double.ofInt_eq _ (by rw [abs_of_nonneg (by omega)]; omega), ?_, ?_⟩
  · exact_mod_cast h1
  · exact_mod_cast h2.le

/-- The schedule ratio in binary64 is at least `2 ^ (-53)`. -/
theorem TWAP.ratio64_ge (now : Int) (tw : TWAP) (h : tw.WholeShares now) :
    (2 : ℚ) ^ (-53 : ℤ) ≤ tw.ratio64 now := by
  obtain ⟨h1, h2, h3, _⟩ := h
  unfold TWAP.ratio64
  rw [le_min_iff]
  refine ⟨by norm_num, ?_⟩
  have hn : (0 : ℚ) ≤ Double.ofInt (now - tw.begin_time_) :=
    Double.round_nonneg _ (by exact_mod_cast (by omega : (0 : ℤ) ≤ now - tw.begin_time_))
  have ha : 1 ≤ Double.add (Double.ofInt (now - tw.begin_time_)) 1 := by
    unfold Double.add
    have := Double.round_mono 1 (Double.ofInt (now - tw.begin_time_) + 1) (by linarith)
    rwa [Double.round_one] at this
  have hb : Double.ofInt (tw.end_time_ - tw.begin_time_) =
      ((tw.end_time_ - tw.begin_time_ : ℤ) : ℚ) :=
    Double.ofInt_eq _ (by rw [abs_of_nonneg (by omega)]; exact h3)
  have hT0 : (0 : ℚ) < ((tw.end_time_ - tw.begin_time_ : ℤ) : ℚ) := by
    exact_mod_cast (by omega : (0 : ℤ) < tw.end_time_ - tw.begin_time_)
  have hT1 : ((tw.end_time_ - tw.begin_time_ : ℤ) : ℚ) ≤ 2 ^ 53 := by exact_mod_cast h3
  rw [hb]
  unfold Double.div
  have hq : (2 : ℚ) ^ (-53 : ℤ) ≤ Double.add (Double.ofInt (now - tw.begin_time_)) 1 /
      ((tw.end_time_ - tw.begin_time_ : ℤ) : ℚ) := by
    rw [le_div_iff₀ hT0]
    calc (2 : ℚ) ^ (-53 : ℤ) * ((tw.end_time_ - tw.begin_time_ : ℤ) : ℚ)
        ≤ 2 ^ (-53 : ℤ) * 2 ^ 53 := mul_le_mul_of_nonneg_left hT1 (by positivity)
      _ = 1 := by norm_num
      _ ≤ _ := ha
  have := Double.round_mono _ _ hq
  rwa [Double.round_two_zpow (-53) (by norm_num)] at this

/-- Positive leaves of a TWAP over whole shares are at least `2 ^ (-53)` in binary64. -/
theorem TWAP.leaves64_ge (now : Int) (tw : TWAP) (h : tw.WholeShares now)
    (hl : 0 < tw.leaves64 now) : (2 : ℚ) ^ (-53 : ℤ) ≤ tw.leaves64 now := by
  have hr := TWAP.ratio64_ge now tw h
  obtain ⟨_, _, _, _, hq, hE, hE0, _⟩ := h
  unfold TWAP.leaves64 at hl ⊢
  obtain ⟨X, hX⟩ : ∃ X, X = Double.mul tw.qty_ (tw.ratio64 now) := ⟨_, rfl⟩
  rw [← hX] at hl ⊢
  have hXE : 0 < X - tw.inst_.total_exposure := by
    by_contra hc
    have := Double.round_nonpos _ (not_lt.mp hc)
    unfold Double.sub at hl
    linarith
  have hX0 : 0 < X := by linarith
  have hr0 : 0 < tw.ratio64 now := lt_of_lt_of_le (by positivity) hr
  have hq0 : 0 < tw.qty_ := by
    by_contra hc
    have h1 : tw.qty_ * tw.ratio64 now ≤ 0 :=
      mul_nonpos_of_nonpos_of_nonneg (not_lt.mp hc) hr0.le
    have := Double.round_nonpos _ h1
    rw [hX] at hX0
    unfold Double.mul at hX0
    linarith
  have hq1 : 1 ≤ tw.qty_ := by
    obtain ⟨a, ha⟩ := hq.eq_intCast
    rw [ha] at hq0 ⊢
    have : (0 : ℤ) < a := by exact_mod_cast hq0
    exact_mod_cast (by omega : (1 : ℤ) ≤ a)
  have hXge : (2 : ℚ) ^ (-53 : ℤ) ≤ X := by
    have h1 : (2 : ℚ) ^ (-53 : ℤ) ≤ tw.qty_ * tw.ratio64 now := by
      calc (2 : ℚ) ^ (-53 : ℤ) = 1 * 2 ^ (-53 : ℤ) := (one_mul _).symm
        _ ≤ tw.qty_ * tw.ratio64 now := mul_le_mul hq1 hr (by positivity) (by linarith)
    have := Double.round_mono _ _ h1
    rw [Double.round_two_zpow (-53) (by norm_num)] at this
    rw [hX]
    exact this
  obtain ⟨e, he⟩ := hE.eq_intCast
  rw [he] at hE0 hXE ⊢
  have he0 : (0 : ℤ) ≤ e := by exact_mod_cast hE0
  rcases eq_or_lt_of_le he0 with h0 | h0
  · rw [← h0]
    unfold Double.sub
    rw [Int.cast_zero, sub_zero, hX]
    unfold Double.mul
    rw [Double.round_round]
    rw [hX] at hXge
    exact hXge
  · have he1 : (1 : ℚ) ≤ e := by exact_mod_cast (by omega : (1 : ℤ) ≤ e)
    have hX1 : 1 ≤ Double.round (tw.qty_ * tw.ratio64 now) := by
      rw [hX] at hXE
      unfold Double.mul at hXE
      linarith
    obtain ⟨m, hm⟩ := Double.round_grid _ hX1
    have hXm : X = m * 2 ^ (-52 : ℤ) := by rw [hX]; exact hm
    have hdiff : X - e = ((m - e * 2 ^ 52 : ℤ) : ℚ) * 2 ^ (-52 : ℤ) := by
      rw [hXm]
      push_cast
      norm_num
      ring
    have hpos : (0 : ℤ) < m - e * 2 ^ 52 := by
      have h2 : (0 : ℚ) < ((m - e * 2 ^ 52 : ℤ) : ℚ) * 2 ^ (-52 : ℤ) := by
        rw [← hdiff]
        exact hXE
      have h3 : (0 : ℚ) < ((m - e * 2 ^ 52 : ℤ) : ℚ) := by
        by_contra hc
        have := mul_nonpos_of_nonpos_of_nonneg (not_lt.mp hc)
          (by positivity : (0 : ℚ) ≤ 2 ^ (-52 : ℤ))
        linarith
      exact_mod_cast h3
    have hge : (2 : ℚ) ^ (-53 : ℤ) ≤ X - e := by
      rw [hdiff]
      have h4 : (1 : ℚ) ≤ ((m - e * 2 ^ 52 : ℤ) : ℚ) := by
        exact_mod_cast (by omega : (1 : ℤ) ≤ m - e * 2 ^ 52)
      calc (2 : ℚ) ^ (-53 : ℤ) ≤ 1 * 2 ^ (-52 : ℤ) := by norm_num
        _ ≤ ((m - e * 2 ^ 52 : ℤ) : ℚ) * 2 ^ (-52 : ℤ) :=
          mul_le_mul_of_nonneg_right h4 (by positivity)
    unfold Double.sub
    have := Double.round_mono _ _ hge
    rwa [Double.round_two_zpow (-53) (by norm_num)] at this

/-- The leaves of a TWAP over whole shares, when positive, round up to at least one lot. -/
theorem TWAP.wholeLots64_ge (now : Int) (tw : TWAP) (h : tw.WholeShares now)
    (hl : 0 < tw.leaves64 now) :
    ∃ c : ℤ, 1 ≤ c ∧ tw.wholeLots64 now = Double.round (((c * tw.lot : ℤ) : ℚ)) ∧
      1 ≤ tw.wholeLots64 now := by
  have hL := TWAP.leaves64_ge now tw h hl
  obtain ⟨l1, l2, l3, l4, l5⟩ := TWAP.lot_facts now tw h
  have hlq : (0 : ℚ) < tw.lot := by linarith
  have hdiv : 0 < Double.div (tw.leaves64 now) (Double.ofInt tw.lot) := by
    rw [l3]
    unfold Double.div
    apply Double.round_pos
    rw [le_div_iff₀ hlq]
    calc (2 : ℚ) ^ (-1074 : ℤ) * tw.lot ≤ 2 ^ (-1074 : ℤ) * 2 ^ 31 :=
          mul_le_mul_of_nonneg_left l5 (by positivity)
      _ ≤ 2 ^ (-53 : ℤ) := by
        rw [← zpow_natCast, ← zpow_add₀ (by norm_num)]
        exact zpow_le_zpow_right₀ (by norm_num) (by norm_num)
      _ ≤ _ := hL
  have hc : 1 ≤ ⌈Double.div (tw.leaves64 now) (Double.ofInt tw.lot)⌉ := by
    have := Int.ceil_pos.mpr hdiv
    omega
  refine ⟨_, hc, ?_, ?_⟩
  · unfold TWAP.wholeLots64 Double.mul
    rw [l3]
    push_cast
    rfl
  · unfold TWAP.wholeLots64 Double.mul
    rw [l3]
    have hcq : (1 : ℚ) ≤ (⌈Double.div (tw.leaves64 now) (tw.lot : ℚ)⌉ : ℚ) := by
      rw [l3] at hc
      exact_mod_cast hc
    have h1 : (1 : ℚ) ≤ (⌈Double.div (tw.leaves64 now) (tw.lot : ℚ)⌉ : ℚ) * tw.lot := by
      calc (1 : ℚ) = 1 * 1 := (one_mul _).symm
        _ ≤ _ := mul_le_mul hcq l4 (by norm_num) (by linarith)
    have := Double.round_mono _ _ h1
    rwa [Double.round_one] at this

/-- The allowed total leaves of a TWAP over whole shares, when positive: binary64 computes the
number of the specification, which is a whole number below `2 ^ 53` and at most
`qty - total_exposure`. -/
theorem TWAP.allowed64_eq (now : Int) (tw : TWAP) (h : tw.WholeShares now)
    (hpos : 0 < tw.allowed64) :
    tw.allowed64 = tw.allowed ∧ tw.allowed ≤ tw.qty_ - tw.inst_.total_exposure ∧
    ∃ a : ℤ, tw.allowed = a ∧ 0 < a ∧ a < 2 ^ 53 ∧
      (tw.inst_.sec_.exchange.odd_lot_allowed = false → ∃ k : ℤ, a = k * tw.lot) := by
  obtain ⟨l1, l2, l3, l4, l5⟩ := TWAP.lot_facts now tw h
  obtain ⟨_, _, _, _, hq, hE, _, hTL⟩ := h
  obtain ⟨t, ht⟩ := (hq.sub hE).eq_intCast
  have hlq : (0 : ℚ) < tw.lot := by linarith
  have hsub : Double.sub tw.qty_ tw.inst_.total_exposure = Double.round (t : ℚ) := by
    unfold Double.sub
    rw [ht]
  have ht0 : 0 < t := by
    by_contra hc
    have htq : (t : ℚ) ≤ 0 := by exact_mod_cast not_lt.mp hc
    have h1 : Double.sub tw.qty_ tw.inst_.total_exposure ≤ 0 := by
      rw [hsub]
      exact Double.round_nonpos _ htq
    unfold TWAP.allowed64 at hpos
    split_ifs at hpos with hodd
    · linarith
    · rw [l3] at hpos
      have h2 : Double.div (Double.sub tw.qty_ tw.inst_.total_exposure) (tw.lot : ℚ) ≤ 0 := by
        unfold Double.div
        exact Double.round_nonpos _ (div_nonpos_of_nonpos_of_nonneg h1 hlq.le)
      have h3 : (⌊Double.div (Double.sub tw.qty_ tw.inst_.total_exposure) (tw.lot : ℚ)⌋ : ℚ) ≤
          0 := by
        exact_mod_cast Int.floor_nonpos h2
      have h4 := Double.round_nonpos _ (mul_nonpos_of_nonpos_of_nonneg h3 hlq.le)
      unfold Double.mul at hpos
      linarith
  have ht53 : t < 2 ^ 53 := by
    have : (t : ℚ) < 2 ^ 53 := by rw [← ht]; exact hTL
    exact_mod_cast this
  have hTLx : Double.sub tw.qty_ tw.inst_.total_exposure = (t : ℚ) := by
    rw [hsub]
    exact Double.round_intCast t (by rw [abs_of_pos ht0]; omega)
  have htq0 : (0 : ℚ) < t := by exact_mod_cast ht0
  unfold TWAP.allowed64 TWAP.allowed
  rw [hTLx, ht]
  split_ifs with hodd
  · exact ⟨rfl, le_refl _, t, rfl, ht0, ht53, fun hf => absurd hodd (by simp [hf])⟩
  · rw [l3]
    unfold Double.div
    rw [Double.floor_div_intCast t tw.lot ht0 ht53 l1 l2]
    have hf0 : 0 ≤ ⌊(t : ℚ) / tw.lot⌋ := Int.floor_nonneg.mpr (div_nonneg htq0.le hlq.le)
    have hfl : (⌊(t : ℚ) / tw.lot⌋ : ℚ) * tw.lot ≤ t :=
      (le_div_iff₀ hlq).mp (Int.floor_le _)
    have hfi : ⌊(t : ℚ) / tw.lot⌋ * tw.lot ≤ t := by exact_mod_cast hfl
    have hnn : 0 ≤ ⌊(t : ℚ) / tw.lot⌋ * tw.lot := mul_nonneg hf0 (by omega)
    have hex : Double.mul (⌊(t : ℚ) / tw.lot⌋ : ℚ) (tw.lot : ℚ) =
        ((⌊(t : ℚ) / tw.lot⌋ * tw.lot : ℤ) : ℚ) :=
      Double.mul_intCast _ _ (by rw [abs_of_nonneg hnn]; omega)
    have hp : 0 < ⌊(t : ℚ) / tw.lot⌋ * tw.lot := by
      unfold TWAP.allowed64 at hpos
      rw [if_neg hodd, hTLx, l3] at hpos
      unfold Double.div at hpos
      rw [Double.floor_div_intCast t tw.lot ht0 ht53 l1 l2, hex] at hpos
      exact_mod_cast hpos
    rw [hex]
    exact ⟨by push_cast; rfl, hfl, _, by push_cast; rfl, hp, by omega, fun _ => ⟨_, rfl⟩⟩

/-- A positive `min_size_` as `OnStart` computes it, when it is at most the whole number `a`
below `2 ^ 53`, is a whole multiple of the lot. -/
theorem OnStart_min_size_multiple (MinSize lot_size a : Int) (hl : lot_size < 2 ^ 31)
    (h : 0 < TWAP.OnStart.min_size MinSize lot_size) (ha : a < 2 ^ 53)
    (hle : TWAP.OnStart.min_size MinSize lot_size ≤ a) :
    ∃ k : Int, TWAP.OnStart.min_size MinSize lot_size = (k : ℚ) * ((max 1 lot_size : Int) : ℚ) := by
  have ha0 : 0 ≤ a := by
    have : (0 : ℚ) < a := lt_of_lt_of_le h hle
    have : (0 : ℤ) < a := by exact_mod_cast this
    omega
  unfold TWAP.OnStart.min_size at h hle ⊢
  simp only at h hle ⊢
  split_ifs at h hle ⊢ with hc
  · have hm : max 1 lot_size = lot_size := max_eq_right (by omega)
    have hlo : Double.ofInt lot_size = lot_size :=
      Double.ofInt_eq _ (by rw [abs_of_nonneg (by omega)]; omega)
    rw [hlo] at h hle ⊢
    obtain ⟨m, hm2⟩ : ∃ m : ℤ, m = cround (Double.div (Double.ofInt MinSize) (lot_size : ℚ)) :=
      ⟨_, rfl⟩
    rw [← hm2] at h hle ⊢
    have hmul : Double.mul (m : ℚ) (lot_size : ℚ) = Double.round (((m * lot_size : ℤ) : ℚ)) := by
      unfold Double.mul
      push_cast
      rfl
    rw [hmul] at h hle ⊢
    have hz : 0 ≤ m * lot_size := by
      by_contra hcz
      have hq : (((m * lot_size : ℤ) : ℚ)) ≤ 0 := by exact_mod_cast (by omega : m * lot_size ≤ 0)
      have := Double.round_nonpos _ hq
      linarith
    rw [Double.round_intCast_of_le _ a hz ha0 ha hle, hm]
    exact ⟨m, by push_cast; rfl⟩
  · have hm0 : 0 < Double.ofInt MinSize := h
    have hl0 : ¬ lot_size > 0 := fun hl0 => hc ⟨hm0, hl0⟩
    have hm : max 1 lot_size = 1 := max_eq_left (by omega)
    have hz : 0 ≤ MinSize := by
      by_contra hcz
      have hq : (MinSize : ℚ) ≤ 0 := by exact_mod_cast (by omega : MinSize ≤ 0)
      have := Double.round_nonpos _ hq
      unfold Double.ofInt at hm0
      linarith
    unfold Double.ofInt at hle ⊢
    rw [Double.round_intCast_of_le _ a hz ha0 ha hle, hm]
    exact ⟨MinSize, by simp⟩

/-- C28 (amended): the size of the child that `TWAP::Timer` places.  The code computes the ratio
`r`, the leaves `qty * r - total_exposure`, the whole lots `ceil(leaves / lot) * lot` and the
allowed total leaves of the specification in binary64, each operation rounded.  With these
numbers, the leaves are positive and the child quantity is the whole lots raised to `min_size`
and then capped at the allowed total leaves.  For a TWAP over whole shares (the quantity and the
total exposure are whole numbers, the exposure is not negative, the remaining quantity is below
`2 ^ 53`, the clock is within a duration of at most `2 ^ 53` seconds and the lot size is an
`int`) the allowed total leaves are those of the specification, the child quantity is positive
and at most `qty - total_exposure`, and, when the exchange does not allow odd lots, a whole
multiple of the lot.  Here `min_size_` is the value that `OnStart` has computed from the integer
parameter `MinSize`, and the end time is after the begin time, as `OnStart` leaves it. -/
theorem C28_twap_child_size (now t : Int) (md : MarketData) (heap : Ptr → Order) (tw : TWAP)
    (c : Contract) (MinSize : Int)
    (hmin : tw.min_size_ = TWAP.OnStart.min_size MinSize tw.inst_.sec_.lot_size)
    (_hdur : tw.begin_time_ < tw.end_time_)
    (hplace : Algo.Action.Place c ∈ TWAP.Timer now t md heap tw) :
    0 < tw.leaves64 now ∧
    c.qty = min (max (tw.wholeLots64 now) tw.min_size_) tw.allowed64 ∧
    c.qty ≤ tw.allowed64 ∧
    (tw.WholeShares now →
      tw.allowed64 = tw.allowed ∧ 0 < c.qty ∧ c.qty ≤ tw.qty_ - tw.inst_.total_exposure ∧
      (tw.inst_.sec_.exchange.odd_lot_allowed = false →
        ∃ k : Int, c.qty = (k : ℚ) * tw.lot)) := by
  obtain ⟨q, hq, hsw, _⟩ := Timer_place now t md heap tw c hplace
  have hcq : c.qty = q := (Timer_switch_keeps _ _ _ _ _ _ _ hsw).1
  obtain ⟨hl, ha, hqe⟩ := Timer_would_qty now tw q hq
  refine ⟨hl, hcq.trans hqe, ?_, fun hw => ?_⟩
  · rw [hcq, hqe]
    exact min_le_right _ _
  · obtain ⟨hAe, hAle, a, haa, ha0, ha53, hamul⟩ := TWAP.allowed64_eq now tw hw ha
    obtain ⟨cc, hc1, hW, hW1⟩ := TWAP.wholeLots64_ge now tw hw hl
    obtain ⟨l1, l2, l3, l4, l5⟩ := TWAP.lot_facts now tw hw
    have hA : tw.allowed64 = (a : ℚ) := hAe.trans haa
    have hmax : (0 : ℚ) < max (tw.wholeLots64 now) tw.min_size_ :=
      lt_of_lt_of_le (by linarith) (le_max_left _ _)
    refine ⟨hAe, ?_, ?_, ?_⟩
    · rw [hcq, hqe]
      exact lt_min hmax ha
    · rw [hcq, hqe]
      exact le_trans (min_le_right _ _) (hAe.le.trans hAle)
    · intro hodd
      rw [hcq, hqe]
      rcases min_choice (max (tw.wholeLots64 now) tw.min_size_) tw.allowed64 with h1 | h1
      · rw [h1]
        have hle : max (tw.wholeLots64 now) tw.min_size_ ≤ (a : ℚ) := by
          rw [← hA]
          exact min_eq_left_iff.mp h1
        rcases max_choice (tw.wholeLots64 now) tw.min_size_ with h2 | h2
        · rw [h2] at hle ⊢
          rw [hW] at hle ⊢
          have hz : 0 ≤ cc * tw.lot := mul_nonneg (by omega) (by omega)
          rw [Double.round_intCast_of_le _ a hz ha0.le ha53 hle]
          exact ⟨cc, by push_cast; rfl⟩
        · rw [h2] at hle hmax ⊢
          rw [hmin] at hle hmax ⊢
          exact OnStart_min_size_multiple _ _ a hw.2.2.2.1 hmax ha53 hle
      · rw [h1, hA]
        obtain ⟨k, hk⟩ := hamul hodd
        exact ⟨k, by rw [hk]; push_cast; rfl⟩

/-- The numbers of the sizing step on the example `exTwap` at the first second: the schedule asks
for `1000 * (1 / 60.) = 16.666666666666668`, which rounds up to one lot of 100. -/
theorem exTwap_sizing :
    exTwap.leaves64 0 = 4691249611844267 / 281474976710656 ∧ exTwap.wholeLots64 0 = 100 ∧
      exTwap.allowed64 = 1000 := by
  have h1 : Double.add 0 1 = 1 := by norm_num [Double.add, Double.round_one]
  have h2 : Double.div 1 60 = 4803839602528529 / 288230376151711744 := by
    unfold Double.div
    rw [Double.round_eq_of _ (-6) 4803839602528529 (by norm_num) (by norm_num) (by norm_num)
      (Double.rne_eq_of_near _ _ (by norm_num) (by norm_num))]
    norm_num
  have h3 : Double.mul 1000 (4803839602528529 / 288230376151711744) =
      4691249611844267 / 281474976710656 := by
    unfold Double.mul
    rw [Double.round_eq_of _ 4 4691249611844267 (by norm_num) (by norm_num) (by norm_num)
      (Double.rne_eq_of_near _ _ (by norm_num) (by norm_num))]
    norm_num
  have h4 : Double.sub (4691249611844267 / 281474976710656) 0 =
      4691249611844267 / 281474976710656 := by
    unfold Double.sub
    rw [Double.round_eq_of _ 4 4691249611844267 (by norm_num) (by norm_num) (by norm_num)
      (Double.rne_eq_of_near _ _ (by norm_num) (by norm_num))]
    norm_num
  have h5 : Double.div (4691249611844267 / 281474976710656) 100 =
      3002399751580331 / 18014398509481984 := by
    unfold Double.div
    rw [Double.round_eq_of _ (-3) 6004799503160662 (by norm_num) (by norm_num) (by norm_num)
      (Double.rne_eq_of_near _ _ (by norm_num) (by norm_num))]
    norm_num
  have h6 : Double.mul 1 100 = 100 := by norm_num [Double.mul, Double.round_ofNat]
  have h7 : Double.sub 1000 0 = 1000 := by norm_num [Double.sub, Double.round_ofNat]
  have h8 : Double.div 1000 100 = 10 := by norm_num [Double.div, Double.round_ofNat]
  have h9 : Double.mul 10 100 = 1000 := by norm_num [Double.mul, Double.round_ofNat]
  have o1 : Double.ofInt ((0 : ℤ) - 0) = 0 := by norm_num [Double.ofInt, Double.round_zero]
  have o2 : Double.ofInt ((60 : ℤ) - 0) = 60 := by norm_num [Double.ofInt, Double.round_ofNat]
  have o3 : Double.ofInt (100 : ℤ) = 100 := by norm_num [Double.ofInt, Double.round_ofNat]
  have hlot : exTwap.lot = 100 := by decide
  have hE : exTwap.inst_.total_exposure = 0 := by
    simp [exTwap, Instrument.total_exposure, Instrument.total_qty,
      Instrument.total_outstanding_qty, Double.add, Double.round_zero]
  have hr : exTwap.ratio64 0 = 4803839602528529 / 288230376151711744 := by
    have hb : exTwap.begin_time_ = 0 := rfl
    have he : exTwap.end_time_ = 60 := rfl
    unfold TWAP.ratio64
    rw [hb, he, o1, o2, h1, h2]
    norm_num
  have hq : exTwap.qty_ = 1000 := rfl
  have hL : exTwap.leaves64 0 = 4691249611844267 / 281474976710656 := by
    unfold TWAP.leaves64
    rw [hr, hE, hq, h3, h4]
  have hc : ⌈(3002399751580331 / 18014398509481984 : ℚ)⌉ = 1 := by
    rw [Int.ceil_eq_iff]
    norm_num
  have hf : ⌊(10 : ℚ)⌋ = 10 := by
    rw [Int.floor_eq_iff]
    norm_num
  have hodd : exTwap.inst_.sec_.exchange.odd_lot_allowed = false := rfl
  refine ⟨hL, ?_, ?_⟩
  · unfold TWAP.wholeLots64
    rw [hL, hlot, o3, h5, hc, Int.cast_one, h6]
  · unfold TWAP.allowed64
    rw [hodd, hE, hq, hlot, o3, h7, h8, hf]
    simp only [Bool.false_eq_true, if_false]
    rw [show ((10 : ℤ) : ℚ) = 10 by norm_num, h9]

/-- The sizing step on the example: at the first second the schedule asks for `1000 / 60`, which
rounds up to one lot of 100. -/
theorem exTwap_would_qty : TWAP.Timer.would_qty 0 exTwap = some 100 := by
  obtain ⟨hL, hW, hA⟩ := exTwap_sizing
  have hm : exTwap.min_size_ = 0 := rfl
  rw [Timer_would_qty_eq, hL, hA, hW, hm]
  norm_num

/-- The numbers of the sizing step on the example `exTwap600` at the 23rd second: the schedule
asks for `600 * (23 / 60.) = 230.00000000000003`, which rounds up to 24 lots of 10. -/
theorem exTwap600_sizing :
    exTwap600.leaves64 22 = 8092405580431361 / 35184372088832 ∧
      exTwap600.wholeLots64 22 = 240 ∧ exTwap600.allowed64 = 600 := by
  have h1 : Double.add 22 1 = 23 := by norm_num [Double.add, Double.round_ofNat]
  have h2 : Double.div 23 60 = 6905519428634761 / 18014398509481984 := by
    unfold Double.div
    rw [Double.round_eq_of _ (-2) 6905519428634761 (by norm_num) (by norm_num) (by norm_num)
      (Double.rne_eq_of_near _ _ (by norm_num) (by norm_num))]
    norm_num
  have h3 : Double.mul 600 (6905519428634761 / 18014398509481984) =
      8092405580431361 / 35184372088832 := by
    unfold Double.mul
    rw [Double.round_eq_of _ 7 8092405580431361 (by norm_num) (by norm_num) (by norm_num)
      (Double.rne_eq_of_near _ _ (by norm_num) (by norm_num))]
    norm_num
  have h4 : Double.sub (8092405580431361 / 35184372088832) 0 =
      8092405580431361 / 35184372088832 := by
    unfold Double.sub
    rw [Double.round_eq_of _ 7 8092405580431361 (by norm_num) (by norm_num) (by norm_num)
      (Double.rne_eq_of_near _ _ (by norm_num) (by norm_num))]
    norm_num
  have h5 : Double.div (8092405580431361 / 35184372088832) 10 =
      6473924464345089 / 281474976710656 := by
    unfold Double.div
    rw [Double.round_eq_of _ 4 6473924464345089 (by norm_num) (by norm_num) (by norm_num)
      (Double.rne_eq_of_near _ _ (by norm_num) (by norm_num))]
    norm_num
  have h6 : Double.mul 24 10 = 240 := by norm_num [Double.mul, Double.round_ofNat]
  have h7 : Double.sub 600 0 = 600 := by norm_num [Double.sub, Double.round_ofNat]
  have h8 : Double.div 600 10 = 60 := by norm_num [Double.div, Double.round_ofNat]
  have h9 : Double.mul 60 10 = 600 := by norm_num [Double.mul, Double.round_ofNat]
  have o1 : Double.ofInt ((22 : ℤ) - 0) = 22 := by norm_num [Double.ofInt, Double.round_ofNat]
  have o2 : Double.ofInt ((60 : ℤ) - 0) = 60 := by norm_num [Double.ofInt, Double.round_ofNat]
  have o3 : Double.ofInt (10 : ℤ) = 10 := by norm_num [Double.ofInt, Double.round_ofNat]
  have hlot : exTwap600.lot = 10 := by decide
  have hE : exTwap600.inst_.total_exposure = 0 := by
    simp [exTwap600, Instrument.total_exposure, Instrument.total_qty,
      Instrument.total_outstanding_qty, Double.add, Double.round_zero]
  have hr : exTwap600.ratio64 22 = 6905519428634761 / 18014398509481984 := by
    have hb : exTwap600.begin_time_ = 0 := rfl
    have he : exTwap600.end_time_ = 60 := rfl
    unfold TWAP.ratio64
    rw [hb, he, o1, o2, h1, h2]
    norm_num
  have hq : exTwap600.qty_ = 600 := rfl
  have hL : exTwap600.leaves64 22 = 8092405580431361 / 35184372088832 := by
    unfold TWAP.leaves64
    rw [hr, hE, hq, h3, h4]
  have hc : ⌈(6473924464345089 / 281474976710656 : ℚ)⌉ = 24 := by
    rw [Int.ceil_eq_iff]
    norm_num
  have hf : ⌊(60 : ℚ)⌋ = 60 := by
    rw [Int.floor_eq_iff]
    norm_num
  have hodd : exTwap600.inst_.sec_.exchange.odd_lot_allowed = false := rfl
  refine ⟨hL, ?_, ?_⟩
  · unfold TWAP.wholeLots64
    rw [hL, hlot, o3, h5, hc]
    rw [show ((24 : ℤ) : ℚ) = 24 by norm_num, h6]
  · unfold TWAP.allowed64
    rw [hodd, hE, hq, hlot, o3, h7, h8, hf]
    simp only [Bool.false_eq_true, if_false]
    rw [show ((60 : ℤ) : ℚ) = 60 by norm_num, h9]

/-- C28, as stated, fails on the code: the schedule is computed in binary64.  A TWAP buys 600
over 60 seconds with lot size 10 and nothing done so far.  At `now = begin_time + 22` the ratio
is `23 / 60`, the leaves of the specification are `600 * 23 / 60 = 230` and
`ceil(230 / 10) * 10 = 230`; the code computes `600 * (23 / 60.) = 230.00000000000003`, whose
quotient by 10 is above 23, and places a child of 240. -/
theorem C28_counterexample :
    exTwap600.leaves 22 = 230 ∧
    min (max ((⌈exTwap600.leaves 22 / exTwap600.lot⌉ : ℚ) * exTwap600.lot) exTwap600.min_size_)
      exTwap600.allowed = 230 ∧
    exTwap600.leaves64 22 = 8092405580431361 / 35184372088832 ∧
    TWAP.Timer 22 0 exQuoted (fun _ => {}) exTwap600 =
      [Algo.Action.SetTimeout 1000,
       Algo.Action.Place { side := kBuy, qty := 240, price := 10, sub_account := some 1 }] := by
  obtain ⟨hL, hW, hA⟩ := exTwap600_sizing
  have hE : exTwap600.inst_.total_exposure = 0 := by
    simp [exTwap600, Instrument.total_exposure, Instrument.total_qty,
      Instrument.total_outstanding_qty, Double.add, Double.round_zero]
  have hl : exTwap600.leaves 22 = 230 := by
    unfold TWAP.leaves TWAP.ratio
    rw [hE]
    norm_num [exTwap600]
  have hlot : exTwap600.lot = 10 := by decide
  have ha : exTwap600.allowed = 600 := by
    have he : exTwap600.inst_.sec_.exchange.odd_lot_allowed = false := rfl
    unfold TWAP.allowed
    rw [he, hlot, hE]
    norm_num [exTwap600]
  have hc : ⌈(230 : ℚ) / ((10 : Int) : ℚ)⌉ = 23 := by
    rw [Int.ceil_eq_iff]
    norm_num
  have hm : exTwap600.min_size_ = 0 := rfl
  have hw : TWAP.Timer.would_qty 22 exTwap600 = some 240 := by
    rw [Timer_would_qty_eq, hL, hA, hW, hm]
    norm_num
  refine ⟨hl, ?_, hL, ?_⟩
  · rw [hl, ha, hlot, hc, hm]
    norm_num
  · have h10 : (0 : ℚ) < 10 := by norm_num
    simp [TWAP.Timer, hw, TWAP.Timer.switch, h10, exQuoted, MarketData.quote]
    simp [exTwap600, exLot10Security, Security.IsInTradePeriod, Exchange.IsInTradePeriod, IsBuy]

/-- The example `exTwap` at the first second is a TWAP over whole shares. -/
theorem exTwap_wholeShares : exTwap.WholeShares 0 := by
  have hE : exTwap.inst_.total_exposure = 0 := by
    simp [exTwap, Instrument.total_exposure, Instrument.total_qty,
      Instrument.total_outstanding_qty, Double.add, Double.round_zero]
  unfold TWAP.WholeShares
  rw [hE]
  refine ⟨by decide, by decide, by decide, by decide, ?_, isWhole_zero, le_refl _, ?_⟩
  · exact isWhole_intCast 1000
  · norm_num [exTwap]

/-- C28 (amended) witness: the TWAP of the specification (quantity 1000, 60 seconds, lot 100,
`MinSize` 0) at `now = begin_time` places a child of 100. -/
theorem C28_twap_child_size_witness :
    (exTwap.min_size_ = TWAP.OnStart.min_size 0 exTwap.inst_.sec_.lot_size ∧
      exTwap.begin_time_ < exTwap.end_time_ ∧
      Algo.Action.Place { side := kBuy, qty := 100, price := 10, sub_account := some 1 } ∈
        TWAP.Timer 0 0 exQuoted (fun _ => {}) exTwap) ∧
    exTwap.WholeShares 0 ∧
    (100 : ℚ) = min (max (exTwap.wholeLots64 0) exTwap.min_size_) exTwap.allowed64 ∧
    (0 : ℚ) < 100 ∧ (100 : ℚ) ≤ exTwap.qty_ - exTwap.inst_.total_exposure ∧
    ∃ k : Int, (100 : ℚ) = (k : ℚ) * exTwap.lot := by
  have hmin : exTwap.min_size_ = TWAP.OnStart.min_size 0 exTwap.inst_.sec_.lot_size := by
    simp [TWAP.OnStart.min_size, exTwap, Double.ofInt, Double.round_zero]
  have hplace : Algo.Action.Place { side := kBuy, qty := 100, price := 10, sub_account := some 1 } ∈
      TWAP.Timer 0 0 exQuoted (fun _ => {}) exTwap := by
    have h10 : (0 : ℚ) < 10 := by norm_num
    simp [TWAP.Timer, exTwap_would_qty, TWAP.Timer.switch, h10, exQuoted, MarketData.quote]
    simp [exTwap, exLotSecurity, Security.IsInTradePeriod, Exchange.IsInTradePeriod, IsBuy]
  have hdur : exTwap.begin_time_ < exTwap.end_time_ := by decide
  have h := C28_twap_child_size 0 0 exQuoted (fun _ => {}) exTwap _ 0 hmin hdur hplace
  have hw := h.2.2.2 exTwap_wholeShares
  exact ⟨⟨hmin, hdur, hplace⟩, exTwap_wholeShares, h.2.1, hw.2.1, hw.2.2.1, hw.2.2.2 rfl⟩

/-- C29, as stated, fails on the code: Low does not fall through to Medium.  The TWAP `exTwap`
buys at low aggression.  With no bid, an ask of 10.5 and a last trade at 10, the first available
level at or after Low is High (the ask, 10.5), but `Timer` places the child at the last trade
price 10; with no bid and no trade it places no child at all. -/
theorem C29_counterexample :
    exTwap.firstAvailableLevel exNoBid.quote.bid_price exNoBid.quote.ask_price
        (TWAP.Timer.mid_px exTwap exNoBid.quote.bid_price exNoBid.quote.ask_price) exTwap.agg_ =
      (kLimit, 21 / 2) ∧
    TWAP.Timer 0 0 exNoBid (fun _ => {}) exTwap =
      [Algo.Action.SetTimeout 1000,
       Algo.Action.Place { side := kBuy, qty := 100, price := 10, sub_account := some 1 }] ∧
    TWAP.Timer 0 0 exAskOnly (fun _ => {}) exTwap = [Algo.Action.SetTimeout 1000] := by
  have h10 : (0 : ℚ) < 10 := by norm_num
  have h21 : (0 : ℚ) < 21 / 2 := by norm_num
  refine ⟨?_, ?_, ?_⟩
  · simp [TWAP.firstAvailableLevel, TWAP.levelPrice, TWAP.Timer.mid_px, exNoBid, MarketData.quote,
      exTwap, IsBuy, h21]
  · simp [TWAP.Timer, exTwap_would_qty, TWAP.Timer.switch, h10, exNoBid, MarketData.quote]
    simp [exTwap, exLotSecurity, Security.IsInTradePeriod, Exchange.IsInTradePeriod, IsBuy]
  · simp [TWAP.Timer, exTwap_would_qty, TWAP.Timer.switch, exAskOnly, MarketData.quote]
    simp [exTwap, exLotSecurity, Security.IsInTradePeriod, Exchange.IsInTradePeriod, IsBuy]

/-- C29 (amended): the price of the child that `TWAP::Timer` places.  At Low the child is a limit
order at the bid for a buy and at the ask for a sell, or, when that price is not positive, at the
last trade price, which is then positive (with neither, no child is placed).  At Medium, High and
Highest the child is priced by the first available level at or after the configured one, in the
order Medium (the tick-rounded mid), High (the ask for a buy, the bid for a sell), Highest (a
market order). -/
theorem C29_twap_child_price (now t : Int) (md : MarketData) (heap : Ptr → Order) (tw : TWAP)
    (c : Contract) (hplace : Algo.Action.Place c ∈ TWAP.Timer now t md heap tw) :
    (tw.agg_ = kAggLow →
      c.type = kLimit ∧
      (if 0 < tw.levelPrice md.quote.bid_price md.quote.ask_price
          (TWAP.Timer.mid_px tw md.quote.bid_price md.quote.ask_price) kAggLow then
        c.price = tw.levelPrice md.quote.bid_price md.quote.ask_price
          (TWAP.Timer.mid_px tw md.quote.bid_price md.quote.ask_price) kAggLow
      else 0 < md.trade.close ∧ c.price = md.trade.close)) ∧
    (tw.agg_ ≠ kAggLow →
      (c.type, c.price) = tw.firstAvailableLevel md.quote.bid_price md.quote.ask_price
        (TWAP.Timer.mid_px tw md.quote.bid_price md.quote.ask_price) tw.agg_) := by
  obtain ⟨q, _, hsw, _⟩ := Timer_place now t md heap tw c hplace
  unfold TWAP.Timer.switch TWAP.Timer.caseHigh TWAP.Timer.caseHighest at hsw
  constructor
  · intro hagg
    rw [hagg] at hsw
    simp only [TWAP.levelPrice]
    simp only at hsw
    split_ifs at hsw ⊢
    all_goals simp only [Option.some.injEq] at hsw
    all_goals subst hsw
    all_goals first
      | exact ⟨rfl, rfl⟩
      | exact ⟨rfl, by assumption, rfl⟩
  · intro hagg
    cases hg : tw.agg_ with
    | kAggLow => exact absurd hg hagg
    | kAggMedium =>
      rw [hg] at hsw
      simp only [TWAP.firstAvailableLevel, TWAP.levelPrice]
      simp only at hsw
      split_ifs at hsw ⊢
      all_goals simp only [Option.some.injEq] at hsw
      all_goals subst hsw
      all_goals rfl
    | kAggHigh =>
      rw [hg] at hsw
      simp only [TWAP.firstAvailableLevel, TWAP.levelPrice]
      simp only at hsw
      split_ifs at hsw ⊢
      all_goals simp only [Option.some.injEq] at hsw
      all_goals subst hsw
      all_goals rfl
    | kAggHighest =>
      rw [hg] at hsw
      simp only [TWAP.firstAvailableLevel]
      simp only [Option.some.injEq] at hsw
      subst hsw
      rfl

/-- C29 witness: at low aggression with a bid of 10 the child of `exTwap` is a limit order at
10. -/
theorem C29_twap_child_price_witness :
    Algo.Action.Place { side := kBuy, qty := 100, price := 10, sub_account := some 1 } ∈
        TWAP.Timer 0 0 exQuoted (fun _ => {}) exTwap ∧
    (exTwap.agg_ = kAggLow →
      ({ side := kBuy, qty := 100, price := 10, sub_account := some 1 } : Contract).type =
        kLimit ∧
      (if 0 < exTwap.levelPrice exQuoted.quote.bid_price exQuoted.quote.ask_price
          (TWAP.Timer.mid_px exTwap exQuoted.quote.bid_price exQuoted.quote.ask_price) kAggLow then
        ({ side := kBuy, qty := 100, price := 10, sub_account := some 1 } : Contract).price =
          exTwap.levelPrice exQuoted.quote.bid_price exQuoted.quote.ask_price
            (TWAP.Timer.mid_px exTwap exQuoted.quote.bid_price exQuoted.quote.ask_price) kAggLow
      else 0 < exQuoted.trade.close ∧
        ({ side := kBuy, qty := 100, price := 10, sub_account := some 1 } : Contract).price =
          exQuoted.trade.close)) := by
  have hplace : Algo.Action.Place { side := kBuy, qty := 100, price := 10, sub_account := some 1 } ∈
      TWAP.Timer 0 0 exQuoted (fun _ => {}) exTwap := by
    have h10 : (0 : ℚ) < 10 := by norm_num
    simp [TWAP.Timer, exTwap_would_qty, TWAP.Timer.switch, h10, exQuoted, MarketData.quote]
    simp [exTwap, exLotSecurity, Security.IsInTradePeriod, Exchange.IsInTradePeriod, IsBuy]
  exact ⟨hplace, (C29_twap_child_price 0 0 exQuoted (fun _ => {}) exTwap _ hplace).1⟩

/-! ## C22: stopping an algo -/

/-- The cancels of `Stop`, instrument by instrument, are the cancels of the active orders of all
instruments in one row. -/
theorem Stop_cancels_flat (env : Env) (insts : List Instrument) (s : Engine) :
    insts.foldl
        (fun s inst => inst.active_orders_.foldl (fun s ord => (Algo.Cancel env ord s).2) s) s =
      (insts.map fun inst => inst.active_orders_).flatten.foldl
        (fun s ord => (Algo.Cancel env ord s).2) s := by
  induction insts generalizing s with
  | nil => rfl
  | cons inst rest ih =>
    simp only [List.foldl_cons, List.map_cons, List.flatten_cons, List.foldl_append]
    exact ih _

/-- C22: `Algo::Stop` is idempotent, and the status it journals is misspelt.  The first call on an
active algo sets `is_active_` to false, requests a cancel of every order in the active set of
every instrument of the algo, appends exactly one record to the algo journal, whose body is the
error string and whose status is `failed` when an error string is set and otherwise `teminated`
(not `terminated`), and calls `OnStop` once; a further call, whatever the clock and the error
string, changes nothing. -/
theorem C22_Stop_is_idempotent (env : Env) (kError : String) (a : Algo) (w : AlgoWorld)
    (hactive : a.is_active_ = true) :
    (a.Stop env kError w).1 = { a with is_active_ := false } ∧
    (a.Stop env kError w).2.engine =
      (a.instruments_.map fun inst => inst.active_orders_).flatten.foldl
        (fun s ord => (Algo.Cancel env ord s).2) w.engine ∧
    (a.Stop env kError w).2.manager.of_ = w.manager.of_ ++
      [{ seq := w.manager.seq_counter_ + 1, user_id := a.user_, algo_id := a.id_, tm := env.time,
         name := a.name, status := if kError.isEmpty then "teminated" else "failed",
         body := kError }] ∧
    (if kError.isEmpty then "teminated" else "failed") ≠ "terminated" ∧
    (a.Stop env kError w).2.on_stop = w.on_stop ++ [a.id_] ∧
    ∀ (env2 : Env) (kError2 : String),
      (a.Stop env kError w).1.Stop env2 kError2 (a.Stop env kError w).2 = a.Stop env kError w := by
  have hs : a.Stop env kError w =
      ({ a with is_active_ := false },
        { engine := a.instruments_.foldl
            (fun s inst => inst.active_orders_.foldl (fun s ord => (Algo.Cancel env ord s).2) s)
            w.engine,
          manager := w.manager.Persist env { a with is_active_ := false }
            (if kError.isEmpty then "teminated" else "failed") kError,
          on_stop := w.on_stop ++ [a.id_] }) := by
    unfold Algo.Stop
    rw [if_pos hactive]
  refine ⟨by rw [hs], ?_, by rw [hs]; rfl, ?_, by rw [hs], ?_⟩
  · rw [hs]; exact Stop_cancels_flat env _ _
  · split_ifs <;> decide
  · intro env2 kError2
    rw [hs]
    unfold Algo.Stop
    simp

/-- C22 witness: `exAlgo` is stopped without an error string.  The journal gets the one record
with the status `teminated`, `OnStop` runs once, and a second call changes nothing. -/
theorem C22_Stop_is_idempotent_witness :
    exAlgo.is_active_ = true ∧
    (exAlgo.Stop exConnected "" exWorld).2.manager.of_ =
      exWorld.manager.of_ ++
        [{ seq := exWorld.manager.seq_counter_ + 1, user_id := exAlgo.user_,
           algo_id := exAlgo.id_, tm := exConnected.time, name := exAlgo.name,
           status := if "".isEmpty then "teminated" else "failed", body := "" }] ∧
    (exAlgo.Stop exConnected "" exWorld).2.on_stop = exWorld.on_stop ++ [exAlgo.id_] :=
  ⟨rfl, (C22_Stop_is_idempotent exConnected "" exAlgo exWorld rfl).2.2.1,
    (C22_Stop_is_idempotent exConnected "" exAlgo exWorld rfl).2.2.2.2.1⟩

/-! ## C23: the callbacks of an algo run on one strand -/

/-- Posting a handler to its own strand keeps the strands sharded. -/
theorem post_Sharded (i : Nat) (h : Handler) (m : AlgoManager) (hm : m.Sharded)
    (hh : h.OnShard m.threads_ i) :
    (m.post i h).Sharded ∧ (m.post i h).threads_ = m.threads_ ∧
      (m.post i h).algos_ = m.algos_ := by
  refine ⟨⟨?_, hm.2⟩, rfl, rfl⟩
  intro k g hg
  show g.OnShard m.threads_ k
  simp only [AlgoManager.post] at hg
  by_cases hk : k = i
  · subst hk
    simp only [Function.update_same, List.mem_append, List.mem_singleton] at hg
    rcases hg with hg | hg | hg
    · exact hm.1 k g (Or.inl hg)
    · exact hm.1 k g (Or.inr hg)
    · rw [hg]; exact hh
  · simp only [Function.update_noteq hk] at hg
    exact hm.1 k g hg

/-- Persisting keeps the strands and the runners. -/
theorem Persist_Sharded (env : Env) (algo : Algo) (status body : String) (m : AlgoManager)
    (hm : m.Sharded) :
    (m.Persist env algo status body).Sharded ∧
      (m.Persist env algo status body).threads_ = m.threads_ := ⟨hm, rfl⟩

/-- Every event keeps the strands sharded, and none changes the number of threads. -/
theorem apply_Sharded (m : AlgoManager) (e : AlgoEvent) (hm : m.Sharded) (he : e.Stamped) :
    (e.apply m).Sharded ∧ (e.apply m).threads_ = m.threads_ := by
  cases e with
  | Spawn env adapter user params_raw token =>
    cases adapter with
    | none => exact ⟨hm, rfl⟩
    | some name =>
      simp only [AlgoEvent.apply, AlgoManager.Spawn]
      have h1 : ({ m with algo_id_counter_ := m.algo_id_counter_ + 1,
                          algos_ := m.algos_ ++ [m.algo_id_counter_ + 1] } :
          AlgoManager).Sharded := hm
      have h2 := Persist_Sharded env
        { name := name, id_ := m.algo_id_counter_ + 1, user_ := user, token_ := token } "new"
        params_raw _ h1
      have h3 := post_Sharded ((m.algo_id_counter_ + 1) % m.threads_)
        (Handler.start (m.algo_id_counter_ + 1)) _ h2.1 rfl
      exact ⟨h3.1, rfl⟩
  | Register inst =>
    refine ⟨⟨hm.1, ?_⟩, rfl⟩
    intro k x hx
    show x.algo_ % m.threads_ = k
    simp only [AlgoEvent.apply, AlgoManager.Register] at hx
    by_cases hk : k = inst.algo_ % m.threads_
    · subst hk
      simp only [Function.update_same, List.mem_append, List.mem_singleton] at hx
      rcases hx with hx | hx
      · exact hm.2 _ x hx
      · rw [hx]
    · simp only [Function.update_noteq hk] at hx
      exact hm.2 k x hx
  | Handle ord inst cm =>
    have hp := post_Sharded (ord.algo_id % m.threads_) (Handler.confirmation inst.algo_) m hm
      (by show inst.algo_ % m.threads_ = ord.algo_id % m.threads_
          rw [show ord.algo_id = inst.algo_ from he])
    simp only [AlgoEvent.apply, AlgoManager.Handle]
    split
    all_goals first
      | exact ⟨hp.1, hp.2.1⟩
      | exact ⟨hm, rfl⟩
  | Stop id =>
    simp only [AlgoEvent.apply, AlgoManager.Stop]
    split_ifs
    · have hp := post_Sharded (id % m.threads_) (Handler.stop id) m hm rfl
      exact ⟨hp.1, hp.2.1⟩
    · exact ⟨hm, rfl⟩
  | StopAll =>
    simp only [AlgoEvent.apply, AlgoManager.StopAll]
    have key : ∀ (ids : List Nat) (m2 : AlgoManager), m2.Sharded →
        (ids.foldl (fun m id => m.post (id % m.threads_) (Handler.stop id)) m2).Sharded ∧
        (ids.foldl (fun m id => m.post (id % m.threads_) (Handler.stop id)) m2).threads_ =
          m2.threads_ := by
      intro ids
      induction ids with
      | nil => intro m2 h2; exact ⟨h2, rfl⟩
      | cons id rest ih =>
        intro m2 h2
        have hp := post_Sharded (id % m2.threads_) (Handler.stop id) m2 h2 rfl
        have := ih _ hp.1
        exact ⟨this.1, this.2.trans hp.2.1⟩
    exact key _ m hm
  | SetTimeout id =>
    have hp := post_Sharded (id % m.threads_) (Handler.timeout id) m hm rfl
    exact ⟨hp.1, hp.2.1⟩
  | Update should_post =>
    simp only [AlgoEvent.apply, AlgoManager.Update]
    have key : ∀ (is : List Nat) (m2 : AlgoManager), m2.Sharded →
        (is.foldl (fun m i => if should_post i then m.post i (Handler.runner i) else m)
          m2).Sharded ∧
        (is.foldl (fun m i => if should_post i then m.post i (Handler.runner i) else m)
          m2).threads_ = m2.threads_ := by
      intro is
      induction is with
      | nil => intro m2 h2; exact ⟨h2, rfl⟩
      | cons i rest ih =>
        intro m2 h2
        simp only [List.foldl_cons]
        by_cases hs : should_post i = true
        · simp only [hs, if_true]
          have hp := post_Sharded i (Handler.runner i) m2 h2 rfl
          have := ih _ hp.1
          exact ⟨this.1, this.2.trans hp.2.1⟩
        · simp only [hs, if_false]
          exact ih _ h2
    exact key _ m hm
  | run i =>
    refine ⟨⟨?_, hm.2⟩, rfl⟩
    intro k g hg
    show g.OnShard m.threads_ k
    simp only [AlgoEvent.apply] at hg
    by_cases hk : k = i
    · subst hk
      simp only [Function.update_same, Strand.run] at hg
      split at hg
      · rename_i hr hq
        simp only [Option.some.injEq] at hg
        rcases hg with hg | hg
        · exact hm.1 k g (Or.inr (by rw [hq, ← hg]; exact List.mem_cons_self _ _))
        · exact hm.1 k g (Or.inr (by rw [hq]; exact List.mem_cons_of_mem _ hg))
      · exact hm.1 k g hg
    · simp only [Function.update_noteq hk] at hg
      exact hm.1 k g hg
  | done i =>
    refine ⟨⟨?_, hm.2⟩, rfl⟩
    intro k g hg
    show g.OnShard m.threads_ k
    simp only [AlgoEvent.apply] at hg
    by_cases hk : k = i
    · subst hk
      simp only [Function.update_same, Strand.done, reduceCtorEq, false_or] at hg
      exact hm.1 k g (Or.inr hg)
    · simp only [Function.update_noteq hk] at hg
      exact hm.1 k g hg

/-- A sequence of events keeps the strands sharded. -/
theorem applyAll_Sharded (evs : List AlgoEvent) (m : AlgoManager) (hm : m.Sharded)
    (he : ∀ e ∈ evs, e.Stamped) : (AlgoEvent.applyAll evs m).Sharded := by
  induction evs generalizing m with
  | nil => exact hm
  | cons e rest ih =>
    exact ih _ (apply_Sharded m e hm (he e (List.mem_cons_self _ _))).1
      (fun x hx => he x (List.mem_cons_of_mem _ hx))

/-- On sharded strands, a callback of the algo `a` executes on the strand `a mod n` only. -/
theorem Sharded_Executes (m : AlgoManager) (hm : m.Sharded) (i a : Nat)
    (h : m.Executes i a) : a % m.threads_ = i := by
  obtain ⟨g, hg, hc⟩ := h
  have hs := hm.1 i g (Or.inl hg)
  cases g with
  | start b => rw [← show b = a from hc]; exact hs
  | confirmation b => rw [← show b = a from hc]; exact hs
  | stop b => rw [← show b = a from hc]; exact hs
  | timeout b => rw [← show b = a from hc]; exact hs
  | runner k =>
    obtain ⟨inst, hin, ha⟩ := hc
    have hk : k = i := hs
    rw [← ha, ← hk]
    exact hm.2 k inst hin

/-- C23: no two callbacks of the same algo execute concurrently.  From the start of the algo
manager on `n` threads, after any sequence of calls of `Spawn`, `Register`, `Handle`, `Stop`,
`SetTimeout` and `Update` and of moves of the thread pool, every handler that a strand holds
belongs to that strand (a callback of the algo `a` is on the strand `a mod n`); so if a callback
of the algo `a` executes on the strand `i` and one executes on the strand `j`, then `i = j`, and a
strand runs one handler at a time. -/
theorem C23_callbacks_of_an_algo_share_a_strand (n : Nat) (evs : List AlgoEvent)
    (hstamped : ∀ e ∈ evs, e.Stamped) :
    (AlgoEvent.applyAll evs { threads_ := n }).Sharded ∧
    ∀ i j a, (AlgoEvent.applyAll evs { threads_ := n }).Executes i a →
      (AlgoEvent.applyAll evs { threads_ := n }).Executes j a → i = j := by
  have h0 : ({ threads_ := n } : AlgoManager).Sharded :=
    ⟨fun i h hh => by
        rcases hh with hh | hh
        · exact absurd hh (by simp)
        · exact absurd hh (by simp),
      fun i inst hi => absurd hi (by simp)⟩
  have hs := applyAll_Sharded evs _ h0 hstamped
  refine ⟨hs, fun i j a hi hj => ?_⟩
  rw [← Sharded_Executes _ hs i a hi, ← Sharded_Executes _ hs j a hj]

/-- C23 witness: in the run `exAlgoEvents` on two threads, the timer handler of algo 1 executes on
the strand 1 while the runner 0 executes on the strand 0; no other strand executes a callback of
algo 1. -/
theorem C23_callbacks_of_an_algo_share_a_strand_witness :
    (∀ e ∈ exAlgoEvents, e.Stamped) ∧
    ((AlgoEvent.applyAll exAlgoEvents { threads_ := 2 }).strands_ 1).running =
      some (Handler.timeout 1) ∧
    ((AlgoEvent.applyAll exAlgoEvents { threads_ := 2 }).strands_ 0).running =
      some (Handler.runner 0) ∧
    ∀ j, (AlgoEvent.applyAll exAlgoEvents { threads_ := 2 }).Executes j 1 → 1 = j := by
  have hst : ∀ e ∈ exAlgoEvents, e.Stamped := by
    intro e he
    simp only [exAlgoEvents, List.mem_cons, List.mem_singleton, List.not_mem_nil, or_false] at he
    rcases he with rfl | rfl | rfl | rfl | rfl | rfl | rfl | rfl | rfl
    all_goals trivial
  have h1 : ((AlgoEvent.applyAll exAlgoEvents { threads_ := 2 }).strands_ 1).running =
      some (Handler.timeout 1) := by rfl
  have h0 : ((AlgoEvent.applyAll exAlgoEvents { threads_ := 2 }).strands_ 0).running =
      some (Handler.runner 0) := by rfl
  exact ⟨hst, h1, h0, fun j hj =>
    (C23_callbacks_of_an_algo_share_a_strand 2 exAlgoEvents hst).2 1 j 1
      ⟨Handler.timeout 1, h1, rfl⟩ hj⟩

/-! ## C25: a confirmation that carries the id of the cancel request -/

/-- A callback that carries no original id and an id that the order book does not hold changes
nothing. -/
theorem HandleOrig_unknown (env : Env) (id : Nat) (exec_type : OrderStatus) (text : String)
    (tm : Int) (s : Engine) (h : GlobalOrderBook.Get s id = none) :
    ExchangeConnectivity.HandleOrig env id 0 exec_type text tm s = s := by
  unfold ExchangeConnectivity.HandleOrig
  rw [if_pos rfl, h]

theorem UpdateThrottle_orders (env : Env) (ord : Order) (s : Engine) :
    (ExchangeConnectivity.UpdateThrottle env ord s).orders_ = s.orders_ := by
  unfold ExchangeConnectivity.UpdateThrottle
  simp only
  split <;> split <;> split <;> rfl

/-- When `Cancel` returns true, every key of the order book was in the book before the call or
is the id of the original order. -/
theorem Cancel_ok_orders (env : Env) (p : Ptr) (s : Engine)
    (hok : (ExchangeConnectivityManager.Cancel env p s).1 = true) (id : Nat) (q : Ptr)
    (h : (ExchangeConnectivityManager.Cancel env p s).2.orders_ id = some q) :
    s.orders_ id = some q ∨ id = (s.heap p).id := by
  unfold ExchangeConnectivityManager.Cancel at hok h
  simp only [] at hok h
  split_ifs at hok h
  all_goals split at hok
  all_goals try (simp [ExchangeConnectivity.reject] at hok; done)
  all_goals rename_i hf
  all_goals simp only [hf] at h
  all_goals rw [UpdateThrottle_orders] at h
  all_goals
    rcases Handle_orders _ _ _ _ _ h with h1 | ⟨_, h1⟩
  all_goals first
    | exact Or.inl h1
    | exact Or.inr (by rw [h1]; simp [Engine.alloc])

/-- When `Cancel` returns true, the shadow order, stored at the next free address, carries the
next id of the counter and the id of the original order as `orig_id`. -/
theorem Cancel_ok_shadow (env : Env) (p : Ptr) (s : Engine)
    (hok : (ExchangeConnectivityManager.Cancel env p s).1 = true) :
    ((ExchangeConnectivityManager.Cancel env p s).2.heap s.heap_end).id =
      s.order_id_counter_ + 1 ∧
    ((ExchangeConnectivityManager.Cancel env p s).2.heap s.heap_end).orig_id = (s.heap p).id := by
  unfold ExchangeConnectivityManager.Cancel at hok ⊢
  simp only [] at hok ⊢
  split_ifs at hok ⊢
  all_goals split at hok
  all_goals try (simp [ExchangeConnectivity.reject] at hok; done)
  all_goals rename_i hf
  all_goals simp only [hf]
  all_goals rw [UpdateThrottle_heap]
  all_goals
    simp [Engine.store, Engine.alloc, GlobalOrderBook.NewOrderId,
      ExchangeConnectivity.HandleConfirmation, Handle_counter, Handle_heap,
      GlobalOrderBook.UpdateOrder, GlobalOrderBook.emplace_heap]

/-- C25: the code does not register the shadow cancel order under its own id.  Take a book whose
keys and whose original order carry ids that the counter has handed out.  When `Cancel` returns
true, the shadow order (stored at the next free address) carries the new id `c = counter + 1` and
`orig_id = orig.id`, but `Get(c)` finds nothing: the UnconfirmedCancel confirmation is handled
while the shadow still carries the id of the original, a key of the book already, and the new id
is assigned afterwards.  So `HandleCanceled(c, orig_id = 0, text, tm)` changes nothing: the
original order is not canceled. -/
theorem C25_shadow_cancel_order_is_not_in_the_book (env : Env) (p : Ptr) (s : Engine)
    (hok : (ExchangeConnectivityManager.Cancel env p s).1 = true)
    (hbook : ∀ id q, s.orders_ id = some q → id ≤ s.order_id_counter_)
    (hid : (s.heap p).id ≤ s.order_id_counter_) :
    ((ExchangeConnectivityManager.Cancel env p s).2.heap s.heap_end).id =
      s.order_id_counter_ + 1 ∧
    ((ExchangeConnectivityManager.Cancel env p s).2.heap s.heap_end).orig_id = (s.heap p).id ∧
    GlobalOrderBook.Get (ExchangeConnectivityManager.Cancel env p s).2
      (s.order_id_counter_ + 1) = none ∧
    ∀ (env2 : Env) (text : String) (tm : Int),
      ExchangeConnectivityAdapter.HandleCanceled env2 (s.order_id_counter_ + 1) 0 text tm
          (ExchangeConnectivityManager.Cancel env p s).2 =
        (ExchangeConnectivityManager.Cancel env p s).2 := by
  have hget : GlobalOrderBook.Get (ExchangeConnectivityManager.Cancel env p s).2
      (s.order_id_counter_ + 1) = none := by
    unfold GlobalOrderBook.Get
    cases hq : (ExchangeConnectivityManager.Cancel env p s).2.orders_ (s.order_id_counter_ + 1)
      with
    | none => rfl
    | some q =>
      rcases Cancel_ok_orders env p s hok _ q hq with h1 | h1
      · have := hbook _ q h1
        omega
      · omega
  exact ⟨(Cancel_ok_shadow env p s hok).1, (Cancel_ok_shadow env p s hok).2, hget,
    fun env2 text tm => HandleOrig_unknown env2 _ kCanceled text tm _ hget⟩

/-- C25 witness: `Cancel` of the order 1 of `exPlacedBook` succeeds and the shadow order gets the
id 2; `Get(2)` finds nothing, so `HandleCanceled(2, orig_id = 0)` leaves the original order
UnconfirmedNew with `leaves_qty = 100`, while the same callback with `orig_id = 1` cancels it. -/
theorem C25_shadow_cancel_order_is_not_in_the_book_witness :
    ((ExchangeConnectivityManager.Cancel exConnected 0 exPlacedBook).1 = true ∧
      (∀ id q, exPlacedBook.orders_ id = some q → id ≤ exPlacedBook.order_id_counter_) ∧
      (exPlacedBook.heap 0).id ≤ exPlacedBook.order_id_counter_) ∧
    GlobalOrderBook.Get (ExchangeConnectivityManager.Cancel exConnected 0 exPlacedBook).2
      (exPlacedBook.order_id_counter_ + 1) = none ∧
    exPlacedBook.order_id_counter_ + 1 = 2 ∧
    GlobalOrderBook.Get exCancelSent 1 = some 0 ∧
    ((exCancelSent.heap 0).status, (exCancelSent.heap 0).leaves_qty) = (kUnconfirmedNew, 100) ∧
    (((ExchangeConnectivityAdapter.HandleCanceled exConnected 2 1 "" 0 exCancelSent).heap 0).status,
      ((ExchangeConnectivityAdapter.HandleCanceled exConnected 2 1 "" 0 exCancelSent).heap
        0).leaves_qty) = (kCanceled, 0) := by
  have h10 : ¬ ((10:ℚ) ≤ 0) := by norm_num
  have h1 : (ExchangeConnectivityManager.Cancel exConnected 0 exPlacedBook).1 = true ∧
      (∀ id q, exPlacedBook.orders_ id = some q → id ≤ exPlacedBook.order_id_counter_) ∧
      (exPlacedBook.heap 0).id ≤ exPlacedBook.order_id_counter_ ∧
      exPlacedBook.order_id_counter_ + 1 = 2 ∧
      GlobalOrderBook.Get exCancelSent 1 = some 0 ∧
      ((exCancelSent.heap 0).status, (exCancelSent.heap 0).leaves_qty) =
        (kUnconfirmedNew, 100) ∧
      (((ExchangeConnectivityAdapter.HandleCanceled exConnected 2 1 "" 0 exCancelSent).heap
          0).status,
        ((ExchangeConnectivityAdapter.HandleCanceled exConnected 2 1 "" 0 exCancelSent).heap
          0).leaves_qty) = (kCanceled, 0) := by
    simp [h10, exCancelSent, exPlacedBook, exBeforePlace, exReference, exConnected, exSecurity,
      ExchangeConnectivityManager.Place, ExchangeConnectivityManager.Place.routed,
      ExchangeConnectivityManager.Place.submit, ExchangeConnectivityManager.Cancel, Engine.alloc,
      ExchangeConnectivity.reject, ExchangeConnectivity.HandleConfirmation,
      ExchangeConnectivity.CheckAdapter, ExchangeConnectivity.UpdateThrottle,
      ExchangeConnectivity.updateThrottle, GlobalOrderBook.Get,
      GlobalOrderBook.Handle, GlobalOrderBook.Handle.body, GlobalOrderBook.UpdateOrder,
      GlobalOrderBook.UpdateOrder.onOrder, Order.IsLive,
      GlobalOrderBook.emplace, GlobalOrderBook.NewOrderId, PositionManager.Handle,
      Engine.updatePositions, Engine.modifySubAccountValue, Engine.modifyBrokerAccountValue,
      Engine.modifyUserValue, Engine.store, Engine.secOf, Engine.userOf, Engine.subAccountOf,
      Engine.brokerAccountOf, RiskManager.Check, RiskManager.CheckMsgRate, Risk.Check,
      Risk.CheckMsgRate, Server.Publish, Throttle.read, Throttle.Update, String.isEmpty,
      ExchangeConnectivityAdapter.HandleCanceled, ExchangeConnectivity.HandleOrig,
      ExchangeConnectivity.Handle, Function.update_apply]
  exact ⟨⟨h1.1, h1.2.1, h1.2.2.1⟩,
    (C25_shadow_cancel_order_is_not_in_the_book exConnected 0 exPlacedBook h1.1 h1.2.1
      h1.2.2.1).2.2.1,
    h1.2.2.2.1, h1.2.2.2.2.1, h1.2.2.2.2.2.1, h1.2.2.2.2.2.2⟩

/-! ## C30: a cancel request that fails -/

/-- C30: the code releases the exposure of an order whose cancel request fails.  The order 1 of
`exPlacedBook` (buy 100 at 10) is live and the position of its sub-account holds the outstanding
buy value 1000.  `Cancel` is rejected, once because the adapter is disconnected and once because
the adapter refuses the request; both calls return false and leave the status, `cum_qty` and
`leaves_qty` of the order as they were, but the rejection is handled on the shadow order, which
carries a positive id and the `leaves_qty` of the original, so the outstanding buy value of the
position drops from 1000 to 0 and the outstanding buy quantity moves by 100 once more, while the
order is still live. -/
theorem C30_rejected_cancel_releases_the_exposure :
    ((exPlacedBook.heap 0).status, (exPlacedBook.heap 0).cum_qty,
      (exPlacedBook.heap 0).leaves_qty) = (kUnconfirmedNew, 0, 100) ∧
    ((exPlacedBook.sub_positions_ (1, 1)).total_outstanding_buy,
      (exPlacedBook.sub_positions_ (1, 1)).total_outstanding_buy_qty) = (1000, -100) ∧
    (ExchangeConnectivityManager.Cancel exDisconnected 0 exPlacedBook).1 = false ∧
    ((exLive.heap 0).status, (exLive.heap 0).cum_qty, (exLive.heap 0).leaves_qty) =
      (kUnconfirmedNew, 0, 100) ∧
    ((exLive.sub_positions_ (1, 1)).total_outstanding_buy,
      (exLive.sub_positions_ (1, 1)).total_outstanding_buy_qty) = (0, -200) ∧
    (ExchangeConnectivityManager.Cancel exCancelRefused 0 exPlacedBook).1 = false ∧
    ((exCancelRefusedBook.heap 0).status, (exCancelRefusedBook.heap 0).cum_qty,
      (exCancelRefusedBook.heap 0).leaves_qty) = (kUnconfirmedNew, 0, 100) ∧
    ((exCancelRefusedBook.sub_positions_ (1, 1)).total_outstanding_buy,
      (exCancelRefusedBook.sub_positions_ (1, 1)).total_outstanding_buy_qty) = (0, -200) := by
  have h10 : ¬ ((10:ℚ) ≤ 0) := by norm_num
  have he : ¬ ("refused".endPos = 0) := by decide
  simp [h10, he, exLive, exCancelRefusedBook, exCancelRefused, exDisconnected, exPlacedBook,
      exBeforePlace, exReference, exConnected, exSecurity,
      ExchangeConnectivityManager.Place, ExchangeConnectivityManager.Place.routed,
      ExchangeConnectivityManager.Place.submit, ExchangeConnectivityManager.Cancel, Engine.alloc,
      ExchangeConnectivity.reject, ExchangeConnectivity.HandleConfirmation,
      ExchangeConnectivity.CheckAdapter, ExchangeConnectivity.UpdateThrottle,
      ExchangeConnectivity.updateThrottle, GlobalOrderBook.Get,
      GlobalOrderBook.Handle, GlobalOrderBook.Handle.body, GlobalOrderBook.UpdateOrder,
      GlobalOrderBook.UpdateOrder.onOrder, Order.IsLive,
      GlobalOrderBook.emplace, GlobalOrderBook.NewOrderId, PositionManager.Handle,
      Engine.updatePositions, Engine.modifySubAccountValue, Engine.modifyBrokerAccountValue,
      Engine.modifyUserValue, Engine.store, Engine.secOf, Engine.userOf, Engine.subAccountOf,
      Engine.brokerAccountOf, RiskManager.Check, RiskManager.CheckMsgRate, Risk.Check,
      Risk.CheckMsgRate, Server.Publish, Throttle.read, Throttle.Update, String.isEmpty,
      Position.HandleNew, Position.HandleFinish, PositionValue.HandleNew,
      PositionValue.HandleFinish, Order.IsBuy, IsBuy, Confirmation.leaves_qty]
  norm_num

end opentrade
